import Mathlib

/-!
# pepper-lang: the bytecode compiler

A shallow embedding of `src/src/compiler.c`: the compiler state is passed explicitly, every
C function that mutates `struct compiler *` returns the new state, and the `compile_*`
functions return the pair `(err, state)` because the C code leaves its side effects in
place when it returns an error code.

Conventions of the embedding.

* `struct instruction` keeps the bytes `bytes[0 .. size)` as a list, so the C field `size`
  is the length of that list; `cap` is kept as a field.  Bytes of the C array at or
  beyond `size` are never read by the compiler and are not represented.
* `scopes[64]` is a map from index to scope.  Its bound of 64 and the 32-bit width of
  `uint32_t` positions are not enforced.
* The constant list is the list of the objects stored together with the number of its
  slots.  `add_constant` does not test that number; a store past the slots is recorded in
  `constants_overflow`, from where on the state stands for undefined behaviour.
* Values the C code leaves uninitialised (`last_instruction` and `previous_instruction`
  of a scope that was just created) are zero; a scope whose `instructions` pointer is `NULL`
  has an empty buffer of capacity 0.
* The abstract syntax has the nine expression forms and three statement forms of the
  specification, so the `default:` branch of `compile_expression`
  (`COMPILE_ERR_UNKNOWN_EXPR_TYPE`) has no input that reaches it.
* Headers and translation units that `compiler.c` uses but that are not part of the
  sources at hand (`opcode.h`, `symbol_table.h`, `object.h`, `parser.h`, `compiler.h`)
  are modelled from the specification; each such definition says so.
-/

namespace Pepper

/-! ## Abstract syntax consumed by the compiler -/

/-- Modelled from the spec: `enum operator` of `parser.h`, which is not among the sources.
The specification (§6) gives the closed enumeration `+ - * / == != < > !`; the constructor
names are the ones `compile_expression` switches on (`OP_NEGATE` is `!`, it is lowered to
`OPCODE_BANG`). -/
inductive operator
  | OP_ADD
  | OP_SUBTRACT
  | OP_MULTIPLY
  | OP_DIVIDE
  | OP_GT
  | OP_LT
  | OP_EQ
  | OP_NOT_EQ
  | OP_NEGATE
  deriving DecidableEq, Repr

open operator

mutual
/-- Modelled from the spec: `struct expression` of `parser.h` (§6: integer, boolean, string,
identifier, prefix, infix, if, function, call), with the field names that
`compile_expression` reads. -/
inductive expression
  | EXPR_INFIX (operator : operator) (left right : expression)
  | EXPR_PREFIX (operator : operator) (right : expression)
  | EXPR_IF (condition : expression) (consequence : List statement)
      (alternative : Option (List statement))
  | EXPR_INT (integer : Int)
  | EXPR_BOOL (boolean : Bool)
  | EXPR_STRING (string : String)
  | EXPR_IDENT (value : String)
  | EXPR_FUNCTION (parameters : List String) (body : List statement)
  | EXPR_CALL (function : expression) (arguments : List expression)
/-- Modelled from the spec: `struct statement` of `parser.h` (§6: let, return, expression). -/
inductive statement
  | STMT_EXPR (value : expression)
  | STMT_LET (name : String) (value : expression)
  | STMT_RETURN (value : expression)
end

open expression statement

/-! ## Opcodes and the instruction encoder (`opcode.h`) -/

/-- Modelled from the spec: the values of `enum opcode` are the ones of the opcode table of
§6 (`opcode.h` is not among the sources); the names are the ones `compiler.c` uses. -/
abbrev OPCODE_CONST : Nat := 0
abbrev OPCODE_ADD : Nat := 1
abbrev OPCODE_POP : Nat := 2
abbrev OPCODE_SUBTRACT : Nat := 3
abbrev OPCODE_MULTIPLY : Nat := 4
abbrev OPCODE_DIVIDE : Nat := 5
abbrev OPCODE_TRUE : Nat := 6
abbrev OPCODE_FALSE : Nat := 7
abbrev OPCODE_EQUAL : Nat := 8
abbrev OPCODE_NOT_EQUAL : Nat := 9
abbrev OPCODE_GREATER_THAN : Nat := 10
abbrev OPCODE_MINUS : Nat := 11
abbrev OPCODE_BANG : Nat := 12
abbrev OPCODE_JUMP_NOT_TRUE : Nat := 13
abbrev OPCODE_JUMP : Nat := 14
abbrev OPCODE_NULL : Nat := 15
abbrev OPCODE_SET_GLOBAL : Nat := 16
abbrev OPCODE_GET_GLOBAL : Nat := 17
abbrev OPCODE_CALL : Nat := 18
abbrev OPCODE_RETURN_VALUE : Nat := 19
abbrev OPCODE_RETURN : Nat := 20
abbrev OPCODE_SET_LOCAL : Nat := 21
abbrev OPCODE_GET_LOCAL : Nat := 22
abbrev OPCODE_GET_BUILTIN : Nat := 23
/-- Modelled from the spec: `OPCODE_LESS_THAN` is emitted by `compile_expression` but has no
row in the opcode table of §6 (there `LT` is optional); it takes the first value the table
leaves free and, like the other comparison opcodes, no operand. -/
abbrev OPCODE_LESS_THAN : Nat := 24

/-- Modelled from the spec: the operand widths (in bytes) of each opcode, the table of §6.
`opcode.h` is not among the sources. -/
def operand_widths (opcode : Nat) : List Nat :=
  if opcode = OPCODE_CONST ∨ opcode = OPCODE_JUMP_NOT_TRUE ∨ opcode = OPCODE_JUMP ∨
      opcode = OPCODE_SET_GLOBAL ∨ opcode = OPCODE_GET_GLOBAL then [2]
  else if opcode = OPCODE_CALL ∨ opcode = OPCODE_SET_LOCAL ∨ opcode = OPCODE_GET_LOCAL ∨
      opcode = OPCODE_GET_BUILTIN then [1]
  else []

/-- Modelled from the spec: one operand written in `width` bytes, big-endian (§4.2); a byte
holds the value modulo 256. -/
def make_operand (width operand : Nat) : List Nat :=
  if width = 2 then [operand / 256 % 256, operand % 256]
  else if width = 1 then [operand % 256]
  else []

/-- Modelled from the spec: the operand bytes of an instruction, one operand per width. -/
def make_operands : List Nat → List Nat → List Nat
  | w :: ws, o :: os => make_operand w o ++ make_operands ws os
  | _, _ => []

/-- Modelled from the spec: `make_instruction(opcode, operands...)` of `opcode.h` (§4.2): the
opcode byte followed by the operands in the widths of the opcode.  The result stands for the
bytes of the temporary `struct instruction`. -/
def make_instruction (opcode : Nat) (operands : List Nat) : List Nat :=
  opcode :: make_operands (operand_widths opcode) operands

/-- Modelled from the spec: the integer that `read_operand` decodes (§4.2): the big-endian
unsigned value of `width` bytes at `cursor`. -/
def operand_value (bytes : List Nat) (cursor width : Nat) : Nat :=
  if width = 2 then bytes.getD cursor 0 * 256 + bytes.getD (cursor + 1) 0
  else if width = 1 then bytes.getD cursor 0
  else 0

/-- Modelled from the spec: `read_operand(bytes, cursor, width)` of §4.2: the decoded integer
and the advanced cursor. -/
def read_operand (bytes : List Nat) (cursor width : Nat) : Nat × Nat :=
  (operand_value bytes cursor width, cursor + width)

/-- The instruction buffer `struct instruction`: `bytes` are the `size` bytes in use. -/
structure instruction where
  bytes : List Nat
  cap : Nat
  deriving DecidableEq, Repr

/-- The C field `size` of `struct instruction`. -/
def instruction.size (ins : instruction) : Nat := ins.bytes.length

/-! ## Objects (`object.h`) -/

/-- The native procedures of `builtins.c` that a built-in object points to. -/
inductive builtin_function
  | builtin_puts
  | builtin_len
  deriving DecidableEq, Repr

/-- Modelled from the spec: `struct object` of `object.h` (§3), a tagged value.  A compiled
function carries what `make_compiled_function_object(ins, num_locals)` is given. -/
inductive object
  | OBJ_INT (integer : Int)
  | OBJ_BOOL (boolean : Bool)
  | OBJ_STRING (string : String)
  | OBJ_NULL
  | OBJ_ERROR (error : String)
  | OBJ_COMPILED_FUNCTION (instructions : instruction) (num_locals : Nat)
  | OBJ_BUILTIN (builtin : builtin_function)
  deriving DecidableEq, Repr

open object

/-- Modelled from the spec: `struct object_list` of `object.h`, the list that holds the
constant pool (§3): the objects stored, in order, and the number `cap` of slots that the
list was allocated with. -/
structure object_list where
  values : List object
  cap : Nat

/-- Modelled from the spec: `make_object_list(cap)` of `object.h`, which `compiler_new` calls
with 64: an empty list with `cap` slots. -/
def make_object_list (cap : Nat) : object_list := { values := [], cap := cap }

/-- Modelled from the spec: `make_integer_object` of `object.h`. -/
def make_integer_object (value : Int) : object := OBJ_INT value

/-- Modelled from the spec: `make_string_object` of `object.h`. -/
def make_string_object (str : String) : object := OBJ_STRING str

/-- Modelled from the spec: `make_compiled_function_object` of `object.h`. -/
def make_compiled_function_object (ins : instruction) (num_locals : Nat) : object :=
  OBJ_COMPILED_FUNCTION ins num_locals

/-! ## Symbol table (`symbol_table.h`) -/

/-- Modelled from the spec: the scope kinds of a symbol (§3). -/
inductive symbol_scope
  | SCOPE_GLOBAL
  | SCOPE_LOCAL
  | SCOPE_BUILTIN
  | SCOPE_FUNCTION
  deriving DecidableEq, Repr

open symbol_scope

/-- Modelled from the spec: `struct symbol`, a record of name, scope kind and index (§3). -/
structure symbol where
  name : String
  scope : symbol_scope
  index : Nat
  deriving DecidableEq, Repr

/-- Modelled from the spec: `struct symbol_table` (§3): the bindings of this table (the most
recent first), `size`, the number of bindings `define` made in this table, and the optional
outer table. -/
inductive symbol_table
  | mk (store : List symbol) (size : Nat) (outer : Option symbol_table)

/-- The bindings of a table. -/
def symbol_table.store : symbol_table → List symbol
  | .mk store _ _ => store

/-- The C field `size` of a table. -/
def symbol_table.size : symbol_table → Nat
  | .mk _ size _ => size

/-- The C field `outer` of a table. -/
def symbol_table.outer : symbol_table → Option symbol_table
  | .mk _ _ outer => outer

/-- Modelled from the spec: `symbol_table_new`, an empty table without outer table. -/
def symbol_table_new : symbol_table := .mk [] 0 none

/-- Modelled from the spec: `symbol_table_new_enclosed`, an empty table whose outer table is
the given one. -/
def symbol_table_new_enclosed (outer : symbol_table) : symbol_table := .mk [] 0 (some outer)

/-- Modelled from the spec: `symbol_table_define` (§4.3): the scope is global if the table has
no outer table and local otherwise, the index is the table's count, and the count grows by
one.  Returns the symbol and the table with the binding added. -/
def symbol_table_define (t : symbol_table) (name : String) : symbol × symbol_table :=
  let s : symbol :=
    { name := name
      scope := if t.outer.isNone then SCOPE_GLOBAL else SCOPE_LOCAL
      index := t.size }
  (s, .mk (s :: t.store) (t.size + 1) t.outer)

/-- Modelled from the spec: `symbol_table_define_builtin_function` (§4.3): binds the name with
scope built-in and the supplied index; the count is unchanged. -/
def symbol_table_define_builtin_function (t : symbol_table) (index : Nat) (name : String) :
    symbol_table :=
  .mk ({ name := name, scope := SCOPE_BUILTIN, index := index } :: t.store) t.size t.outer

/-- The binding of `name` in one table, if any. -/
def symbol_table_lookup (store : List symbol) (name : String) : Option symbol :=
  store.find? (fun s => s.name == name)

/-- Modelled from the spec: `symbol_table_resolve` (§4.3): searches the current table, then the
outer tables; of the bindings of outer tables an inner scope sees the global and built-in
ones only. -/
def symbol_table_resolve : symbol_table → String → Option symbol
  | .mk store _ outer, name =>
    (symbol_table_lookup store name).orElse fun _ =>
      match outer with
      | none => none
      | some o =>
        (symbol_table_resolve o name).filter
          fun s => s.scope = SCOPE_GLOBAL ∨ s.scope = SCOPE_BUILTIN

/-! ## Compiler state (`compiler.h`) -/

/-- The record `struct emitted_instruction`: opcode and position of an emitted instruction. -/
structure emitted_instruction where
  opcode : Nat
  position : Nat
  deriving DecidableEq, Repr

/-- The record `struct compiler_scope`: an instruction buffer and the last two emitted
instructions. -/
structure compiler_scope where
  instructions : instruction
  last_instruction : emitted_instruction
  previous_instruction : emitted_instruction
  deriving DecidableEq, Repr

/-- The record `struct compiler`: constant pool, current symbol table, the scopes array and
the index of the current scope.  Of the object list `constants` points to, `constants` holds
the objects stored and `constants_cap` the number of slots it was allocated with;
`constants_overflow` is set once `add_constant` has stored an object past those slots, from
where on the C program has written outside the list and the state stands for undefined
behaviour. -/
structure compiler where
  constants : List object
  constants_cap : Nat
  constants_overflow : Bool
  scopes : Nat → compiler_scope
  scope_index : Nat
  symbol_table : symbol_table

/-- Modelled from the spec: the error codes of `compiler.h` (§7), numbered so that
`compiler_error_str` maps each to its message. -/
abbrev COMPILE_SUCCESS : Nat := 0
abbrev COMPILE_ERR_UNKNOWN_OPERATOR : Nat := 1
abbrev COMPILE_ERR_UNKNOWN_EXPR_TYPE : Nat := 2
abbrev COMPILE_ERR_UNKNOWN_IDENT : Nat := 3

/-- The value an uninitialised `struct emitted_instruction` is given in this embedding. -/
def emitted_instruction_uninit : emitted_instruction := { opcode := 0, position := 0 }

/-- Writes `scope` to `scopes[i]`. -/
def set_scope (c : compiler) (i : Nat) (scope : compiler_scope) : compiler :=
  { c with scopes := Function.update c.scopes i scope }

/-- A fresh compiler: an empty top-level buffer of capacity 2048, the empty constant pool
`make_object_list(64)` of 64 slots, the built-in functions `puts` (index 0) and `len`
(index 1) defined, scope index 0. -/
def compiler_new : compiler :=
  let scope : compiler_scope :=
    { instructions := { bytes := [], cap := 2048 }
      last_instruction := emitted_instruction_uninit
      previous_instruction := emitted_instruction_uninit }
  let t := symbol_table_new
  let t := symbol_table_define_builtin_function t 0 "puts"
  let t := symbol_table_define_builtin_function t 1 "len"
  { constants := (make_object_list 64).values
    constants_cap := (make_object_list 64).cap
    constants_overflow := false
    symbol_table := t
    scopes := fun i =>
      if i = 0 then scope
      else { scope with instructions := { bytes := [], cap := 0 } }
    scope_index := 0 }

/-- A fresh compiler that takes over an existing symbol table and constant list; the list
comes with the objects it holds and with its own number of slots. -/
def compiler_new_with_state (t : symbol_table) (constants : object_list) : compiler :=
  let c := compiler_new
  { c with symbol_table := t, constants := constants.values, constants_cap := constants.cap }

/-- The message of an error code. -/
def compiler_error_str (err : Nat) : String :=
  ["Success", "Unknown operator", "Unknown expression type", "Undefined variable"].getD err ""

/-- The scope `scopes[scope_index]`. -/
def compiler_current_scope (c : compiler) : compiler_scope :=
  c.scopes c.scope_index

/-- The instruction buffer of the current scope. -/
def compiler_current_instructions (c : compiler) : instruction :=
  (compiler_current_scope c).instructions

/-- Appends the bytes of `ins` to the current buffer, doubling `cap` once when the new size
reaches it; returns the position of the first appended byte. -/
def add_instruction (c : compiler) (ins : List Nat) : Nat × compiler :=
  let scope := compiler_current_scope c
  let cins := scope.instructions
  let pos := cins.size
  let new_size := cins.size + ins.length
  let cap := if new_size ≥ cins.cap then cins.cap * 2 else cins.cap
  (pos, set_scope c c.scope_index
    { scope with instructions := { bytes := cins.bytes ++ ins, cap := cap } })

/-- Stores `obj` behind the objects of the constant pool and returns its index:
`values[size++] = obj`.  The C code neither tests nor grows the capacity of the list: when
all `constants_cap` slots are in use, the store is past the end of the list, which
`constants_overflow` records. -/
def add_constant (c : compiler) (obj : object) : Nat × compiler :=
  let c1 :=
    { c with
      constants := c.constants ++ [obj]
      constants_overflow :=
        c.constants_overflow || decide (c.constants_cap ≤ c.constants.length) }
  (c1.constants.length - 1, c1)

/-- Records the instruction just emitted as the last one; the former last instruction becomes
the previous one. -/
def compiler_set_last_instruction (c : compiler) (opcode pos : Nat) : compiler :=
  let scope := compiler_current_scope c
  let previous := scope.last_instruction
  let last : emitted_instruction := { position := pos, opcode := opcode }
  set_scope c c.scope_index
    { scope with previous_instruction := previous, last_instruction := last }

/-- Sets the size of the current buffer back to the position of the last emitted instruction
and makes the previous instruction the last one. -/
def compiler_remove_last_instruction (c : compiler) : compiler :=
  let scope := compiler_current_scope c
  set_scope c c.scope_index
    { scope with
      instructions :=
        { scope.instructions with
          bytes := scope.instructions.bytes.take scope.last_instruction.position }
      last_instruction := scope.previous_instruction }

/-- The loop of `compiler_replace_instruction`: `bytes[pos + i] = ins[i]` for each `i`. -/
def replace_bytes (bytes : List Nat) (pos : Nat) : List Nat → List Nat
  | [] => bytes
  | b :: rest => replace_bytes (bytes.set pos b) (pos + 1) rest

/-- Overwrites the bytes of the current buffer from `pos` with the bytes of `ins`. -/
def compiler_replace_instruction (c : compiler) (pos : Nat) (ins : List Nat) : compiler :=
  let scope := compiler_current_scope c
  set_scope c c.scope_index
    { scope with
      instructions :=
        { scope.instructions with bytes := replace_bytes scope.instructions.bytes pos ins } }

/-- Overwrites the last emitted instruction with `ins` and records the opcode of `ins` as the
last instruction, at the same position. -/
def compiler_replace_last_instruction (c : compiler) (ins : List Nat) : compiler :=
  let pos := (compiler_current_scope c).last_instruction.position
  let first := ins.getD 0 0
  let c := compiler_replace_instruction c pos ins
  compiler_set_last_instruction c first pos

/-- Whether the current buffer is not empty and the opcode recorded for the last emitted
instruction is `opcode`. -/
def compiler_last_instruction_is (c : compiler) (opcode : Nat) : Bool :=
  if (compiler_current_scope c).instructions.size = 0 then false
  else (compiler_current_scope c).last_instruction.opcode == opcode

/-- Re-encodes the instruction whose opcode byte is at `pos` with the operand `operand`, in
place. -/
def compiler_change_operand (c : compiler) (pos operand : Nat) : compiler :=
  let opcode := (compiler_current_scope c).instructions.bytes.getD pos 0
  let new := make_instruction opcode [operand]
  compiler_replace_instruction c pos new

/-- Encodes the instruction, appends it to the current buffer and records it as the last
emitted instruction; returns its position. -/
def compiler_emit (c : compiler) (opcode : Nat) (operands : List Nat) : Nat × compiler :=
  let ins := make_instruction opcode operands
  let (pos, c) := add_instruction c ins
  (pos, compiler_set_last_instruction c opcode pos)

/-- Pushes a scope with an empty buffer of capacity 1024 and makes an empty table enclosed in
the current one the current table. -/
def compiler_enter_scope (c : compiler) : compiler :=
  let scope : compiler_scope :=
    { instructions := { bytes := [], cap := 1024 }
      last_instruction := emitted_instruction_uninit
      previous_instruction := emitted_instruction_uninit }
  let c := { c with scope_index := c.scope_index + 1 }
  let c := set_scope c c.scope_index scope
  { c with symbol_table := symbol_table_new_enclosed c.symbol_table }

/-- Returns the buffer of the current scope and goes back to the outer table and the outer
scope.  The compiler calls it after `compiler_enter_scope` only; a table without outer table
(a null pointer in C) is left in place, and the index does not go below 0. -/
def compiler_leave_scope (c : compiler) : instruction × compiler :=
  let ins := (c.scopes c.scope_index).instructions
  let t := c.symbol_table
  (ins, { c with symbol_table := t.outer.getD t, scope_index := c.scope_index - 1 })

/-- The loop of `EXPR_FUNCTION` over the parameters: each is defined in the current table. -/
def define_parameters (c : compiler) : List String → compiler
  | [] => c
  | p :: rest =>
    define_parameters { c with symbol_table := (symbol_table_define c.symbol_table p).2 } rest

mutual
/-- Compiles an expression into the current scope; returns the error code (0 on success) and
the state, which keeps what was emitted before an error. -/
def compile_expression (c : compiler) : expression → Nat × compiler
  | EXPR_INFIX op left right =>
    let (err, c) := compile_expression c left
    if err ≠ 0 then (err, c) else
    let (err, c) := compile_expression c right
    if err ≠ 0 then (err, c) else
    match op with
    | OP_ADD => (0, (compiler_emit c OPCODE_ADD []).2)
    | OP_SUBTRACT => (0, (compiler_emit c OPCODE_SUBTRACT []).2)
    | OP_MULTIPLY => (0, (compiler_emit c OPCODE_MULTIPLY []).2)
    | OP_DIVIDE => (0, (compiler_emit c OPCODE_DIVIDE []).2)
    | OP_GT => (0, (compiler_emit c OPCODE_GREATER_THAN []).2)
    | OP_EQ => (0, (compiler_emit c OPCODE_EQUAL []).2)
    | OP_NOT_EQ => (0, (compiler_emit c OPCODE_NOT_EQUAL []).2)
    | OP_LT => (0, (compiler_emit c OPCODE_LESS_THAN []).2)
    | _ => (COMPILE_ERR_UNKNOWN_OPERATOR, c)
  | EXPR_PREFIX op right =>
    let (err, c) := compile_expression c right
    if err ≠ 0 then (err, c) else
    match op with
    | OP_NEGATE => (0, (compiler_emit c OPCODE_BANG []).2)
    | OP_SUBTRACT => (0, (compiler_emit c OPCODE_MINUS []).2)
    | _ => (COMPILE_ERR_UNKNOWN_OPERATOR, c)
  | EXPR_IF condition consequence alternative =>
    let (err, c) := compile_expression c condition
    if err ≠ 0 then (err, c) else
    let (jump_if_not_true_pos, c) := compiler_emit c OPCODE_JUMP_NOT_TRUE [9999]
    let (err, c) := compile_block_statement c consequence
    if err ≠ 0 then (err, c) else
    let c := if compiler_last_instruction_is c OPCODE_POP then
        compiler_remove_last_instruction c else c
    let (jump_pos, c) := compiler_emit c OPCODE_JUMP [9999]
    let after_conseq_pos := (compiler_current_scope c).instructions.size
    let c := compiler_change_operand c jump_if_not_true_pos after_conseq_pos
    match alternative with
    | some alternative =>
      let (err, c) := compile_block_statement c alternative
      if err ≠ 0 then (err, c) else
      let c := if compiler_last_instruction_is c OPCODE_POP then
          compiler_remove_last_instruction c else c
      let after_alternative_pos := (compiler_current_scope c).instructions.size
      (0, compiler_change_operand c jump_pos after_alternative_pos)
    | none =>
      let c := (compiler_emit c OPCODE_NULL []).2
      let after_alternative_pos := (compiler_current_scope c).instructions.size
      (0, compiler_change_operand c jump_pos after_alternative_pos)
  | EXPR_INT integer =>
    let obj := make_integer_object integer
    let (k, c) := add_constant c obj
    (0, (compiler_emit c OPCODE_CONST [k]).2)
  | EXPR_BOOL boolean =>
    if boolean then (0, (compiler_emit c OPCODE_TRUE []).2)
    else (0, (compiler_emit c OPCODE_FALSE []).2)
  | EXPR_STRING string =>
    let obj := make_string_object string
    let (k, c) := add_constant c obj
    (0, (compiler_emit c OPCODE_CONST [k]).2)
  | EXPR_IDENT value =>
    match symbol_table_resolve c.symbol_table value with
    | none => (COMPILE_ERR_UNKNOWN_IDENT, c)
    | some s =>
      match s.scope with
      | SCOPE_GLOBAL => (0, (compiler_emit c OPCODE_GET_GLOBAL [s.index]).2)
      | SCOPE_LOCAL => (0, (compiler_emit c OPCODE_GET_LOCAL [s.index]).2)
      | SCOPE_BUILTIN => (0, (compiler_emit c OPCODE_GET_BUILTIN [s.index]).2)
      | SCOPE_FUNCTION => (COMPILE_ERR_UNKNOWN_IDENT, c)
  | EXPR_FUNCTION parameters body =>
    let c := compiler_enter_scope c
    let c := define_parameters c parameters
    let (err, c) := compile_block_statement c body
    if err ≠ 0 then (err, c) else
    let c :=
      if compiler_last_instruction_is c OPCODE_POP then
        compiler_replace_last_instruction c (make_instruction OPCODE_RETURN_VALUE [])
      else if !compiler_last_instruction_is c OPCODE_RETURN_VALUE then
        (compiler_emit c OPCODE_RETURN []).2
      else c
    let num_locals := c.symbol_table.size
    let (ins, c) := compiler_leave_scope c
    let obj := make_compiled_function_object ins num_locals
    let (k, c) := add_constant c obj
    (0, (compiler_emit c OPCODE_CONST [k]).2)
  | EXPR_CALL function arguments =>
    let (err, c) := compile_expression c function
    if err ≠ 0 then (err, c) else
    let (err, i, c) := compile_arguments c 0 arguments
    if err ≠ 0 then (err, c) else
    (0, (compiler_emit c OPCODE_CALL [i]).2)
/-- The loop of `EXPR_CALL` over the arguments, from index `i`; returns the error code, the
final index and the state. -/
def compile_arguments (c : compiler) (i : Nat) : List expression → Nat × Nat × compiler
  | [] => (0, i, c)
  | a :: rest =>
    let (err, c) := compile_expression c a
    if err ≠ 0 then (err, i, c) else
    compile_arguments c (i + 1) rest
/-- Compiles a statement: an expression statement ends with `POP`, a let statement defines the
name and then stores the value, a return statement ends with `RETURN_VALUE`. -/
def compile_statement (c : compiler) : statement → Nat × compiler
  | STMT_EXPR value =>
    let (err, c) := compile_expression c value
    if err ≠ 0 then (err, c) else
    (0, (compiler_emit c OPCODE_POP []).2)
  | STMT_LET name value =>
    let (s, t) := symbol_table_define c.symbol_table name
    let c := { c with symbol_table := t }
    let (err, c) := compile_expression c value
    if err ≠ 0 then (err, c) else
    (0, (compiler_emit c
      (if s.scope = SCOPE_GLOBAL then OPCODE_SET_GLOBAL else OPCODE_SET_LOCAL) [s.index]).2)
  | STMT_RETURN value =>
    let (err, c) := compile_expression c value
    if err ≠ 0 then (err, c) else
    (0, (compiler_emit c OPCODE_RETURN_VALUE []).2)
/-- Compiles the statements of a block in order and stops at the first error. -/
def compile_block_statement (c : compiler) : List statement → Nat × compiler
  | [] => (0, c)
  | s :: rest =>
    let (err, c) := compile_statement c s
    if err ≠ 0 then (err, c) else
    compile_block_statement c rest
end

/-- The loop of `compile_program` over the statements of the program. -/
def compile_program (c : compiler) : List statement → Nat × compiler
  | [] => (0, c)
  | s :: rest =>
    let (err, c) := compile_statement c s
    if err ≠ 0 then (err, c) else
    compile_program c rest

/-- The pair `struct bytecode`: the current instruction buffer and the constant pool. -/
structure bytecode where
  instructions : instruction
  constants : List object

/-- The bytecode of the compiler: the buffer of the current scope and the constant pool. -/
def get_bytecode (c : compiler) : bytecode :=
  { instructions := compiler_current_instructions c, constants := c.constants }

/-- The bytes of the current instruction buffer. -/
def current_bytes (c : compiler) : List Nat :=
  (compiler_current_instructions c).bytes

/-! ## Named steps of `compile_expression` and `compile_statement` -/

/-- The POP elision of `EXPR_IF`: a trailing `POP` of the block just compiled is removed. -/
def elide_pop (c : compiler) : compiler :=
  if compiler_last_instruction_is c OPCODE_POP then compiler_remove_last_instruction c else c

/-- The state of `EXPR_IF` after the condition and the `JUMP_NOT_TRUE` placeholder, given the
state after the condition. -/
def if_enter (c1 : compiler) : compiler :=
  (compiler_emit c1 OPCODE_JUMP_NOT_TRUE [9999]).2

/-- The state of `EXPR_IF` after the `JUMP` placeholder is emitted and the `JUMP_NOT_TRUE`
at `jump_if_not_true_pos` is patched, given the state after the (elided) consequence. -/
def if_middle (jump_if_not_true_pos : Nat) (c4 : compiler) : compiler :=
  compiler_change_operand (compiler_emit c4 OPCODE_JUMP [9999]).2 jump_if_not_true_pos
    (compiler_current_scope (compiler_emit c4 OPCODE_JUMP [9999]).2).instructions.size

/-- The last step of `EXPR_IF`: the `JUMP` at `jump_pos` is patched to the current size. -/
def if_finish (jump_pos : Nat) (c : compiler) : compiler :=
  compiler_change_operand c jump_pos (compiler_current_scope c).instructions.size

/-- The end of a function body: a trailing `POP` becomes `RETURN_VALUE`, a trailing
`RETURN_VALUE` is kept, anything else is followed by `RETURN`. -/
def function_epilogue (c : compiler) : compiler :=
  if compiler_last_instruction_is c OPCODE_POP then
    compiler_replace_last_instruction c (make_instruction OPCODE_RETURN_VALUE [])
  else if !compiler_last_instruction_is c OPCODE_RETURN_VALUE then
    (compiler_emit c OPCODE_RETURN []).2
  else c

/-- The state in which the body of a function literal is compiled: a new scope, the
parameters defined. -/
def function_enter (c : compiler) (parameters : List String) : compiler :=
  define_parameters (compiler_enter_scope c) parameters

/-- The steps of `EXPR_FUNCTION` after the epilogue: leave the scope, add the compiled
function to the constants, emit `CONST`. -/
def function_finish (c4 : compiler) : compiler :=
  (compiler_emit
    (add_constant (compiler_leave_scope c4).2
      (make_compiled_function_object (compiler_leave_scope c4).1 c4.symbol_table.size)).2
    OPCODE_CONST
    [(add_constant (compiler_leave_scope c4).2
      (make_compiled_function_object (compiler_leave_scope c4).1 c4.symbol_table.size)).1]).2

/-- The state in which the right-hand side of `let name = ...` is compiled: the name is
defined in the current table. -/
def let_enter (c : compiler) (name : String) : compiler :=
  { c with symbol_table := (symbol_table_define c.symbol_table name).2 }

/-- The store opcode of a let statement, by the scope of the symbol just defined. -/
def let_opcode (c : compiler) (name : String) : Nat :=
  if (symbol_table_define c.symbol_table name).1.scope = SCOPE_GLOBAL then OPCODE_SET_GLOBAL
  else OPCODE_SET_LOCAL

/-! ## Predicates used to state the properties of the compiler -/

/-- The encoded length of an instruction with the given opcode: one byte for the opcode and
the widths of its operands. -/
def instruction_length (opcode : Nat) : Nat :=
  1 + (operand_widths opcode).sum

/-- The record `last_instruction` of the current scope designates the final instruction of
the current buffer, and that instruction starts at or after offset `n`. -/
def last_ok (n : Nat) (c : compiler) : Prop :=
  n ≤ (compiler_current_scope c).last_instruction.position ∧
  (current_bytes c)[(compiler_current_scope c).last_instruction.position]? =
    some (compiler_current_scope c).last_instruction.opcode ∧
  (compiler_current_scope c).last_instruction.position +
    instruction_length (compiler_current_scope c).last_instruction.opcode =
    (current_bytes c).length

/-- The record `previous_instruction` of the current scope designates the instruction that
ends where the last instruction starts, and it starts at or after offset `n`. -/
def prev_ok (n : Nat) (c : compiler) : Prop :=
  n ≤ (compiler_current_scope c).previous_instruction.position ∧
  (current_bytes c)[(compiler_current_scope c).previous_instruction.position]? =
    some (compiler_current_scope c).previous_instruction.opcode ∧
  (compiler_current_scope c).previous_instruction.position +
    instruction_length (compiler_current_scope c).previous_instruction.opcode =
    (compiler_current_scope c).last_instruction.position

/-- The state `c2` is reached from `c1` by appending to the current buffer and to the constant
pool only: same scope index, scopes below the current one untouched. -/
structure grows (c1 c2 : compiler) : Prop where
  scope_index : c2.scope_index = c1.scope_index
  frame : ∀ j, j < c1.scope_index → c2.scopes j = c1.scopes j
  bytes : current_bytes c1 <+: current_bytes c2
  constants : c1.constants <+: c2.constants

mutual
/-- The number of let statements of an expression that are not inside a function literal:
the names its compilation defines in the current symbol table. -/
def lets_expression : expression → Nat
  | EXPR_INFIX _ left right => lets_expression left + lets_expression right
  | EXPR_PREFIX _ right => lets_expression right
  | EXPR_IF condition consequence alternative =>
    lets_expression condition + lets_block consequence +
      (match alternative with
        | some alternative => lets_block alternative
        | none => 0)
  | EXPR_INT _ => 0
  | EXPR_BOOL _ => 0
  | EXPR_STRING _ => 0
  | EXPR_IDENT _ => 0
  | EXPR_FUNCTION _ _ => 0
  | EXPR_CALL function arguments => lets_expression function + lets_arguments arguments
/-- The let statements of a list of call arguments, as `lets_expression`. -/
def lets_arguments : List expression → Nat
  | [] => 0
  | a :: rest => lets_expression a + lets_arguments rest
/-- The let statements of a statement, as `lets_expression`, the statement itself counted. -/
def lets_statement : statement → Nat
  | STMT_EXPR value => lets_expression value
  | STMT_LET _ value => 1 + lets_expression value
  | STMT_RETURN value => lets_expression value
/-- The let statements of a block, as `lets_expression`. -/
def lets_block : List statement → Nat
  | [] => 0
  | s :: rest => lets_statement s + lets_block rest
end

/-- The states agree on everything but the current scope. -/
structure same_frame (c1 c2 : compiler) : Prop where
  scope_index : c2.scope_index = c1.scope_index
  constants : c2.constants = c1.constants
  symbol_table : c2.symbol_table = c1.symbol_table
  scopes : ∀ j, j ≠ c1.scope_index → c2.scopes j = c1.scopes j

/-- The frame part of `grows`: everything but the bytes of the current buffer. -/
structure frame_le (c1 c2 : compiler) : Prop where
  scope_index : c2.scope_index = c1.scope_index
  frame : ∀ j, j < c1.scope_index → c2.scopes j = c1.scopes j
  constants : c1.constants <+: c2.constants

/-- What compiling a block from `c2` to `c3` gives: the state grew, and either nothing was
compiled or the last two emitted instructions are in place after the bytes of `c2`. -/
def block_ok (c2 c3 : compiler) : Prop :=
  grows c2 c3 ∧
    (c3 = c2 ∨
      (last_ok (current_bytes c2).length c3 ∧ prev_ok (current_bytes c2).length c3))

/-! ## Statements of the claims -/

/-- The table `t2` is the table `t1` with `n` more definitions: same outer table. -/
def table_after (n : Nat) (t1 t2 : symbol_table) : Prop :=
  t2.outer = t1.outer ∧ t2.size = t1.size + n

/-- The buffer of `c2` is the buffer of `c1` followed by exactly one instruction: the opcode
byte `op` and, in the operand width of `op`, operand bytes that decode to `v`. -/
def appends_instruction (c1 c2 : compiler) (op width v : Nat) : Prop :=
  operand_widths op = [width] ∧
  ∃ operand : List Nat, operand.length = width ∧
    current_bytes c2 = current_bytes c1 ++ op :: operand ∧
    operand_value (op :: operand) 1 width = v

/-- The statement of claim C1 at the state `c` and the integer literal `n`: the literal
compiles, the Integer object is added behind the objects of the pool, one instruction
`CONST` with the index of the object is appended, and no object has been stored past the
slots of the pool. -/
def int_literal_claim (c : compiler) (n : Int) : Prop :=
  (compile_expression c (EXPR_INT n)).1 = 0 ∧
  (compile_expression c (EXPR_INT n)).2.constants = c.constants ++ [OBJ_INT n] ∧
  appends_instruction c (compile_expression c (EXPR_INT n)).2 OPCODE_CONST 2
    c.constants.length ∧
  (∃ k, appends_instruction c (compile_expression c (EXPR_INT n)).2 OPCODE_CONST 2 k ∧
    (compile_expression c (EXPR_INT n)).2.constants[k]? = some (OBJ_INT n)) ∧
  (compile_expression c (EXPR_INT n)).2.constants_overflow = false

/-- The opcode that `compile_expression` emits for an accepted infix operator. -/
def infix_opcode : operator → Option Nat
  | OP_ADD => some OPCODE_ADD
  | OP_SUBTRACT => some OPCODE_SUBTRACT
  | OP_MULTIPLY => some OPCODE_MULTIPLY
  | OP_DIVIDE => some OPCODE_DIVIDE
  | OP_EQ => some OPCODE_EQUAL
  | OP_NOT_EQ => some OPCODE_NOT_EQUAL
  | OP_LT => some OPCODE_LESS_THAN
  | OP_GT => some OPCODE_GREATER_THAN
  | OP_NEGATE => none

/-- The infix operators the specification lists as accepted: `+ - * / == != < >`. -/
def infix_operators : List operator :=
  [OP_ADD, OP_SUBTRACT, OP_MULTIPLY, OP_DIVIDE, OP_EQ, OP_NOT_EQ, OP_LT, OP_GT]

/-- The prefix operators the specification lists as accepted: `-` and `!`. -/
def prefix_operators : List operator :=
  [OP_SUBTRACT, OP_NEGATE]

/-- The operand bound of an identifier access: two bytes for a global, one byte otherwise. -/
def symbol_index_bound (s : symbol) : Nat :=
  if s.scope = SCOPE_GLOBAL then 65536 else 256

/-- The statement of claim C8 for an identifier `name` that resolves to the symbol `s` in the
state `c`. -/
def ident_claim (c : compiler) (name : String) (s : symbol) : Prop :=
  symbol_table_resolve c.symbol_table name = some s →
    (s.scope = SCOPE_GLOBAL →
      (compile_expression c (EXPR_IDENT name)).1 = 0 ∧
      appends_instruction c (compile_expression c (EXPR_IDENT name)).2
        OPCODE_GET_GLOBAL 2 s.index) ∧
    (s.scope = SCOPE_LOCAL →
      (compile_expression c (EXPR_IDENT name)).1 = 0 ∧
      appends_instruction c (compile_expression c (EXPR_IDENT name)).2
        OPCODE_GET_LOCAL 1 s.index) ∧
    (s.scope = SCOPE_BUILTIN →
      (compile_expression c (EXPR_IDENT name)).1 = 0 ∧
      appends_instruction c (compile_expression c (EXPR_IDENT name)).2
        OPCODE_GET_BUILTIN 1 s.index)

/-- The statement of claim C7 for the statement `let name = e` in the state `c`. -/
def let_claim (c : compiler) (name : String) (e : expression) : Prop :=
  (compile_expression (let_enter c name) e).1 = 0 →
    (compile_statement c (STMT_LET name e)).1 = 0 ∧
    symbol_table_resolve (let_enter c name).symbol_table name =
      some (symbol_table_define c.symbol_table name).1 ∧
    current_bytes c <+: current_bytes (compile_expression (let_enter c name) e).2 ∧
    (c.symbol_table.outer.isNone = true →
      (symbol_table_define c.symbol_table name).1.scope = SCOPE_GLOBAL ∧
      appends_instruction (compile_expression (let_enter c name) e).2
        (compile_statement c (STMT_LET name e)).2 OPCODE_SET_GLOBAL 2
        (symbol_table_define c.symbol_table name).1.index) ∧
    (c.symbol_table.outer.isNone = false →
      (symbol_table_define c.symbol_table name).1.scope = SCOPE_LOCAL ∧
      appends_instruction (compile_expression (let_enter c name) e).2
        (compile_statement c (STMT_LET name e)).2 OPCODE_SET_LOCAL 1
        (symbol_table_define c.symbol_table name).1.index)

/-- The operand bound of a store to a new symbol of the table: two bytes for a global (a table
without outer table), one byte for a local. -/
def let_index_bound (t : symbol_table) : Nat :=
  if t.outer.isNone then 65536 else 256

/-- The state in which the body of the function literal has been compiled, before the
epilogue. -/
def function_body_state (c : compiler) (parameters : List String) (body : List statement) :
    compiler :=
  (compile_block_statement (function_enter c parameters) body).2

/-- The state of `EXPR_IF` after the consequence has been compiled and its trailing `POP`
removed: the `JUMP` placeholder is emitted next, at the size of this buffer. -/
def if_consequence_state (c : compiler) (condition : expression)
    (consequence : List statement) : compiler :=
  elide_pop (compile_block_statement (if_enter (compile_expression c condition).2)
    consequence).2

/-- The statement of claim C2 for the expression `if (condition) consequence else alternative`
in the state `c`: in the final buffer the instruction at the position where `JUMP_NOT_TRUE` was
emitted has as operand the offset of the first byte after the `JUMP` instruction, where the
code of the alternative starts, and the instruction at the position where `JUMP` was emitted
has as operand the size of the final buffer. -/
def if_jump_claim (c : compiler) (condition : expression) (consequence : List statement)
    (alternative : List statement) : Prop :=
  (compile_expression c (EXPR_IF condition consequence (some alternative))).1 = 0 →
    (current_bytes (compile_expression c (EXPR_IF condition consequence
      (some alternative))).2)[(current_bytes (compile_expression c condition).2).length]? =
      some OPCODE_JUMP_NOT_TRUE ∧
    operand_value (current_bytes (compile_expression c (EXPR_IF condition consequence
      (some alternative))).2) ((current_bytes (compile_expression c condition).2).length + 1) 2 =
      (current_bytes (if_consequence_state c condition consequence)).length + 3 ∧
    (current_bytes (if_middle (current_bytes (compile_expression c condition).2).length
      (if_consequence_state c condition consequence))).length =
      (current_bytes (if_consequence_state c condition consequence)).length + 3 ∧
    (current_bytes (compile_expression c (EXPR_IF condition consequence
      (some alternative))).2)[(current_bytes
        (if_consequence_state c condition consequence)).length]? = some OPCODE_JUMP ∧
    operand_value (current_bytes (compile_expression c (EXPR_IF condition consequence
      (some alternative))).2)
      ((current_bytes (if_consequence_state c condition consequence)).length + 1) 2 =
      (current_bytes (compile_expression c (EXPR_IF condition consequence
        (some alternative))).2).length

/-- The code of an expression compiled in the state `c`: the bytes of the current buffer
after the compilation, from the size the buffer had before. -/
def expression_code (c : compiler) (e : expression) : List Nat :=
  (current_bytes (compile_expression c e).2).drop (current_bytes c).length

/-- The code of the arguments of a call compiled in order from the state `c`: the code of the
first argument, then the code of the others from the state the first one leaves. -/
def arguments_code (c : compiler) : List expression → List Nat
  | [] => []
  | a :: rest => expression_code c a ++ arguments_code (compile_expression c a).2 rest

/-- Every argument compiles successfully, each from the state the one before it leaves. -/
def arguments_ok (c : compiler) : List expression → Bool
  | [] => true
  | a :: rest =>
    decide ((compile_expression c a).1 = 0) && arguments_ok (compile_expression c a).2 rest

/-- Every statement compiles successfully, each from the state the one before it leaves. -/
def statements_ok (c : compiler) : List statement → Bool
  | [] => true
  | s :: rest =>
    decide ((compile_statement c s).1 = 0) && statements_ok (compile_statement c s).2 rest

/-- The state of `EXPR_IF` after the alternative has been compiled and its trailing `POP`
removed: the `JUMP` is patched next, to the size of this buffer. -/
def if_alternative_state (c : compiler) (condition : expression)
    (consequence alternative : List statement) : compiler :=
  elide_pop (compile_block_statement
    (if_middle (current_bytes (compile_expression c condition).2).length
      (if_consequence_state c condition consequence)) alternative).2

/-- The code of a block compiled in the state `c`: the bytes of the current buffer after the
compilation, from the size the buffer had before. -/
def block_code (c : compiler) (block : List statement) : List Nat :=
  (current_bytes (compile_block_statement c block).2).drop (current_bytes c).length

/-- The code that `EXPR_IF` leaves for the consequence: the bytes of the buffer after the
POP elision, from the end of the three bytes of `JUMP_NOT_TRUE`. -/
def consequence_code (c : compiler) (condition : expression) (consequence : List statement) :
    List Nat :=
  (current_bytes (if_consequence_state c condition consequence)).drop
    ((current_bytes (compile_expression c condition).2).length + 3)

/-- The code that `EXPR_IF` leaves for the alternative: the bytes of the buffer after the
POP elision of the alternative, from the end of the three bytes of `JUMP`. -/
def alternative_code (c : compiler) (condition : expression)
    (consequence alternative : List statement) : List Nat :=
  (current_bytes (if_alternative_state c condition consequence alternative)).drop
    ((current_bytes (if_consequence_state c condition consequence)).length + 3)

/-- The statement of claim C13 for the expression `if (condition) consequence` in the state
`c`: the buffer becomes the old bytes, the code of the condition, `JUMP_NOT_TRUE` with two
operand bytes, the code of the consequence with its trailing `POP` removed, `JUMP` with two
operand bytes, `NULL`; the operand of `JUMP_NOT_TRUE` decodes to the offset of `NULL` and the
operand of `JUMP` to the offset after it. -/
def if_null_claim (c : compiler) (condition : expression) (consequence : List statement) :
    Prop :=
  (compile_expression c (EXPR_IF condition consequence none)).1 = 0 →
    ∃ t1 t2 : List Nat, t1.length = 2 ∧ t2.length = 2 ∧
      current_bytes (compile_expression c (EXPR_IF condition consequence none)).2 =
        current_bytes c ++ expression_code c condition ++ OPCODE_JUMP_NOT_TRUE :: t1 ++
          consequence_code c condition consequence ++ OPCODE_JUMP :: t2 ++ [OPCODE_NULL] ∧
      operand_value (OPCODE_JUMP_NOT_TRUE :: t1) 1 2 =
        (current_bytes c ++ expression_code c condition ++ OPCODE_JUMP_NOT_TRUE :: t1 ++
          consequence_code c condition consequence ++ OPCODE_JUMP :: t2).length ∧
      operand_value (OPCODE_JUMP :: t2) 1 2 =
        (current_bytes c ++ expression_code c condition ++ OPCODE_JUMP_NOT_TRUE :: t1 ++
          consequence_code c condition consequence ++ OPCODE_JUMP :: t2).length + 1 ∧
      (if compiler_last_instruction_is
          (compile_block_statement (if_enter (compile_expression c condition).2)
            consequence).2 OPCODE_POP = true
        then block_code (if_enter (compile_expression c condition).2) consequence =
          consequence_code c condition consequence ++ [OPCODE_POP]
        else block_code (if_enter (compile_expression c condition).2) consequence =
          consequence_code c condition consequence)

/-- Modelled from the spec: the stack-effect table of §4.5, the change of the height of the
value stack an instruction makes in the frame that executes it.  `CALL n` replaces the callee
and its `n` arguments by the result; for `RETURN_VALUE` and `RETURN`, which leave the frame,
and for a byte that is no opcode the table gives no effect. -/
def stack_effect (opcode operand : Nat) : Option Int :=
  if opcode = OPCODE_CONST then some 1
  else if opcode = OPCODE_POP then some (-1)
  else if opcode = OPCODE_ADD ∨ opcode = OPCODE_SUBTRACT ∨ opcode = OPCODE_MULTIPLY ∨
      opcode = OPCODE_DIVIDE then some (-1)
  else if opcode = OPCODE_TRUE ∨ opcode = OPCODE_FALSE ∨ opcode = OPCODE_NULL then some 1
  else if opcode = OPCODE_EQUAL ∨ opcode = OPCODE_NOT_EQUAL ∨ opcode = OPCODE_GREATER_THAN ∨
      opcode = OPCODE_LESS_THAN then some (-1)
  else if opcode = OPCODE_MINUS ∨ opcode = OPCODE_BANG then some 0
  else if opcode = OPCODE_JUMP then some 0
  else if opcode = OPCODE_JUMP_NOT_TRUE then some (-1)
  else if opcode = OPCODE_SET_GLOBAL ∨ opcode = OPCODE_SET_LOCAL then some (-1)
  else if opcode = OPCODE_GET_GLOBAL ∨ opcode = OPCODE_GET_LOCAL ∨
      opcode = OPCODE_GET_BUILTIN then some 1
  else if opcode = OPCODE_CALL then some (-(operand : Int))
  else none

/-- The sum of the stack effects of the instructions encoded in `bytes`, decoded from the
first byte on; `none` when an instruction has no effect in the table, is cut short, or the
fuel runs out (the length of `bytes` is always enough). -/
def net_stack_effect_from : Nat → List Nat → Option Int
  | _, [] => some 0
  | 0, _ :: _ => none
  | fuel + 1, opcode :: rest =>
    if rest.length < instruction_length opcode - 1 then none
    else
      match stack_effect opcode
          (operand_value (opcode :: rest) 1 (instruction_length opcode - 1)),
        net_stack_effect_from fuel (rest.drop (instruction_length opcode - 1)) with
      | some a, some b => some (a + b)
      | _, _ => none

/-- The net stack effect of a piece of code, by the stack-effect table. -/
def net_stack_effect (bytes : List Nat) : Option Int :=
  net_stack_effect_from bytes.length bytes

/-- The symbol that the name is lexically bound to: the binding of the innermost table that
has one, searching the table and then its outer tables. -/
def symbol_table_first_binding : symbol_table → String → Option symbol
  | .mk store _ outer, name =>
    (symbol_table_lookup store name).orElse fun _ =>
      match outer with
      | none => none
      | some o => symbol_table_first_binding o name

mutual
/-- The number of constants the compilation of an expression adds to the pool: one for each
integer literal, string literal and function literal in it, those inside function literals
included. -/
def constants_expression : expression → Nat
  | EXPR_INFIX _ left right => constants_expression left + constants_expression right
  | EXPR_PREFIX _ right => constants_expression right
  | EXPR_IF condition consequence alternative =>
    constants_expression condition + constants_block consequence +
      (match alternative with
        | some alternative => constants_block alternative
        | none => 0)
  | EXPR_INT _ => 1
  | EXPR_BOOL _ => 0
  | EXPR_STRING _ => 1
  | EXPR_IDENT _ => 0
  | EXPR_FUNCTION _ body => constants_block body + 1
  | EXPR_CALL function arguments =>
    constants_expression function + constants_arguments arguments
/-- The constants of a list of call arguments, as `constants_expression`. -/
def constants_arguments : List expression → Nat
  | [] => 0
  | a :: rest => constants_expression a + constants_arguments rest
/-- The constants of a statement, as `constants_expression`. -/
def constants_statement : statement → Nat
  | STMT_EXPR value => constants_expression value
  | STMT_LET _ value => constants_expression value
  | STMT_RETURN value => constants_expression value
/-- The constants of a block or program, as `constants_expression`. -/
def constants_block : List statement → Nat
  | [] => 0
  | s :: rest => constants_statement s + constants_block rest
end

/-! ## Built-in functions (`builtins.c`) -/

/-- Modelled from the spec: `enum object_type` of `object.h`, the tag of an object (§3). -/
inductive object_type
  | OBJ_INT
  | OBJ_BOOL
  | OBJ_STRING
  | OBJ_NULL
  | OBJ_ERROR
  | OBJ_COMPILED_FUNCTION
  | OBJ_BUILTIN
  deriving DecidableEq, Repr

/-- The C field `type` of an object. -/
def object.type : object → object_type
  | OBJ_INT _ => object_type.OBJ_INT
  | OBJ_BOOL _ => object_type.OBJ_BOOL
  | OBJ_STRING _ => object_type.OBJ_STRING
  | OBJ_NULL => object_type.OBJ_NULL
  | OBJ_ERROR _ => object_type.OBJ_ERROR
  | OBJ_COMPILED_FUNCTION _ _ => object_type.OBJ_COMPILED_FUNCTION
  | OBJ_BUILTIN _ => object_type.OBJ_BUILTIN

/-- Modelled from the spec: `make_error_object` of `object.h`, an Error object that carries
the message; the caller passes the message already formatted. -/
def make_error_object (message : String) : object := OBJ_ERROR message

/-- Modelled from the spec: `object_null` of `object.h`, the canonical null object. -/
def object_null : object := OBJ_NULL

/-- The union member `value.string` of an object: the text of a String object. -/
def object.string : object → String
  | OBJ_STRING string => string
  | _ => ""

/-- The C `strlen` of a string, which holds no NUL byte: its number of bytes. -/
def strlen (s : String) : Nat := s.utf8ByteSize

/-- The built-in `len` of `builtins.c`.  `object_type_to_str` (of `object.c`) is a parameter;
`%d` of the number of arguments is written in decimal, and `args->values[0]` is the head of
the list. -/
def builtin_len (object_type_to_str : object_type → String) (args : List object) : object :=
  if args.length ≠ 1 then
    make_error_object
      ("wrong number of arguments: expected 1, got " ++ toString args.length)
  else if (args.headD object_null).type ≠ object_type.OBJ_STRING then
    make_error_object
      ("argument to len() not supported: expected " ++
        object_type_to_str object_type.OBJ_STRING ++ ", got " ++
        object_type_to_str (args.headD object_null).type)
  else make_integer_object (strlen (args.headD object_null).string)

/-- The built-in `puts` of `builtins.c`: the text written to standard output and the object
returned.  `object_to_str` (of `object.c`), the text rendering of an object, is a
parameter. -/
def builtin_puts (object_to_str : object → String) (args : List object) : String × object :=
  (args.foldl (fun out arg => out ++ object_to_str arg) "" ++ "\n", object_null)

/-- The table `builtin_functions` of `builtins.c`. -/
def builtin_functions : List object :=
  [OBJ_BUILTIN builtin_function.builtin_puts, OBJ_BUILTIN builtin_function.builtin_len]

/-- The entry `builtin_functions[index]`, `index` a `uint8_t`; `none` outside the table. -/
def get_builtin_by_index (index : Nat) : Option object :=
  builtin_functions[index % 256]?

/-- The entry of the table for a name, `none` for the C `NULL`. -/
def get_builtin (name : String) : Option object :=
  if name = "puts" then builtin_functions[0]?
  else if name = "len" then builtin_functions[1]?
  else none

/-- Modelled from the spec: decoding the operands of an instruction with `read_operand`
(§4.2), one operand per width, from `cursor` on. -/
def read_operands : List Nat → List Nat → Nat → List Nat
  | [], _, _ => []
  | w :: ws, bytes, cursor =>
    (read_operand bytes cursor w).1 :: read_operands ws bytes (read_operand bytes cursor w).2

/-- Modelled from the spec: decoding the instruction at `pos` (§4.2, §8): the opcode byte and
the operands in the widths of the opcode; `none` when `pos` is outside the bytes. -/
def decode_instruction (bytes : List Nat) (pos : Nat) : Option (Nat × List Nat) :=
  (bytes[pos]?).map fun opcode => (opcode, read_operands (operand_widths opcode) bytes (pos + 1))

/-- The operands fit the widths: one operand per width, each below `256 ^ width`. -/
def operands_fit : List Nat → List Nat → Bool
  | [], [] => true
  | w :: ws, o :: os => decide (o < 256 ^ w) && operands_fit ws os
  | _, _ => false

/-- The emit of the `JUMP_NOT_TRUE` placeholder in `EXPR_IF`: position and state. -/
def if_enter_emit (c1 : compiler) : Nat × compiler :=
  compiler_emit c1 OPCODE_JUMP_NOT_TRUE [9999]

/-- The emit of the `JUMP` placeholder in `EXPR_IF`: position and state. -/
def if_jump_emit (c4 : compiler) : Nat × compiler :=
  compiler_emit c4 OPCODE_JUMP [9999]

/-- The table reached from `t` by following the field `outer` `k` times; `none` when the
chain of outer tables ends before. -/
def symbol_table_outer_at : Nat → symbol_table → Option symbol_table
  | 0, t => some t
  | k + 1, t => t.outer.bind (symbol_table_outer_at k)

/-- The state `c2` is reached from `c1` without leaving the scope of `c1`: the scope index
did not go down, the scopes below that of `c1` are untouched, and the outer chain of the
current table, followed once for each scope entered and not left, reaches the table of `c1`
with the definitions made since (a table with the outer table of that of `c1`). -/
structure within_scope (c1 c2 : compiler) : Prop where
  scope_index : c1.scope_index ≤ c2.scope_index
  frame : ∀ j, j < c1.scope_index → c2.scopes j = c1.scopes j
  table : ∃ t, symbol_table_outer_at (c2.scope_index - c1.scope_index) c2.symbol_table =
    some t ∧ t.outer = c1.symbol_table.outer

/-- What a run from the state `c1` to the state `c2` does to the slots of the constant pool:
the capacity is the same, objects were only added, and `constants_overflow` is set in `c2`
exactly when it was set in `c1` or an object was added when no slot was free, that is when
objects were added and there are now more of them than slots. -/
structure pool_tracks (c1 c2 : compiler) : Prop where
  cap : c2.constants_cap = c1.constants_cap
  length : c1.constants.length ≤ c2.constants.length
  overflow : c2.constants_overflow = true ↔
    (c1.constants_overflow = true ∨
      (c1.constants.length < c2.constants.length ∧ c1.constants_cap < c2.constants.length))

/-! ## The parser (`ast.h`) -/

namespace ast

/-- The token types `enum token_type` of `token.h`, written as `ast.h` uses them, without the
prefix `TOKEN_`; `ILLEGAL` is the value 0. -/
inductive token_type
  | ILLEGAL
  | EOF
  | IDENT
  | INT
  | FUNCTION
  | LET
  | TRUE
  | FALSE
  | IF
  | ELSE
  | RETURN
  | ASSIGN
  | PLUS
  | MINUS
  | BANG
  | ASTERISK
  | SLASH
  | LT
  | GT
  | EQ
  | NOT_EQ
  | COMMA
  | SEMICOLON
  | LPAREN
  | RPAREN
  | LBRACE
  | RBRACE
  deriving DecidableEq, Repr

/-- The record `struct token` of `token.h`: the type and the text of the token. -/
structure token where
  type : token_type
  literal : String
  deriving DecidableEq, Repr

/-- The precedences of `ast.h`, the anonymous `enum` that starts with `LOWEST = 1`. -/
abbrev LOWEST : Nat := 1

abbrev EQUALS : Nat := 2

abbrev LESSGREATER : Nat := 3

abbrev SUM : Nat := 4

abbrev PRODUCT : Nat := 5

abbrev PREFIX : Nat := 6

abbrev CALL : Nat := 7

/-- The tagged union `struct expression` of `ast.h`; a child pointer is `none` when it is
`NULL`.  The bytes of `operator` and of the identifier `value` are the text they hold. -/
inductive expression
  | EXPR_INFIX (token : token) (operator : String) (left right : Option expression)
  | EXPR_PREFIX (token : token) (operator : String) (right : Option expression)
  | EXPR_INT (token : token) (value : Int)
  | EXPR_IDENT (token : token) (value : String)
  | EXPR_BOOL (token : token) (value : Bool)

/-- The member `token` that every variant of the union starts with: what
`expr->ident.token` reads, whatever the variant. -/
def expression.token : expression → token
  | .EXPR_INFIX token _ _ _ => token
  | .EXPR_PREFIX token _ _ => token
  | .EXPR_INT token _ => token
  | .EXPR_IDENT token _ => token
  | .EXPR_BOOL token _ => token

/-- The record `identifier` of `ast.h`. -/
structure identifier where
  token : token
  value : String
  deriving DecidableEq, Repr

/-- The record `statement` of `ast.h`; `value` is `none` for a `NULL` pointer. -/
structure statement where
  token : token
  name : identifier
  value : Option expression

/-- The record `program` of `ast.h`: the statements in use and the capacity of the array. -/
structure program where
  statements : List statement
  cap : Nat

/-- The C field `size` of a program. -/
def program.size (prog : program) : Nat := prog.statements.length

/-- The record `parser` of `ast.h`.  The lexer is the list of the tokens it has still to
hand out; `errors` counts the error messages stored so far, and `error_messages` holds
those of them that are in the 8 rows of the array `error_messages[8][128]`. -/
structure parser where
  lexer : List token
  current_token : token
  next_token : token
  errors : Nat
  error_messages : List String
  deriving DecidableEq, Repr

/-- Modelled from the spec: the lexer is an external collaborator that contributes a token
stream (§1); `gettoken` of `lexer.h`, which is not among the sources, hands out the tokens of
the stream in order and the token `EOF` once they are used up. -/
def gettoken (l : List token) : token × List token :=
  match l with
  | [] => ({ type := .EOF, literal := "" }, [])
  | t :: rest => (t, rest)

/-- Moves to the next token: `current_token` becomes `next_token`, which is read anew. -/
def next_token (p : parser) : parser :=
  { p with
    current_token := p.next_token
    next_token := (gettoken p.lexer).1
    lexer := (gettoken p.lexer).2 }

/-- The function `new_parser` of `ast.h`: a parser on the lexer `l`, zero-initialised, then
two tokens are read so that `current_token` and `next_token` are set. -/
def parser_new (l : List token) : parser :=
  next_token (next_token
    { lexer := l
      current_token := { type := .ILLEGAL, literal := "" }
      next_token := { type := .ILLEGAL, literal := "" }
      errors := 0
      error_messages := [] })

/-- The store `sprintf(p->error_messages[p->errors++], ...)` of an error message.  The array
`error_messages[8][128]` has 8 rows and the C code does not test `errors`: the first 8
messages are kept in `error_messages`, a later one is written past the end of the array.  A
state with more than 8 `errors` therefore stands for undefined behaviour.  A message is
taken to fit its row of 128 bytes. -/
def record_error (p : parser) (message : String) : parser :=
  { p with
    errors := p.errors + 1
    error_messages :=
      if p.errors < 8 then p.error_messages ++ [message] else p.error_messages }

/-- Whether the current token has the type `t`. -/
def current_token_is (p : parser) (t : token_type) : Bool :=
  decide (t = p.current_token.type)

/-- Whether the next token has the type `t`. -/
def next_token_is (p : parser) (t : token_type) : Bool :=
  decide (t = p.next_token.type)

/-- Moves on when the next token has the type `t`; otherwise records an error message.
`token_to_str` (declared in `token.h`, defined outside the sources) is a parameter. -/
def expect_next_token (token_to_str : token_type → String) (p : parser) (t : token_type) :
    Bool × parser :=
  if next_token_is p t then (true, next_token p)
  else
    (false,
      record_error p
        ("expected next token to be " ++ token_to_str t ++ ", got " ++
          token_to_str p.next_token.type ++ " instead"))

/-- The loop `while (!current_token_is(p, SEMICOLON)) next_token(p);` of
`parse_let_statement` and `parse_return_statement`; `none` when the fuel runs out before a
semicolon is the current token. -/
def skip_to_semicolon : Nat → parser → Option parser
  | 0, p => if current_token_is p .SEMICOLON then some p else none
  | fuel + 1, p =>
    if current_token_is p .SEMICOLON then some p else skip_to_semicolon fuel (next_token p)

/-- Reads `let <name> =` into `s` and skips to the semicolon; the value of `s` is not
assigned.  Returns 1, or -1 when a token is not the expected one. -/
def parse_let_statement (token_to_str : token_type → String) (fuel : Nat) (p : parser)
    (s : statement) : Option (Int × parser × statement) :=
  let s1 := { s with token := p.current_token }
  let r1 := expect_next_token token_to_str p .IDENT
  if !r1.1 then some (-1, r1.2, s1)
  else
    let id : identifier :=
      { token := r1.2.current_token, value := r1.2.current_token.literal }
    let s2 := { s1 with name := id }
    let r2 := expect_next_token token_to_str r1.2 .ASSIGN
    if !r2.1 then some (-1, r2.2, s2)
    else (skip_to_semicolon fuel r2.2).map fun p3 => (1, p3, s2)

/-- Reads `return` into `s` and skips to the semicolon; the value of `s` is not assigned. -/
def parse_return_statement (fuel : Nat) (p : parser) (s : statement) :
    Option (Int × parser × statement) :=
  let s1 := { s with token := p.current_token }
  (skip_to_semicolon fuel (next_token p)).map fun p1 => (1, p1, s1)

/-- An identifier expression from the current token. -/
def parse_identifier_expression (p : parser) : expression :=
  .EXPR_IDENT p.current_token p.current_token.literal

/-- The C `atoi` on the literal of an `INT` token: the value of its leading decimal digits
(the range of `int` is not modelled). -/
def atoi (s : String) : Int :=
  ((s.toList.takeWhile Char.isDigit).foldl (fun n ch => 10 * n + (ch.toNat - 48)) 0 : Nat)

/-- An integer expression from the current token. -/
def parse_int_expression (p : parser) : expression :=
  .EXPR_INT p.current_token (atoi p.current_token.literal)

/-- A boolean expression from the current token: true for the token `TRUE`. -/
def parse_boolean_expression (p : parser) : expression :=
  .EXPR_BOOL p.current_token (current_token_is p .TRUE)

/-- The precedence of a token as an infix operator, `LOWEST` for any other token. -/
def get_token_precedence (t : token) : Nat :=
  match t.type with
  | .EQ => EQUALS
  | .NOT_EQ => EQUALS
  | .LT => LESSGREATER
  | .GT => LESSGREATER
  | .PLUS => SUM
  | .MINUS => SUM
  | .SLASH => PRODUCT
  | .ASTERISK => PRODUCT
  | _ => LOWEST

/-- A prefix expression: the operator is the current token, the operand is parsed with the
precedence `PREFIX`.  `parse_expression` is the function of the recursive call. -/
def parse_prefix_expression
    (parse_expression : parser → Nat → Option (Option expression × parser)) (p : parser) :
    Option (Option expression × parser) :=
  (parse_expression (next_token p) PREFIX).map fun r =>
    (some (.EXPR_PREFIX p.current_token p.current_token.literal r.1), r.2)

/-- An infix expression with the left operand `left`: the operator is the current token, the
right operand is parsed with the precedence of the operator.  `parse_expression` is the
function of the recursive call. -/
def parse_infix_expression
    (parse_expression : parser → Nat → Option (Option expression × parser)) (p : parser)
    (left : Option expression) : Option (Option expression × parser) :=
  (parse_expression (next_token p) (get_token_precedence p.current_token)).map fun r =>
    (some (.EXPR_INFIX p.current_token p.current_token.literal left r.1), r.2)

/-- A parenthesised expression: the expression after `(`, which must be followed by `)`;
otherwise an error is recorded and the result is `NULL`.  `parse_expression` is the function
of the recursive call. -/
def parse_grouped_expression (token_to_str : token_type → String)
    (parse_expression : parser → Nat → Option (Option expression × parser)) (p : parser) :
    Option (Option expression × parser) :=
  (parse_expression (next_token p) LOWEST).map fun r =>
    if !(expect_next_token token_to_str r.2 .RPAREN).1 then
      (none, (expect_next_token token_to_str r.2 .RPAREN).2)
    else (r.1, (expect_next_token token_to_str r.2 .RPAREN).2)

/-- Whether the token type is one of the eight infix operators that the loop of
`parse_expression` accepts. -/
def is_infix_type (type : token_type) : Bool :=
  decide (type = .PLUS) || decide (type = .MINUS) || decide (type = .ASTERISK) ||
    decide (type = .SLASH) || decide (type = .EQ) || decide (type = .NOT_EQ) ||
    decide (type = .LT) || decide (type = .GT)

/-- The `while` loop of `parse_expression`: as long as the next token is no semicolon and
binds tighter than `precedence`, it is taken as an infix operator with `left` as its left
operand.  `parse_expression` is the function of the recursive call; `none` when the fuel
runs out. -/
def parse_expression_loop
    (parse_expression : parser → Nat → Option (Option expression × parser)) :
    Nat → parser → Option expression → Nat → Option (Option expression × parser)
  | 0, p, left, precedence =>
    if !next_token_is p .SEMICOLON && decide (precedence < get_token_precedence p.next_token)
    then
      if is_infix_type p.next_token.type then none else some (left, p)
    else some (left, p)
  | fuel + 1, p, left, precedence =>
    if !next_token_is p .SEMICOLON && decide (precedence < get_token_precedence p.next_token)
    then
      if is_infix_type p.next_token.type then
        match parse_infix_expression parse_expression (next_token p) left with
        | none => none
        | some r => parse_expression_loop parse_expression fuel r.2 r.1 precedence
      else some (left, p)
    else some (left, p)

/-- The expression that starts at the current token, as far as its operators bind tighter
than `precedence`.  The result is `NULL` (`none`), with an error recorded, when no
expression can start with the current token; the outer `none` stands for fuel that ran
out. -/
def parse_expression (token_to_str : token_type → String) :
    Nat → parser → Nat → Option (Option expression × parser)
  | 0, _, _ => none
  | fuel + 1, p, precedence =>
    match p.current_token.type with
    | .IDENT =>
      parse_expression_loop (parse_expression token_to_str fuel) fuel p
        (some (parse_identifier_expression p)) precedence
    | .INT =>
      parse_expression_loop (parse_expression token_to_str fuel) fuel p
        (some (parse_int_expression p)) precedence
    | .BANG =>
      match parse_prefix_expression (parse_expression token_to_str fuel) p with
      | none => none
      | some r =>
        parse_expression_loop (parse_expression token_to_str fuel) fuel r.2 r.1 precedence
    | .MINUS =>
      match parse_prefix_expression (parse_expression token_to_str fuel) p with
      | none => none
      | some r =>
        parse_expression_loop (parse_expression token_to_str fuel) fuel r.2 r.1 precedence
    | .TRUE =>
      parse_expression_loop (parse_expression token_to_str fuel) fuel p
        (some (parse_boolean_expression p)) precedence
    | .FALSE =>
      parse_expression_loop (parse_expression token_to_str fuel) fuel p
        (some (parse_boolean_expression p)) precedence
    | .LPAREN =>
      match parse_grouped_expression token_to_str (parse_expression token_to_str fuel) p with
      | none => none
      | some r =>
        parse_expression_loop (parse_expression token_to_str fuel) fuel r.2 r.1 precedence
    | _ =>
      some (none,
        record_error p
          ("no prefix parse function found for " ++ token_to_str p.current_token.type))

/-- An expression statement: the expression at the current token, and a semicolon after it
is consumed. -/
def parse_expression_statement (token_to_str : token_type → String) (fuel : Nat) (p : parser)
    (s : statement) : Option (Int × parser × statement) :=
  (parse_expression token_to_str fuel p LOWEST).map fun r =>
    (1, if next_token_is r.2 .SEMICOLON then next_token r.2 else r.2,
      { s with token := p.current_token, value := r.1 })

/-- One statement, by the type of the current token. -/
def parse_statement (token_to_str : token_type → String) (fuel : Nat) (p : parser)
    (s : statement) : Option (Int × parser × statement) :=
  match p.current_token.type with
  | .LET => parse_let_statement token_to_str fuel p s
  | .RETURN => parse_return_statement fuel p s
  | _ => parse_expression_statement token_to_str fuel p s

/-- The loop of `parse_program`: until the current token is `EOF`, a statement is parsed into
the local `s` and added to the program (the capacity doubles when the size reaches it); after
an error the token is skipped.  `none` when the fuel runs out. -/
def parse_program_loop (token_to_str : token_type → String) :
    Nat → parser → statement → program → Option (program × parser)
  | 0, p, _, prog => if p.current_token.type = .EOF then some (prog, p) else none
  | fuel + 1, p, s, prog =>
    if p.current_token.type = .EOF then some (prog, p)
    else
      match parse_statement token_to_str fuel p s with
      | none => none
      | some r =>
        if r.1 = -1 then
          parse_program_loop token_to_str fuel (next_token r.2.1) r.2.2 prog
        else
          parse_program_loop token_to_str fuel (next_token r.2.1) r.2.2
            { statements := prog.statements ++ [r.2.2]
              cap := if prog.statements.length + 1 ≥ prog.cap then prog.cap * 2
                else prog.cap }

/-- The program parsed from the tokens of the parser, and the parser afterwards.  The local
`statement s` of the C function is not initialised: its contents are the parameter `s`. -/
def parse_program (token_to_str : token_type → String) (fuel : Nat) (p : parser)
    (s : statement) : Option (program × parser) :=
  parse_program_loop token_to_str fuel p s { statements := [], cap := 1 }

/-- The text `let <name> = <literal of the token of the value>;`; `none` when the value is
`NULL`, which the C code dereferences. -/
def let_statement_to_str (s : statement) : Option String :=
  s.value.map fun value =>
    s.token.literal ++ " " ++ s.name.token.literal ++ " = " ++ value.token.literal ++ ";"

/-- The text `return <literal of the token of the value>;`; `none` when the value is
`NULL`. -/
def return_statement_to_str (s : statement) : Option String :=
  s.value.map fun value => s.token.literal ++ " " ++ value.token.literal ++ ";"

/-- The text of an expression; `none` when a child that is rendered is `NULL`. -/
def expression_to_str : expression → Option String
  | .EXPR_PREFIX _ operator right =>
    match right with
    | none => none
    | some r =>
      match expression_to_str r with
      | none => none
      | some sr => some ("(" ++ operator ++ sr ++ ")")
  | .EXPR_INFIX _ operator left right =>
    match left, right with
    | some l, some r =>
      match expression_to_str l, expression_to_str r with
      | some sl, some sr => some ("(" ++ sl ++ " " ++ operator ++ " " ++ sr ++ ")")
      | _, _ => none
    | _, _ => none
  | .EXPR_IDENT _ value => some value
  | .EXPR_BOOL _ value => some (if value then "true" else "false")
  | .EXPR_INT token _ => some token.literal

/-- The `switch` of `program_to_str`: the text of one statement, by the type of its token. -/
def statement_to_str (s : statement) : Option String :=
  match s.token.type with
  | .LET => let_statement_to_str s
  | .RETURN => return_statement_to_str s
  | _ =>
    match s.value with
    | none => none
    | some value => expression_to_str value

/-- The text of a program: the texts of its statements, one after the other. -/
def program_to_str (p : program) : Option String :=
  p.statements.foldl
    (fun str s =>
      match str, statement_to_str s with
      | some str, some text => some (str ++ text)
      | _, _ => none)
    (some "")

/-- The parser state in which the tokens `ts` are still to be read: the first is the current
token, the second the next token, and `EOF` stands where the tokens are used up. -/
def parser_at (ts : List token) (errors : Nat) (error_messages : List String) : parser :=
  { lexer := ts.drop 2
    current_token := ts.getD 0 { type := .EOF, literal := "" }
    next_token := ts.getD 1 { type := .EOF, literal := "" }
    errors := errors
    error_messages := error_messages }

/-- No token of the list is a semicolon. -/
def no_semicolon (e : List token) : Bool :=
  e.all fun t => decide (t.type ≠ .SEMICOLON)

/-- A let or return statement as it stands in the input: the name and the tokens between
`=` and the semicolon, or the tokens between `return` and the semicolon. -/
inductive source_statement
  | source_let (name : String) (value : List token)
  | source_return (value : List token)

/-- The tokens between the head of a source statement and its semicolon. -/
def source_statement.value : source_statement → List token
  | .source_let _ value => value
  | .source_return value => value

/-- The tokens of `let <name> = <value>;` and of `return <value>;`. -/
def source_tokens : source_statement → List token
  | .source_let name value =>
    [{ type := .LET, literal := "let" }, { type := .IDENT, literal := name },
      { type := .ASSIGN, literal := "=" }] ++ value ++ [{ type := .SEMICOLON, literal := ";" }]
  | .source_return value =>
    [{ type := .RETURN, literal := "return" }] ++ value ++
      [{ type := .SEMICOLON, literal := ";" }]

/-- The tokens of a sequence of source statements. -/
def sources_tokens : List source_statement → List token
  | [] => []
  | src :: rest => source_tokens src ++ sources_tokens rest

/-- What `parse_let_statement` and `parse_return_statement` leave in the local `s`: the
token, for a let statement the name, and the value that `s` had before. -/
def parsed_source (s : statement) : source_statement → statement
  | .source_let name _ =>
    { token := { type := .LET, literal := "let" }
      name := { token := { type := .IDENT, literal := name }, value := name }
      value := s.value }
  | .source_return _ => { s with token := { type := .RETURN, literal := "return" } }

/-- The statements that the loop of `parse_program` adds for a sequence of source statements,
the local `s` carried from one to the next. -/
def parsed_sources : statement → List source_statement → List statement
  | _, [] => []
  | s, src :: rest => parsed_source s src :: parsed_sources (parsed_source s src) rest

/-- Whether a token of the type is an operand by itself: an identifier, an integer or a
boolean literal. -/
def is_operand_type (type : token_type) : Bool :=
  decide (type = .IDENT) || decide (type = .INT) || decide (type = .TRUE) ||
    decide (type = .FALSE)

/-- The expression that `parse_expression` builds from an operand token. -/
def operand_expression (t : token) : expression :=
  match t.type with
  | .IDENT => .EXPR_IDENT t t.literal
  | .INT => .EXPR_INT t (atoi t.literal)
  | .TRUE => .EXPR_BOOL t true
  | _ => .EXPR_BOOL t false

/-- The text of an operand token as `expression_to_str` renders its expression. -/
def operand_text (t : token) : String :=
  match t.type with
  | .IDENT => t.literal
  | .INT => t.literal
  | .TRUE => "true"
  | _ => "false"

/-- The infix expression with the operator token `op` and both operands present. -/
def infix_expression (op : token) (left right : expression) : expression :=
  .EXPR_INFIX op op.literal (some left) (some right)

/-- The prefix expression with the operator token `op` and the operand present. -/
def prefix_expression (op : token) (right : expression) : expression :=
  .EXPR_PREFIX op op.literal (some right)

/-- The text `(<left> <operator> <right>)`. -/
def infix_text (left operator right : String) : String :=
  "(" ++ left ++ " " ++ operator ++ " " ++ right ++ ")"

/-- The text `(<operator><right>)`. -/
def prefix_text (operator right : String) : String :=
  "(" ++ operator ++ right ++ ")"

/-- The program of one expression statement that starts with the token `first`, in the
local `s`, as `parse_program` returns it. -/
def expression_program (s : statement) (first : token) (value : expression) : program :=
  { statements := [{ s with token := first, value := some value }], cap := 2 }

/-- The end of the input: nothing, or one semicolon. -/
def is_statement_end (tail : List token) : Bool :=
  match tail with
  | [] => true
  | [semi] => decide (semi.type = .SEMICOLON)
  | _ => false

/-- The tokens are parsed by `parse_program`, with the fuel and the local `s`, without error
to the program of the one expression statement `tree`, whose first token is `first`, and
`program_to_str` renders the program as `text`. -/
def parses_to (token_to_str : token_type → String) (fuel : Nat) (s : statement)
    (tokens : List token) (first : token) (tree : expression) (text : String) : Prop :=
  parse_program token_to_str fuel (parser_new tokens) s =
    some (expression_program s first tree, parser_at [] 0 []) ∧
  program_to_str (expression_program s first tree) = some text

/-- Whether a token of the list is a semicolon. -/
def has_semicolon (ts : List token) : Bool :=
  ts.any fun t => decide (t.type = .SEMICOLON)

/-- Every `let` token and every `return` token of the list is followed, somewhere later in
the list, by a semicolon. -/
def let_return_closed : List token → Bool
  | [] => true
  | t :: rest =>
    (if t.type = .LET ∨ t.type = .RETURN then has_semicolon rest else true) &&
      let_return_closed rest

/-- Whether an error message was stored past the 8 rows of `error_messages`: the parser
counted more than 8 errors. -/
def error_messages_overflow (p : parser) : Bool :=
  decide (8 < p.errors)

end ast

/-! ## Unfolding equations of the compile functions -/

theorem compile_expression_infix_eq (c : compiler) (op : operator) (left right : expression) :
    compile_expression c (EXPR_INFIX op left right) =
      if (compile_expression c left).1 ≠ 0 then compile_expression c left
      else if (compile_expression (compile_expression c left).2 right).1 ≠ 0 then
        compile_expression (compile_expression c left).2 right
      else
        match op with
        | OP_ADD => (0, (compiler_emit
            (compile_expression (compile_expression c left).2 right).2 OPCODE_ADD []).2)
        | OP_SUBTRACT => (0, (compiler_emit
            (compile_expression (compile_expression c left).2 right).2 OPCODE_SUBTRACT []).2)
        | OP_MULTIPLY => (0, (compiler_emit
            (compile_expression (compile_expression c left).2 right).2 OPCODE_MULTIPLY []).2)
        | OP_DIVIDE => (0, (compiler_emit
            (compile_expression (compile_expression c left).2 right).2 OPCODE_DIVIDE []).2)
        | OP_GT => (0, (compiler_emit
            (compile_expression (compile_expression c left).2 right).2 OPCODE_GREATER_THAN []).2)
        | OP_EQ => (0, (compiler_emit
            (compile_expression (compile_expression c left).2 right).2 OPCODE_EQUAL []).2)
        | OP_NOT_EQ => (0, (compiler_emit
            (compile_expression (compile_expression c left).2 right).2 OPCODE_NOT_EQUAL []).2)
        | OP_LT => (0, (compiler_emit
            (compile_expression (compile_expression c left).2 right).2 OPCODE_LESS_THAN []).2)
        | OP_NEGATE => (COMPILE_ERR_UNKNOWN_OPERATOR,
            (compile_expression (compile_expression c left).2 right).2) := by
  cases op <;> rfl

theorem compile_expression_prefix_eq (c : compiler) (op : operator) (right : expression) :
    compile_expression c (EXPR_PREFIX op right) =
      if (compile_expression c right).1 ≠ 0 then compile_expression c right
      else
        match op with
        | OP_NEGATE => (0, (compiler_emit (compile_expression c right).2 OPCODE_BANG []).2)
        | OP_SUBTRACT => (0, (compiler_emit (compile_expression c right).2 OPCODE_MINUS []).2)
        | _ => (COMPILE_ERR_UNKNOWN_OPERATOR, (compile_expression c right).2) := by
  cases op <;> rfl

theorem compile_expression_int (c : compiler) (n : Int) :
    compile_expression c (EXPR_INT n) =
      (0, (compiler_emit (add_constant c (make_integer_object n)).2 OPCODE_CONST
        [(add_constant c (make_integer_object n)).1]).2) := rfl

theorem compile_expression_bool (c : compiler) (b : Bool) :
    compile_expression c (EXPR_BOOL b) =
      if b then (0, (compiler_emit c OPCODE_TRUE []).2)
      else (0, (compiler_emit c OPCODE_FALSE []).2) := rfl

theorem compile_expression_string (c : compiler) (str : String) :
    compile_expression c (EXPR_STRING str) =
      (0, (compiler_emit (add_constant c (make_string_object str)).2 OPCODE_CONST
        [(add_constant c (make_string_object str)).1]).2) := rfl

theorem compile_expression_ident (c : compiler) (value : String) :
    compile_expression c (EXPR_IDENT value) =
      match symbol_table_resolve c.symbol_table value with
      | none => (COMPILE_ERR_UNKNOWN_IDENT, c)
      | some s =>
        match s.scope with
        | SCOPE_GLOBAL => (0, (compiler_emit c OPCODE_GET_GLOBAL [s.index]).2)
        | SCOPE_LOCAL => (0, (compiler_emit c OPCODE_GET_LOCAL [s.index]).2)
        | SCOPE_BUILTIN => (0, (compiler_emit c OPCODE_GET_BUILTIN [s.index]).2)
        | SCOPE_FUNCTION => (COMPILE_ERR_UNKNOWN_IDENT, c) := rfl

theorem compile_expression_if (c : compiler) (condition : expression)
    (consequence : List statement) (alternative : Option (List statement)) :
    compile_expression c (EXPR_IF condition consequence alternative) =
      if (compile_expression c condition).1 ≠ 0 then compile_expression c condition
      else if (compile_block_statement (if_enter (compile_expression c condition).2)
          consequence).1 ≠ 0 then
        compile_block_statement (if_enter (compile_expression c condition).2) consequence
      else
        match alternative with
        | some alternative =>
          if (compile_block_statement
              (if_middle (current_bytes (compile_expression c condition).2).length
                (elide_pop (compile_block_statement
                  (if_enter (compile_expression c condition).2) consequence).2))
              alternative).1 ≠ 0 then
            compile_block_statement
              (if_middle (current_bytes (compile_expression c condition).2).length
                (elide_pop (compile_block_statement
                  (if_enter (compile_expression c condition).2) consequence).2))
              alternative
          else
            (0, if_finish
              (current_bytes (elide_pop (compile_block_statement
                  (if_enter (compile_expression c condition).2) consequence).2)).length
              (elide_pop (compile_block_statement
                (if_middle (current_bytes (compile_expression c condition).2).length
                  (elide_pop (compile_block_statement
                    (if_enter (compile_expression c condition).2) consequence).2))
                alternative).2))
        | none =>
          (0, if_finish
            (current_bytes (elide_pop (compile_block_statement
                (if_enter (compile_expression c condition).2) consequence).2)).length
            (compiler_emit
              (if_middle (current_bytes (compile_expression c condition).2).length
                (elide_pop (compile_block_statement
                  (if_enter (compile_expression c condition).2) consequence).2))
              OPCODE_NULL []).2) := by
  cases alternative <;> rfl

theorem compile_expression_function (c : compiler) (parameters : List String)
    (body : List statement) :
    compile_expression c (EXPR_FUNCTION parameters body) =
      if (compile_block_statement (function_enter c parameters) body).1 ≠ 0 then
        compile_block_statement (function_enter c parameters) body
      else
        (0, function_finish
          (function_epilogue (compile_block_statement (function_enter c parameters) body).2)) :=
  rfl

theorem compile_expression_call (c : compiler) (function : expression)
    (arguments : List expression) :
    compile_expression c (EXPR_CALL function arguments) =
      if (compile_expression c function).1 ≠ 0 then compile_expression c function
      else if (compile_arguments (compile_expression c function).2 0 arguments).1 ≠ 0 then
        ((compile_arguments (compile_expression c function).2 0 arguments).1,
          (compile_arguments (compile_expression c function).2 0 arguments).2.2)
      else
        (0, (compiler_emit
          (compile_arguments (compile_expression c function).2 0 arguments).2.2 OPCODE_CALL
          [(compile_arguments (compile_expression c function).2 0 arguments).2.1]).2) := rfl

theorem compile_arguments_nil (c : compiler) (i : Nat) :
    compile_arguments c i [] = (0, i, c) := rfl

theorem compile_arguments_cons (c : compiler) (i : Nat) (a : expression)
    (rest : List expression) :
    compile_arguments c i (a :: rest) =
      if (compile_expression c a).1 ≠ 0 then
        ((compile_expression c a).1, i, (compile_expression c a).2)
      else compile_arguments (compile_expression c a).2 (i + 1) rest := rfl

theorem compile_statement_expr (c : compiler) (value : expression) :
    compile_statement c (STMT_EXPR value) =
      if (compile_expression c value).1 ≠ 0 then compile_expression c value
      else (0, (compiler_emit (compile_expression c value).2 OPCODE_POP []).2) := rfl

theorem compile_statement_let (c : compiler) (name : String) (value : expression) :
    compile_statement c (STMT_LET name value) =
      if (compile_expression (let_enter c name) value).1 ≠ 0 then
        compile_expression (let_enter c name) value
      else
        (0, (compiler_emit (compile_expression (let_enter c name) value).2
          (let_opcode c name) [(symbol_table_define c.symbol_table name).1.index]).2) := rfl

theorem compile_statement_return (c : compiler) (value : expression) :
    compile_statement c (STMT_RETURN value) =
      if (compile_expression c value).1 ≠ 0 then compile_expression c value
      else (0, (compiler_emit (compile_expression c value).2 OPCODE_RETURN_VALUE []).2) := rfl

theorem compile_block_statement_nil (c : compiler) :
    compile_block_statement c [] = (0, c) := rfl

theorem compile_block_statement_cons (c : compiler) (s : statement) (rest : List statement) :
    compile_block_statement c (s :: rest) =
      if (compile_statement c s).1 ≠ 0 then compile_statement c s
      else compile_block_statement (compile_statement c s).2 rest := rfl

/-! ## Facts about the operations on the current scope -/

@[simp] theorem set_scope_current (c : compiler) (s : compiler_scope) :
    compiler_current_scope (set_scope c c.scope_index s) = s := by
  simp [compiler_current_scope, set_scope]

@[simp] theorem set_scope_scope_index (c : compiler) (i : Nat) (s : compiler_scope) :
    (set_scope c i s).scope_index = c.scope_index := rfl

@[simp] theorem set_scope_constants (c : compiler) (i : Nat) (s : compiler_scope) :
    (set_scope c i s).constants = c.constants := rfl

@[simp] theorem set_scope_symbol_table (c : compiler) (i : Nat) (s : compiler_scope) :
    (set_scope c i s).symbol_table = c.symbol_table := rfl

theorem set_scope_scopes_ne (c : compiler) (i j : Nat) (s : compiler_scope) (h : j ≠ i) :
    (set_scope c i s).scopes j = c.scopes j := by
  simp [set_scope, Function.update, h]

theorem current_bytes_def (c : compiler) :
    current_bytes c = (compiler_current_scope c).instructions.bytes := rfl

/-! ### `compiler_emit` -/

@[simp] theorem compiler_emit_fst (c : compiler) (op : Nat) (ops : List Nat) :
    (compiler_emit c op ops).1 = (current_bytes c).length := rfl

@[simp] theorem compiler_emit_scope_index (c : compiler) (op : Nat) (ops : List Nat) :
    (compiler_emit c op ops).2.scope_index = c.scope_index := rfl

@[simp] theorem compiler_emit_constants (c : compiler) (op : Nat) (ops : List Nat) :
    (compiler_emit c op ops).2.constants = c.constants := rfl

@[simp] theorem compiler_emit_symbol_table (c : compiler) (op : Nat) (ops : List Nat) :
    (compiler_emit c op ops).2.symbol_table = c.symbol_table := rfl

theorem compiler_emit_scopes_ne (c : compiler) (op : Nat) (ops : List Nat) (j : Nat)
    (h : j ≠ c.scope_index) : (compiler_emit c op ops).2.scopes j = c.scopes j := by
  simp [compiler_emit, add_instruction, compiler_set_last_instruction, set_scope,
    Function.update, h]

@[simp] theorem compiler_emit_bytes (c : compiler) (op : Nat) (ops : List Nat) :
    current_bytes (compiler_emit c op ops).2 = current_bytes c ++ make_instruction op ops := by
  simp [compiler_emit, add_instruction, compiler_set_last_instruction, current_bytes,
    compiler_current_instructions, compiler_current_scope, set_scope]

@[simp] theorem compiler_emit_last (c : compiler) (op : Nat) (ops : List Nat) :
    (compiler_current_scope (compiler_emit c op ops).2).last_instruction =
      { opcode := op, position := (current_bytes c).length } := by
  simp [compiler_emit, add_instruction, compiler_set_last_instruction, current_bytes,
    compiler_current_instructions, instruction.size, compiler_current_scope, set_scope]

@[simp] theorem compiler_emit_previous (c : compiler) (op : Nat) (ops : List Nat) :
    (compiler_current_scope (compiler_emit c op ops).2).previous_instruction =
      (compiler_current_scope c).last_instruction := by
  simp [compiler_emit, add_instruction, compiler_set_last_instruction, compiler_current_scope,
    set_scope]

/-! ### `same_frame`: what operations on the current buffer leave alone -/

theorem same_frame_refl (c : compiler) : same_frame c c :=
  ⟨rfl, rfl, rfl, fun _ _ => rfl⟩

theorem same_frame_trans {c1 c2 c3 : compiler} (h12 : same_frame c1 c2)
    (h23 : same_frame c2 c3) : same_frame c1 c3 :=
  ⟨h23.scope_index.trans h12.scope_index, h23.constants.trans h12.constants,
    h23.symbol_table.trans h12.symbol_table,
    fun j hj => (h23.scopes j (by rw [h12.scope_index]; exact hj)).trans (h12.scopes j hj)⟩

theorem same_frame_set_scope (c : compiler) (s : compiler_scope) :
    same_frame c (set_scope c c.scope_index s) :=
  ⟨rfl, rfl, rfl, fun j hj => set_scope_scopes_ne c _ j s hj⟩

theorem same_frame_emit (c : compiler) (op : Nat) (ops : List Nat) :
    same_frame c (compiler_emit c op ops).2 :=
  ⟨rfl, rfl, rfl, fun j hj => compiler_emit_scopes_ne c op ops j hj⟩

theorem same_frame_remove (c : compiler) : same_frame c (compiler_remove_last_instruction c) :=
  same_frame_set_scope c _

theorem same_frame_replace (c : compiler) (pos : Nat) (ins : List Nat) :
    same_frame c (compiler_replace_instruction c pos ins) :=
  same_frame_set_scope c _

theorem same_frame_change_operand (c : compiler) (pos operand : Nat) :
    same_frame c (compiler_change_operand c pos operand) :=
  same_frame_set_scope c _

theorem same_frame_set_last (c : compiler) (op pos : Nat) :
    same_frame c (compiler_set_last_instruction c op pos) :=
  same_frame_set_scope c _

theorem same_frame_replace_last (c : compiler) (ins : List Nat) :
    same_frame c (compiler_replace_last_instruction c ins) :=
  same_frame_trans (same_frame_replace c _ ins) (same_frame_set_last _ _ _)

theorem same_frame_elide_pop (c : compiler) : same_frame c (elide_pop c) := by
  unfold elide_pop
  split
  · exact same_frame_remove c
  · exact same_frame_refl c

/-! ### `compiler_remove_last_instruction` -/

@[simp] theorem compiler_remove_bytes (c : compiler) :
    current_bytes (compiler_remove_last_instruction c) =
      (current_bytes c).take (compiler_current_scope c).last_instruction.position := by
  simp [compiler_remove_last_instruction, current_bytes, compiler_current_instructions,
    compiler_current_scope, set_scope]

@[simp] theorem compiler_remove_last (c : compiler) :
    (compiler_current_scope (compiler_remove_last_instruction c)).last_instruction =
      (compiler_current_scope c).previous_instruction := by
  simp [compiler_remove_last_instruction, compiler_current_scope, set_scope]

/-! ### `compiler_replace_instruction` and `compiler_change_operand` -/

theorem replace_bytes_append (pre old post new : List Nat) (h : old.length = new.length) :
    replace_bytes (pre ++ old ++ post) pre.length new = pre ++ new ++ post := by
  induction new generalizing pre old with
  | nil =>
    have : old = [] := List.length_eq_zero.mp h
    simp [replace_bytes, this]
  | cons b rest ih =>
    cases old with
    | nil => simp at h
    | cons o orest =>
      have h2 : orest.length = rest.length := by simpa using h
      have := ih (pre ++ [b]) orest h2
      simp only [replace_bytes]
      have hset : (pre ++ (o :: orest) ++ post).set pre.length b = (pre ++ [b]) ++ orest ++ post := by
        simp [List.set_append]
      rw [hset]
      have hl : pre.length + 1 = (pre ++ [b]).length := by simp
      rw [hl, this]
      simp

@[simp] theorem compiler_replace_bytes (c : compiler) (pos : Nat) (ins : List Nat) :
    current_bytes (compiler_replace_instruction c pos ins) =
      replace_bytes (current_bytes c) pos ins := by
  simp [compiler_replace_instruction, current_bytes, compiler_current_instructions,
    compiler_current_scope, set_scope]

@[simp] theorem compiler_replace_last_field (c : compiler) (pos : Nat) (ins : List Nat) :
    (compiler_current_scope (compiler_replace_instruction c pos ins)).last_instruction =
      (compiler_current_scope c).last_instruction := by
  simp [compiler_replace_instruction, compiler_current_scope, set_scope]

@[simp] theorem compiler_replace_previous_field (c : compiler) (pos : Nat) (ins : List Nat) :
    (compiler_current_scope (compiler_replace_instruction c pos ins)).previous_instruction =
      (compiler_current_scope c).previous_instruction := by
  simp [compiler_replace_instruction, compiler_current_scope, set_scope]

theorem compiler_change_operand_bytes (c : compiler) (pre post : List Nat) (op x y v : Nat)
    (hw : operand_widths op = [2]) (hb : current_bytes c = pre ++ [op, x, y] ++ post) :
    current_bytes (compiler_change_operand c pre.length v) =
      pre ++ make_instruction op [v] ++ post := by
  have hop : (compiler_current_scope c).instructions.bytes.getD pre.length 0 = op := by
    have hget : (pre ++ [op, x, y] ++ post)[pre.length]? = some op := by
      rw [List.append_assoc, List.getElem?_append_right (le_refl _)]
      simp
    rw [← current_bytes_def, hb, List.getD_eq_getElem?_getD, hget]
    rfl
  unfold compiler_change_operand
  simp only [hop, compiler_replace_bytes, hb]
  apply replace_bytes_append
  simp [make_instruction, hw, make_operands, make_operand]

@[simp] theorem compiler_change_operand_last (c : compiler) (pos v : Nat) :
    (compiler_current_scope (compiler_change_operand c pos v)).last_instruction =
      (compiler_current_scope c).last_instruction := by
  simp [compiler_change_operand]

@[simp] theorem compiler_change_operand_previous (c : compiler) (pos v : Nat) :
    (compiler_current_scope (compiler_change_operand c pos v)).previous_instruction =
      (compiler_current_scope c).previous_instruction := by
  simp [compiler_change_operand]

/-! ### `compiler_last_instruction_is` -/

theorem compiler_last_instruction_is_iff (c : compiler) (op : Nat) :
    compiler_last_instruction_is c op = true ↔
      current_bytes c ≠ [] ∧ (compiler_current_scope c).last_instruction.opcode = op := by
  unfold compiler_last_instruction_is
  by_cases h : (compiler_current_scope c).instructions.size = 0
  · simp [h, current_bytes_def]
    intro h2; exfalso; apply h2
    simpa [instruction.size] using h
  · simp [h, current_bytes_def]
    intro _ h2; apply h; simp [instruction.size, h2]

/-! ### `grows` -/

theorem grows_refl (c : compiler) : grows c c :=
  ⟨rfl, fun _ _ => rfl, List.prefix_refl _, List.prefix_refl _⟩

theorem grows_trans {c1 c2 c3 : compiler} (h12 : grows c1 c2) (h23 : grows c2 c3) :
    grows c1 c3 :=
  ⟨h23.scope_index.trans h12.scope_index,
    fun j hj => (h23.frame j (by rw [h12.scope_index]; exact hj)).trans (h12.frame j hj),
    h12.bytes.trans h23.bytes, h12.constants.trans h23.constants⟩

/-- A step that leaves everything but the current scope alone and keeps the bytes of `c1` as
a prefix of the current buffer. -/
theorem grows_of_same_frame {c1 c2 : compiler} (h : same_frame c1 c2)
    (hb : current_bytes c1 <+: current_bytes c2) : grows c1 c2 :=
  ⟨h.scope_index, fun j hj => h.scopes j (Nat.ne_of_lt hj), hb,
    by rw [h.constants]⟩

theorem grows_emit (c : compiler) (op : Nat) (ops : List Nat) :
    grows c (compiler_emit c op ops).2 :=
  grows_of_same_frame (same_frame_emit c op ops) (by simp)

theorem grows_length_le {c1 c2 : compiler} (h : grows c1 c2) :
    (current_bytes c1).length ≤ (current_bytes c2).length :=
  h.bytes.length_le

/-! ### `last_ok` and `prev_ok` -/

theorem instruction_length_pos (op : Nat) : 0 < instruction_length op := by
  unfold instruction_length; omega

theorem last_ok_mono {n m : Nat} {c : compiler} (h : last_ok n c) (hm : m ≤ n) :
    last_ok m c :=
  ⟨le_trans hm h.1, h.2.1, h.2.2⟩

theorem prev_ok_mono {n m : Nat} {c : compiler} (h : prev_ok n c) (hm : m ≤ n) :
    prev_ok m c :=
  ⟨le_trans hm h.1, h.2.1, h.2.2⟩

theorem last_ok_lt_length {n : Nat} {c : compiler} (h : last_ok n c) :
    n < (current_bytes c).length := by
  have := instruction_length_pos (compiler_current_scope c).last_instruction.opcode
  have h1 := h.1
  have h2 := h.2.2
  omega

theorem operand_widths_cases (op : Nat) :
    operand_widths op = [2] ∨ operand_widths op = [1] ∨ operand_widths op = [] := by
  unfold operand_widths
  split
  · exact Or.inl rfl
  · split
    · exact Or.inr (Or.inl rfl)
    · exact Or.inr (Or.inr rfl)

theorem make_instruction_length (op : Nat) (ops : List Nat)
    (h : ops.length = (operand_widths op).length) :
    (make_instruction op ops).length = instruction_length op := by
  unfold make_instruction instruction_length
  rcases operand_widths_cases op with hw | hw | hw <;> rw [hw] at h ⊢
  · match ops, h with
    | [o], _ => simp [make_operands, make_operand]
  · match ops, h with
    | [o], _ => simp [make_operands, make_operand]
  · match ops, h with
    | [], _ => simp [make_operands]

theorem getElem?_append_cons_length (l r : List Nat) (a : Nat) :
    (l ++ a :: r)[l.length]? = some a := by
  rw [List.getElem?_append_right (le_refl _)]
  simp

/-- After an emit the last instruction is the emitted one, at the end of the buffer. -/
theorem last_ok_emit (c : compiler) (op : Nat) (ops : List Nat)
    (h : ops.length = (operand_widths op).length) :
    last_ok (current_bytes c).length (compiler_emit c op ops).2 := by
  refine ⟨by simp, ?_, ?_⟩
  · simp only [compiler_emit_last, compiler_emit_bytes, make_instruction]
    exact getElem?_append_cons_length _ _ _
  · simp [make_instruction_length op ops h]

/-- After an emit onto a state whose last instruction is in place, the previous instruction
is the one the last instruction follows. -/
theorem prev_ok_emit {n : Nat} {c : compiler} (op : Nat) (ops : List Nat) (h : last_ok n c) :
    prev_ok n (compiler_emit c op ops).2 := by
  refine ⟨by simpa using h.1, ?_, by simpa using h.2.2⟩
  have hlt := h.2.1
  simp only [compiler_emit_previous, compiler_emit_bytes]
  rw [List.getElem?_append_left]
  · exact hlt
  · have := instruction_length_pos (compiler_current_scope c).last_instruction.opcode
    have := h.2.2
    omega

theorem frame_le_refl (c : compiler) : frame_le c c :=
  ⟨rfl, fun _ _ => rfl, List.prefix_refl _⟩

theorem frame_le_trans {c1 c2 c3 : compiler} (h12 : frame_le c1 c2) (h23 : frame_le c2 c3) :
    frame_le c1 c3 :=
  ⟨h23.scope_index.trans h12.scope_index,
    fun j hj => (h23.frame j (by rw [h12.scope_index]; exact hj)).trans (h12.frame j hj),
    h12.constants.trans h23.constants⟩

theorem frame_le_of_same_frame {c1 c2 : compiler} (h : same_frame c1 c2) : frame_le c1 c2 :=
  ⟨h.scope_index, fun j hj => h.scopes j (Nat.ne_of_lt hj), by rw [h.constants]⟩

theorem frame_le_of_grows {c1 c2 : compiler} (h : grows c1 c2) : frame_le c1 c2 :=
  ⟨h.scope_index, h.frame, h.constants⟩

theorem grows_of_frame_le {c1 c2 : compiler} (h : frame_le c1 c2)
    (hb : current_bytes c1 <+: current_bytes c2) : grows c1 c2 :=
  ⟨h.scope_index, h.frame, hb, h.constants⟩

theorem elide_pop_spec {c2 c3 : compiler} (hb : block_ok c2 c3)
    (hne : compiler_last_instruction_is c2 OPCODE_POP = false) :
    current_bytes c2 <+: current_bytes (elide_pop c3) ∧
      (elide_pop c3 = c2 ∨ last_ok (current_bytes c2).length (elide_pop c3)) := by
  unfold elide_pop
  by_cases h : compiler_last_instruction_is c3 OPCODE_POP = true
  · rw [if_pos h]
    rcases hb.2 with heq | ⟨hl, hp⟩
    · rw [heq, hne] at h; exact absurd h (by simp)
    · have hpos : (compiler_current_scope c3).last_instruction.position ≤
          (current_bytes c3).length := by
        have := hl.2.2; omega
      have hlt : (compiler_current_scope c3).previous_instruction.position <
          (compiler_current_scope c3).last_instruction.position := by
        have := instruction_length_pos (compiler_current_scope c3).previous_instruction.opcode
        have := hp.2.2; omega
      refine ⟨?_, Or.inr ⟨?_, ?_, ?_⟩⟩
      · rw [compiler_remove_bytes]
        have h1 : current_bytes c2 = (current_bytes c3).take (current_bytes c2).length :=
          (List.prefix_iff_eq_take.mp hb.1.bytes)
        conv_lhs => rw [h1]
        exact List.take_prefix_take_left _ hl.1
      · simpa using hp.1
      · simp only [compiler_remove_last, compiler_remove_bytes]
        rw [List.getElem?_take_of_lt hlt]
        exact hp.2.1
      · simp only [compiler_remove_last, compiler_remove_bytes, List.length_take]
        rw [min_eq_left hpos]
        exact hp.2.2
  · rw [if_neg h]
    refine ⟨hb.1.bytes, ?_⟩
    rcases hb.2 with heq | ⟨hl, _⟩
    · exact Or.inl heq
    · exact Or.inr hl

theorem operand_widths_jump_not_true : operand_widths OPCODE_JUMP_NOT_TRUE = [2] := by decide
theorem operand_widths_jump : operand_widths OPCODE_JUMP = [2] := by decide

theorem make_instruction_two (op v : Nat) (hw : operand_widths op = [2]) :
    make_instruction op [v] = [op, v / 256 % 256, v % 256] := by
  simp [make_instruction, hw, make_operands, make_operand]

theorem if_enter_last_is (c1 : compiler) :
    compiler_last_instruction_is (if_enter c1) OPCODE_POP = false := by
  rw [Bool.eq_false_iff]
  intro h
  rw [compiler_last_instruction_is_iff] at h
  have := h.2
  simp [if_enter] at this

theorem frame_le_if_enter (c1 : compiler) : frame_le c1 (if_enter c1) :=
  frame_le_of_same_frame (same_frame_emit c1 _ _)

theorem same_frame_if_middle (pos : Nat) (c4 : compiler) : same_frame c4 (if_middle pos c4) :=
  same_frame_trans (same_frame_emit c4 _ _) (same_frame_change_operand _ _ _)

theorem same_frame_if_finish (pos : Nat) (c : compiler) : same_frame c (if_finish pos c) :=
  same_frame_change_operand _ _ _

/-- The first half of `EXPR_IF`: after the consequence, the `JUMP` placeholder and the patch
of `JUMP_NOT_TRUE`. -/
theorem if_middle_spec {c1 c3 : compiler} (h1 : block_ok (if_enter c1) c3) :
    ∃ tA, current_bytes (elide_pop c3) =
        current_bytes c1 ++ make_instruction OPCODE_JUMP_NOT_TRUE [9999] ++ tA ∧
      current_bytes (if_middle (current_bytes c1).length (elide_pop c3)) =
        current_bytes c1 ++
          make_instruction OPCODE_JUMP_NOT_TRUE [(current_bytes (elide_pop c3)).length + 3] ++
          tA ++ make_instruction OPCODE_JUMP [9999] ∧
      (compiler_current_scope (if_middle (current_bytes c1).length
        (elide_pop c3))).last_instruction =
        { opcode := OPCODE_JUMP, position := (current_bytes (elide_pop c3)).length } ∧
      frame_le c1 (if_middle (current_bytes c1).length (elide_pop c3)) := by
  obtain ⟨hpre, _⟩ := elide_pop_spec h1 (if_enter_last_is c1)
  obtain ⟨tA, htA⟩ := hpre
  have h4 : current_bytes (elide_pop c3) =
      current_bytes c1 ++ make_instruction OPCODE_JUMP_NOT_TRUE [9999] ++ tA := by
    rw [← htA]; simp [if_enter]
  refine ⟨tA, h4, ?_, ?_, ?_⟩
  · unfold if_middle
    have h5 : current_bytes (compiler_emit (elide_pop c3) OPCODE_JUMP [9999]).2 =
        current_bytes c1 ++ [OPCODE_JUMP_NOT_TRUE, 9999 / 256 % 256, 9999 % 256] ++
          (tA ++ make_instruction OPCODE_JUMP [9999]) := by
      rw [compiler_emit_bytes, h4, make_instruction_two _ _ operand_widths_jump_not_true]
      simp
    rw [compiler_change_operand_bytes _ _ _ _ _ _ _ operand_widths_jump_not_true h5]
    have hsize : (compiler_current_scope
        (compiler_emit (elide_pop c3) OPCODE_JUMP [9999]).2).instructions.size =
        (current_bytes (elide_pop c3)).length + 3 := by
      rw [instruction.size, ← current_bytes_def, compiler_emit_bytes]
      simp [make_instruction_two _ _ operand_widths_jump]
    rw [hsize]
    simp
  · simp [if_middle]
  · exact frame_le_trans (frame_le_if_enter c1) (frame_le_trans (frame_le_of_grows h1.1)
      (frame_le_trans (frame_le_of_same_frame (same_frame_elide_pop c3))
        (frame_le_of_same_frame (same_frame_if_middle _ _))))

/-- The second half of `EXPR_IF`: from the state `c6` after `if_middle`, through the code of
the alternative (or `NULL`) to the patch of `JUMP`. -/
theorem if_finish_spec {c6 c8 : compiler} (q : List Nat) (pos : Nat) (hq : q.length = pos)
    (h6 : current_bytes c6 = q ++ make_instruction OPCODE_JUMP [9999])
    (hlast : (compiler_current_scope c6).last_instruction =
      { opcode := OPCODE_JUMP, position := pos })
    (hpre : current_bytes c6 <+: current_bytes c8)
    (hl : c8 = c6 ∨ last_ok (current_bytes c6).length c8) :
    ∃ tB, current_bytes c8 = current_bytes c6 ++ tB ∧
      current_bytes (if_finish pos c8) =
        q ++ make_instruction OPCODE_JUMP [(current_bytes (if_finish pos c8)).length] ++ tB ∧
      (current_bytes (if_finish pos c8)).length = (current_bytes c8).length ∧
      last_ok pos (if_finish pos c8) := by
  subst hq
  obtain ⟨tB, htB⟩ := hpre
  have h8 : current_bytes c8 = q ++ [OPCODE_JUMP, 9999 / 256 % 256, 9999 % 256] ++ tB := by
    rw [← htB, h6, make_instruction_two _ _ operand_widths_jump]
  have h9 : ∀ v, current_bytes (compiler_change_operand c8 q.length v) =
      q ++ make_instruction OPCODE_JUMP [v] ++ tB := fun v =>
    compiler_change_operand_bytes _ _ _ _ _ _ _ operand_widths_jump h8
  have hlen : (current_bytes (if_finish q.length c8)).length = (current_bytes c8).length := by
    unfold if_finish
    rw [h9, h8]
    simp [make_instruction_two _ _ operand_widths_jump]
  refine ⟨tB, htB.symm, ?_, hlen, ?_⟩
  · rw [hlen]
    unfold if_finish
    rw [h9, instruction.size, ← current_bytes_def]
  · have hil : instruction_length OPCODE_JUMP = 3 := by decide
    rcases hl with heq | hl
    · subst heq
      have htB0 : tB = [] := by
        have := congrArg List.length htB
        simpa using this
      subst htB0
      refine ⟨?_, ?_, ?_⟩
      · simp [if_finish, hlast]
      · simp only [if_finish, compiler_change_operand_last, hlast, h9,
          make_instruction, List.append_nil]
        exact getElem?_append_cons_length _ _ _
      · rw [hlen]
        simp only [if_finish, compiler_change_operand_last, hlast, hil, h6]
        simp [make_instruction_two _ _ operand_widths_jump]
    · have h6len : (current_bytes c6).length = q.length + 3 := by
        rw [h6]; simp [make_instruction_two _ _ operand_widths_jump]
      have hp := hl.1
      rw [h6len] at hp
      refine ⟨?_, ?_, ?_⟩
      · simp only [if_finish, compiler_change_operand_last]; omega
      · simp only [if_finish, compiler_change_operand_last, h9]
        have hget := hl.2.1
        rw [h8] at hget
        rw [List.getElem?_append_right (by simp [make_instruction_two _ _ operand_widths_jump]; omega)]
        rw [List.getElem?_append_right (by simp; omega)] at hget
        simpa [make_instruction_two _ _ operand_widths_jump] using hget
      · rw [hlen]
        simpa [if_finish] using hl.2.2

/-! ### Constants, scopes and the function literal -/

@[simp] theorem add_constant_fst (c : compiler) (obj : object) :
    (add_constant c obj).1 = c.constants.length := by
  simp [add_constant]

@[simp] theorem add_constant_constants (c : compiler) (obj : object) :
    (add_constant c obj).2.constants = c.constants ++ [obj] := rfl

@[simp] theorem add_constant_scope_index (c : compiler) (obj : object) :
    (add_constant c obj).2.scope_index = c.scope_index := rfl

@[simp] theorem add_constant_scopes (c : compiler) (obj : object) :
    (add_constant c obj).2.scopes = c.scopes := rfl

@[simp] theorem add_constant_symbol_table (c : compiler) (obj : object) :
    (add_constant c obj).2.symbol_table = c.symbol_table := rfl

@[simp] theorem add_constant_bytes (c : compiler) (obj : object) :
    current_bytes (add_constant c obj).2 = current_bytes c := rfl

@[simp] theorem add_constant_current_scope (c : compiler) (obj : object) :
    compiler_current_scope (add_constant c obj).2 = compiler_current_scope c := rfl

theorem grows_add_constant (c : compiler) (obj : object) : grows c (add_constant c obj).2 :=
  ⟨rfl, fun _ _ => rfl, List.prefix_refl _, List.prefix_append _ _⟩

@[simp] theorem define_parameters_scope_index (c : compiler) (ps : List String) :
    (define_parameters c ps).scope_index = c.scope_index := by
  induction ps generalizing c with
  | nil => rfl
  | cons p rest ih => simp [define_parameters, ih]

@[simp] theorem define_parameters_scopes (c : compiler) (ps : List String) :
    (define_parameters c ps).scopes = c.scopes := by
  induction ps generalizing c with
  | nil => rfl
  | cons p rest ih => simp [define_parameters, ih]

@[simp] theorem define_parameters_constants (c : compiler) (ps : List String) :
    (define_parameters c ps).constants = c.constants := by
  induction ps generalizing c with
  | nil => rfl
  | cons p rest ih => simp [define_parameters, ih]

@[simp] theorem function_enter_scope_index (c : compiler) (ps : List String) :
    (function_enter c ps).scope_index = c.scope_index + 1 := by
  simp [function_enter, compiler_enter_scope]

@[simp] theorem function_enter_constants (c : compiler) (ps : List String) :
    (function_enter c ps).constants = c.constants := by
  simp [function_enter, compiler_enter_scope]

theorem function_enter_scopes_ne (c : compiler) (ps : List String) (j : Nat)
    (h : j ≠ c.scope_index + 1) : (function_enter c ps).scopes j = c.scopes j := by
  simp [function_enter, compiler_enter_scope, set_scope, Function.update, h]

@[simp] theorem function_enter_bytes (c : compiler) (ps : List String) :
    current_bytes (function_enter c ps) = [] := by
  simp [function_enter, compiler_enter_scope, set_scope, current_bytes,
    compiler_current_instructions, compiler_current_scope]

/-- The scope that holds the function body while it is compiled. -/
theorem function_finish_spec (c4 : compiler) (idx : Nat) (h : c4.scope_index = idx + 1) :
    (function_finish c4).scope_index = idx ∧
    (∀ j, j ≠ idx → (function_finish c4).scopes j = c4.scopes j) ∧
    current_bytes (function_finish c4) =
      (c4.scopes idx).instructions.bytes ++ make_instruction OPCODE_CONST [c4.constants.length] ∧
    (function_finish c4).constants = c4.constants ++
      [make_compiled_function_object (compiler_current_instructions c4) c4.symbol_table.size] ∧
    (function_finish c4).symbol_table = c4.symbol_table.outer.getD c4.symbol_table ∧
    last_ok ((c4.scopes idx).instructions.bytes).length (function_finish c4) := by
  have hidx : (compiler_leave_scope c4).2.scope_index = idx := by
    simp [compiler_leave_scope, h]
  have hb : current_bytes (add_constant (compiler_leave_scope c4).2
      (make_compiled_function_object (compiler_leave_scope c4).1 c4.symbol_table.size)).2 =
      (c4.scopes idx).instructions.bytes := by
    simp [current_bytes, compiler_current_instructions, compiler_current_scope,
      compiler_leave_scope, h]
  refine ⟨?_, ?_, ?_, ?_, ?_, ?_⟩
  · simp [function_finish, hidx]
  · intro j hj
    unfold function_finish
    rw [compiler_emit_scopes_ne _ _ _ _ (by simpa [hidx] using hj)]
    simp [compiler_leave_scope]
  · unfold function_finish
    rw [compiler_emit_bytes, hb]
    simp [compiler_leave_scope]
  · simp [function_finish, compiler_leave_scope, compiler_current_instructions,
      compiler_current_scope]
  · simp [function_finish, compiler_leave_scope]
  · have := last_ok_emit (add_constant (compiler_leave_scope c4).2
      (make_compiled_function_object (compiler_leave_scope c4).1 c4.symbol_table.size)).2
      OPCODE_CONST [(add_constant (compiler_leave_scope c4).2
      (make_compiled_function_object (compiler_leave_scope c4).1 c4.symbol_table.size)).1]
      (by simp [operand_widths])
    rw [hb] at this
    exact this

theorem same_frame_function_epilogue (c : compiler) : same_frame c (function_epilogue c) := by
  unfold function_epilogue
  split
  · exact same_frame_replace_last c _
  · split
    · exact same_frame_emit c _ _
    · exact same_frame_refl c

/-- Emitting one instruction after a step that grew the state. -/
theorem emit_after {c c2 : compiler} (hg : grows c c2) (op : Nat) (ops : List Nat)
    (h : ops.length = (operand_widths op).length) :
    grows c (compiler_emit c2 op ops).2 ∧
      last_ok (current_bytes c).length (compiler_emit c2 op ops).2 :=
  ⟨grows_trans hg (grows_emit c2 op ops),
    last_ok_mono (last_ok_emit c2 op ops h) (grows_length_le hg)⟩

/-- A statement ends with an emit onto the state its expression left. -/
theorem emit_after_statement {c c2 : compiler} (hg : grows c c2)
    (hl : last_ok (current_bytes c).length c2) (op : Nat) (ops : List Nat)
    (h : ops.length = (operand_widths op).length) :
    grows c (compiler_emit c2 op ops).2 ∧
      last_ok (current_bytes c).length (compiler_emit c2 op ops).2 ∧
      prev_ok (current_bytes c).length (compiler_emit c2 op ops).2 :=
  ⟨(emit_after hg op ops h).1, (emit_after hg op ops h).2, prev_ok_emit op ops hl⟩

theorem block_ok_trans_statement {c c1 c2 : compiler} (h1 : grows c c1)
    (h2 : block_ok c1 c2)
    (hl : last_ok (current_bytes c).length c1) (hp : prev_ok (current_bytes c).length c1) :
    block_ok c c2 := by
  refine ⟨grows_trans h1 h2.1, Or.inr ?_⟩
  rcases h2.2 with heq | ⟨hl2, hp2⟩
  · rw [heq]; exact ⟨hl, hp⟩
  · exact ⟨last_ok_mono hl2 (grows_length_le h1), prev_ok_mono hp2 (grows_length_le h1)⟩

theorem let_opcode_widths (c : compiler) (name : String) :
    [(symbol_table_define c.symbol_table name).1.index].length =
      (operand_widths (let_opcode c name)).length := by
  unfold let_opcode
  split <;> simp [operand_widths]

theorem grows_let_enter (c : compiler) (name : String) : grows c (let_enter c name) :=
  ⟨rfl, fun _ _ => rfl, List.prefix_refl _, List.prefix_refl _⟩

mutual
theorem compile_expression_grows (c : compiler) : (e : expression) →
    (compile_expression c e).1 = 0 →
    grows c (compile_expression c e).2 ∧
      last_ok (current_bytes c).length (compile_expression c e).2
  | EXPR_INFIX op left right => by
    intro h
    rw [compile_expression_infix_eq] at h ⊢
    by_cases h1 : (compile_expression c left).1 = 0
    · have ih1 := compile_expression_grows c left h1
      by_cases h2 : (compile_expression (compile_expression c left).2 right).1 = 0
      · have ih2 := compile_expression_grows _ right h2
        have hg := grows_trans ih1.1 ih2.1
        simp only [h1, h2, ne_eq, not_true_eq_false, if_false] at h ⊢
        cases op <;> first
          | exact emit_after hg _ _ (by decide)
          | exact absurd h (by simp)
      · rw [if_neg (not_not.mpr h1), if_pos h2] at h
        exact absurd h h2
    · rw [if_pos h1] at h
      exact absurd h h1
  | EXPR_PREFIX op right => by
    intro h
    rw [compile_expression_prefix_eq] at h ⊢
    by_cases h1 : (compile_expression c right).1 = 0
    · have ih1 := compile_expression_grows c right h1
      simp only [h1, ne_eq, not_true_eq_false, if_false] at h ⊢
      cases op <;> first
        | exact emit_after ih1.1 _ _ (by decide)
        | exact absurd h (by simp)
    · rw [if_pos h1] at h
      exact absurd h h1
  | EXPR_IF condition consequence alternative => by
    intro h
    rw [compile_expression_if] at h ⊢
    by_cases h1 : (compile_expression c condition).1 = 0
    · have ih1 := compile_expression_grows c condition h1
      by_cases h2 : (compile_block_statement (if_enter (compile_expression c condition).2)
          consequence).1 = 0
      · have ih2 := compile_block_statement_grows _ consequence h2
        obtain ⟨tA, h4, h6, hlast6, hf6⟩ := if_middle_spec ih2
        have hq : ∀ v, (current_bytes (compile_expression c condition).2 ++
            make_instruction OPCODE_JUMP_NOT_TRUE [v] ++ tA).length =
            (current_bytes (elide_pop (compile_block_statement
              (if_enter (compile_expression c condition).2) consequence).2)).length := by
          intro v
          rw [h4]
          simp [make_instruction_two _ _ operand_widths_jump_not_true]
        simp only [h1, h2, ne_eq, not_true_eq_false, if_false] at h ⊢
        cases alternative with
        | some alternative =>
          simp only at h ⊢
          by_cases h3 : (compile_block_statement
              (if_middle (current_bytes (compile_expression c condition).2).length
                (elide_pop (compile_block_statement
                  (if_enter (compile_expression c condition).2) consequence).2))
              alternative).1 = 0
          · have ih3 := compile_block_statement_grows _ alternative h3
            simp only [h3, ne_eq, not_true_eq_false, if_false] at h ⊢
            have hlast_is : compiler_last_instruction_is
                (if_middle (current_bytes (compile_expression c condition).2).length
                  (elide_pop (compile_block_statement
                    (if_enter (compile_expression c condition).2) consequence).2))
                OPCODE_POP = false := by
              rw [Bool.eq_false_iff]
              intro hh
              rw [compiler_last_instruction_is_iff, hlast6] at hh
              have := hh.2
              simp at this
            obtain ⟨hpre, hl8⟩ := elide_pop_spec ih3 hlast_is
            obtain ⟨tB, h8, h9, hlen9, hl9⟩ := if_finish_spec _ _ (hq _) h6 hlast6 hpre hl8
            refine ⟨grows_of_frame_le ?_ ?_, last_ok_mono hl9 ?_⟩
            · exact frame_le_trans (frame_le_of_grows ih1.1) (frame_le_trans hf6
                (frame_le_trans (frame_le_of_grows ih3.1)
                  (frame_le_trans (frame_le_of_same_frame (same_frame_elide_pop _))
                    (frame_le_of_same_frame (same_frame_if_finish _ _)))))
            · rw [h9]
              exact ih1.1.bytes.trans ⟨_, by simp only [List.append_assoc]; rfl⟩
            · rw [h4]
              have := grows_length_le ih1.1
              simp
              omega
          · rw [if_pos h3] at h
            exact absurd h h3
        | none =>
          simp only at h ⊢
          have hpre : current_bytes
              (if_middle (current_bytes (compile_expression c condition).2).length
                (elide_pop (compile_block_statement
                  (if_enter (compile_expression c condition).2) consequence).2)) <+:
              current_bytes (compiler_emit
                (if_middle (current_bytes (compile_expression c condition).2).length
                  (elide_pop (compile_block_statement
                    (if_enter (compile_expression c condition).2) consequence).2))
                OPCODE_NULL []).2 := by simp
          obtain ⟨tB, h8, h9, hlen9, hl9⟩ := if_finish_spec _ _ (hq _) h6 hlast6 hpre
            (Or.inr (last_ok_emit _ _ _ (by decide)))
          refine ⟨grows_of_frame_le ?_ ?_, last_ok_mono hl9 ?_⟩
          · exact frame_le_trans (frame_le_of_grows ih1.1) (frame_le_trans hf6
              (frame_le_trans (frame_le_of_same_frame (same_frame_emit _ _ _))
                (frame_le_of_same_frame (same_frame_if_finish _ _))))
          · rw [h9]
            exact ih1.1.bytes.trans ⟨_, by simp only [List.append_assoc]; rfl⟩
          · rw [h4]
            have := grows_length_le ih1.1
            simp
            omega
      · rw [if_neg (not_not.mpr h1), if_pos h2] at h
        exact absurd h h2
    · rw [if_pos h1] at h
      exact absurd h h1
  | EXPR_INT n => by
    intro _
    rw [compile_expression_int]
    exact emit_after (grows_add_constant c _) _ _ (by simp [operand_widths])
  | EXPR_BOOL b => by
    intro _
    rw [compile_expression_bool]
    cases b
    · exact emit_after (grows_refl c) _ _ (by decide)
    · exact emit_after (grows_refl c) _ _ (by decide)
  | EXPR_STRING str => by
    intro _
    rw [compile_expression_string]
    exact emit_after (grows_add_constant c _) _ _ (by simp [operand_widths])
  | EXPR_IDENT value => by
    intro h
    rw [compile_expression_ident] at h ⊢
    cases hr : symbol_table_resolve c.symbol_table value with
    | none => rw [hr] at h; exact absurd h (by simp)
    | some s =>
      rw [hr] at h
      simp only at h ⊢
      cases hs : s.scope <;> rw [hs] at h <;> simp only at h ⊢ <;> first
        | exact emit_after (grows_refl c) _ _ (by simp [operand_widths])
        | exact absurd h (by simp)
  | EXPR_FUNCTION parameters body => by
    intro h
    rw [compile_expression_function] at h ⊢
    by_cases h1 : (compile_block_statement (function_enter c parameters) body).1 = 0
    · have ih := compile_block_statement_grows _ body h1
      simp only [h1, ne_eq, not_true_eq_false, if_false] at h ⊢
      have hsf := same_frame_function_epilogue
        (compile_block_statement (function_enter c parameters) body).2
      have hidx : (function_epilogue
          (compile_block_statement (function_enter c parameters) body).2).scope_index =
          c.scope_index + 1 := by
        rw [hsf.scope_index, ih.1.scope_index, function_enter_scope_index]
      have hsc : ∀ j, j ≤ c.scope_index → (function_epilogue
          (compile_block_statement (function_enter c parameters) body).2).scopes j =
          c.scopes j := by
        intro j hj
        rw [hsf.scopes j (by rw [ih.1.scope_index, function_enter_scope_index]; omega),
          ih.1.frame j (by rw [function_enter_scope_index]; omega),
          function_enter_scopes_ne _ _ _ (by omega)]
      obtain ⟨f1, f2, f3, f4, _, f6⟩ := function_finish_spec _ _ hidx
      rw [hsc _ (le_refl _)] at f3 f6
      refine ⟨⟨f1, ?_, ?_, ?_⟩, f6⟩
      · intro j hj
        rw [f2 j (by omega), hsc j (by omega)]
      · rw [f3]; exact List.prefix_append _ _
      · rw [f4, hsf.constants]
        have := ih.1.constants
        rw [function_enter_constants] at this
        exact this.trans (List.prefix_append _ _)
    · rw [if_pos h1] at h
      exact absurd h h1
  | EXPR_CALL function arguments => by
    intro h
    rw [compile_expression_call] at h ⊢
    by_cases h1 : (compile_expression c function).1 = 0
    · have ih1 := compile_expression_grows c function h1
      by_cases h2 : (compile_arguments (compile_expression c function).2 0 arguments).1 = 0
      · have ih2 := compile_arguments_grows _ 0 arguments h2
        simp only [h1, h2, ne_eq, not_true_eq_false, if_false] at h ⊢
        exact emit_after (grows_trans ih1.1 ih2) _ _ (by simp [operand_widths])
      · rw [if_neg (not_not.mpr h1), if_pos h2] at h
        exact absurd h h2
    · rw [if_pos h1] at h
      exact absurd h h1
theorem compile_arguments_grows (c : compiler) (i : Nat) : (arguments : List expression) →
    (compile_arguments c i arguments).1 = 0 →
    grows c (compile_arguments c i arguments).2.2
  | [] => by
    intro _
    rw [compile_arguments_nil]
    exact grows_refl c
  | a :: rest => by
    intro h
    rw [compile_arguments_cons] at h ⊢
    by_cases h1 : (compile_expression c a).1 = 0
    · have ih1 := compile_expression_grows c a h1
      simp only [h1, ne_eq, not_true_eq_false, if_false] at h ⊢
      exact grows_trans ih1.1 (compile_arguments_grows _ _ rest h)
    · rw [if_pos h1] at h
      exact absurd h h1
theorem compile_statement_grows (c : compiler) : (s : statement) →
    (compile_statement c s).1 = 0 →
    grows c (compile_statement c s).2 ∧
      last_ok (current_bytes c).length (compile_statement c s).2 ∧
      prev_ok (current_bytes c).length (compile_statement c s).2
  | STMT_EXPR value => by
    intro h
    rw [compile_statement_expr] at h ⊢
    by_cases h1 : (compile_expression c value).1 = 0
    · have ih1 := compile_expression_grows c value h1
      simp only [h1, ne_eq, not_true_eq_false, if_false] at h ⊢
      exact emit_after_statement ih1.1 ih1.2 _ _ (by decide)
    · rw [if_pos h1] at h
      exact absurd h h1
  | STMT_LET name value => by
    intro h
    rw [compile_statement_let] at h ⊢
    by_cases h1 : (compile_expression (let_enter c name) value).1 = 0
    · have ih1 := compile_expression_grows (let_enter c name) value h1
      simp only [h1, ne_eq, not_true_eq_false, if_false] at h ⊢
      exact emit_after_statement (grows_trans (grows_let_enter c name) ih1.1) ih1.2 _ _
        (let_opcode_widths c name)
    · rw [if_pos h1] at h
      exact absurd h h1
  | STMT_RETURN value => by
    intro h
    rw [compile_statement_return] at h ⊢
    by_cases h1 : (compile_expression c value).1 = 0
    · have ih1 := compile_expression_grows c value h1
      simp only [h1, ne_eq, not_true_eq_false, if_false] at h ⊢
      exact emit_after_statement ih1.1 ih1.2 _ _ (by decide)
    · rw [if_pos h1] at h
      exact absurd h h1
theorem compile_block_statement_grows (c : compiler) : (b : List statement) →
    (compile_block_statement c b).1 = 0 →
    block_ok c (compile_block_statement c b).2
  | [] => by
    intro _
    rw [compile_block_statement_nil]
    exact ⟨grows_refl c, Or.inl rfl⟩
  | s :: rest => by
    intro h
    rw [compile_block_statement_cons] at h ⊢
    by_cases h1 : (compile_statement c s).1 = 0
    · have ih1 := compile_statement_grows c s h1
      simp only [h1, ne_eq, not_true_eq_false, if_false] at h ⊢
      exact block_ok_trans_statement ih1.1 (compile_block_statement_grows _ rest h)
        ih1.2.1 ih1.2.2
    · rw [if_pos h1] at h
      exact absurd h h1
end

/-! ### The symbol table during compilation -/

@[simp] theorem symbol_table_define_outer (t : symbol_table) (name : String) :
    (symbol_table_define t name).2.outer = t.outer := rfl

@[simp] theorem symbol_table_define_size (t : symbol_table) (name : String) :
    (symbol_table_define t name).2.size = t.size + 1 := rfl

@[simp] theorem define_parameters_outer (c : compiler) (ps : List String) :
    (define_parameters c ps).symbol_table.outer = c.symbol_table.outer := by
  induction ps generalizing c with
  | nil => rfl
  | cons p rest ih => simp [define_parameters, ih]

@[simp] theorem define_parameters_size (c : compiler) (ps : List String) :
    (define_parameters c ps).symbol_table.size = c.symbol_table.size + ps.length := by
  induction ps generalizing c with
  | nil => rfl
  | cons p rest ih => simp [define_parameters, ih]; omega

@[simp] theorem function_enter_outer (c : compiler) (ps : List String) :
    (function_enter c ps).symbol_table.outer = some c.symbol_table := by
  unfold function_enter
  rw [define_parameters_outer]
  rfl

@[simp] theorem function_enter_size (c : compiler) (ps : List String) :
    (function_enter c ps).symbol_table.size = ps.length := by
  unfold function_enter
  rw [define_parameters_size]
  simp [compiler_enter_scope, symbol_table_new_enclosed, symbol_table.size]

theorem function_finish_symbol_table (c4 : compiler) :
    (function_finish c4).symbol_table = c4.symbol_table.outer.getD c4.symbol_table := by
  simp [function_finish, compiler_leave_scope]

theorem symbol_table_if_middle (pos : Nat) (c : compiler) :
    (if_middle pos c).symbol_table = c.symbol_table :=
  (same_frame_if_middle pos c).symbol_table

theorem symbol_table_if_finish (pos : Nat) (c : compiler) :
    (if_finish pos c).symbol_table = c.symbol_table :=
  (same_frame_if_finish pos c).symbol_table

theorem symbol_table_elide_pop (c : compiler) : (elide_pop c).symbol_table = c.symbol_table :=
  (same_frame_elide_pop c).symbol_table

theorem symbol_table_if_enter (c : compiler) : (if_enter c).symbol_table = c.symbol_table := rfl

theorem symbol_table_function_epilogue (c : compiler) :
    (function_epilogue c).symbol_table = c.symbol_table :=
  (same_frame_function_epilogue c).symbol_table

theorem table_after_refl (t : symbol_table) : table_after 0 t t := ⟨rfl, rfl⟩

theorem table_after_trans {n m : Nat} {t1 t2 t3 : symbol_table} (h12 : table_after n t1 t2)
    (h23 : table_after m t2 t3) : table_after (n + m) t1 t3 :=
  ⟨h23.1.trans h12.1, by rw [h23.2, h12.2]; omega⟩

mutual
theorem compile_expression_table (c : compiler) : (e : expression) →
    (compile_expression c e).1 = 0 →
    table_after (lets_expression e) c.symbol_table (compile_expression c e).2.symbol_table
  | EXPR_INFIX op left right => by
    intro h
    rw [compile_expression_infix_eq] at h ⊢
    by_cases h1 : (compile_expression c left).1 = 0
    · have ih1 := compile_expression_table c left h1
      by_cases h2 : (compile_expression (compile_expression c left).2 right).1 = 0
      · have ih2 := compile_expression_table _ right h2
        simp only [h1, h2, ne_eq, not_true_eq_false, if_false] at h ⊢
        cases op <;> exact table_after_trans ih1 ih2
      · rw [if_neg (not_not.mpr h1), if_pos h2] at h
        exact absurd h h2
    · rw [if_pos h1] at h
      exact absurd h h1
  | EXPR_PREFIX op right => by
    intro h
    rw [compile_expression_prefix_eq] at h ⊢
    by_cases h1 : (compile_expression c right).1 = 0
    · have ih1 := compile_expression_table c right h1
      simp only [h1, ne_eq, not_true_eq_false, if_false] at h ⊢
      cases op <;> exact ih1
    · rw [if_pos h1] at h
      exact absurd h h1
  | EXPR_IF condition consequence alternative => by
    intro h
    rw [compile_expression_if] at h ⊢
    by_cases h1 : (compile_expression c condition).1 = 0
    · have ih1 := compile_expression_table c condition h1
      by_cases h2 : (compile_block_statement (if_enter (compile_expression c condition).2)
          consequence).1 = 0
      · have ih2 := compile_block_statement_table _ consequence h2
        rw [symbol_table_if_enter] at ih2
        simp only [h1, h2, ne_eq, not_true_eq_false, if_false] at h ⊢
        cases alternative with
        | some alternative =>
          simp only at h ⊢
          by_cases h3 : (compile_block_statement
              (if_middle (current_bytes (compile_expression c condition).2).length
                (elide_pop (compile_block_statement
                  (if_enter (compile_expression c condition).2) consequence).2))
              alternative).1 = 0
          · have ih3 := compile_block_statement_table _ alternative h3
            rw [symbol_table_if_middle, symbol_table_elide_pop] at ih3
            simp only [h3, ne_eq, not_true_eq_false, if_false] at h ⊢
            rw [symbol_table_if_finish, symbol_table_elide_pop]
            exact table_after_trans (table_after_trans ih1 ih2) ih3
          · rw [if_pos h3] at h
            exact absurd h h3
        | none =>
          simp only at h ⊢
          rw [symbol_table_if_finish, compiler_emit_symbol_table, symbol_table_if_middle,
            symbol_table_elide_pop]
          have h12 := table_after_trans ih1 ih2
          exact h12
      · rw [if_neg (not_not.mpr h1), if_pos h2] at h
        exact absurd h h2
    · rw [if_pos h1] at h
      exact absurd h h1
  | EXPR_INT n => fun _ => table_after_refl _
  | EXPR_BOOL b => by
    intro _
    rw [compile_expression_bool]
    cases b <;> exact table_after_refl _
  | EXPR_STRING str => fun _ => table_after_refl _
  | EXPR_IDENT value => by
    intro h
    rw [compile_expression_ident] at h ⊢
    cases hr : symbol_table_resolve c.symbol_table value with
    | none => rw [hr] at h; exact absurd h (by simp)
    | some s =>
      rw [hr] at h
      simp only at h ⊢
      cases hs : s.scope <;> exact table_after_refl _
  | EXPR_FUNCTION parameters body => by
    intro h
    rw [compile_expression_function] at h ⊢
    by_cases h1 : (compile_block_statement (function_enter c parameters) body).1 = 0
    · have ih := compile_block_statement_table _ body h1
      simp only [h1, ne_eq, not_true_eq_false, if_false] at h ⊢
      rw [function_finish_symbol_table, symbol_table_function_epilogue, ih.1,
        function_enter_outer]
      exact table_after_refl _
    · rw [if_pos h1] at h
      exact absurd h h1
  | EXPR_CALL function arguments => by
    intro h
    rw [compile_expression_call] at h ⊢
    by_cases h1 : (compile_expression c function).1 = 0
    · have ih1 := compile_expression_table c function h1
      by_cases h2 : (compile_arguments (compile_expression c function).2 0 arguments).1 = 0
      · have ih2 := compile_arguments_table _ 0 arguments h2
        simp only [h1, h2, ne_eq, not_true_eq_false, if_false] at h ⊢
        exact table_after_trans ih1 ih2
      · rw [if_neg (not_not.mpr h1), if_pos h2] at h
        exact absurd h h2
    · rw [if_pos h1] at h
      exact absurd h h1
theorem compile_arguments_table (c : compiler) (i : Nat) : (arguments : List expression) →
    (compile_arguments c i arguments).1 = 0 →
    table_after (lets_arguments arguments) c.symbol_table
      (compile_arguments c i arguments).2.2.symbol_table
  | [] => fun _ => table_after_refl _
  | a :: rest => by
    intro h
    rw [compile_arguments_cons] at h ⊢
    by_cases h1 : (compile_expression c a).1 = 0
    · have ih1 := compile_expression_table c a h1
      simp only [h1, ne_eq, not_true_eq_false, if_false] at h ⊢
      exact table_after_trans ih1 (compile_arguments_table _ _ rest h)
    · rw [if_pos h1] at h
      exact absurd h h1
theorem compile_statement_table (c : compiler) : (s : statement) →
    (compile_statement c s).1 = 0 →
    table_after (lets_statement s) c.symbol_table (compile_statement c s).2.symbol_table
  | STMT_EXPR value => by
    intro h
    rw [compile_statement_expr] at h ⊢
    by_cases h1 : (compile_expression c value).1 = 0
    · have ih1 := compile_expression_table c value h1
      simp only [h1, ne_eq, not_true_eq_false, if_false] at h ⊢
      exact ih1
    · rw [if_pos h1] at h
      exact absurd h h1
  | STMT_LET name value => by
    intro h
    rw [compile_statement_let] at h ⊢
    by_cases h1 : (compile_expression (let_enter c name) value).1 = 0
    · have ih1 := compile_expression_table (let_enter c name) value h1
      simp only [h1, ne_eq, not_true_eq_false, if_false] at h ⊢
      have h0 : table_after 1 c.symbol_table (let_enter c name).symbol_table := ⟨rfl, rfl⟩
      exact table_after_trans h0 ih1
    · rw [if_pos h1] at h
      exact absurd h h1
  | STMT_RETURN value => by
    intro h
    rw [compile_statement_return] at h ⊢
    by_cases h1 : (compile_expression c value).1 = 0
    · have ih1 := compile_expression_table c value h1
      simp only [h1, ne_eq, not_true_eq_false, if_false] at h ⊢
      exact ih1
    · rw [if_pos h1] at h
      exact absurd h h1
theorem compile_block_statement_table (c : compiler) : (b : List statement) →
    (compile_block_statement c b).1 = 0 →
    table_after (lets_block b) c.symbol_table (compile_block_statement c b).2.symbol_table
  | [] => fun _ => table_after_refl _
  | s :: rest => by
    intro h
    rw [compile_block_statement_cons] at h ⊢
    by_cases h1 : (compile_statement c s).1 = 0
    · have ih1 := compile_statement_table c s h1
      simp only [h1, ne_eq, not_true_eq_false, if_false] at h ⊢
      exact table_after_trans ih1 (compile_block_statement_table _ rest h)
    · rw [if_pos h1] at h
      exact absurd h h1
end

/-! ### Decoding what the encoder wrote -/

theorem operand_value_two (op v : Nat) :
    operand_value [op, v / 256 % 256, v % 256] 1 2 = v % 65536 := by
  simp [operand_value]
  omega

theorem operand_value_one (op v : Nat) :
    operand_value [op, v % 256] 1 1 = v % 256 := by
  simp [operand_value]

theorem make_instruction_one (op v : Nat) (hw : operand_widths op = [1]) :
    make_instruction op [v] = [op, v % 256] := by
  simp [make_instruction, hw, make_operands, make_operand]

/-- An emit of an opcode with a two-byte operand appends one instruction whose operand is
the value modulo 65536. -/
theorem appends_instruction_emit_two (c : compiler) (op v : Nat)
    (hw : operand_widths op = [2]) :
    appends_instruction c (compiler_emit c op [v]).2 op 2 (v % 65536) := by
  refine ⟨hw, [v / 256 % 256, v % 256], rfl, ?_, operand_value_two op v⟩
  rw [compiler_emit_bytes, make_instruction_two op v hw]

/-- An emit of an opcode with a one-byte operand appends one instruction whose operand is
the value modulo 256. -/
theorem appends_instruction_emit_one (c : compiler) (op v : Nat)
    (hw : operand_widths op = [1]) :
    appends_instruction c (compiler_emit c op [v]).2 op 1 (v % 256) := by
  refine ⟨hw, [v % 256], rfl, ?_, operand_value_one op v⟩
  rw [compiler_emit_bytes, make_instruction_one op v hw]

/-- The operand of an appended instruction is determined by the two buffers. -/
theorem appends_instruction_unique {c1 c2 : compiler} {op width v w : Nat}
    (h1 : appends_instruction c1 c2 op width v) (h2 : appends_instruction c1 c2 op width w) :
    v = w := by
  obtain ⟨_, o1, _, hb1, hv1⟩ := h1
  obtain ⟨_, o2, _, hb2, hv2⟩ := h2
  rw [hb1] at hb2
  have := List.append_cancel_left hb2
  rw [← hv1, ← hv2, this]

/-! ### C1 -/

theorem int_literal_exact (c : compiler) (n : Int) :
    (compile_expression c (EXPR_INT n)).1 = 0 ∧
    (compile_expression c (EXPR_INT n)).2.constants = c.constants ++ [OBJ_INT n] ∧
    appends_instruction c (compile_expression c (EXPR_INT n)).2 OPCODE_CONST 2
      (c.constants.length % 65536) := by
  rw [compile_expression_int]
  refine ⟨rfl, rfl, ?_⟩
  have := appends_instruction_emit_two (add_constant c (make_integer_object n)).2 OPCODE_CONST
    (add_constant c (make_integer_object n)).1 (by decide)
  simpa [appends_instruction] using this

theorem int_literal_overflow (c : compiler) (n : Int) :
    (compile_expression c (EXPR_INT n)).2.constants_overflow =
      (c.constants_overflow || decide (c.constants_cap ≤ c.constants.length)) := rfl

/-- C1 (amended): for every integer literal `n` and every compiler state in which no object
was stored past the slots of the constant pool, the pool has a free slot and holds fewer than
65536 entries, `compile_expression` succeeds, appends the Integer object `n` to the pool at
index `k`, the previous size of the pool (the earlier entries unchanged), within the slots of
the pool, and appends exactly one instruction `CONST k` to the current buffer, so that the
operand of `CONST` is the index of a pool entry equal to `n`. -/
theorem C1_int_literal (c : compiler) (n : Int) (hov : c.constants_overflow = false)
    (hroom : c.constants.length < c.constants_cap) (h : c.constants.length < 65536) :
    int_literal_claim c n := by
  obtain ⟨h1, h2, h3⟩ := int_literal_exact c n
  rw [Nat.mod_eq_of_lt h] at h3
  refine ⟨h1, h2, h3, ⟨c.constants.length, h3, ?_⟩, ?_⟩
  · rw [h2]
    simp
  · rw [int_literal_overflow, hov]
    simpa using hroom

theorem C1_int_literal_witness :
    compiler_new.constants_overflow = false ∧
    compiler_new.constants.length < compiler_new.constants_cap ∧
    compiler_new.constants.length < 65536 ∧ int_literal_claim compiler_new 5 :=
  ⟨rfl, by decide, by decide, C1_int_literal compiler_new 5 rfl (by decide) (by decide)⟩

/-! ### C3 -/

/-- C3: for an infix expression whose operator is one of `+ - * / == != < >` and whose operands
compile successfully (the left one from the given state, the right one from the state the left
one leaves), the expression compiles successfully and the bytes appended to the current buffer
are the code of the left operand, then the code of the right operand, then one opcode without
operand that depends on the operator alone (`infix_opcode`); `<` is lowered like the others, to
`OPCODE_LESS_THAN`, without swapping the operands. -/
theorem C3_infix_code (c : compiler) (op : operator) (left right : expression) (opcode : Nat)
    (hop : infix_opcode op = some opcode)
    (hl : (compile_expression c left).1 = 0)
    (hr : (compile_expression (compile_expression c left).2 right).1 = 0) :
    (compile_expression c (EXPR_INFIX op left right)).1 = 0 ∧
    operand_widths opcode = [] ∧
    infix_opcode OP_LT = some OPCODE_LESS_THAN ∧
    ∃ code_left code_right,
      current_bytes (compile_expression c left).2 = current_bytes c ++ code_left ∧
      current_bytes (compile_expression (compile_expression c left).2 right).2 =
        current_bytes (compile_expression c left).2 ++ code_right ∧
      current_bytes (compile_expression c (EXPR_INFIX op left right)).2 =
        current_bytes c ++ code_left ++ code_right ++ [opcode] := by
  obtain ⟨code_left, h1⟩ := (compile_expression_grows c left hl).1.bytes
  obtain ⟨code_right, h2⟩ := (compile_expression_grows _ right hr).1.bytes
  rw [compile_expression_infix_eq]
  simp only [hl, hr, ne_eq, not_true_eq_false, if_false]
  cases op <;> simp only [infix_opcode, Option.some.injEq, reduceCtorEq] at hop <;> subst hop <;>
    exact ⟨rfl, by decide, rfl, code_left, code_right, h1.symm, h2.symm, by
      rw [compiler_emit_bytes, ← h2, ← h1]; rfl⟩

theorem C3_infix_code_witness :
    infix_opcode OP_LT = some OPCODE_LESS_THAN ∧
    (compile_expression compiler_new (EXPR_INT 1)).1 = 0 ∧
    (compile_expression (compile_expression compiler_new (EXPR_INT 1)).2 (EXPR_INT 2)).1 = 0 ∧
    (compile_expression compiler_new (EXPR_INFIX OP_LT (EXPR_INT 1) (EXPR_INT 2))).1 = 0 ∧
    current_bytes (compile_expression compiler_new
      (EXPR_INFIX OP_LT (EXPR_INT 1) (EXPR_INT 2))).2 = [0, 0, 0, 0, 0, 1, 24] :=
  ⟨rfl, by decide, by decide,
    (C3_infix_code compiler_new OP_LT (EXPR_INT 1) (EXPR_INT 2) OPCODE_LESS_THAN rfl
      (by decide) (by decide)).1, by decide⟩

/-! ### C9 -/

/-- C9: for an identifier whose name `symbol_table_resolve` does not find in the current table
or an enclosing one, `compile_expression` returns `COMPILE_ERR_UNKNOWN_IDENT`, whose message is
"Undefined variable", and leaves the compiler state, so the instruction buffer and the
constant pool, unchanged. -/
theorem C9_undefined_variable (c : compiler) (name : String)
    (h : symbol_table_resolve c.symbol_table name = none) :
    (compile_expression c (EXPR_IDENT name)).1 = COMPILE_ERR_UNKNOWN_IDENT ∧
    compiler_error_str (compile_expression c (EXPR_IDENT name)).1 = "Undefined variable" ∧
    (compile_expression c (EXPR_IDENT name)).2 = c ∧
    current_bytes (compile_expression c (EXPR_IDENT name)).2 = current_bytes c ∧
    (compile_expression c (EXPR_IDENT name)).2.constants = c.constants := by
  rw [compile_expression_ident, h]
  exact ⟨rfl, rfl, rfl, rfl, rfl⟩

theorem C9_undefined_variable_witness :
    symbol_table_resolve compiler_new.symbol_table "x" = none ∧
    (compile_expression compiler_new (EXPR_IDENT "x")).1 = COMPILE_ERR_UNKNOWN_IDENT :=
  ⟨by decide, (C9_undefined_variable compiler_new "x" (by decide)).1⟩

/-! ### C10 -/

/-- C10: when the operands compile successfully, an infix expression whose operator is not one
of `+ - * / == != < >` and a prefix expression whose operator is not one of `- !` return
`COMPILE_ERR_UNKNOWN_OPERATOR` ("Unknown operator") and leave the state as the operands left
it, so no opcode is emitted for the operator; with an operator of the accepted set the
expression compiles successfully, so that error is not returned. -/
theorem C10_unknown_operator (c : compiler) (op : operator) (left right operand : expression)
    (hl : (compile_expression c left).1 = 0)
    (hr : (compile_expression (compile_expression c left).2 right).1 = 0)
    (ho : (compile_expression c operand).1 = 0) :
    compiler_error_str COMPILE_ERR_UNKNOWN_OPERATOR = "Unknown operator" ∧
    (op ∉ infix_operators →
      (compile_expression c (EXPR_INFIX op left right)).1 = COMPILE_ERR_UNKNOWN_OPERATOR ∧
      (compile_expression c (EXPR_INFIX op left right)).2 =
        (compile_expression (compile_expression c left).2 right).2) ∧
    (op ∈ infix_operators →
      (compile_expression c (EXPR_INFIX op left right)).1 = 0) ∧
    (op ∉ prefix_operators →
      (compile_expression c (EXPR_PREFIX op operand)).1 = COMPILE_ERR_UNKNOWN_OPERATOR ∧
      (compile_expression c (EXPR_PREFIX op operand)).2 = (compile_expression c operand).2) ∧
    (op ∈ prefix_operators →
      (compile_expression c (EXPR_PREFIX op operand)).1 = 0) := by
  rw [compile_expression_infix_eq, compile_expression_prefix_eq]
  simp only [hl, hr, ho, ne_eq, not_true_eq_false, if_false]
  refine ⟨by decide, ?_, ?_, ?_, ?_⟩ <;> cases op <;>
    simp [infix_operators, prefix_operators]

theorem C10_unknown_operator_witness :
    (compile_expression compiler_new (EXPR_INT 1)).1 = 0 ∧
    (compile_expression (compile_expression compiler_new (EXPR_INT 1)).2 (EXPR_INT 2)).1 = 0 ∧
    (compile_expression compiler_new (EXPR_BOOL true)).1 = 0 ∧
    (compile_expression compiler_new (EXPR_INFIX OP_NEGATE (EXPR_INT 1) (EXPR_INT 2))).1 =
      COMPILE_ERR_UNKNOWN_OPERATOR ∧
    (compile_expression compiler_new (EXPR_PREFIX OP_NEGATE (EXPR_BOOL true))).1 = 0 :=
  ⟨by decide, by decide, by decide,
    ((C10_unknown_operator compiler_new OP_NEGATE (EXPR_INT 1) (EXPR_INT 2) (EXPR_BOOL true)
      (by decide) (by decide) (by decide)).2.1 (by decide)).1,
    (C10_unknown_operator compiler_new OP_NEGATE (EXPR_INT 1) (EXPR_INT 2) (EXPR_BOOL true)
      (by decide) (by decide) (by decide)).2.2.2.2 (by decide)⟩

/-! ### Resolving a name that was just defined -/

theorem symbol_table_resolve_mk (store : List symbol) (size : Nat)
    (outer : Option symbol_table) (name : String) :
    symbol_table_resolve (symbol_table.mk store size outer) name =
      (symbol_table_lookup store name).orElse fun _ =>
        match outer with
        | none => none
        | some o =>
          (symbol_table_resolve o name).filter
            fun s => s.scope = SCOPE_GLOBAL ∨ s.scope = SCOPE_BUILTIN := by
  cases outer <;> rfl

theorem symbol_table_resolve_found (store : List symbol) (size : Nat)
    (outer : Option symbol_table) (name : String) (s : symbol)
    (h : symbol_table_lookup store name = some s) :
    symbol_table_resolve (symbol_table.mk store size outer) name = some s := by
  rw [symbol_table_resolve_mk, h]
  rfl

theorem symbol_table_resolve_define (t : symbol_table) (name : String) :
    symbol_table_resolve (symbol_table_define t name).2 name =
      some (symbol_table_define t name).1 := by
  apply symbol_table_resolve_found
  simp [symbol_table_lookup, symbol_table_define]

theorem symbol_table_define_index (t : symbol_table) (name : String) :
    (symbol_table_define t name).1.index = t.size := rfl

/-! ### C8 -/

theorem ident_exact (c : compiler) (name : String) (s : symbol)
    (h : symbol_table_resolve c.symbol_table name = some s) :
    (s.scope = SCOPE_GLOBAL →
      (compile_expression c (EXPR_IDENT name)).1 = 0 ∧
      appends_instruction c (compile_expression c (EXPR_IDENT name)).2
        OPCODE_GET_GLOBAL 2 (s.index % 65536)) ∧
    (s.scope = SCOPE_LOCAL →
      (compile_expression c (EXPR_IDENT name)).1 = 0 ∧
      appends_instruction c (compile_expression c (EXPR_IDENT name)).2
        OPCODE_GET_LOCAL 1 (s.index % 256)) ∧
    (s.scope = SCOPE_BUILTIN →
      (compile_expression c (EXPR_IDENT name)).1 = 0 ∧
      appends_instruction c (compile_expression c (EXPR_IDENT name)).2
        OPCODE_GET_BUILTIN 1 (s.index % 256)) ∧
    (s.scope = SCOPE_FUNCTION →
      compile_expression c (EXPR_IDENT name) = (COMPILE_ERR_UNKNOWN_IDENT, c)) := by
  rw [compile_expression_ident, h]
  refine ⟨?_, ?_, ?_, ?_⟩ <;> intro hs <;> simp only [hs]
  · exact ⟨trivial, appends_instruction_emit_two c _ _ (by decide)⟩
  · exact ⟨trivial, appends_instruction_emit_one c _ _ (by decide)⟩
  · exact ⟨trivial, appends_instruction_emit_one c _ _ (by decide)⟩

/-- C8 (amended): for an identifier whose name resolves to a symbol `s` whose index fits the
operand width (below 65536 for a global, below 256 for a local or a built-in),
`compile_expression` appends exactly one instruction chosen by the scope kind of `s` and
carrying `s.index`: `GET_GLOBAL` for global, `GET_LOCAL` for local, `GET_BUILTIN` for
built-in; in a fresh compiler `puts` compiles to `GET_BUILTIN 0` and `len` to `GET_BUILTIN 1`. -/
theorem C8_identifier (c : compiler) (name : String) (s : symbol)
    (hfit : s.index < symbol_index_bound s) :
    ident_claim c name s ∧
    current_bytes (compile_expression compiler_new (EXPR_IDENT "puts")).2 =
      [OPCODE_GET_BUILTIN, 0] ∧
    current_bytes (compile_expression compiler_new (EXPR_IDENT "len")).2 =
      [OPCODE_GET_BUILTIN, 1] := by
  refine ⟨?_, by decide, by decide⟩
  intro h
  obtain ⟨hg, hloc, hb, _⟩ := ident_exact c name s h
  unfold symbol_index_bound at hfit
  refine ⟨fun hs => ?_, fun hs => ?_, fun hs => ?_⟩
  · have := hg hs
    rw [if_pos hs] at hfit
    rwa [Nat.mod_eq_of_lt hfit] at this
  · have := hloc hs
    rw [if_neg (by rw [hs]; decide)] at hfit
    rwa [Nat.mod_eq_of_lt hfit] at this
  · have := hb hs
    rw [if_neg (by rw [hs]; decide)] at hfit
    rwa [Nat.mod_eq_of_lt hfit] at this

theorem C8_identifier_witness :
    (1 : Nat) < symbol_index_bound { name := "len", scope := SCOPE_BUILTIN, index := 1 } ∧
    symbol_table_resolve compiler_new.symbol_table "len" =
      some { name := "len", scope := SCOPE_BUILTIN, index := 1 } ∧
    ident_claim compiler_new "len" { name := "len", scope := SCOPE_BUILTIN, index := 1 } :=
  ⟨by decide, by decide,
    (C8_identifier compiler_new "len" { name := "len", scope := SCOPE_BUILTIN, index := 1 }
      (by decide)).1⟩

/-- C8 as stated fails: in the body of a function literal with 256 parameters, after
`let x = ...` the identifier `x` resolves to the local symbol of index 256, but the operand
byte of the emitted `GET_LOCAL` holds 0. -/
theorem C8_counterexample :
    ¬ ident_claim (let_enter (function_enter compiler_new (List.replicate 256 "p")) "x") "x"
      { name := "x", scope := SCOPE_LOCAL, index := 256 } := by
  intro h
  have hsym : (symbol_table_define
      (function_enter compiler_new (List.replicate 256 "p")).symbol_table "x").1 =
      { name := "x", scope := SCOPE_LOCAL, index := 256 } := by
    show ({ name := "x"
            scope := if (function_enter compiler_new
              (List.replicate 256 "p")).symbol_table.outer.isNone then SCOPE_GLOBAL
              else SCOPE_LOCAL
            index := (function_enter compiler_new
              (List.replicate 256 "p")).symbol_table.size } : symbol) = _
    rw [function_enter_outer, function_enter_size, List.length_replicate]
    rfl
  have hres : symbol_table_resolve
      (let_enter (function_enter compiler_new (List.replicate 256 "p")) "x").symbol_table "x" =
      some { name := "x", scope := SCOPE_LOCAL, index := 256 } := by
    rw [← hsym]
    exact symbol_table_resolve_define _ _
  have h1 := ((h hres).2.1 rfl).2
  have h2 := ((ident_exact _ _ _ hres).2.1 rfl).2
  exact absurd (appends_instruction_unique h1 h2) (by decide)

/-! ### C7 -/

theorem let_exact (c : compiler) (name : String) (e : expression)
    (h : (compile_expression (let_enter c name) e).1 = 0) :
    (compile_statement c (STMT_LET name e)).1 = 0 ∧
    symbol_table_resolve (let_enter c name).symbol_table name =
      some (symbol_table_define c.symbol_table name).1 ∧
    current_bytes c <+: current_bytes (compile_expression (let_enter c name) e).2 ∧
    (c.symbol_table.outer.isNone = true →
      (symbol_table_define c.symbol_table name).1.scope = SCOPE_GLOBAL ∧
      appends_instruction (compile_expression (let_enter c name) e).2
        (compile_statement c (STMT_LET name e)).2 OPCODE_SET_GLOBAL 2
        (c.symbol_table.size % 65536)) ∧
    (c.symbol_table.outer.isNone = false →
      (symbol_table_define c.symbol_table name).1.scope = SCOPE_LOCAL ∧
      appends_instruction (compile_expression (let_enter c name) e).2
        (compile_statement c (STMT_LET name e)).2 OPCODE_SET_LOCAL 1
        (c.symbol_table.size % 256)) := by
  have hg := (compile_expression_grows (let_enter c name) e h).1.bytes
  rw [compile_statement_let]
  simp only [h, ne_eq, not_true_eq_false, if_false]
  refine ⟨trivial, symbol_table_resolve_define _ _, hg, fun ho => ?_, fun ho => ?_⟩
  · have hs : (symbol_table_define c.symbol_table name).1.scope = SCOPE_GLOBAL := by
      simp [symbol_table_define, ho]
    refine ⟨hs, ?_⟩
    have hop : let_opcode c name = OPCODE_SET_GLOBAL := by simp [let_opcode, hs]
    rw [hop, symbol_table_define_index]
    exact appends_instruction_emit_two _ _ _ (by decide)
  · have hs : (symbol_table_define c.symbol_table name).1.scope = SCOPE_LOCAL := by
      simp [symbol_table_define, ho]
    refine ⟨hs, ?_⟩
    have hop : let_opcode c name = OPCODE_SET_LOCAL := by simp [let_opcode, hs]
    rw [hop, symbol_table_define_index]
    exact appends_instruction_emit_one _ _ _ (by decide)

/-- C7 (amended): for a let statement `let name = e` whose right-hand side compiles
successfully, in a table whose count fits the operand width of the store (below 65536 in a
table without outer table, below 256 inside a function literal), `compile_statement` defines
`name` in the current symbol table and appends the code of `e` followed by exactly one store
instruction carrying the index of the new symbol: `SET_GLOBAL` when the scope of the symbol is
global (the current table has no outer table) and `SET_LOCAL` otherwise.  Nothing else, in
particular no `POP`, is emitted. -/
theorem C7_let_statement (c : compiler) (name : String) (e : expression)
    (hfit : c.symbol_table.size < let_index_bound c.symbol_table) :
    let_claim c name e := by
  intro h
  obtain ⟨h1, h2, h3, h4, h5⟩ := let_exact c name e h
  unfold let_index_bound at hfit
  refine ⟨h1, h2, h3, fun ho => ?_, fun ho => ?_⟩
  · have := h4 ho
    rw [ho, if_pos rfl] at hfit
    rwa [Nat.mod_eq_of_lt hfit, ← symbol_table_define_index _ name] at this
  · have := h5 ho
    rw [ho, if_neg (by decide)] at hfit
    rwa [Nat.mod_eq_of_lt hfit, ← symbol_table_define_index _ name] at this

theorem C7_let_statement_witness :
    compiler_new.symbol_table.size < let_index_bound compiler_new.symbol_table ∧
    (compile_expression (let_enter compiler_new "a") (EXPR_INT 5)).1 = 0 ∧
    let_claim compiler_new "a" (EXPR_INT 5) ∧
    current_bytes (compile_statement compiler_new (STMT_LET "a" (EXPR_INT 5))).2 =
      [OPCODE_CONST, 0, 0, OPCODE_SET_GLOBAL, 0, 0] :=
  ⟨by decide, by decide, C7_let_statement compiler_new "a" (EXPR_INT 5) (by decide),
    by decide⟩

/-- C7 as stated fails: in the body of a function literal with 256 parameters, `let x = 1`
defines the local symbol of index 256, but the operand byte of the emitted `SET_LOCAL`
holds 0. -/
theorem C7_counterexample :
    ¬ let_claim (function_enter compiler_new (List.replicate 256 "p")) "x" (EXPR_INT 1) := by
  intro h
  have hok : (compile_expression
      (let_enter (function_enter compiler_new (List.replicate 256 "p")) "x")
      (EXPR_INT 1)).1 = 0 := rfl
  have ho : (function_enter compiler_new
      (List.replicate 256 "p")).symbol_table.outer.isNone = false := by
    rw [function_enter_outer]; rfl
  have h1 := ((h hok).2.2.2.2 ho).2
  have h2 := ((let_exact _ _ _ hok).2.2.2.2 ho).2
  have h3 := appends_instruction_unique h1 h2
  rw [symbol_table_define_index, function_enter_size, List.length_replicate] at h3
  exact absurd h3 (by decide)

/-! ### C5 and C6 -/

/-- C5: after a function literal compiles successfully (whatever its body contains, nested
function literals and let statements included), the current symbol table of the compiler is
the table it had before the literal, so with the same bindings and the same size, every name
resolves as before (names defined inside the body are not visible), and `scope_index` has its
previous value. -/
theorem C5_scope_restored (c : compiler) (parameters : List String) (body : List statement)
    (h : (compile_expression c (EXPR_FUNCTION parameters body)).1 = 0) :
    (compile_expression c (EXPR_FUNCTION parameters body)).2.symbol_table = c.symbol_table ∧
    (compile_expression c (EXPR_FUNCTION parameters body)).2.symbol_table.store =
      c.symbol_table.store ∧
    (compile_expression c (EXPR_FUNCTION parameters body)).2.symbol_table.size =
      c.symbol_table.size ∧
    (∀ name, symbol_table_resolve
        (compile_expression c (EXPR_FUNCTION parameters body)).2.symbol_table name =
      symbol_table_resolve c.symbol_table name) ∧
    (compile_expression c (EXPR_FUNCTION parameters body)).2.scope_index = c.scope_index := by
  have hidx := (compile_expression_grows c _ h).1.scope_index
  have ht : (compile_expression c (EXPR_FUNCTION parameters body)).2.symbol_table =
      c.symbol_table := by
    rw [compile_expression_function] at h ⊢
    by_cases h1 : (compile_block_statement (function_enter c parameters) body).1 = 0
    · have ih := compile_block_statement_table _ body h1
      simp only [h1, ne_eq, not_true_eq_false, if_false]
      rw [function_finish_symbol_table, symbol_table_function_epilogue, ih.1,
        function_enter_outer]
      rfl
    · rw [if_pos h1] at h
      exact absurd h h1
  rw [ht]
  exact ⟨rfl, rfl, rfl, fun _ => rfl, hidx⟩

theorem C5_scope_restored_witness :
    (compile_expression compiler_new
      (EXPR_FUNCTION ["x"]
        [STMT_LET "y" (EXPR_FUNCTION ["z"] [STMT_EXPR (EXPR_IDENT "z")]),
          STMT_EXPR (EXPR_IDENT "y")])).1 = 0 ∧
    symbol_table_resolve (compile_expression compiler_new
      (EXPR_FUNCTION ["x"]
        [STMT_LET "y" (EXPR_FUNCTION ["z"] [STMT_EXPR (EXPR_IDENT "z")]),
          STMT_EXPR (EXPR_IDENT "y")])).2.symbol_table "y" = none :=
  ⟨by decide,
    ((C5_scope_restored compiler_new ["x"]
      [STMT_LET "y" (EXPR_FUNCTION ["z"] [STMT_EXPR (EXPR_IDENT "z")]),
        STMT_EXPR (EXPR_IDENT "y")] (by decide)).2.2.2.1 "y").trans (by decide)⟩

/-- The compiled-function object that a successfully compiled function literal adds to the
constant pool, as the last constant: the buffer of the function scope after the epilogue, and
the count of the enclosed table before the scope is left. -/
theorem function_object (c : compiler) (parameters : List String) (body : List statement)
    (h : (compile_block_statement (function_enter c parameters) body).1 = 0) :
    (compile_expression c (EXPR_FUNCTION parameters body)).1 = 0 ∧
    (compile_expression c (EXPR_FUNCTION parameters body)).2.constants =
      (compile_block_statement (function_enter c parameters) body).2.constants ++
      [OBJ_COMPILED_FUNCTION
        (compiler_current_instructions (function_epilogue
          (compile_block_statement (function_enter c parameters) body).2))
        (function_epilogue
          (compile_block_statement (function_enter c parameters) body).2).symbol_table.size] := by
  rw [compile_expression_function]
  simp only [h, ne_eq, not_true_eq_false, if_false]
  refine ⟨trivial, ?_⟩
  have hsf := same_frame_function_epilogue
    (compile_block_statement (function_enter c parameters) body).2
  rw [← hsf.constants]
  simp [function_finish, compiler_leave_scope, compiler_current_instructions,
    compiler_current_scope, make_compiled_function_object]

/-- C6: the `num_locals` stored in the compiled-function object of a successfully compiled
function literal is the count of the enclosed symbol table read before the scope is left, and
that count is the number of parameters plus the number of let statements of the body that are
not inside a nested function literal (`lets_block`).  `fn(x, y) { let z = x + y; z }` has
`num_locals` 3. -/
theorem C6_num_locals (c : compiler) (parameters : List String) (body : List statement)
    (h : (compile_expression c (EXPR_FUNCTION parameters body)).1 = 0) :
    (∃ ins, (compile_expression c (EXPR_FUNCTION parameters body)).2.constants.getLast? =
      some (OBJ_COMPILED_FUNCTION ins (parameters.length + lets_block body))) ∧
    (function_epilogue
      (compile_block_statement (function_enter c parameters) body).2).symbol_table.size =
      parameters.length + lets_block body ∧
    (compile_expression compiler_new
      (EXPR_FUNCTION ["x", "y"]
        [STMT_LET "z" (EXPR_INFIX OP_ADD (EXPR_IDENT "x") (EXPR_IDENT "y")),
          STMT_EXPR (EXPR_IDENT "z")])).2.constants =
      [OBJ_COMPILED_FUNCTION
        { bytes := [OPCODE_GET_LOCAL, 0, OPCODE_GET_LOCAL, 1, OPCODE_ADD, OPCODE_SET_LOCAL, 2,
            OPCODE_GET_LOCAL, 2, OPCODE_RETURN_VALUE], cap := 1024 } 3] := by
  have h1 : (compile_block_statement (function_enter c parameters) body).1 = 0 := by
    rw [compile_expression_function] at h
    by_contra hne
    rw [if_pos hne] at h
    exact hne h
  have hsize : (function_epilogue
      (compile_block_statement (function_enter c parameters) body).2).symbol_table.size =
      parameters.length + lets_block body := by
    rw [symbol_table_function_epilogue, (compile_block_statement_table _ body h1).2,
      function_enter_size]
  refine ⟨⟨compiler_current_instructions (function_epilogue
    (compile_block_statement (function_enter c parameters) body).2), ?_⟩, hsize, by decide!⟩
  rw [(function_object c parameters body h1).2, hsize]
  simp

theorem C6_num_locals_witness :
    (compile_expression compiler_new
      (EXPR_FUNCTION ["a"] [STMT_LET "b" (EXPR_IDENT "a"),
        STMT_EXPR (EXPR_FUNCTION [] [STMT_LET "c" (EXPR_INT 1)])])).1 = 0 ∧
    ∃ ins, (compile_expression compiler_new
      (EXPR_FUNCTION ["a"] [STMT_LET "b" (EXPR_IDENT "a"),
        STMT_EXPR (EXPR_FUNCTION [] [STMT_LET "c" (EXPR_INT 1)])])).2.constants.getLast? =
      some (OBJ_COMPILED_FUNCTION ins 2) :=
  ⟨by decide,
    (C6_num_locals compiler_new ["a"] [STMT_LET "b" (EXPR_IDENT "a"),
      STMT_EXPR (EXPR_FUNCTION [] [STMT_LET "c" (EXPR_INT 1)])] (by decide)).1⟩

/-! ### C4 -/

theorem eq_take_append_of_getElem? {l : List Nat} {p a : Nat} (h : l[p]? = some a)
    (hlen : p + 1 = l.length) : l = l.take p ++ [a] := by
  have hp : p < l.length := by omega
  rw [List.getElem?_eq_getElem hp, Option.some.injEq] at h
  conv_lhs => rw [← List.take_append_drop p l]
  congr 1
  rw [List.drop_eq_getElem_cons hp, h, List.drop_of_length_le (by omega)]

@[simp] theorem compiler_set_last_bytes (c : compiler) (op pos : Nat) :
    current_bytes (compiler_set_last_instruction c op pos) = current_bytes c := by
  simp [compiler_set_last_instruction, current_bytes, compiler_current_instructions,
    compiler_current_scope, set_scope]

theorem compiler_replace_last_bytes (c : compiler) (ins : List Nat) :
    current_bytes (compiler_replace_last_instruction c ins) =
      replace_bytes (current_bytes c) (compiler_current_scope c).last_instruction.position
        ins := by
  simp [compiler_replace_last_instruction]

/-- A block compiled in an empty buffer leaves the last instruction in place as soon as the
buffer is not empty. -/
theorem last_ok_of_block {c1 c3 : compiler} (hb : block_ok c1 c3)
    (hne : current_bytes c3 ≠ []) (h1 : current_bytes c1 = []) : last_ok 0 c3 := by
  rcases hb.2 with heq | ⟨hl, _⟩
  · rw [heq] at hne; exact absurd h1 hne
  · exact last_ok_mono hl (Nat.zero_le _)

/-- When the last instruction is in place and has no operand, the buffer ends with its
opcode. -/
theorem bytes_end_of_last_ok {c : compiler} (hl : last_ok 0 c) (op : Nat)
    (hop : (compiler_current_scope c).last_instruction.opcode = op)
    (hw : instruction_length op = 1) :
    current_bytes c =
      (current_bytes c).take (compiler_current_scope c).last_instruction.position ++ [op] := by
  have h2 := hl.2.1
  have h3 := hl.2.2
  rw [hop] at h2 h3
  rw [hw] at h3
  exact eq_take_append_of_getElem? h2 h3

/-- C4: for a function literal whose body compiles successfully, the instruction buffer stored
in the compiled-function object (the last constant of the pool afterwards) is: the code of the
body with its trailing `POP` overwritten by `RETURN_VALUE` when the last emitted instruction of
the body is `POP`; the code of the body unchanged when it is `RETURN_VALUE`; the code of the
body followed by `RETURN` otherwise (an empty body gives just `RETURN`).  In every case the
buffer ends with `RETURN_VALUE` or `RETURN`. -/
theorem C4_function_epilogue (c : compiler) (parameters : List String) (body : List statement)
    (h : (compile_block_statement (function_enter c parameters) body).1 = 0) :
    (compile_expression c (EXPR_FUNCTION parameters body)).1 = 0 ∧
    ∃ ins num_locals,
      (compile_expression c (EXPR_FUNCTION parameters body)).2.constants.getLast? =
        some (OBJ_COMPILED_FUNCTION ins num_locals) ∧
      (compiler_last_instruction_is (function_body_state c parameters body) OPCODE_POP = true →
        ∃ init, current_bytes (function_body_state c parameters body) = init ++ [OPCODE_POP] ∧
          ins.bytes = init ++ [OPCODE_RETURN_VALUE]) ∧
      (compiler_last_instruction_is (function_body_state c parameters body) OPCODE_POP = false →
        compiler_last_instruction_is (function_body_state c parameters body)
          OPCODE_RETURN_VALUE = true →
        (∃ init, current_bytes (function_body_state c parameters body) =
          init ++ [OPCODE_RETURN_VALUE]) ∧
        ins.bytes = current_bytes (function_body_state c parameters body)) ∧
      (compiler_last_instruction_is (function_body_state c parameters body) OPCODE_POP = false →
        compiler_last_instruction_is (function_body_state c parameters body)
          OPCODE_RETURN_VALUE = false →
        ins.bytes = current_bytes (function_body_state c parameters body) ++ [OPCODE_RETURN]) ∧
      (body = [] → ins.bytes = [OPCODE_RETURN]) ∧
      (ins.bytes.getLast? = some OPCODE_RETURN_VALUE ∨
        ins.bytes.getLast? = some OPCODE_RETURN) := by
  obtain ⟨hok, hconst⟩ := function_object c parameters body h
  have hb : block_ok (function_enter c parameters) (function_body_state c parameters body) :=
    compile_block_statement_grows _ body h
  change (compile_expression c (EXPR_FUNCTION parameters body)).2.constants =
    (function_body_state c parameters body).constants ++
      [OBJ_COMPILED_FUNCTION
        (compiler_current_instructions
          (function_epilogue (function_body_state c parameters body)))
        (function_epilogue (function_body_state c parameters body)).symbol_table.size] at hconst
  have hempty : current_bytes (function_enter c parameters) = [] := function_enter_bytes _ _
  -- the three cases of the epilogue
  have hpop : compiler_last_instruction_is (function_body_state c parameters body)
      OPCODE_POP = true →
      ∃ init, current_bytes (function_body_state c parameters body) = init ++ [OPCODE_POP] ∧
        current_bytes (function_epilogue (function_body_state c parameters body)) =
          init ++ [OPCODE_RETURN_VALUE] := by
    intro hp
    have hp' := (compiler_last_instruction_is_iff _ _).mp hp
    have hl := last_ok_of_block hb hp'.1 hempty
    have hshape := bytes_end_of_last_ok hl OPCODE_POP hp'.2 (by decide)
    refine ⟨_, hshape, ?_⟩
    unfold function_epilogue
    rw [if_pos hp, compiler_replace_last_bytes]
    have hrep := replace_bytes_append
      ((current_bytes (function_body_state c parameters body)).take
        (compiler_current_scope (function_body_state c parameters body)).last_instruction.position)
      [OPCODE_POP] [] (make_instruction OPCODE_RETURN_VALUE []) (by decide)
    rw [List.append_nil, ← hshape, List.length_take, min_eq_left (by
      have := hl.2.2; omega)] at hrep
    rw [hrep]
    simp [make_instruction, operand_widths, make_operands]
  have hrv : compiler_last_instruction_is (function_body_state c parameters body)
      OPCODE_POP = false →
      compiler_last_instruction_is (function_body_state c parameters body)
        OPCODE_RETURN_VALUE = true →
      (∃ init, current_bytes (function_body_state c parameters body) =
        init ++ [OPCODE_RETURN_VALUE]) ∧
      current_bytes (function_epilogue (function_body_state c parameters body)) =
        current_bytes (function_body_state c parameters body) := by
    intro hp hr
    have hr' := (compiler_last_instruction_is_iff _ _).mp hr
    have hl := last_ok_of_block hb hr'.1 hempty
    refine ⟨⟨_, bytes_end_of_last_ok hl OPCODE_RETURN_VALUE hr'.2 (by decide)⟩, ?_⟩
    unfold function_epilogue
    simp [hp, hr]
  have hret : compiler_last_instruction_is (function_body_state c parameters body)
      OPCODE_POP = false →
      compiler_last_instruction_is (function_body_state c parameters body)
        OPCODE_RETURN_VALUE = false →
      current_bytes (function_epilogue (function_body_state c parameters body)) =
        current_bytes (function_body_state c parameters body) ++ [OPCODE_RETURN] := by
    intro hp hr
    unfold function_epilogue
    simp [hp, hr, make_instruction, operand_widths, make_operands]
  refine ⟨hok,
    compiler_current_instructions (function_epilogue (function_body_state c parameters body)),
    (function_epilogue (function_body_state c parameters body)).symbol_table.size,
    by rw [hconst]; simp, hpop, hrv, hret, ?_, ?_⟩
  · intro hbody
    subst hbody
    have hnil : current_bytes (function_body_state c parameters []) = [] := hempty
    have hp : compiler_last_instruction_is (function_body_state c parameters [])
        OPCODE_POP = false := by
      rw [Bool.eq_false_iff, ne_eq, compiler_last_instruction_is_iff]
      exact fun hh => hh.1 hnil
    have hr : compiler_last_instruction_is (function_body_state c parameters [])
        OPCODE_RETURN_VALUE = false := by
      rw [Bool.eq_false_iff, ne_eq, compiler_last_instruction_is_iff]
      exact fun hh => hh.1 hnil
    have := hret hp hr
    rw [hnil] at this
    exact this
  · show (current_bytes (function_epilogue (function_body_state c parameters body))).getLast? =
        some OPCODE_RETURN_VALUE ∨
      (current_bytes (function_epilogue (function_body_state c parameters body))).getLast? =
        some OPCODE_RETURN
    cases hp : compiler_last_instruction_is (function_body_state c parameters body) OPCODE_POP
    · cases hr : compiler_last_instruction_is (function_body_state c parameters body)
          OPCODE_RETURN_VALUE
      · right
        rw [hret hp hr]
        simp
      · left
        obtain ⟨⟨init, hinit⟩, heq⟩ := hrv hp hr
        rw [heq, hinit]
        simp
    · left
      obtain ⟨init, _, heq⟩ := hpop hp
      rw [heq]
      simp

theorem C4_function_epilogue_witness :
    (compile_block_statement (function_enter compiler_new ["x"])
      [STMT_EXPR (EXPR_IDENT "x")]).1 = 0 ∧
    (compile_expression compiler_new
      (EXPR_FUNCTION ["x"] [STMT_EXPR (EXPR_IDENT "x")])).1 = 0 ∧
    (compile_expression compiler_new
      (EXPR_FUNCTION ["x"] [STMT_EXPR (EXPR_IDENT "x")])).2.constants =
      [OBJ_COMPILED_FUNCTION
        { bytes := [OPCODE_GET_LOCAL, 0, OPCODE_RETURN_VALUE], cap := 1024 } 1] :=
  ⟨by decide!,
    (C4_function_epilogue compiler_new ["x"] [STMT_EXPR (EXPR_IDENT "x")] (by decide!)).1,
    by decide!⟩

/-! ### C2 -/

/-- The bytes of a successfully compiled if-expression with both branches: the code of the
condition, `JUMP_NOT_TRUE` to the start of the alternative, the consequence, `JUMP` to the
end, the alternative. -/
theorem if_some_shape (c : compiler) (condition : expression) (consequence : List statement)
    (alternative : List statement)
    (h : (compile_expression c (EXPR_IF condition consequence (some alternative))).1 = 0) :
    ∃ tA tB,
      current_bytes (if_consequence_state c condition consequence) =
        current_bytes (compile_expression c condition).2 ++
          make_instruction OPCODE_JUMP_NOT_TRUE [9999] ++ tA ∧
      current_bytes (if_middle (current_bytes (compile_expression c condition).2).length
        (if_consequence_state c condition consequence)) =
        current_bytes (compile_expression c condition).2 ++
          make_instruction OPCODE_JUMP_NOT_TRUE
            [(current_bytes (if_consequence_state c condition consequence)).length + 3] ++
          tA ++ make_instruction OPCODE_JUMP [9999] ∧
      current_bytes (compile_expression c (EXPR_IF condition consequence
        (some alternative))).2 =
        current_bytes (compile_expression c condition).2 ++
          make_instruction OPCODE_JUMP_NOT_TRUE
            [(current_bytes (if_consequence_state c condition consequence)).length + 3] ++
          tA ++
          make_instruction OPCODE_JUMP
            [(current_bytes (compile_expression c (EXPR_IF condition consequence
              (some alternative))).2).length] ++
          tB := by
  rw [compile_expression_if] at h ⊢
  by_cases h1 : (compile_expression c condition).1 = 0
  · by_cases h2 : (compile_block_statement (if_enter (compile_expression c condition).2)
        consequence).1 = 0
    · have ih2 := compile_block_statement_grows _ consequence h2
      obtain ⟨tA, h4, h6, hlast6, hf6⟩ := if_middle_spec ih2
      have hq : ∀ v, (current_bytes (compile_expression c condition).2 ++
          make_instruction OPCODE_JUMP_NOT_TRUE [v] ++ tA).length =
          (current_bytes (elide_pop (compile_block_statement
            (if_enter (compile_expression c condition).2) consequence).2)).length := by
        intro v
        rw [h4]
        simp [make_instruction_two _ _ operand_widths_jump_not_true]
      simp only [h1, h2, ne_eq, not_true_eq_false, if_false] at h ⊢
      by_cases h3 : (compile_block_statement
          (if_middle (current_bytes (compile_expression c condition).2).length
            (elide_pop (compile_block_statement
              (if_enter (compile_expression c condition).2) consequence).2))
          alternative).1 = 0
      · have ih3 := compile_block_statement_grows _ alternative h3
        simp only [h3, ne_eq, not_true_eq_false, if_false] at h ⊢
        have hlast_is : compiler_last_instruction_is
            (if_middle (current_bytes (compile_expression c condition).2).length
              (elide_pop (compile_block_statement
                (if_enter (compile_expression c condition).2) consequence).2))
            OPCODE_POP = false := by
          rw [Bool.eq_false_iff]
          intro hh
          rw [compiler_last_instruction_is_iff, hlast6] at hh
          have := hh.2
          simp at this
        obtain ⟨hpre, hl8⟩ := elide_pop_spec ih3 hlast_is
        obtain ⟨tB, h8, h9, hlen9, hl9⟩ := if_finish_spec _ _ (hq _) h6 hlast6 hpre hl8
        exact ⟨tA, tB, h4, h6, h9⟩
      · rw [if_pos h3] at h
        exact absurd h h3
    · rw [if_neg (not_not.mpr h1), if_pos h2] at h
      exact absurd h h2
  · rw [if_pos h1] at h
    exact absurd h h1

/-- Reading back a two-byte operand that the encoder wrote inside a buffer. -/
theorem operand_value_append (p rest : List Nat) (op v : Nat) (hw : operand_widths op = [2]) :
    (p ++ make_instruction op [v] ++ rest)[p.length]? = some op ∧
    operand_value (p ++ make_instruction op [v] ++ rest) (p.length + 1) 2 = v % 65536 := by
  rw [make_instruction_two op v hw]
  constructor
  · rw [List.append_assoc]
    exact getElem?_append_cons_length _ _ _
  · have h1 : (p ++ [op, v / 256 % 256, v % 256] ++ rest)[p.length + 1]? =
        some (v / 256 % 256) := by
      rw [List.append_assoc, List.getElem?_append_right (by omega)]
      simp
    have h2 : (p ++ [op, v / 256 % 256, v % 256] ++ rest)[p.length + 1 + 1]? =
        some (v % 256) := by
      rw [List.append_assoc, List.getElem?_append_right (by omega)]
      have : p.length + 1 + 1 - p.length = 2 := by omega
      rw [this]
      simp
    simp only [operand_value, if_true, List.getD_eq_getElem?_getD, h1, h2, Option.getD_some]
    omega

/-- The jump operands of a successfully compiled if-expression with both branches, as the
bytes hold them: the targets modulo 65536. -/
theorem if_jump_exact (c : compiler) (condition : expression) (consequence : List statement)
    (alternative : List statement)
    (h : (compile_expression c (EXPR_IF condition consequence (some alternative))).1 = 0) :
    (current_bytes (compile_expression c (EXPR_IF condition consequence
      (some alternative))).2)[(current_bytes (compile_expression c condition).2).length]? =
      some OPCODE_JUMP_NOT_TRUE ∧
    operand_value (current_bytes (compile_expression c (EXPR_IF condition consequence
      (some alternative))).2) ((current_bytes (compile_expression c condition).2).length + 1) 2 =
      ((current_bytes (if_consequence_state c condition consequence)).length + 3) % 65536 ∧
    (current_bytes (if_middle (current_bytes (compile_expression c condition).2).length
      (if_consequence_state c condition consequence))).length =
      (current_bytes (if_consequence_state c condition consequence)).length + 3 ∧
    (current_bytes (compile_expression c (EXPR_IF condition consequence
      (some alternative))).2)[(current_bytes
        (if_consequence_state c condition consequence)).length]? = some OPCODE_JUMP ∧
    operand_value (current_bytes (compile_expression c (EXPR_IF condition consequence
      (some alternative))).2)
      ((current_bytes (if_consequence_state c condition consequence)).length + 1) 2 =
      (current_bytes (compile_expression c (EXPR_IF condition consequence
        (some alternative))).2).length % 65536 ∧
    (current_bytes c).length ≤
      (current_bytes (if_consequence_state c condition consequence)).length ∧
    (current_bytes (if_consequence_state c condition consequence)).length + 3 ≤
      (current_bytes (compile_expression c (EXPR_IF condition consequence
        (some alternative))).2).length := by
  obtain ⟨tA, tB, h4, h6, h9⟩ := if_some_shape c condition consequence alternative h
  have h1 : (compile_expression c condition).1 = 0 := by
    rw [compile_expression_if] at h
    by_contra hne
    rw [if_pos hne] at h
    exact hne h
  have hle := grows_length_le (compile_expression_grows c condition h1).1
  have hlen4 : (current_bytes (if_consequence_state c condition consequence)).length =
      (current_bytes (compile_expression c condition).2 ++
        make_instruction OPCODE_JUMP_NOT_TRUE
          [(current_bytes (if_consequence_state c condition consequence)).length + 3] ++
        tA).length := by
    conv_lhs => rw [h4]
    simp [make_instruction_two _ _ operand_widths_jump_not_true]
  have hjnt := operand_value_append (current_bytes (compile_expression c condition).2)
    (tA ++ make_instruction OPCODE_JUMP
      [(current_bytes (compile_expression c (EXPR_IF condition consequence
        (some alternative))).2).length] ++ tB)
    OPCODE_JUMP_NOT_TRUE
    ((current_bytes (if_consequence_state c condition consequence)).length + 3)
    operand_widths_jump_not_true
  have hjmp := operand_value_append (current_bytes (compile_expression c condition).2 ++
      make_instruction OPCODE_JUMP_NOT_TRUE
        [(current_bytes (if_consequence_state c condition consequence)).length + 3] ++ tA)
    tB OPCODE_JUMP
    (current_bytes (compile_expression c (EXPR_IF condition consequence
      (some alternative))).2).length
    operand_widths_jump
  rw [← hlen4, ← h9] at hjmp
  have h9' : current_bytes (compile_expression c (EXPR_IF condition consequence
      (some alternative))).2 =
      current_bytes (compile_expression c condition).2 ++
        make_instruction OPCODE_JUMP_NOT_TRUE
          [(current_bytes (if_consequence_state c condition consequence)).length + 3] ++
        (tA ++ make_instruction OPCODE_JUMP
          [(current_bytes (compile_expression c (EXPR_IF condition consequence
            (some alternative))).2).length] ++ tB) := by
    conv_lhs => rw [h9]
    simp only [List.append_assoc]
  rw [← h9'] at hjnt
  refine ⟨hjnt.1, hjnt.2, ?_, hjmp.1, hjmp.2, ?_, ?_⟩
  · have e6 := congrArg List.length h6
    have e4 := congrArg List.length h4
    simp only [List.length_append, make_instruction_two _ _ operand_widths_jump,
      make_instruction_two _ _ operand_widths_jump_not_true, List.length_cons,
      List.length_nil] at e6 e4
    omega
  · have e4 := congrArg List.length h4
    simp only [List.length_append] at e4
    omega
  · have e9 := congrArg List.length h9
    have e4 := congrArg List.length h4
    simp only [List.length_append, make_instruction_two _ _ operand_widths_jump,
      make_instruction_two _ _ operand_widths_jump_not_true, List.length_cons,
      List.length_nil] at e9 e4
    omega

/-- C2 (amended): for an if-expression with both branches that compiles successfully into a
buffer of fewer than 65536 bytes, in the final buffer the operand of the emitted
`JUMP_NOT_TRUE` is the offset of the first byte after the `JUMP` instruction, where the code of
the alternative starts, and the operand of the emitted `JUMP` is the offset immediately after
the code of the alternative, the size of the buffer when the if-expression is finished;
neither is off by one. -/
theorem C2_if_jump_targets (c : compiler) (condition : expression)
    (consequence : List statement) (alternative : List statement)
    (hfit : (current_bytes (compile_expression c (EXPR_IF condition consequence
      (some alternative))).2).length < 65536) :
    if_jump_claim c condition consequence alternative := by
  intro h
  obtain ⟨h1, h2, h3, h4, h5, _, h7⟩ := if_jump_exact c condition consequence alternative h
  refine ⟨h1, ?_, h3, h4, ?_⟩
  · rw [h2, Nat.mod_eq_of_lt (by omega)]
  · rw [h5, Nat.mod_eq_of_lt hfit]

theorem C2_if_jump_targets_witness :
    (current_bytes (compile_expression compiler_new
      (EXPR_IF (EXPR_INFIX OP_GT (EXPR_INT 1) (EXPR_INT 2)) [STMT_EXPR (EXPR_INT 10)]
        (some [STMT_EXPR (EXPR_INT 20)]))).2).length < 65536 ∧
    (compile_expression compiler_new
      (EXPR_IF (EXPR_INFIX OP_GT (EXPR_INT 1) (EXPR_INT 2)) [STMT_EXPR (EXPR_INT 10)]
        (some [STMT_EXPR (EXPR_INT 20)]))).1 = 0 ∧
    if_jump_claim compiler_new (EXPR_INFIX OP_GT (EXPR_INT 1) (EXPR_INT 2))
      [STMT_EXPR (EXPR_INT 10)] [STMT_EXPR (EXPR_INT 20)] ∧
    current_bytes (compile_expression compiler_new
      (EXPR_IF (EXPR_INFIX OP_GT (EXPR_INT 1) (EXPR_INT 2)) [STMT_EXPR (EXPR_INT 10)]
        (some [STMT_EXPR (EXPR_INT 20)]))).2 =
      [OPCODE_CONST, 0, 0, OPCODE_CONST, 0, 1, OPCODE_GREATER_THAN,
        OPCODE_JUMP_NOT_TRUE, 0, 16, OPCODE_CONST, 0, 2, OPCODE_JUMP, 0, 19,
        OPCODE_CONST, 0, 3] :=
  ⟨by decide!, by decide!,
    C2_if_jump_targets compiler_new (EXPR_INFIX OP_GT (EXPR_INT 1) (EXPR_INT 2))
      [STMT_EXPR (EXPR_INT 10)] [STMT_EXPR (EXPR_INT 20)] (by decide!),
    by decide!⟩

theorem compile_program_cons (c : compiler) (s : statement) (rest : List statement) :
    compile_program c (s :: rest) =
      if (compile_statement c s).1 ≠ 0 then compile_statement c s
      else compile_program (compile_statement c s).2 rest := rfl

/-- A program of `n` statements `true;` compiles successfully and appends two bytes per
statement. -/
theorem compile_program_replicate_true (n : Nat) (c : compiler) :
    (compile_program c (List.replicate n (STMT_EXPR (EXPR_BOOL true)))).1 = 0 ∧
    (current_bytes (compile_program c
      (List.replicate n (STMT_EXPR (EXPR_BOOL true)))).2).length =
      (current_bytes c).length + 2 * n := by
  induction n generalizing c with
  | zero => exact ⟨rfl, rfl⟩
  | succ n ih =>
    rw [List.replicate_succ, compile_program_cons]
    have h1 : (compile_statement c (STMT_EXPR (EXPR_BOOL true))).1 = 0 := rfl
    rw [if_neg (not_not.mpr h1)]
    refine ⟨(ih _).1, ?_⟩
    rw [(ih _).2]
    have h2 : (current_bytes (compile_statement c (STMT_EXPR (EXPR_BOOL true))).2).length =
        (current_bytes c).length + 2 := by
      rw [compile_statement_expr, compile_expression_bool]
      simp [make_instruction, operand_widths, make_operands]
    rw [h2]
    omega

theorem if_true_compiles (c : compiler) :
    (compile_expression c (EXPR_IF (EXPR_BOOL true) [STMT_EXPR (EXPR_INT 1)]
      (some [STMT_EXPR (EXPR_INT 2)]))).1 = 0 := rfl

/-- C2 as stated fails: after a program of 32768 statements `true;` the current buffer holds
65536 bytes; in `if (true) { 1 } else { 2 }` compiled there the alternative starts at offset
65546, but the two operand bytes of `JUMP_NOT_TRUE` hold 10. -/
theorem C2_counterexample :
    ¬ if_jump_claim
      (compile_program compiler_new (List.replicate 32768 (STMT_EXPR (EXPR_BOOL true)))).2
      (EXPR_BOOL true) [STMT_EXPR (EXPR_INT 1)] [STMT_EXPR (EXPR_INT 2)] := by
  intro hclaim
  have hok := if_true_compiles
    (compile_program compiler_new (List.replicate 32768 (STMT_EXPR (EXPR_BOOL true)))).2
  have h1 := (hclaim hok).2.1
  obtain ⟨_, h2, _, _, _, h6, _⟩ := if_jump_exact _ _ _ _ hok
  have hlen := (compile_program_replicate_true 32768 compiler_new).2
  have h0 : (current_bytes compiler_new).length = 0 := rfl
  rw [h0] at hlen
  rw [h1] at h2
  have := Nat.mod_lt ((current_bytes (if_consequence_state
    (compile_program compiler_new (List.replicate 32768 (STMT_EXPR (EXPR_BOOL true)))).2
    (EXPR_BOOL true) [STMT_EXPR (EXPR_INT 1)])).length + 3) (by decide : 65536 > 0)
  omega

/-! ### The code of an expression -/

theorem expression_code_spec (c : compiler) (e : expression)
    (h : (compile_expression c e).1 = 0) :
    current_bytes (compile_expression c e).2 = current_bytes c ++ expression_code c e := by
  obtain ⟨t, ht⟩ := (compile_expression_grows c e h).1.bytes
  unfold expression_code
  rw [← ht]
  simp

/-! ### C11 -/

theorem compile_arguments_ok (c : compiler) (i : Nat) (arguments : List expression) :
    (compile_arguments c i arguments).1 = 0 ↔ arguments_ok c arguments = true := by
  induction arguments generalizing c i with
  | nil => simp [compile_arguments_nil, arguments_ok]
  | cons a rest ih =>
    rw [compile_arguments_cons, arguments_ok]
    by_cases h1 : (compile_expression c a).1 = 0
    · rw [if_neg (not_not.mpr h1), ih]
      simp [h1]
    · rw [if_pos h1]
      simp [h1]

theorem compile_arguments_spec (c : compiler) (i : Nat) (arguments : List expression)
    (h : (compile_arguments c i arguments).1 = 0) :
    (compile_arguments c i arguments).2.1 = i + arguments.length ∧
    current_bytes (compile_arguments c i arguments).2.2 =
      current_bytes c ++ arguments_code c arguments := by
  induction arguments generalizing c i with
  | nil => simp [compile_arguments_nil, arguments_code]
  | cons a rest ih =>
    rw [compile_arguments_cons] at h ⊢
    by_cases h1 : (compile_expression c a).1 = 0
    · rw [if_neg (not_not.mpr h1)] at h ⊢
      obtain ⟨hi, hb⟩ := ih _ _ h
      refine ⟨by rw [hi, List.length_cons]; omega, ?_⟩
      rw [hb, expression_code_spec c a h1, arguments_code, List.append_assoc]
    · rw [if_pos h1] at h
      exact absurd h h1

/-- C11: for a call expression whose callee and whose arguments `a_1 .. a_n`, `n <= 255`, all
compile successfully (each from the state the one before leaves), the call compiles
successfully and the code appended to the current buffer is the code of the callee, then the
code of the arguments in left-to-right order, then exactly one instruction `CALL n` whose
operand is the number of arguments. -/
theorem C11_call_code (c : compiler) (function : expression) (arguments : List expression)
    (hf : (compile_expression c function).1 = 0)
    (ha : arguments_ok (compile_expression c function).2 arguments = true)
    (hn : arguments.length ≤ 255) :
    (compile_expression c (EXPR_CALL function arguments)).1 = 0 ∧
    current_bytes (compile_expression c (EXPR_CALL function arguments)).2 =
      current_bytes c ++ expression_code c function ++
        arguments_code (compile_expression c function).2 arguments ++
        [OPCODE_CALL, arguments.length] ∧
    current_bytes (compile_arguments (compile_expression c function).2 0 arguments).2.2 =
      current_bytes c ++ expression_code c function ++
        arguments_code (compile_expression c function).2 arguments ∧
    appends_instruction
      (compile_arguments (compile_expression c function).2 0 arguments).2.2
      (compile_expression c (EXPR_CALL function arguments)).2 OPCODE_CALL 1
      arguments.length := by
  have ha' := (compile_arguments_ok (compile_expression c function).2 0 arguments).mpr ha
  obtain ⟨hi, hb⟩ := compile_arguments_spec _ _ _ ha'
  rw [Nat.zero_add] at hi
  have hmod : arguments.length % 256 = arguments.length := Nat.mod_eq_of_lt (by omega)
  have hb' : current_bytes
      (compile_arguments (compile_expression c function).2 0 arguments).2.2 =
      current_bytes c ++ expression_code c function ++
        arguments_code (compile_expression c function).2 arguments := by
    rw [hb, expression_code_spec c function hf]
  have hemit := appends_instruction_emit_one
    (compile_arguments (compile_expression c function).2 0 arguments).2.2 OPCODE_CALL
    arguments.length (by decide)
  rw [hmod] at hemit
  rw [compile_expression_call]
  simp only [hf, ha', ne_eq, not_true_eq_false, if_false, hi]
  refine ⟨trivial, ?_, hb', hemit⟩
  rw [compiler_emit_bytes, hb', make_instruction_one _ _ (by decide), hmod]

theorem C11_call_code_witness :
    (compile_expression compiler_new (EXPR_IDENT "len")).1 = 0 ∧
    arguments_ok (compile_expression compiler_new (EXPR_IDENT "len")).2
      [EXPR_STRING "a", EXPR_INT 2] = true ∧
    [EXPR_STRING "a", EXPR_INT 2].length ≤ 255 ∧
    current_bytes (compile_expression compiler_new
      (EXPR_CALL (EXPR_IDENT "len") [EXPR_STRING "a", EXPR_INT 2])).2 =
      [OPCODE_GET_BUILTIN, 1, OPCODE_CONST, 0, 0, OPCODE_CONST, 0, 1, OPCODE_CALL, 2] ∧
    (compile_expression compiler_new
      (EXPR_CALL (EXPR_IDENT "len") [EXPR_STRING "a", EXPR_INT 2])).1 = 0 :=
  ⟨by decide!, by decide!, by decide, by decide!,
    (C11_call_code compiler_new (EXPR_IDENT "len") [EXPR_STRING "a", EXPR_INT 2]
      (by decide!) (by decide!) (by decide)).1⟩

/-! ### C12 -/

/-- C12: for an expression statement whose expression compiles successfully,
`compile_statement` succeeds and appends the code of the expression followed by exactly one
`POP`, and that `POP` is recorded as the last emitted instruction of the scope (at the offset
where the code of the expression ends); when the expression fails to compile,
`compile_statement` returns the error code and the state of the expression, so no `POP` is
emitted. -/
theorem C12_expression_statement (c : compiler) (value : expression) :
    ((compile_expression c value).1 = 0 →
      (compile_statement c (STMT_EXPR value)).1 = 0 ∧
      current_bytes (compile_expression c value).2 =
        current_bytes c ++ expression_code c value ∧
      current_bytes (compile_statement c (STMT_EXPR value)).2 =
        current_bytes c ++ expression_code c value ++ [OPCODE_POP] ∧
      (compiler_current_scope (compile_statement c (STMT_EXPR value)).2).last_instruction =
        { opcode := OPCODE_POP
          position := (current_bytes c ++ expression_code c value).length } ∧
      compiler_last_instruction_is (compile_statement c (STMT_EXPR value)).2 OPCODE_POP =
        true) ∧
    ((compile_expression c value).1 ≠ 0 →
      (compile_statement c (STMT_EXPR value)).1 = (compile_expression c value).1 ∧
      (compile_statement c (STMT_EXPR value)).2 = (compile_expression c value).2 ∧
      current_bytes (compile_statement c (STMT_EXPR value)).2 =
        current_bytes (compile_expression c value).2) := by
  rw [compile_statement_expr]
  constructor
  · intro h
    have hcode := expression_code_spec c value h
    simp only [h, ne_eq, not_true_eq_false, if_false]
    refine ⟨trivial, hcode, ?_, ?_, ?_⟩
    · rw [compiler_emit_bytes, hcode]
      rfl
    · rw [compiler_emit_last, hcode]
    · rw [compiler_last_instruction_is_iff, compiler_emit_last, compiler_emit_bytes]
      exact ⟨by simp [make_instruction], rfl⟩
  · intro h
    rw [if_pos h]
    exact ⟨rfl, rfl, rfl⟩

theorem C12_expression_statement_witness :
    (compile_expression compiler_new (EXPR_INT 5)).1 = 0 ∧
    (compile_expression compiler_new (EXPR_IDENT "x")).1 ≠ 0 ∧
    current_bytes (compile_statement compiler_new (STMT_EXPR (EXPR_INT 5))).2 =
      [OPCODE_CONST, 0, 0, OPCODE_POP] ∧
    (compile_statement compiler_new (STMT_EXPR (EXPR_INT 5))).1 = 0 ∧
    (compile_statement compiler_new (STMT_EXPR (EXPR_IDENT "x"))).1 =
      (compile_expression compiler_new (EXPR_IDENT "x")).1 :=
  ⟨by decide!, by decide!, by decide!,
    ((C12_expression_statement compiler_new (EXPR_INT 5)).1 (by decide!)).1,
    ((C12_expression_statement compiler_new (EXPR_IDENT "x")).2 (by decide!)).1⟩

/-! ### C16 -/

theorem compile_program_nil (c : compiler) : compile_program c [] = (0, c) := rfl

theorem compile_program_eq_block (c : compiler) (program : List statement) :
    compile_program c program = compile_block_statement c program := by
  induction program generalizing c with
  | nil => rfl
  | cons s rest ih =>
    rw [compile_program_cons, compile_block_statement_cons, ih]

theorem compile_block_statement_ok (c : compiler) (block : List statement) :
    (compile_block_statement c block).1 = 0 ↔ statements_ok c block = true := by
  induction block generalizing c with
  | nil => simp [compile_block_statement_nil, statements_ok]
  | cons s rest ih =>
    rw [compile_block_statement_cons, statements_ok]
    by_cases h1 : (compile_statement c s).1 = 0
    · rw [if_neg (not_not.mpr h1), ih]
      simp [h1]
    · rw [if_pos h1]
      simp [h1]

/-- Compiling `before ++ rest` after `before` compiled successfully is compiling `rest` from
the state `before` leaves. -/
theorem compile_block_statement_append (c : compiler) (before rest : List statement)
    (h : (compile_block_statement c before).1 = 0) :
    compile_block_statement c (before ++ rest) =
      compile_block_statement (compile_block_statement c before).2 rest := by
  induction before generalizing c with
  | nil => rfl
  | cons s tail ih =>
    rw [compile_block_statement_cons] at h
    rw [List.cons_append, compile_block_statement_cons, compile_block_statement_cons]
    by_cases h1 : (compile_statement c s).1 = 0
    · rw [if_neg (not_not.mpr h1)] at h ⊢
      rw [if_neg (not_not.mpr h1)]
      exact ih _ h
    · rw [if_pos h1] at h
      exact absurd h h1

/-- A block that does not compile successfully splits at its first failing statement. -/
theorem compile_block_statement_first_failure (c : compiler) (block : List statement)
    (h : (compile_block_statement c block).1 ≠ 0) :
    ∃ before failing after, block = before ++ failing :: after ∧
      (compile_block_statement c before).1 = 0 ∧
      (compile_statement (compile_block_statement c before).2 failing).1 ≠ 0 := by
  induction block generalizing c with
  | nil => exact absurd rfl h
  | cons s rest ih =>
    rw [compile_block_statement_cons] at h
    by_cases h1 : (compile_statement c s).1 = 0
    · rw [if_neg (not_not.mpr h1)] at h
      obtain ⟨before, failing, after, hsplit, hb, hf⟩ := ih _ h
      refine ⟨s :: before, failing, after, by rw [hsplit]; rfl, ?_, ?_⟩
      · rw [compile_block_statement_cons, if_neg (not_not.mpr h1)]
        exact hb
      · rw [compile_block_statement_cons, if_neg (not_not.mpr h1)]
        exact hf
    · exact ⟨[], s, rest, rfl, rfl, h1⟩

/-- C16: `compile_program` returns 0 exactly when every statement compiles successfully (each
from the state the one before leaves); otherwise the program splits at its first failing
statement, the statements before it are compiled in order, and the result of
`compile_program`, error code and state, is the result of that statement, so nothing is
emitted for the statements after it.  `compile_block_statement` does the same: the two are
equal on every statement list. -/
theorem C16_first_error (c : compiler) (program : List statement) :
    ((compile_program c program).1 = 0 ↔ statements_ok c program = true) ∧
    ((compile_program c program).1 ≠ 0 →
      ∃ before failing after, program = before ++ failing :: after ∧
        statements_ok c before = true ∧
        (compile_program c before).1 = 0 ∧
        (compile_statement (compile_program c before).2 failing).1 ≠ 0 ∧
        compile_program c program =
          compile_statement (compile_program c before).2 failing) ∧
    (∀ before failing after,
      (compile_program c before).1 = 0 →
      (compile_statement (compile_program c before).2 failing).1 ≠ 0 →
      compile_program c (before ++ failing :: after) =
        compile_statement (compile_program c before).2 failing) ∧
    compile_block_statement c program = compile_program c program := by
  have hstep : ∀ before failing after,
      (compile_block_statement c before).1 = 0 →
      (compile_statement (compile_block_statement c before).2 failing).1 ≠ 0 →
      compile_block_statement c (before ++ failing :: after) =
        compile_statement (compile_block_statement c before).2 failing := by
    intro before failing after hb hf
    rw [compile_block_statement_append c before _ hb, compile_block_statement_cons,
      if_pos hf]
  simp only [compile_program_eq_block]
  refine ⟨compile_block_statement_ok c program, ?_, hstep, trivial⟩
  intro h
  obtain ⟨before, failing, after, hsplit, hb, hf⟩ :=
    compile_block_statement_first_failure c program h
  refine ⟨before, failing, after, hsplit, (compile_block_statement_ok c before).mp hb, hb, hf, ?_⟩
  rw [hsplit]
  exact hstep before failing after hb hf

theorem C16_first_error_witness :
    (compile_program compiler_new
      [STMT_EXPR (EXPR_INT 1), STMT_EXPR (EXPR_IDENT "x"), STMT_EXPR (EXPR_INT 2)]).1 ≠ 0 ∧
    (compile_program compiler_new
      [STMT_EXPR (EXPR_INT 1), STMT_EXPR (EXPR_IDENT "x"), STMT_EXPR (EXPR_INT 2)]).1 =
      COMPILE_ERR_UNKNOWN_IDENT ∧
    current_bytes (compile_program compiler_new
      [STMT_EXPR (EXPR_INT 1), STMT_EXPR (EXPR_IDENT "x"), STMT_EXPR (EXPR_INT 2)]).2 =
      [OPCODE_CONST, 0, 0, OPCODE_POP] ∧
    ∃ before failing after,
      [STMT_EXPR (EXPR_INT 1), STMT_EXPR (EXPR_IDENT "x"), STMT_EXPR (EXPR_INT 2)] =
        before ++ failing :: after ∧
      statements_ok compiler_new before = true ∧
      (compile_program compiler_new before).1 = 0 ∧
      (compile_statement (compile_program compiler_new before).2 failing).1 ≠ 0 ∧
      compile_program compiler_new
        [STMT_EXPR (EXPR_INT 1), STMT_EXPR (EXPR_IDENT "x"), STMT_EXPR (EXPR_INT 2)] =
        compile_statement (compile_program compiler_new before).2 failing :=
  ⟨by decide!, by decide!, by decide!,
    (C16_first_error compiler_new
      [STMT_EXPR (EXPR_INT 1), STMT_EXPR (EXPR_IDENT "x"), STMT_EXPR (EXPR_INT 2)]).2.1
      (by decide!)⟩

/-! ### C13 -/

/-- A successfully compiled if-expression compiled its condition and its consequence
successfully. -/
theorem if_success_parts (c : compiler) (condition : expression)
    (consequence : List statement) (alternative : Option (List statement))
    (h : (compile_expression c (EXPR_IF condition consequence alternative)).1 = 0) :
    (compile_expression c condition).1 = 0 ∧
    (compile_block_statement (if_enter (compile_expression c condition).2)
      consequence).1 = 0 := by
  rw [compile_expression_if] at h
  by_cases h1 : (compile_expression c condition).1 = 0
  · refine ⟨h1, ?_⟩
    by_contra h2
    rw [if_neg (not_not.mpr h1), if_pos h2] at h
    exact h2 h
  · rw [if_pos h1] at h
    exact absurd h h1

/-- What the POP elision removes: when the last instruction of a compiled block is `POP`, the
code of the block is the elided code followed by `POP`; otherwise the elision changes
nothing. -/
theorem elide_pop_code {c2 c3 : compiler} (hb : block_ok c2 c3)
    (hne : compiler_last_instruction_is c2 OPCODE_POP = false) :
    if compiler_last_instruction_is c3 OPCODE_POP = true
      then current_bytes c3 = current_bytes (elide_pop c3) ++ [OPCODE_POP]
      else current_bytes c3 = current_bytes (elide_pop c3) := by
  by_cases h : compiler_last_instruction_is c3 OPCODE_POP = true
  · rw [if_pos h]
    unfold elide_pop
    rw [if_pos h, compiler_remove_bytes]
    rcases hb.2 with heq | ⟨hl, _⟩
    · rw [heq, hne] at h
      exact absurd h (by simp)
    · exact bytes_end_of_last_ok (last_ok_mono hl (Nat.zero_le _)) OPCODE_POP
        ((compiler_last_instruction_is_iff c3 OPCODE_POP).mp h).2 (by decide)
  · rw [if_neg h]
    unfold elide_pop
    rw [if_neg h]

/-- The bytes of a successfully compiled if-expression without alternative: the code of the
condition, `JUMP_NOT_TRUE` to the `NULL`, the consequence, `JUMP` to the end, `NULL`. -/
theorem if_none_shape (c : compiler) (condition : expression) (consequence : List statement)
    (h : (compile_expression c (EXPR_IF condition consequence none)).1 = 0) :
    ∃ tA,
      current_bytes (if_consequence_state c condition consequence) =
        current_bytes (compile_expression c condition).2 ++
          make_instruction OPCODE_JUMP_NOT_TRUE [9999] ++ tA ∧
      current_bytes (compile_expression c (EXPR_IF condition consequence none)).2 =
        current_bytes (compile_expression c condition).2 ++
          make_instruction OPCODE_JUMP_NOT_TRUE
            [(current_bytes (if_consequence_state c condition consequence)).length + 3] ++
          tA ++
          make_instruction OPCODE_JUMP
            [(current_bytes (compile_expression c (EXPR_IF condition consequence
              none)).2).length] ++
          [OPCODE_NULL] := by
  obtain ⟨h1, h2⟩ := if_success_parts c condition consequence none h
  rw [compile_expression_if]
  have ih2 := compile_block_statement_grows _ consequence h2
  obtain ⟨tA, h4, h6, hlast6, hf6⟩ := if_middle_spec ih2
  have hq : ∀ v, (current_bytes (compile_expression c condition).2 ++
      make_instruction OPCODE_JUMP_NOT_TRUE [v] ++ tA).length =
      (current_bytes (elide_pop (compile_block_statement
        (if_enter (compile_expression c condition).2) consequence).2)).length := by
    intro v
    rw [h4]
    simp [make_instruction_two _ _ operand_widths_jump_not_true]
  simp only [h1, h2, ne_eq, not_true_eq_false, if_false]
  have hpre : current_bytes
      (if_middle (current_bytes (compile_expression c condition).2).length
        (elide_pop (compile_block_statement
          (if_enter (compile_expression c condition).2) consequence).2)) <+:
      current_bytes (compiler_emit
        (if_middle (current_bytes (compile_expression c condition).2).length
          (elide_pop (compile_block_statement
            (if_enter (compile_expression c condition).2) consequence).2))
        OPCODE_NULL []).2 := by
    rw [compiler_emit_bytes]
    exact List.prefix_append _ _
  obtain ⟨tB, h8, h9, _, _⟩ := if_finish_spec _ _ (hq _) h6 hlast6 hpre
    (Or.inr (last_ok_emit _ OPCODE_NULL [] rfl))
  have htB : tB = [OPCODE_NULL] := by
    rw [compiler_emit_bytes] at h8
    exact (List.append_cancel_left h8).symm
  subst htB
  exact ⟨tA, h4, h9⟩

/-- The bytes of a successfully compiled if-expression with an alternative end with the code
that the alternative leaves after its POP elision. -/
theorem if_some_code (c : compiler) (condition : expression) (consequence : List statement)
    (alternative : List statement)
    (h : (compile_expression c (EXPR_IF condition consequence (some alternative))).1 = 0) :
    ∃ t1 t2 : List Nat, t1.length = 2 ∧ t2.length = 2 ∧
      current_bytes (compile_expression c (EXPR_IF condition consequence
        (some alternative))).2 =
        current_bytes c ++ expression_code c condition ++ OPCODE_JUMP_NOT_TRUE :: t1 ++
          consequence_code c condition consequence ++ OPCODE_JUMP :: t2 ++
          alternative_code c condition consequence alternative := by
  obtain ⟨h1, h2⟩ := if_success_parts c condition consequence _ h
  rw [compile_expression_if] at h ⊢
  have ih2 := compile_block_statement_grows _ consequence h2
  obtain ⟨tA, h4, h6, hlast6, hf6⟩ := if_middle_spec ih2
  have hq : ∀ v, (current_bytes (compile_expression c condition).2 ++
      make_instruction OPCODE_JUMP_NOT_TRUE [v] ++ tA).length =
      (current_bytes (elide_pop (compile_block_statement
        (if_enter (compile_expression c condition).2) consequence).2)).length := by
    intro v
    rw [h4]
    simp [make_instruction_two _ _ operand_widths_jump_not_true]
  simp only [h1, h2, ne_eq, not_true_eq_false, if_false] at h ⊢
  by_cases h3 : (compile_block_statement
      (if_middle (current_bytes (compile_expression c condition).2).length
        (elide_pop (compile_block_statement
          (if_enter (compile_expression c condition).2) consequence).2))
      alternative).1 = 0
  · have ih3 := compile_block_statement_grows _ alternative h3
    simp only [h3, ne_eq, not_true_eq_false, if_false] at h ⊢
    have hlast_is : compiler_last_instruction_is
        (if_middle (current_bytes (compile_expression c condition).2).length
          (elide_pop (compile_block_statement
            (if_enter (compile_expression c condition).2) consequence).2))
        OPCODE_POP = false := by
      rw [Bool.eq_false_iff]
      intro hh
      rw [compiler_last_instruction_is_iff, hlast6] at hh
      have := hh.2
      simp at this
    obtain ⟨hpre, hl8⟩ := elide_pop_spec ih3 hlast_is
    obtain ⟨tB, h8, h9, hlen9, hl9⟩ := if_finish_spec _ _ (hq _) h6 hlast6 hpre hl8
    have hcons : consequence_code c condition consequence = tA := by
      unfold consequence_code if_consequence_state
      rw [h4, make_instruction_two _ _ operand_widths_jump_not_true, List.append_assoc]
      simp
    have halt : alternative_code c condition consequence alternative = tB := by
      unfold alternative_code if_alternative_state if_consequence_state
      rw [h8]
      have e6 := congrArg List.length h6
      have e4 := congrArg List.length h4
      simp only [List.length_append, make_instruction_two _ _ operand_widths_jump,
        make_instruction_two _ _ operand_widths_jump_not_true,
        List.length_cons, List.length_nil] at e6 e4
      have : (current_bytes (elide_pop (compile_block_statement
          (if_enter (compile_expression c condition).2) consequence).2)).length + 3 =
          (current_bytes (if_middle (current_bytes (compile_expression c condition).2).length
            (elide_pop (compile_block_statement
              (if_enter (compile_expression c condition).2) consequence).2))).length := by
        omega
      rw [this]
      simp
    rw [h9, hcons, halt, expression_code_spec c condition h1,
      make_instruction_two _ _ operand_widths_jump_not_true,
      make_instruction_two _ _ operand_widths_jump]
    exact ⟨[_, _], [_, _], rfl, rfl, rfl⟩
  · rw [if_pos h3] at h
    exact absurd h h3

/-- The shape and the jump operands of a successfully compiled if-expression without
alternative, as the bytes hold them: the targets modulo 65536. -/
theorem if_null_exact (c : compiler) (condition : expression) (consequence : List statement)
    (h : (compile_expression c (EXPR_IF condition consequence none)).1 = 0) :
    ∃ t1 t2 : List Nat, t1.length = 2 ∧ t2.length = 2 ∧
      current_bytes (compile_expression c (EXPR_IF condition consequence none)).2 =
        current_bytes c ++ expression_code c condition ++ OPCODE_JUMP_NOT_TRUE :: t1 ++
          consequence_code c condition consequence ++ OPCODE_JUMP :: t2 ++ [OPCODE_NULL] ∧
      operand_value (OPCODE_JUMP_NOT_TRUE :: t1) 1 2 =
        (current_bytes c ++ expression_code c condition ++ OPCODE_JUMP_NOT_TRUE :: t1 ++
          consequence_code c condition consequence ++ OPCODE_JUMP :: t2).length % 65536 ∧
      operand_value (OPCODE_JUMP :: t2) 1 2 =
        ((current_bytes c ++ expression_code c condition ++ OPCODE_JUMP_NOT_TRUE :: t1 ++
          consequence_code c condition consequence ++ OPCODE_JUMP :: t2).length + 1) %
          65536 ∧
      (current_bytes c ++ expression_code c condition ++ OPCODE_JUMP_NOT_TRUE :: t1 ++
          consequence_code c condition consequence ++ OPCODE_JUMP :: t2).length + 1 =
        (current_bytes (compile_expression c (EXPR_IF condition consequence
          none)).2).length ∧
      (if compiler_last_instruction_is
          (compile_block_statement (if_enter (compile_expression c condition).2)
            consequence).2 OPCODE_POP = true
        then block_code (if_enter (compile_expression c condition).2) consequence =
          consequence_code c condition consequence ++ [OPCODE_POP]
        else block_code (if_enter (compile_expression c condition).2) consequence =
          consequence_code c condition consequence) := by
  obtain ⟨h1, h2⟩ := if_success_parts c condition consequence none h
  obtain ⟨tA, h4, h9⟩ := if_none_shape c condition consequence h
  have hcons : consequence_code c condition consequence = tA := by
    unfold consequence_code
    rw [h4, make_instruction_two _ _ operand_widths_jump_not_true, List.append_assoc]
    simp
  have hshape : current_bytes (compile_expression c (EXPR_IF condition consequence none)).2 =
      current_bytes c ++ expression_code c condition ++
        [OPCODE_JUMP_NOT_TRUE,
          ((current_bytes (if_consequence_state c condition consequence)).length + 3) / 256 %
            256,
          ((current_bytes (if_consequence_state c condition consequence)).length + 3) % 256] ++
        consequence_code c condition consequence ++
        [OPCODE_JUMP,
          (current_bytes (compile_expression c (EXPR_IF condition consequence
            none)).2).length / 256 % 256,
          (current_bytes (compile_expression c (EXPR_IF condition consequence
            none)).2).length % 256] ++ [OPCODE_NULL] := by
    conv_lhs => rw [h9]
    rw [hcons, expression_code_spec c condition h1,
      make_instruction_two _ _ operand_widths_jump_not_true,
      make_instruction_two _ _ operand_widths_jump]
  have e4 := congrArg List.length h4
  have e9 := congrArg List.length hshape
  simp only [List.length_append, make_instruction_two _ _ operand_widths_jump_not_true,
    List.length_cons, List.length_nil, expression_code_spec c condition h1, hcons] at e4 e9
  refine ⟨[_, _], [_, _], rfl, rfl, hshape, ?_, ?_, ?_, ?_⟩
  · rw [operand_value_two]
    congr 1
    simp only [List.length_append, List.length_cons, List.length_nil, hcons]
    omega
  · rw [operand_value_two]
    congr 1
    simp only [List.length_append, List.length_cons, List.length_nil, hcons]
    omega
  · simp only [List.length_append, List.length_cons, List.length_nil, hcons]
    omega
  · have ih2 := compile_block_statement_grows _ consequence h2
    have hel := elide_pop_code ih2 (if_enter_last_is _)
    have hlen : (current_bytes (if_enter (compile_expression c condition).2)).length =
        (current_bytes (compile_expression c condition).2).length + 3 := by
      simp [if_enter, make_instruction_two _ _ operand_widths_jump_not_true]
    have h4' : current_bytes (elide_pop (compile_block_statement
        (if_enter (compile_expression c condition).2) consequence).2) =
        current_bytes (compile_expression c condition).2 ++
          make_instruction OPCODE_JUMP_NOT_TRUE [9999] ++ tA := h4
    have hlen2 : (current_bytes (compile_expression c condition).2 ++
        make_instruction OPCODE_JUMP_NOT_TRUE [9999]).length =
        (current_bytes (compile_expression c condition).2).length + 3 := by
      simp [make_instruction_two _ _ operand_widths_jump_not_true]
    by_cases hp : compiler_last_instruction_is
        (compile_block_statement (if_enter (compile_expression c condition).2)
          consequence).2 OPCODE_POP = true
    · rw [if_pos hp] at hel ⊢
      unfold block_code
      rw [hel, h4', hlen, hcons, List.append_assoc _ tA, ← hlen2, List.drop_left]
    · rw [if_neg hp] at hel ⊢
      unfold block_code
      rw [hel, h4', hlen, hcons, ← hlen2, List.drop_left]

/-- C13 (amended): for an if-expression without alternative that compiles successfully into
a buffer of fewer than 65536 bytes, the appended code is the code of the condition,
`JUMP_NOT_TRUE t1`, the code of the consequence with its trailing `POP` removed, `JUMP t2`,
`NULL`, where `t1` is the offset of the `NULL` instruction and `t2` the offset immediately
after it; and an if-expression with an alternative that compiles successfully ends with the
code the alternative leaves after its POP elision instead: no `NULL` is emitted for it. -/
theorem C13_if_without_alternative (c : compiler) (condition : expression)
    (consequence : List statement)
    (hfit : (current_bytes (compile_expression c (EXPR_IF condition consequence
      none)).2).length < 65536) :
    if_null_claim c condition consequence ∧
    ∀ alternative : List statement,
      (compile_expression c (EXPR_IF condition consequence (some alternative))).1 = 0 →
      ∃ t1 t2 : List Nat, t1.length = 2 ∧ t2.length = 2 ∧
        current_bytes (compile_expression c (EXPR_IF condition consequence
          (some alternative))).2 =
          current_bytes c ++ expression_code c condition ++ OPCODE_JUMP_NOT_TRUE :: t1 ++
            consequence_code c condition consequence ++ OPCODE_JUMP :: t2 ++
            alternative_code c condition consequence alternative := by
  refine ⟨?_, fun alternative h => if_some_code c condition consequence alternative h⟩
  intro h
  obtain ⟨t1, t2, hl1, hl2, hshape, hv1, hv2, hlen, hpop⟩ :=
    if_null_exact c condition consequence h
  refine ⟨t1, t2, hl1, hl2, hshape, ?_, ?_, hpop⟩
  · rw [hv1, Nat.mod_eq_of_lt (by omega)]
  · rw [hv2, Nat.mod_eq_of_lt (by omega)]

theorem C13_if_without_alternative_witness :
    (current_bytes (compile_expression compiler_new
      (EXPR_IF (EXPR_BOOL true) [STMT_EXPR (EXPR_INT 10)] none)).2).length < 65536 ∧
    (compile_expression compiler_new
      (EXPR_IF (EXPR_BOOL true) [STMT_EXPR (EXPR_INT 10)] none)).1 = 0 ∧
    current_bytes (compile_expression compiler_new
      (EXPR_IF (EXPR_BOOL true) [STMT_EXPR (EXPR_INT 10)] none)).2 =
      [OPCODE_TRUE, OPCODE_JUMP_NOT_TRUE, 0, 10, OPCODE_CONST, 0, 0, OPCODE_JUMP, 0, 11,
        OPCODE_NULL] ∧
    consequence_code compiler_new (EXPR_BOOL true) [STMT_EXPR (EXPR_INT 10)] =
      [OPCODE_CONST, 0, 0] ∧
    current_bytes (compile_expression compiler_new
      (EXPR_IF (EXPR_BOOL true) [STMT_EXPR (EXPR_INT 10)]
        (some [STMT_EXPR (EXPR_INT 20)]))).2 =
      [OPCODE_TRUE, OPCODE_JUMP_NOT_TRUE, 0, 10, OPCODE_CONST, 0, 0, OPCODE_JUMP, 0, 13,
        OPCODE_CONST, 0, 1] ∧
    if_null_claim compiler_new (EXPR_BOOL true) [STMT_EXPR (EXPR_INT 10)] :=
  ⟨by decide!, by decide!, by decide!, by decide!, by decide!,
    (C13_if_without_alternative compiler_new (EXPR_BOOL true) [STMT_EXPR (EXPR_INT 10)]
      (by decide!)).1⟩

theorem if_true_null_compiles (c : compiler) :
    (compile_expression c (EXPR_IF (EXPR_BOOL true) [STMT_EXPR (EXPR_INT 1)] none)).1 = 0 :=
  rfl

/-- C13 as stated fails: after a program of 32768 statements `true;` the current buffer holds
65536 bytes; in `if (true) { 1 }` compiled there the `NULL` instruction is at offset 65546,
but the two operand bytes of `JUMP_NOT_TRUE` hold 10. -/
theorem C13_counterexample :
    ¬ if_null_claim
      (compile_program compiler_new (List.replicate 32768 (STMT_EXPR (EXPR_BOOL true)))).2
      (EXPR_BOOL true) [STMT_EXPR (EXPR_INT 1)] := by
  intro hclaim
  have hok := if_true_null_compiles
    (compile_program compiler_new (List.replicate 32768 (STMT_EXPR (EXPR_BOOL true)))).2
  obtain ⟨t1, t2, hl1, hl2, hshape, hv1, _, _⟩ := hclaim hok
  obtain ⟨u1, u2, hm1, hm2, hshape2, hw1, _, _, _⟩ := if_null_exact _ _ _ hok
  have e := hshape.symm.trans hshape2
  simp only [List.append_assoc, List.cons_append, List.append_cancel_left_eq,
    List.cons.injEq, true_and] at e
  obtain ⟨e1, e2⟩ := List.append_inj e (by rw [hl1, hm1])
  simp only [List.append_cancel_left_eq, List.cons.injEq, true_and] at e2
  obtain ⟨e3, _⟩ := List.append_inj e2 (by rw [hl2, hm2])
  subst e1
  subst e3
  rw [hv1] at hw1
  have hlen := (compile_program_replicate_true 32768 compiler_new).2
  have h0 : (current_bytes compiler_new).length = 0 := rfl
  rw [h0] at hlen
  have hmod := Nat.mod_lt ((current_bytes
      (compile_program compiler_new (List.replicate 32768 (STMT_EXPR (EXPR_BOOL true)))).2 ++
    expression_code
      (compile_program compiler_new (List.replicate 32768 (STMT_EXPR (EXPR_BOOL true)))).2
      (EXPR_BOOL true) ++ OPCODE_JUMP_NOT_TRUE :: t1 ++
    consequence_code
      (compile_program compiler_new (List.replicate 32768 (STMT_EXPR (EXPR_BOOL true)))).2
      (EXPR_BOOL true) [STMT_EXPR (EXPR_INT 1)] ++ OPCODE_JUMP :: t2).length)
    (by decide : 65536 > 0)
  rw [← hw1] at hmod
  simp only [List.length_append] at hmod
  omega

/-! ### C14 -/

/-- An empty consequence leaves no code between `JUMP_NOT_TRUE` and `JUMP`: the POP elision
finds `JUMP_NOT_TRUE` as the last instruction and removes nothing. -/
theorem consequence_code_nil (c : compiler) (condition : expression) :
    consequence_code c condition [] = [] := by
  unfold consequence_code if_consequence_state
  rw [compile_block_statement_nil]
  have h : elide_pop (if_enter (compile_expression c condition).2) =
      if_enter (compile_expression c condition).2 := by
    unfold elide_pop
    rw [if_enter_last_is]
    rfl
  show (current_bytes (elide_pop (if_enter (compile_expression c condition).2))).drop _ = []
  rw [h]
  simp [if_enter, make_instruction_two _ _ operand_widths_jump_not_true]

/-- C14: the claim fails on the code.  `if (true) { }` compiles successfully on a new
compiler to `TRUE, JUMP_NOT_TRUE 7, JUMP 8, NULL`: no code at all stands between
`JUMP_NOT_TRUE` and `JUMP`, so the net stack effect of the consequence is 0, while the
`NULL` path has +1.  The same holds for the consequence `{ let a = 1; }`, whose code is
`CONST 0, SET_GLOBAL 0`.  For the consequence `{ 1 }` the code is `CONST 0`, of net effect
+1. -/
theorem C14_consequence_net_effect :
    (compile_expression compiler_new (EXPR_IF (EXPR_BOOL true) [] none)).1 = 0 ∧
    current_bytes (compile_expression compiler_new (EXPR_IF (EXPR_BOOL true) [] none)).2 =
      [OPCODE_TRUE, OPCODE_JUMP_NOT_TRUE, 0, 7, OPCODE_JUMP, 0, 8, OPCODE_NULL] ∧
    consequence_code compiler_new (EXPR_BOOL true) [] = [] ∧
    net_stack_effect (consequence_code compiler_new (EXPR_BOOL true) []) = some 0 ∧
    net_stack_effect [OPCODE_NULL] = some 1 ∧
    (compile_expression compiler_new
      (EXPR_IF (EXPR_BOOL true) [STMT_LET "a" (EXPR_INT 1)] none)).1 = 0 ∧
    consequence_code compiler_new (EXPR_BOOL true) [STMT_LET "a" (EXPR_INT 1)] =
      [OPCODE_CONST, 0, 0, OPCODE_SET_GLOBAL, 0, 0] ∧
    net_stack_effect
      (consequence_code compiler_new (EXPR_BOOL true) [STMT_LET "a" (EXPR_INT 1)]) =
      some 0 ∧
    consequence_code compiler_new (EXPR_BOOL true) [STMT_EXPR (EXPR_INT 1)] =
      [OPCODE_CONST, 0, 0] ∧
    net_stack_effect
      (consequence_code compiler_new (EXPR_BOOL true) [STMT_EXPR (EXPR_INT 1)]) =
      some 1 :=
  ⟨by decide!, by decide!, by decide!, by decide!, by decide!, by decide!, by decide!,
    by decide!, by decide!, by decide!⟩

/-! ### C15 -/

theorem symbol_table_first_binding_mk (store : List symbol) (size : Nat)
    (outer : Option symbol_table) (name : String) :
    symbol_table_first_binding (symbol_table.mk store size outer) name =
      (symbol_table_lookup store name).orElse fun _ =>
        match outer with
        | none => none
        | some o => symbol_table_first_binding o name := by
  cases outer <;> rfl

/-- What `symbol_table_resolve` returns is the symbol the name is lexically bound to. -/
theorem symbol_table_resolve_first_binding : (t : symbol_table) → (name : String) →
    (s : symbol) → symbol_table_resolve t name = some s →
    symbol_table_first_binding t name = some s
  | .mk store size none, name, s => by
    intro h
    rw [symbol_table_resolve_mk] at h
    rw [symbol_table_first_binding_mk]
    exact h
  | .mk store size (some o), name, s => by
    intro h
    rw [symbol_table_resolve_mk] at h
    rw [symbol_table_first_binding_mk]
    cases hl : symbol_table_lookup store name with
    | some s1 =>
      rw [hl] at h
      exact h
    | none =>
      rw [hl] at h
      simp only [Option.orElse] at h ⊢
      cases hr : symbol_table_resolve o name with
      | none =>
        rw [hr] at h
        simp at h
      | some s2 =>
        rw [hr] at h
        rw [symbol_table_resolve_first_binding o name s2 hr]
        simp only [Option.filter] at h
        split at h
        · exact h
        · exact absurd h (by simp)

/-- C15: in a state whose current table is the table of a function literal (it has an outer
table), an identifier that has no binding in the current table and is lexically bound, in
the enclosing tables, to a local symbol (a parameter or let-local of an enclosing function
literal, so neither a global nor a built-in) is not resolved: `compile_expression` returns
`COMPILE_ERR_UNKNOWN_IDENT`, "Undefined variable", and leaves the state unchanged, so no
`GET_LOCAL` is emitted. -/
theorem C15_outer_local_not_visible (c : compiler) (name : String) (store : List symbol)
    (size : Nat) (outer : symbol_table) (s : symbol)
    (ht : c.symbol_table = symbol_table.mk store size (some outer))
    (hin : symbol_table_lookup store name = none)
    (hout : symbol_table_first_binding outer name = some s)
    (hs : s.scope = SCOPE_LOCAL) :
    symbol_table_resolve c.symbol_table name = none ∧
    compile_expression c (EXPR_IDENT name) = (COMPILE_ERR_UNKNOWN_IDENT, c) ∧
    compiler_error_str (compile_expression c (EXPR_IDENT name)).1 = "Undefined variable" ∧
    current_bytes (compile_expression c (EXPR_IDENT name)).2 = current_bytes c := by
  have hres : symbol_table_resolve c.symbol_table name = none := by
    rw [ht, symbol_table_resolve_mk, hin]
    simp only [Option.orElse]
    cases hr : symbol_table_resolve outer name with
    | none => rfl
    | some s2 =>
      have h2 := symbol_table_resolve_first_binding outer name s2 hr
      rw [hout] at h2
      cases h2
      simp [Option.filter, hs]
  have hce : compile_expression c (EXPR_IDENT name) = (COMPILE_ERR_UNKNOWN_IDENT, c) := by
    rw [compile_expression_ident, hres]
  refine ⟨hres, hce, ?_, ?_⟩
  · rw [hce]
    rfl
  · rw [hce]

theorem C15_outer_local_not_visible_witness :
    symbol_table_resolve
      (function_enter (function_enter (let_enter compiler_new "makeAdder") ["x"])
        ["y"]).symbol_table "x" = none ∧
    (compile_program compiler_new
      [STMT_LET "makeAdder" (EXPR_FUNCTION ["x"] [STMT_EXPR (EXPR_FUNCTION ["y"]
        [STMT_EXPR (EXPR_INFIX OP_ADD (EXPR_IDENT "x") (EXPR_IDENT "y"))])])]).1 =
      COMPILE_ERR_UNKNOWN_IDENT ∧
    (compile_expression (function_enter (let_enter compiler_new "makeAdder") ["x"])
      (EXPR_IDENT "x")).1 = 0 :=
  ⟨(C15_outer_local_not_visible
      (function_enter (function_enter (let_enter compiler_new "makeAdder") ["x"]) ["y"])
      "x" [{ name := "y", scope := SCOPE_LOCAL, index := 0 }] 1
      (function_enter (let_enter compiler_new "makeAdder") ["x"]).symbol_table
      { name := "x", scope := SCOPE_LOCAL, index := 0 } rfl (by decide) (by decide!)
      rfl).1,
    by decide!, by decide!⟩

/-! ### The constant pool during compilation -/

theorem constants_if_enter (c : compiler) : (if_enter c).constants = c.constants := rfl

theorem constants_if_middle (pos : Nat) (c : compiler) :
    (if_middle pos c).constants = c.constants :=
  (same_frame_if_middle pos c).constants

theorem constants_if_finish (pos : Nat) (c : compiler) :
    (if_finish pos c).constants = c.constants :=
  (same_frame_if_finish pos c).constants

theorem constants_elide_pop (c : compiler) : (elide_pop c).constants = c.constants :=
  (same_frame_elide_pop c).constants

theorem constants_let_enter (c : compiler) (name : String) :
    (let_enter c name).constants = c.constants := rfl

theorem constants_function_finish (c4 : compiler) :
    (function_finish c4).constants =
      c4.constants ++
        [make_compiled_function_object (compiler_leave_scope c4).1 c4.symbol_table.size] := by
  simp [function_finish, compiler_leave_scope]

mutual
theorem compile_expression_constants (c : compiler) : (e : expression) →
    (compile_expression c e).1 = 0 →
    (compile_expression c e).2.constants.length = c.constants.length + constants_expression e
  | EXPR_INFIX op left right => by
    intro h
    rw [compile_expression_infix_eq] at h ⊢
    by_cases h1 : (compile_expression c left).1 = 0
    · have ih1 := compile_expression_constants c left h1
      by_cases h2 : (compile_expression (compile_expression c left).2 right).1 = 0
      · have ih2 := compile_expression_constants _ right h2
        simp only [h1, h2, ne_eq, not_true_eq_false, if_false] at h ⊢
        rw [constants_expression]
        cases op <;> simp only [compiler_emit_constants] <;> omega
      · rw [if_neg (not_not.mpr h1), if_pos h2] at h
        exact absurd h h2
    · rw [if_pos h1] at h
      exact absurd h h1
  | EXPR_PREFIX op right => by
    intro h
    rw [compile_expression_prefix_eq] at h ⊢
    by_cases h1 : (compile_expression c right).1 = 0
    · have ih1 := compile_expression_constants c right h1
      simp only [h1, ne_eq, not_true_eq_false, if_false] at h ⊢
      rw [constants_expression]
      cases op <;> simp only [compiler_emit_constants] <;> omega
    · rw [if_pos h1] at h
      exact absurd h h1
  | EXPR_IF condition consequence alternative => by
    intro h
    rw [compile_expression_if] at h ⊢
    by_cases h1 : (compile_expression c condition).1 = 0
    · have ih1 := compile_expression_constants c condition h1
      by_cases h2 : (compile_block_statement (if_enter (compile_expression c condition).2)
          consequence).1 = 0
      · have ih2 := compile_block_statement_constants _ consequence h2
        rw [constants_if_enter] at ih2
        simp only [h1, h2, ne_eq, not_true_eq_false, if_false] at h ⊢
        cases alternative with
        | some alternative =>
          simp only at h ⊢
          by_cases h3 : (compile_block_statement
              (if_middle (current_bytes (compile_expression c condition).2).length
                (elide_pop (compile_block_statement
                  (if_enter (compile_expression c condition).2) consequence).2))
              alternative).1 = 0
          · have ih3 := compile_block_statement_constants _ alternative h3
            rw [constants_if_middle, constants_elide_pop] at ih3
            simp only [h3, ne_eq, not_true_eq_false, if_false] at h ⊢
            rw [constants_if_finish, constants_elide_pop, constants_expression]
            omega
          · rw [if_pos h3] at h
            exact absurd h h3
        | none =>
          simp only at h ⊢
          rw [constants_if_finish, compiler_emit_constants, constants_if_middle,
            constants_elide_pop, constants_expression]
          omega
      · rw [if_neg (not_not.mpr h1), if_pos h2] at h
        exact absurd h h2
    · rw [if_pos h1] at h
      exact absurd h h1
  | EXPR_INT n => by
    intro _
    rw [compile_expression_int, constants_expression]
    simp
  | EXPR_BOOL b => by
    intro _
    rw [compile_expression_bool, constants_expression]
    cases b <;> rfl
  | EXPR_STRING str => by
    intro _
    rw [compile_expression_string, constants_expression]
    simp
  | EXPR_IDENT value => by
    intro h
    rw [compile_expression_ident] at h ⊢
    rw [constants_expression]
    cases hr : symbol_table_resolve c.symbol_table value with
    | none => rw [hr] at h; exact absurd h (by simp)
    | some s =>
      rw [hr] at h
      simp only at h ⊢
      cases hs : s.scope <;> rfl
  | EXPR_FUNCTION parameters body => by
    intro h
    rw [compile_expression_function] at h ⊢
    by_cases h1 : (compile_block_statement (function_enter c parameters) body).1 = 0
    · have ih := compile_block_statement_constants _ body h1
      rw [function_enter_constants] at ih
      simp only [h1, ne_eq, not_true_eq_false, if_false] at h ⊢
      rw [constants_function_finish, (same_frame_function_epilogue _).constants,
        constants_expression, List.length_append, ih]
      rfl
    · rw [if_pos h1] at h
      exact absurd h h1
  | EXPR_CALL function arguments => by
    intro h
    rw [compile_expression_call] at h ⊢
    by_cases h1 : (compile_expression c function).1 = 0
    · have ih1 := compile_expression_constants c function h1
      by_cases h2 : (compile_arguments (compile_expression c function).2 0 arguments).1 = 0
      · have ih2 := compile_arguments_constants _ 0 arguments h2
        simp only [h1, h2, ne_eq, not_true_eq_false, if_false] at h ⊢
        rw [compiler_emit_constants, constants_expression]
        omega
      · rw [if_neg (not_not.mpr h1), if_pos h2] at h
        exact absurd h h2
    · rw [if_pos h1] at h
      exact absurd h h1
theorem compile_arguments_constants (c : compiler) (i : Nat) :
    (arguments : List expression) →
    (compile_arguments c i arguments).1 = 0 →
    (compile_arguments c i arguments).2.2.constants.length =
      c.constants.length + constants_arguments arguments
  | [] => fun _ => rfl
  | a :: rest => by
    intro h
    rw [compile_arguments_cons] at h ⊢
    by_cases h1 : (compile_expression c a).1 = 0
    · have ih1 := compile_expression_constants c a h1
      simp only [h1, ne_eq, not_true_eq_false, if_false] at h ⊢
      rw [compile_arguments_constants _ _ rest h, constants_arguments]
      omega
    · rw [if_pos h1] at h
      exact absurd h h1
theorem compile_statement_constants (c : compiler) : (s : statement) →
    (compile_statement c s).1 = 0 →
    (compile_statement c s).2.constants.length = c.constants.length + constants_statement s
  | STMT_EXPR value => by
    intro h
    rw [compile_statement_expr] at h ⊢
    by_cases h1 : (compile_expression c value).1 = 0
    · have ih1 := compile_expression_constants c value h1
      simp only [h1, ne_eq, not_true_eq_false, if_false] at h ⊢
      rw [compiler_emit_constants, constants_statement]
      exact ih1
    · rw [if_pos h1] at h
      exact absurd h h1
  | STMT_LET name value => by
    intro h
    rw [compile_statement_let] at h ⊢
    by_cases h1 : (compile_expression (let_enter c name) value).1 = 0
    · have ih1 := compile_expression_constants (let_enter c name) value h1
      simp only [h1, ne_eq, not_true_eq_false, if_false] at h ⊢
      rw [compiler_emit_constants, constants_statement]
      exact ih1
    · rw [if_pos h1] at h
      exact absurd h h1
  | STMT_RETURN value => by
    intro h
    rw [compile_statement_return] at h ⊢
    by_cases h1 : (compile_expression c value).1 = 0
    · have ih1 := compile_expression_constants c value h1
      simp only [h1, ne_eq, not_true_eq_false, if_false] at h ⊢
      rw [compiler_emit_constants, constants_statement]
      exact ih1
    · rw [if_pos h1] at h
      exact absurd h h1
theorem compile_block_statement_constants (c : compiler) : (b : List statement) →
    (compile_block_statement c b).1 = 0 →
    (compile_block_statement c b).2.constants.length =
      c.constants.length + constants_block b
  | [] => fun _ => rfl
  | s :: rest => by
    intro h
    rw [compile_block_statement_cons] at h ⊢
    by_cases h1 : (compile_statement c s).1 = 0
    · have ih1 := compile_statement_constants c s h1
      simp only [h1, ne_eq, not_true_eq_false, if_false] at h ⊢
      rw [compile_block_statement_constants _ rest h, constants_block]
      omega
    · rw [if_pos h1] at h
      exact absurd h h1
end

/-! ### The program as a sequence of statements -/

theorem compile_program_grows (c : compiler) (program : List statement)
    (h : (compile_program c program).1 = 0) : grows c (compile_program c program).2 := by
  rw [compile_program_eq_block] at h ⊢
  exact (compile_block_statement_grows c program h).1

theorem compile_program_constants (c : compiler) (program : List statement)
    (h : (compile_program c program).1 = 0) :
    (compile_program c program).2.constants.length =
      c.constants.length + constants_block program := by
  rw [compile_program_eq_block] at h ⊢
  exact compile_block_statement_constants c program h

/-- When a program compiles successfully, so does each initial part of it, and the rest is
compiled from the state the initial part leaves. -/
theorem compile_program_append (c : compiler) (before rest : List statement)
    (h : (compile_program c (before ++ rest)).1 = 0) :
    (compile_program c before).1 = 0 ∧
    compile_program c (before ++ rest) =
      compile_program (compile_program c before).2 rest := by
  induction before generalizing c with
  | nil => exact ⟨rfl, rfl⟩
  | cons s tail ih =>
    rw [List.cons_append, compile_program_cons] at h
    rw [List.cons_append, compile_program_cons, compile_program_cons]
    by_cases h1 : (compile_statement c s).1 = 0
    · rw [if_neg (not_not.mpr h1)] at h ⊢
      rw [if_neg (not_not.mpr h1)]
      exact ih _ h
    · rw [if_pos h1] at h
      exact absurd h h1

/-! ### The slots of the constant pool -/

theorem pool_tracks_of_eq {c1 c2 : compiler} (h1 : c2.constants = c1.constants)
    (h2 : c2.constants_cap = c1.constants_cap)
    (h3 : c2.constants_overflow = c1.constants_overflow) : pool_tracks c1 c2 :=
  ⟨h2, by rw [h1], by rw [h1, h3]; simp⟩

theorem pool_tracks_refl (c : compiler) : pool_tracks c c :=
  pool_tracks_of_eq rfl rfl rfl

theorem pool_tracks_trans {c1 c2 c3 : compiler} (h12 : pool_tracks c1 c2)
    (h23 : pool_tracks c2 c3) : pool_tracks c1 c3 := by
  refine ⟨h23.cap.trans h12.cap, le_trans h12.length h23.length, ?_⟩
  have hl1 := h12.length
  have hl2 := h23.length
  rw [h23.overflow, h12.overflow, h12.cap]
  constructor
  · rintro ((h | ⟨h1, h2⟩) | ⟨h1, h2⟩)
    · exact Or.inl h
    · exact Or.inr ⟨by omega, by omega⟩
    · exact Or.inr ⟨by omega, h2⟩
  · rintro (h | ⟨h1, h2⟩)
    · exact Or.inl (Or.inl h)
    · by_cases h3 : c2.constants.length < c3.constants.length
      · exact Or.inr ⟨h3, h2⟩
      · exact Or.inl (Or.inr ⟨by omega, by omega⟩)

theorem pool_tracks_add_constant (c : compiler) (obj : object) :
    pool_tracks c (add_constant c obj).2 := by
  refine ⟨rfl, by simp, ?_⟩
  show (c.constants_overflow || decide (c.constants_cap ≤ c.constants.length)) = true ↔ _
  simp only [Bool.or_eq_true, decide_eq_true_eq, add_constant_constants, List.length_append,
    List.length_singleton]
  constructor
  · rintro (h | h)
    · exact Or.inl h
    · exact Or.inr ⟨by omega, by omega⟩
  · rintro (h | ⟨_, h⟩)
    · exact Or.inl h
    · exact Or.inr (by omega)

theorem pool_tracks_set_scope (c : compiler) (i : Nat) (s : compiler_scope) :
    pool_tracks c (set_scope c i s) :=
  pool_tracks_of_eq rfl rfl rfl

theorem pool_tracks_emit (c : compiler) (op : Nat) (ops : List Nat) :
    pool_tracks c (compiler_emit c op ops).2 :=
  pool_tracks_of_eq rfl rfl rfl

theorem pool_tracks_after_emit {c1 c2 : compiler} (h : pool_tracks c1 c2) (op : Nat)
    (ops : List Nat) : pool_tracks c1 (compiler_emit c2 op ops).2 :=
  pool_tracks_trans h (pool_tracks_emit c2 op ops)

theorem pool_tracks_elide_pop (c : compiler) : pool_tracks c (elide_pop c) := by
  unfold elide_pop
  split
  · exact pool_tracks_set_scope c _ _
  · exact pool_tracks_refl c

theorem pool_tracks_if_middle (pos : Nat) (c : compiler) : pool_tracks c (if_middle pos c) :=
  pool_tracks_trans (pool_tracks_emit c OPCODE_JUMP [9999]) (pool_tracks_set_scope _ _ _)

theorem pool_tracks_if_finish (pos : Nat) (c : compiler) : pool_tracks c (if_finish pos c) :=
  pool_tracks_set_scope _ _ _

theorem pool_tracks_function_epilogue (c : compiler) :
    pool_tracks c (function_epilogue c) := by
  unfold function_epilogue
  split
  · exact pool_tracks_trans (pool_tracks_set_scope c _ _) (pool_tracks_set_scope _ _ _)
  · split
    · exact pool_tracks_emit c _ _
    · exact pool_tracks_refl c

theorem pool_tracks_define_parameters (c : compiler) (ps : List String) :
    pool_tracks c (define_parameters c ps) := by
  induction ps generalizing c with
  | nil => exact pool_tracks_refl c
  | cons p rest ih =>
    have h1 : pool_tracks c
        { c with symbol_table := (symbol_table_define c.symbol_table p).2 } :=
      pool_tracks_of_eq rfl rfl rfl
    exact pool_tracks_trans h1 (ih _)

theorem pool_tracks_function_enter (c : compiler) (ps : List String) :
    pool_tracks c (function_enter c ps) := by
  have h1 : pool_tracks c (compiler_enter_scope c) := pool_tracks_of_eq rfl rfl rfl
  exact pool_tracks_trans h1 (pool_tracks_define_parameters _ ps)

theorem pool_tracks_function_finish (c4 : compiler) :
    pool_tracks c4 (function_finish c4) := by
  have h1 : pool_tracks c4 (compiler_leave_scope c4).2 := pool_tracks_of_eq rfl rfl rfl
  exact pool_tracks_trans
    (pool_tracks_trans h1 (pool_tracks_add_constant (compiler_leave_scope c4).2 _))
    (pool_tracks_emit _ _ _)

theorem pool_tracks_let_enter (c : compiler) (name : String) :
    pool_tracks c (let_enter c name) :=
  pool_tracks_of_eq rfl rfl rfl

mutual
theorem compile_expression_pool (c : compiler) : (e : expression) →
    pool_tracks c (compile_expression c e).2
  | EXPR_INFIX op left right => by
    rw [compile_expression_infix_eq]
    have ih1 := compile_expression_pool c left
    have ih2 := compile_expression_pool (compile_expression c left).2 right
    have h12 := pool_tracks_trans ih1 ih2
    split
    · exact ih1
    · split
      · exact h12
      · cases op <;> first
          | exact pool_tracks_after_emit h12 _ _
          | exact h12
  | EXPR_PREFIX op right => by
    rw [compile_expression_prefix_eq]
    have ih1 := compile_expression_pool c right
    split
    · exact ih1
    · cases op <;> first
        | exact pool_tracks_after_emit ih1 _ _
        | exact ih1
  | EXPR_IF condition consequence alternative => by
    rw [compile_expression_if]
    have ih1 := compile_expression_pool c condition
    have ih2 := compile_block_statement_pool (if_enter (compile_expression c condition).2)
      consequence
    have h2 := pool_tracks_trans (pool_tracks_after_emit ih1 OPCODE_JUMP_NOT_TRUE [9999]) ih2
    have h3 := pool_tracks_trans (pool_tracks_trans h2 (pool_tracks_elide_pop _))
      (pool_tracks_if_middle (current_bytes (compile_expression c condition).2).length _)
    split
    · exact ih1
    · split
      · exact h2
      · cases alternative with
        | some alternative =>
          have ih3 := compile_block_statement_pool
            (if_middle (current_bytes (compile_expression c condition).2).length
              (elide_pop (compile_block_statement
                (if_enter (compile_expression c condition).2) consequence).2))
            alternative
          have h4 := pool_tracks_trans h3 ih3
          simp only
          split
          · exact h4
          · exact pool_tracks_trans (pool_tracks_trans h4 (pool_tracks_elide_pop _))
              (pool_tracks_if_finish _ _)
        | none =>
          simp only
          exact pool_tracks_trans (pool_tracks_after_emit h3 OPCODE_NULL [])
            (pool_tracks_if_finish _ _)
  | EXPR_INT n => by
    rw [compile_expression_int]
    exact pool_tracks_after_emit (pool_tracks_add_constant c _) _ _
  | EXPR_BOOL b => by
    rw [compile_expression_bool]
    cases b
    · exact pool_tracks_emit c _ _
    · exact pool_tracks_emit c _ _
  | EXPR_STRING str => by
    rw [compile_expression_string]
    exact pool_tracks_after_emit (pool_tracks_add_constant c _) _ _
  | EXPR_IDENT value => by
    rw [compile_expression_ident]
    cases symbol_table_resolve c.symbol_table value with
    | none => exact pool_tracks_refl c
    | some s =>
      simp only
      cases s.scope <;> first
        | exact pool_tracks_emit c _ _
        | exact pool_tracks_refl c
  | EXPR_FUNCTION parameters body => by
    rw [compile_expression_function]
    have h1 := pool_tracks_trans (pool_tracks_function_enter c parameters)
      (compile_block_statement_pool _ body)
    split
    · exact h1
    · exact pool_tracks_trans (pool_tracks_trans h1 (pool_tracks_function_epilogue _))
        (pool_tracks_function_finish _)
  | EXPR_CALL function arguments => by
    rw [compile_expression_call]
    have ih1 := compile_expression_pool c function
    have ih2 := compile_arguments_pool (compile_expression c function).2 0 arguments
    have h12 := pool_tracks_trans ih1 ih2
    split
    · exact ih1
    · split
      · exact h12
      · exact pool_tracks_after_emit h12 _ _
theorem compile_arguments_pool (c : compiler) (i : Nat) : (arguments : List expression) →
    pool_tracks c (compile_arguments c i arguments).2.2
  | [] => pool_tracks_refl c
  | a :: rest => by
    rw [compile_arguments_cons]
    have ih1 := compile_expression_pool c a
    split
    · exact ih1
    · exact pool_tracks_trans ih1 (compile_arguments_pool _ (i + 1) rest)
theorem compile_statement_pool (c : compiler) : (s : statement) →
    pool_tracks c (compile_statement c s).2
  | STMT_EXPR value => by
    rw [compile_statement_expr]
    have ih1 := compile_expression_pool c value
    split
    · exact ih1
    · exact pool_tracks_after_emit ih1 _ _
  | STMT_LET name value => by
    rw [compile_statement_let]
    have ih1 := pool_tracks_trans (pool_tracks_let_enter c name)
      (compile_expression_pool (let_enter c name) value)
    split
    · exact ih1
    · exact pool_tracks_after_emit ih1 _ _
  | STMT_RETURN value => by
    rw [compile_statement_return]
    have ih1 := compile_expression_pool c value
    split
    · exact ih1
    · exact pool_tracks_after_emit ih1 _ _
theorem compile_block_statement_pool (c : compiler) : (b : List statement) →
    pool_tracks c (compile_block_statement c b).2
  | [] => pool_tracks_refl c
  | s :: rest => by
    rw [compile_block_statement_cons]
    have ih1 := compile_statement_pool c s
    split
    · exact ih1
    · exact pool_tracks_trans ih1 (compile_block_statement_pool _ rest)
end

theorem compile_program_pool (c : compiler) (program : List statement) :
    pool_tracks c (compile_program c program).2 := by
  rw [compile_program_eq_block]
  exact compile_block_statement_pool c program

/-- A program of integer literal statements compiles. -/
theorem compile_program_replicate_int (c : compiler) (k : Nat) (n : Int) :
    (compile_program c (List.replicate k (STMT_EXPR (EXPR_INT n)))).1 = 0 := by
  induction k generalizing c with
  | zero => rfl
  | succ k ih =>
    rw [List.replicate_succ, compile_program_cons]
    have h1 : (compile_statement c (STMT_EXPR (EXPR_INT n))).1 = 0 := rfl
    rw [if_neg (not_not.mpr h1)]
    exact ih _

theorem constants_block_replicate_int (k : Nat) (n : Int) :
    constants_block (List.replicate k (STMT_EXPR (EXPR_INT n))) = k := by
  induction k with
  | zero => rfl
  | succ k ih =>
    rw [List.replicate_succ, constants_block, ih]
    show 1 + k = k + 1
    omega

/-! ### C1: the counterexample -/

/-- C1 as stated fails, in two ways.  In a compiler created by `compiler_new_with_state`
with a list of 65536 constants (and slots to spare), the literal `7` gets the index 65536,
but the two operand bytes of the emitted `CONST` hold 0.  In a new compiler that has
compiled 64 integer literals, all 64 slots of the list of `compiler_new` are in use, and
the object of the literal `7` is stored past the list. -/
theorem C1_counterexample :
    ¬ int_literal_claim
      (compiler_new_with_state symbol_table_new
        { values := List.replicate 65536 (OBJ_INT 0), cap := 131072 }) 7 ∧
    ¬ int_literal_claim
      (compile_program compiler_new (List.replicate 64 (STMT_EXPR (EXPR_INT 0)))).2 7 := by
  constructor
  · intro ⟨_, _, h3, _⟩
    have hex := (int_literal_exact
      (compiler_new_with_state symbol_table_new
        { values := List.replicate 65536 (OBJ_INT 0), cap := 131072 }) 7).2.2
    have hl : (compiler_new_with_state symbol_table_new
        { values := List.replicate 65536 (OBJ_INT 0), cap := 131072 }).constants.length =
        65536 :=
      List.length_replicate _ _
    have := appends_instruction_unique h3 hex
    rw [hl] at this
    exact absurd this (by decide)
  · intro ⟨_, _, _, _, h5⟩
    have hs := compile_program_replicate_int compiler_new 64 0
    have hl := compile_program_constants compiler_new _ hs
    rw [constants_block_replicate_int] at hl
    have hcap := (compile_program_pool compiler_new
      (List.replicate 64 (STMT_EXPR (EXPR_INT 0)))).cap
    rw [int_literal_overflow, hcap, hl] at h5
    revert h5
    show ¬ ((compile_program compiler_new
      (List.replicate 64 (STMT_EXPR (EXPR_INT 0)))).2.constants_overflow ||
        decide (64 ≤ 0 + 64)) = false
    simp

/-! ### C17 -/

theorem compiler_new_with_state_scope_index (t : symbol_table) (constants : object_list) :
    (compiler_new_with_state t constants).scope_index = 0 := rfl

/-- C17: after `compile_program` succeeds on a compiler whose scope index is 0, as it is in
one just created by `compiler_new` or `compiler_new_with_state`, the scope index is 0 again
and `get_bytecode` returns the instruction buffer of scope 0, the top-level one, which
continues the bytes it had before, together with the constant list of the compiler.  As long
as the constants of the program fit the free slots of the list, no object is stored past
the list, the pool only grew at its end, it starts with the pool after each initial part of
the program, and the number of constants added is the number of integer, string and function
literals of the program, function literals inside function literals included.  When they do
not fit, an object is stored past the list although `compile_program` succeeds: a program of
65 integer literals on a new compiler, whose list has 64 slots, is such a case. -/
theorem C17_bytecode (c : compiler) (program : List statement) (hc : c.scope_index = 0)
    (h : (compile_program c program).1 = 0) :
    (compile_program c program).2.scope_index = 0 ∧
    (get_bytecode (compile_program c program).2).instructions =
      ((compile_program c program).2.scopes 0).instructions ∧
    (c.scopes 0).instructions.bytes <+:
      (get_bytecode (compile_program c program).2).instructions.bytes ∧
    (get_bytecode (compile_program c program).2).constants =
      (compile_program c program).2.constants ∧
    (c.constants_overflow = false →
      c.constants.length + constants_block program ≤ c.constants_cap →
      (compile_program c program).2.constants_overflow = false ∧
      c.constants <+: (get_bytecode (compile_program c program).2).constants ∧
      (get_bytecode (compile_program c program).2).constants.length =
        c.constants.length + constants_block program ∧
      ∀ before rest, program = before ++ rest →
        (compile_program c before).1 = 0 ∧
        (compile_program c before).2.constants <+:
          (get_bytecode (compile_program c program).2).constants) ∧
    (0 < constants_block program →
      c.constants_cap < c.constants.length + constants_block program →
      (compile_program c program).2.constants_overflow = true) ∧
    ((compile_program compiler_new (List.replicate 65 (STMT_EXPR (EXPR_INT 0)))).1 = 0 ∧
      compiler_new.constants_cap = 64 ∧
      (compile_program compiler_new
        (List.replicate 65 (STMT_EXPR (EXPR_INT 0)))).2.constants_overflow = true) := by
  have hg := compile_program_grows c program h
  have hp := compile_program_pool c program
  have hlen := compile_program_constants c program h
  have hidx : (compile_program c program).2.scope_index = 0 := by
    rw [hg.scope_index, hc]
  refine ⟨hidx, ?_, ?_, rfl, ?_, ?_, compile_program_replicate_int _ _ _, rfl, ?_⟩
  · unfold get_bytecode compiler_current_instructions compiler_current_scope
    rw [hidx]
  · have hb := hg.bytes
    unfold current_bytes compiler_current_instructions compiler_current_scope at hb
    rw [hidx, hc] at hb
    unfold get_bytecode compiler_current_instructions compiler_current_scope
    rw [hidx]
    exact hb
  · intro hov hroom
    refine ⟨?_, hg.constants, hlen, ?_⟩
    · cases ho : (compile_program c program).2.constants_overflow with
      | false => rfl
      | true =>
        rcases hp.overflow.mp ho with h1 | ⟨_, h2⟩
        · rw [hov] at h1
          exact absurd h1 (by decide)
        · omega
    · intro before rest hsplit
      subst hsplit
      obtain ⟨hb, heq⟩ := compile_program_append c before rest h
      refine ⟨hb, ?_⟩
      rw [heq] at h
      have hg2 := compile_program_grows _ rest h
      show _ <+: (compile_program c (before ++ rest)).2.constants
      rw [heq]
      exact hg2.constants
  · intro hpos hfull
    exact hp.overflow.mpr (Or.inr ⟨by omega, by omega⟩)
  · have hs := compile_program_replicate_int compiler_new 65 0
    have hl := compile_program_constants compiler_new _ hs
    rw [constants_block_replicate_int] at hl
    refine (compile_program_pool compiler_new _).overflow.mpr (Or.inr ⟨?_, ?_⟩)
    · rw [hl]
      show 0 < 0 + 65
      omega
    · rw [hl]
      show 64 < 0 + 65
      omega

theorem C17_bytecode_witness :
    compiler_new.scope_index = 0 ∧
    (compile_program compiler_new
      [STMT_LET "f" (EXPR_FUNCTION ["x"] [STMT_EXPR (EXPR_INT 1)]),
        STMT_EXPR (EXPR_STRING "a")]).1 = 0 ∧
    (get_bytecode (compile_program compiler_new
      [STMT_LET "f" (EXPR_FUNCTION ["x"] [STMT_EXPR (EXPR_INT 1)]),
        STMT_EXPR (EXPR_STRING "a")]).2).instructions.bytes =
      [OPCODE_CONST, 0, 1, OPCODE_SET_GLOBAL, 0, 0, OPCODE_CONST, 0, 2, OPCODE_POP] ∧
    (get_bytecode (compile_program compiler_new
      [STMT_LET "f" (EXPR_FUNCTION ["x"] [STMT_EXPR (EXPR_INT 1)]),
        STMT_EXPR (EXPR_STRING "a")]).2).constants =
      [OBJ_INT 1,
        OBJ_COMPILED_FUNCTION
          { bytes := [OPCODE_CONST, 0, 0, OPCODE_RETURN_VALUE], cap := 1024 } 1,
        OBJ_STRING "a"] ∧
    (compile_program compiler_new
      [STMT_LET "f" (EXPR_FUNCTION ["x"] [STMT_EXPR (EXPR_INT 1)]),
        STMT_EXPR (EXPR_STRING "a")]).2.constants_overflow = false :=
  ⟨rfl, by decide!, by decide!, by decide!,
    ((C17_bytecode compiler_new
      [STMT_LET "f" (EXPR_FUNCTION ["x"] [STMT_EXPR (EXPR_INT 1)]),
        STMT_EXPR (EXPR_STRING "a")] rfl (by decide!)).2.2.2.2.1 rfl (by decide!)).1⟩

/-! ### C18 -/

theorem builtin_len_string (f : object_type → String) (s : String) :
    builtin_len f [OBJ_STRING s] = OBJ_INT (strlen s) := rfl

theorem builtin_len_wrong_number (f : object_type → String) (args : List object)
    (h : args.length ≠ 1) :
    builtin_len f args =
      OBJ_ERROR ("wrong number of arguments: expected 1, got " ++ toString args.length) := by
  unfold builtin_len
  rw [if_pos h]
  rfl

theorem builtin_len_wrong_type (f : object_type → String) (arg : object)
    (h : arg.type ≠ object_type.OBJ_STRING) :
    builtin_len f [arg] =
      OBJ_ERROR ("argument to len() not supported: expected " ++
        f object_type.OBJ_STRING ++ ", got " ++ f arg.type) := by
  unfold builtin_len
  rw [if_neg (by simp), if_pos (by simpa using h)]
  rfl

/-- C18: `builtin_len` returns the Integer object of the length of `s` when the argument
list is the single String `s`, and `len("hello")` is 5; for a list of `N` arguments,
`N` not 1, it returns the Error object "wrong number of arguments: expected 1, got N"; for a
single argument that is not a String it returns the Error object "argument to len() not
supported: expected .., got .." with the names of the two types.  So the result is an
Integer exactly when the list is a single String, an Error for every other list, and never
null. -/
theorem C18_builtin_len (object_type_to_str : object_type → String) (args : List object) :
    (∀ s, args = [OBJ_STRING s] →
      builtin_len object_type_to_str args = OBJ_INT (strlen s)) ∧
    builtin_len object_type_to_str [OBJ_STRING "hello"] = OBJ_INT 5 ∧
    (args.length ≠ 1 →
      builtin_len object_type_to_str args =
        OBJ_ERROR ("wrong number of arguments: expected 1, got " ++
          toString args.length)) ∧
    (∀ arg, args = [arg] → arg.type ≠ object_type.OBJ_STRING →
      builtin_len object_type_to_str args =
        OBJ_ERROR ("argument to len() not supported: expected " ++
          object_type_to_str object_type.OBJ_STRING ++ ", got " ++
          object_type_to_str arg.type)) ∧
    ((∃ n, builtin_len object_type_to_str args = OBJ_INT n) ↔
      ∃ s, args = [OBJ_STRING s]) ∧
    ((∃ message, builtin_len object_type_to_str args = OBJ_ERROR message) ↔
      ¬ ∃ s, args = [OBJ_STRING s]) ∧
    builtin_len object_type_to_str args ≠ OBJ_NULL := by
  have hcases : (∃ s, args = [OBJ_STRING s]) ∨ args.length ≠ 1 ∨
      ∃ arg, args = [arg] ∧ arg.type ≠ object_type.OBJ_STRING := by
    match args with
    | [] => exact Or.inr (Or.inl (by simp))
    | _ :: _ :: _ => exact Or.inr (Or.inl (by simp))
    | [arg] =>
      cases arg with
      | OBJ_STRING s => exact Or.inl ⟨s, rfl⟩
      | _ => exact Or.inr (Or.inr ⟨_, rfl, by simp [object.type]⟩)
  refine ⟨?_, congrArg OBJ_INT (by decide), builtin_len_wrong_number _ args, ?_, ?_, ?_, ?_⟩
  · rintro s rfl
    rfl
  · rintro arg rfl h
    exact builtin_len_wrong_type _ arg h
  · constructor
    · rintro ⟨n, hn⟩
      rcases hcases with hs | hl | ⟨arg, rfl, ht⟩
      · exact hs
      · rw [builtin_len_wrong_number _ args hl] at hn
        exact absurd hn (by simp)
      · rw [builtin_len_wrong_type _ arg ht] at hn
        exact absurd hn (by simp)
    · rintro ⟨s, rfl⟩
      exact ⟨_, rfl⟩
  · constructor
    · rintro ⟨m, hm⟩ ⟨s, rfl⟩
      rw [builtin_len_string] at hm
      exact absurd hm (by simp)
    · intro hns
      rcases hcases with hs | hl | ⟨arg, rfl, ht⟩
      · exact absurd hs hns
      · exact ⟨_, builtin_len_wrong_number _ args hl⟩
      · exact ⟨_, builtin_len_wrong_type _ arg ht⟩
  · rcases hcases with ⟨s, rfl⟩ | hl | ⟨arg, rfl, ht⟩
    · rw [builtin_len_string]
      simp
    · rw [builtin_len_wrong_number _ args hl]
      simp
    · rw [builtin_len_wrong_type _ arg ht]
      simp

theorem C18_builtin_len_witness :
    builtin_len (fun _ => "") [OBJ_STRING "hello"] = OBJ_INT 5 ∧
    builtin_len (fun _ => "") [] =
      OBJ_ERROR "wrong number of arguments: expected 1, got 0" ∧
    builtin_len (fun _ => "") [OBJ_STRING "a", OBJ_STRING "b"] =
      OBJ_ERROR "wrong number of arguments: expected 1, got 2" ∧
    builtin_len (fun t => if t = object_type.OBJ_STRING then "STRING" else "OTHER")
      [OBJ_INT 5] = OBJ_ERROR "argument to len() not supported: expected STRING, got OTHER" :=
  ⟨(C18_builtin_len (fun _ => "") [OBJ_STRING "hello"]).1 "hello" rfl, by decide, by decide,
    by decide⟩

/-! ### C19 -/

theorem puts_foldl (f : object → String) (args : List object) (init : String) :
    args.foldl (fun out arg => out ++ f arg) init =
      init ++ args.foldl (fun out arg => out ++ f arg) "" := by
  induction args generalizing init with
  | nil => simp
  | cons a rest ih =>
    rw [List.foldl_cons, List.foldl_cons, ih (init ++ f a), ih ("" ++ f a),
      String.empty_append, String.append_assoc]

/-- C19: for every argument list `builtin_puts` returns the canonical null object, and the
text it writes is the text rendering of each argument, in the order of the arguments,
followed by a newline: a newline alone for no argument, and for a list that starts with
`arg` the rendering of `arg` followed by what is written for the rest; for one argument it
is the rendering of the argument and a newline, as `puts("hi")` writes "hi" and a
newline. -/
theorem C19_builtin_puts (object_to_str : object → String) (args : List object) :
    (builtin_puts object_to_str args).2 = object_null ∧
    (builtin_puts object_to_str args).2 = OBJ_NULL ∧
    (builtin_puts object_to_str args).1 =
      String.join (args.map object_to_str) ++ "\n" ∧
    (builtin_puts object_to_str []).1 = "\n" ∧
    (∀ arg, (builtin_puts object_to_str (arg :: args)).1 =
      object_to_str arg ++ (builtin_puts object_to_str args).1) ∧
    (∀ arg, (builtin_puts object_to_str [arg]).1 = object_to_str arg ++ "\n") ∧
    (builtin_puts (fun arg => match arg with
        | OBJ_STRING string => string
        | _ => "") [OBJ_STRING "hi"]) = ("hi\n", OBJ_NULL) := by
  refine ⟨rfl, rfl, ?_, rfl, ?_, ?_, by decide⟩
  · simp [builtin_puts, String.join, List.foldl_map]
  · intro arg
    simp only [builtin_puts, List.foldl_cons]
    rw [puts_foldl, String.empty_append, String.append_assoc]
  · intro arg
    simp [builtin_puts]

/-! ### C20 -/

/-- C20: the names that `compiler_new` registers are `puts` with the built-in index 0 and
`len` with the built-in index 1, and for every name `compiler_new` registers, with index
`i`, `get_builtin_by_index i` is the entry of the table that `get_builtin` returns for the
name: index 0 is the `puts` procedure and index 1 the `len` procedure.  For every other name
`get_builtin` returns `NULL`. -/
theorem C20_builtin_indices :
    symbol_table_resolve compiler_new.symbol_table "puts" =
      some { name := "puts", scope := SCOPE_BUILTIN, index := 0 } ∧
    symbol_table_resolve compiler_new.symbol_table "len" =
      some { name := "len", scope := SCOPE_BUILTIN, index := 1 } ∧
    (∀ name s, symbol_table_resolve compiler_new.symbol_table name = some s →
      s.scope = SCOPE_BUILTIN ∧ (name = "puts" ∨ name = "len") ∧
      get_builtin name ≠ none ∧ get_builtin_by_index s.index = get_builtin name) ∧
    get_builtin_by_index 0 = some (OBJ_BUILTIN builtin_function.builtin_puts) ∧
    get_builtin_by_index 1 = some (OBJ_BUILTIN builtin_function.builtin_len) ∧
    get_builtin "puts" = some (OBJ_BUILTIN builtin_function.builtin_puts) ∧
    get_builtin "len" = some (OBJ_BUILTIN builtin_function.builtin_len) ∧
    (∀ name, name ≠ "puts" → name ≠ "len" → get_builtin name = none) := by
  refine ⟨by decide!, by decide!, ?_, rfl, rfl, by decide, by decide, ?_⟩
  · intro name s h
    have ht : compiler_new.symbol_table =
        symbol_table.mk [{ name := "len", scope := SCOPE_BUILTIN, index := 1 },
          { name := "puts", scope := SCOPE_BUILTIN, index := 0 }] 0 none := rfl
    rw [ht, symbol_table_resolve_mk] at h
    by_cases h1 : name = "len"
    · subst h1
      cases h
      exact ⟨rfl, Or.inr rfl, by decide, by decide⟩
    · by_cases h2 : name = "puts"
      · subst h2
        cases h
        exact ⟨rfl, Or.inl rfl, by decide, by decide⟩
      · have e1 : ("len" == name) = false := by
          rw [beq_eq_false_iff_ne]
          exact Ne.symm h1
        have e2 : ("puts" == name) = false := by
          rw [beq_eq_false_iff_ne]
          exact Ne.symm h2
        simp [symbol_table_lookup, List.find?, e1, e2] at h
  · intro name h1 h2
    unfold get_builtin
    rw [if_neg h1, if_neg h2]

theorem C20_builtin_indices_witness :
    symbol_table_resolve compiler_new.symbol_table "len" =
      some { name := "len", scope := SCOPE_BUILTIN, index := 1 } ∧
    get_builtin_by_index 1 = get_builtin "len" ∧
    "print" ≠ "puts" ∧ "print" ≠ "len" ∧
    get_builtin "print" = none :=
  ⟨by decide!,
    (C20_builtin_indices.2.2.1 "len" { name := "len", scope := SCOPE_BUILTIN, index := 1 }
      (by decide!)).2.2.2,
    by decide, by decide,
    C20_builtin_indices.2.2.2.2.2.2.2 "print" (by decide) (by decide)⟩

/-! ### C21 -/

theorem make_instruction_length_one (op v : Nat) :
    (make_instruction op [v]).length = instruction_length op := by
  unfold make_instruction instruction_length
  rcases operand_widths_cases op with hw | hw | hw <;> rw [hw] <;>
    simp [make_operands, make_operand]

theorem operands_fit_length {ws os : List Nat} (h : operands_fit ws os = true) :
    os.length = ws.length := by
  induction ws generalizing os with
  | nil =>
    cases os with
    | nil => rfl
    | cons o os => exact absurd h (by simp [operands_fit])
  | cons w ws ih =>
    cases os with
    | nil => exact absurd h (by simp [operands_fit])
    | cons o os =>
      simp only [operands_fit, Bool.and_eq_true, decide_eq_true_eq] at h
      simp [ih h.2]

/-- Decoding what the encoder wrote: behind any bytes `pre`, and whatever follows, the
instruction decoded at the end of `pre` is the encoded one when the operands fit. -/
theorem decode_make_instruction (pre post : List Nat) (op : Nat) (operands : List Nat)
    (h : operands_fit (operand_widths op) operands = true) :
    decode_instruction (pre ++ make_instruction op operands ++ post) pre.length =
      some (op, operands) := by
  unfold decode_instruction make_instruction
  have h0 : (pre ++ op :: make_operands (operand_widths op) operands ++ post)[pre.length]? =
      some op := by
    rw [List.append_assoc]
    exact getElem?_append_cons_length _ _ _
  rw [h0]
  simp only [Option.map_some']
  have hl := operands_fit_length h
  rcases operand_widths_cases op with hw | hw | hw <;> rw [hw] at h hl ⊢
  · match operands, hl, h with
    | [o], _, h =>
      simp only [operands_fit, Bool.and_eq_true, decide_eq_true_eq] at h
      have h1 : (pre ++ op :: make_operands [2] [o] ++ post)[pre.length + 1]? =
          some (o / 256 % 256) := by
        rw [List.append_assoc, List.getElem?_append_right (by omega)]
        simp [make_operands, make_operand]
      have h2 : (pre ++ op :: make_operands [2] [o] ++ post)[pre.length + 1 + 1]? =
          some (o % 256) := by
        rw [List.append_assoc, List.getElem?_append_right (by omega)]
        have : pre.length + 1 + 1 - pre.length = 2 := by omega
        rw [this]
        simp [make_operands, make_operand]
      simp only [read_operands, read_operand, operand_value, if_true,
        List.getD_eq_getElem?_getD, h1, h2, Option.getD_some]
      have := h.1
      congr 2
      simp only [List.cons.injEq, and_true]
      omega
  · match operands, hl, h with
    | [o], _, h =>
      simp only [operands_fit, Bool.and_eq_true, decide_eq_true_eq] at h
      have h1 : (pre ++ op :: make_operands [1] [o] ++ post)[pre.length + 1]? =
          some (o % 256) := by
        rw [List.append_assoc, List.getElem?_append_right (by omega)]
        simp [make_operands, make_operand]
      simp only [read_operands, read_operand, operand_value, List.getD_eq_getElem?_getD, h1,
        Option.getD_some]
      have := h.1
      simp
      omega
  · match operands, hl with
    | [], _ => simp [read_operands]

/-- C21: for every compiler state, every opcode and operands that fit the operand widths of
the opcode, `compiler_emit` returns the size of the current buffer before the call, leaves
the bytes before that position unchanged, grows the buffer by exactly the encoded length of
the instruction (one byte and the operand widths), and the instruction decoded at the
returned position is the opcode with the operands that were emitted. -/
theorem C21_emit_round_trip (c : compiler) (opcode : Nat) (operands : List Nat)
    (hfit : operands_fit (operand_widths opcode) operands = true) :
    (compiler_emit c opcode operands).1 = (compiler_current_instructions c).size ∧
    (current_bytes (compiler_emit c opcode operands).2).take
      (compiler_emit c opcode operands).1 = current_bytes c ∧
    (∀ i, i < (compiler_emit c opcode operands).1 →
      (current_bytes (compiler_emit c opcode operands).2)[i]? = (current_bytes c)[i]?) ∧
    (compiler_current_instructions (compiler_emit c opcode operands).2).size =
      (compiler_current_instructions c).size + instruction_length opcode ∧
    instruction_length opcode = 1 + (operand_widths opcode).sum ∧
    decode_instruction (current_bytes (compiler_emit c opcode operands).2)
      (compiler_emit c opcode operands).1 = some (opcode, operands) := by
  have hlen := make_instruction_length opcode operands (operands_fit_length hfit)
  refine ⟨rfl, ?_, ?_, ?_, rfl, ?_⟩
  · rw [compiler_emit_fst, compiler_emit_bytes]
    simp
  · intro i hi
    rw [compiler_emit_fst] at hi
    rw [compiler_emit_bytes, List.getElem?_append_left hi]
  · show (current_bytes (compiler_emit c opcode operands).2).length =
      (current_bytes c).length + instruction_length opcode
    rw [compiler_emit_bytes, List.length_append, hlen]
  · rw [compiler_emit_fst, compiler_emit_bytes]
    have := decode_make_instruction (current_bytes c) [] opcode operands hfit
    rwa [List.append_nil] at this

theorem C21_emit_round_trip_witness :
    operands_fit (operand_widths OPCODE_CONST) [513] = true ∧
    (compiler_emit compiler_new OPCODE_CONST [513]).1 = 0 ∧
    current_bytes (compiler_emit compiler_new OPCODE_CONST [513]).2 = [OPCODE_CONST, 2, 1] ∧
    decode_instruction (current_bytes (compiler_emit compiler_new OPCODE_CONST [513]).2)
      (compiler_emit compiler_new OPCODE_CONST [513]).1 = some (OPCODE_CONST, [513]) :=
  ⟨by decide, by decide!, by decide!,
    (C21_emit_round_trip compiler_new OPCODE_CONST [513] (by decide)).2.2.2.2.2⟩

/-! ### C22 -/

theorem compiler_replace_size (c : compiler) (pre old post ins : List Nat)
    (hb : current_bytes c = pre ++ old ++ post) (hlen : old.length = ins.length) :
    current_bytes (compiler_replace_instruction c pre.length ins) = pre ++ ins ++ post := by
  rw [compiler_replace_bytes, hb]
  exact replace_bytes_append pre old post ins hlen

/-- What `compiler_change_operand` does to an emitted instruction: it is encoded again with
the same opcode and the new operand, in the same number of bytes. -/
theorem compiler_change_operand_emitted (c : compiler) (pre post : List Nat) (op v : Nat)
    (operands : List Nat) (hops : operands.length = (operand_widths op).length)
    (hb : current_bytes c = pre ++ make_instruction op operands ++ post) :
    current_bytes (compiler_change_operand c pre.length v) =
      pre ++ make_instruction op [v] ++ post := by
  have hop : (compiler_current_scope c).instructions.bytes.getD pre.length 0 = op := by
    rw [← current_bytes_def, hb, List.getD_eq_getElem?_getD, make_instruction,
      List.append_assoc, List.cons_append, getElem?_append_cons_length]
    rfl
  unfold compiler_change_operand
  simp only [hop]
  exact compiler_replace_size c pre _ post _ hb
    ((make_instruction_length op operands hops).trans (make_instruction_length_one op v).symm)

/-- C22: when the current buffer is `pre ++ old ++ post` and `ins` has as many bytes as
`old` (the instruction at position `pre.length`), `compiler_replace_instruction` at that
position leaves the size of the buffer unchanged, turns the buffer into `pre ++ ins ++ post`,
so every byte outside the replaced range is unchanged and the bytes of the range are those
of `ins`; `compiler_replace_last_instruction` does that at the position of the last emitted
instruction; and `compiler_change_operand` on an emitted instruction `old` writes the
instruction of the same opcode with the new operand, of the same length, so the opcode byte
at the position is kept. -/
theorem C22_replace_in_place (c : compiler) (pre old post ins : List Nat)
    (hb : current_bytes c = pre ++ old ++ post) (hlen : ins.length = old.length) :
    (compiler_current_instructions (compiler_replace_instruction c pre.length ins)).size =
      (compiler_current_instructions c).size ∧
    current_bytes (compiler_replace_instruction c pre.length ins) = pre ++ ins ++ post ∧
    (∀ i, i < pre.length ∨ pre.length + ins.length ≤ i →
      (current_bytes (compiler_replace_instruction c pre.length ins))[i]? =
        (current_bytes c)[i]?) ∧
    (∀ i, i < ins.length →
      (current_bytes (compiler_replace_instruction c pre.length ins))[pre.length + i]? =
        ins[i]?) ∧
    ((compiler_current_scope c).last_instruction.position = pre.length →
      current_bytes (compiler_replace_last_instruction c ins) = pre ++ ins ++ post ∧
      (compiler_current_instructions (compiler_replace_last_instruction c ins)).size =
        (compiler_current_instructions c).size) ∧
    (∀ op operands v, old = make_instruction op operands →
      operands.length = (operand_widths op).length →
      current_bytes (compiler_change_operand c pre.length v) =
        pre ++ make_instruction op [v] ++ post ∧
      (compiler_current_instructions (compiler_change_operand c pre.length v)).size =
        (compiler_current_instructions c).size ∧
      (current_bytes (compiler_change_operand c pre.length v))[pre.length]? = some op ∧
      (current_bytes c)[pre.length]? = some op ∧
      ∀ i, i < pre.length ∨ pre.length + old.length ≤ i →
        (current_bytes (compiler_change_operand c pre.length v))[i]? =
          (current_bytes c)[i]?) := by
  have hrep := compiler_replace_size c pre old post ins hb hlen.symm
  have houtside : ∀ (new : List Nat), new.length = old.length →
      ∀ i, i < pre.length ∨ pre.length + new.length ≤ i →
        (pre ++ new ++ post)[i]? = (pre ++ old ++ post)[i]? := by
    intro new hnew i hi
    rcases hi with hi | hi
    · rw [List.append_assoc, List.append_assoc, List.getElem?_append_left hi,
        List.getElem?_append_left hi]
    · rw [List.getElem?_append_right (by simp; omega),
        List.getElem?_append_right (by simp; omega)]
      simp [hnew]
  refine ⟨?_, hrep, ?_, ?_, ?_, ?_⟩
  · show (current_bytes (compiler_replace_instruction c pre.length ins)).length =
      (current_bytes c).length
    rw [hrep, hb]
    simp [hlen]
  · intro i hi
    rw [hrep, hb]
    exact houtside ins hlen i hi
  · intro i hi
    rw [hrep, List.append_assoc, List.getElem?_append_right (by omega)]
    simp [List.getElem?_append_left hi]
  · intro hpos
    have h1 : current_bytes (compiler_replace_last_instruction c ins) = pre ++ ins ++ post := by
      rw [compiler_replace_last_bytes, hpos, hb]
      exact replace_bytes_append pre old post ins hlen.symm
    refine ⟨h1, ?_⟩
    show (current_bytes (compiler_replace_last_instruction c ins)).length =
      (current_bytes c).length
    rw [h1, hb]
    simp [hlen]
  · intro op operands v hold hops
    subst hold
    have h1 := compiler_change_operand_emitted c pre post op v operands hops hb
    have hl : (make_instruction op [v]).length = (make_instruction op operands).length :=
      (make_instruction_length_one op v).trans (make_instruction_length op operands hops).symm
    refine ⟨h1, ?_, ?_, ?_, ?_⟩
    · show (current_bytes (compiler_change_operand c pre.length v)).length =
        (current_bytes c).length
      rw [h1, hb]
      simp [hl]
    · rw [h1, make_instruction, List.append_assoc]
      exact getElem?_append_cons_length _ _ _
    · rw [hb, make_instruction, List.append_assoc]
      exact getElem?_append_cons_length _ _ _
    · intro i hi
      rw [h1, hb]
      exact houtside _ hl i (by rw [hl]; exact hi)

theorem C22_replace_in_place_witness :
    current_bytes (compiler_emit (compiler_emit compiler_new OPCODE_TRUE []).2
      OPCODE_JUMP [9999]).2 = [OPCODE_TRUE] ++ [OPCODE_JUMP, 39, 15] ++ [] ∧
    current_bytes (compiler_replace_instruction
      (compiler_emit (compiler_emit compiler_new OPCODE_TRUE []).2 OPCODE_JUMP [9999]).2
      1 [OPCODE_JUMP, 0, 4]) = [OPCODE_TRUE, OPCODE_JUMP, 0, 4] ∧
    current_bytes (compiler_change_operand
      (compiler_emit (compiler_emit compiler_new OPCODE_TRUE []).2 OPCODE_JUMP [9999]).2
      1 4) = [OPCODE_TRUE, OPCODE_JUMP, 0, 4] :=
  ⟨by decide!,
    (C22_replace_in_place
      (compiler_emit (compiler_emit compiler_new OPCODE_TRUE []).2 OPCODE_JUMP [9999]).2
      [OPCODE_TRUE] [OPCODE_JUMP, 39, 15] [] [OPCODE_JUMP, 0, 4] (by decide!) rfl).2.1,
    by decide!⟩

/-! ### C23 -/

/-- C23: `compiler_new_with_state(t, constants)` returns a compiler whose symbol table is `t`
and whose constant pool is the list `constants`, with its objects and its slots, with an
empty top-level buffer and scope index 0.  When the list has a free slot, the first constant
added afterwards gets the index `constants.values.length` and stands behind the given
objects, which keep their indices, and no object is stored past the list; when all slots of
the list are in use, as in a list of 64 objects with 64 slots, `add_constant` stores the
object past the list.  An identifier resolves in the new compiler as it does in `t`, and it
compiles to the same error code and the same code as in every compiler whose symbol table is
`t`. -/
theorem C23_new_with_state (t : symbol_table) (constants : object_list) :
    (compiler_new_with_state t constants).symbol_table = t ∧
    (compiler_new_with_state t constants).constants = constants.values ∧
    (compiler_new_with_state t constants).constants_cap = constants.cap ∧
    (compiler_new_with_state t constants).constants_overflow = false ∧
    current_bytes (compiler_new_with_state t constants) = [] ∧
    (compiler_new_with_state t constants).scope_index = 0 ∧
    (∀ obj, constants.values.length < constants.cap →
      (add_constant (compiler_new_with_state t constants) obj).1 = constants.values.length ∧
      (add_constant (compiler_new_with_state t constants) obj).2.constants =
        constants.values ++ [obj] ∧
      (add_constant (compiler_new_with_state t constants) obj).2.constants_overflow = false ∧
      (add_constant (compiler_new_with_state t constants) obj).2.symbol_table = t ∧
      ∀ i, i < constants.values.length →
        (add_constant (compiler_new_with_state t constants) obj).2.constants[i]? =
          constants.values[i]?) ∧
    (∀ n, constants.values.length < constants.cap →
      (compile_expression (compiler_new_with_state t constants) (EXPR_INT n)).2.constants =
        constants.values ++ [OBJ_INT n] ∧
      (compile_expression (compiler_new_with_state t constants)
        (EXPR_INT n)).2.constants_overflow = false) ∧
    (∀ obj, constants.cap ≤ constants.values.length →
      (add_constant (compiler_new_with_state t constants) obj).2.constants_overflow = true) ∧
    (add_constant (compiler_new_with_state symbol_table_new
      { values := List.replicate 64 (OBJ_INT 0), cap := 64 }) (OBJ_INT 1)).2.constants_overflow =
      true ∧
    (∀ name, symbol_table_resolve (compiler_new_with_state t constants).symbol_table name =
      symbol_table_resolve t name) ∧
    (∀ (c : compiler) name, c.symbol_table = t →
      (compile_expression (compiler_new_with_state t constants) (EXPR_IDENT name)).1 =
        (compile_expression c (EXPR_IDENT name)).1 ∧
      expression_code (compiler_new_with_state t constants) (EXPR_IDENT name) =
        expression_code c (EXPR_IDENT name)) := by
  have hov : ∀ obj,
      (add_constant (compiler_new_with_state t constants) obj).2.constants_overflow =
        decide (constants.cap ≤ constants.values.length) := by
    intro obj
    show (false || decide (constants.cap ≤ constants.values.length)) = _
    simp
  refine ⟨rfl, rfl, rfl, rfl, rfl, rfl, ?_, ?_, ?_, ?_, fun _ => rfl, ?_⟩
  · intro obj hroom
    refine ⟨?_, rfl, ?_, rfl, ?_⟩
    · show (constants.values ++ [obj]).length - 1 = constants.values.length
      simp
    · rw [hov]
      simpa using hroom
    · intro i hi
      show (constants.values ++ [obj])[i]? = constants.values[i]?
      exact List.getElem?_append_left hi
  · intro n hroom
    rw [compile_expression_int]
    refine ⟨rfl, ?_⟩
    show (add_constant (compiler_new_with_state t constants)
      (make_integer_object n)).2.constants_overflow = false
    rw [hov]
    simpa using hroom
  · intro obj hfull
    rw [hov]
    simpa using hfull
  · show (false || decide (64 ≤ (List.replicate 64 (OBJ_INT 0)).length)) = true
    rw [List.length_replicate]
    rfl
  · intro c name hc
    unfold expression_code
    rw [compile_expression_ident, compile_expression_ident, hc]
    have ht : (compiler_new_with_state t constants).symbol_table = t := rfl
    rw [ht]
    cases hr : symbol_table_resolve t name with
    | none => simp
    | some s =>
      simp only
      cases hs : s.scope <;> simp

theorem C23_new_with_state_witness :
    (add_constant (compiler_new_with_state compiler_new.symbol_table
      { values := [OBJ_INT 7, OBJ_INT 8], cap := 64 }) (OBJ_INT 9)).1 = 2 ∧
    current_bytes (compile_expression (compiler_new_with_state
      (let_enter compiler_new "a").symbol_table { values := [OBJ_INT 7], cap := 64 })
      (EXPR_IDENT "a")).2 = [OPCODE_GET_GLOBAL, 0, 0] ∧
    (add_constant (compiler_new_with_state compiler_new.symbol_table
      { values := [OBJ_INT 7, OBJ_INT 8, OBJ_INT 9], cap := 64 }) (OBJ_INT 10)).2.constants =
      [OBJ_INT 7, OBJ_INT 8, OBJ_INT 9, OBJ_INT 10] ∧
    (add_constant (compiler_new_with_state compiler_new.symbol_table
      { values := [OBJ_INT 7, OBJ_INT 8, OBJ_INT 9], cap := 3 })
      (OBJ_INT 10)).2.constants_overflow = true :=
  ⟨by decide!, by decide!,
    ((C23_new_with_state compiler_new.symbol_table
      { values := [OBJ_INT 7, OBJ_INT 8, OBJ_INT 9], cap := 64 }).2.2.2.2.2.2.1 (OBJ_INT 10)
      (by decide)).2.1,
    by decide!⟩

/-! ### C29 -/

theorem if_enter_eq (c1 : compiler) : if_enter c1 = (if_enter_emit c1).2 := rfl

theorem if_middle_eq (pos : Nat) (c4 : compiler) :
    if_middle pos c4 =
      compiler_change_operand (if_jump_emit c4).2 pos
        (compiler_current_scope (if_jump_emit c4).2).instructions.size := rfl

theorem last_ok_ne_nil {n : Nat} {c : compiler} (h : last_ok n c) : current_bytes c ≠ [] := by
  intro he
  have := last_ok_lt_length h
  rw [he] at this
  exact absurd this (by simp)

theorem last_ok_if_enter (c1 : compiler) : last_ok (current_bytes c1).length (if_enter c1) :=
  last_ok_emit c1 OPCODE_JUMP_NOT_TRUE [9999] rfl

/-- After the POP elision of the consequence of an if-expression the record
`last_instruction` designates the final instruction of the buffer. -/
theorem last_ok_if_consequence (c : compiler) (condition : expression)
    (consequence : List statement)
    (h2 : (compile_block_statement (if_enter (compile_expression c condition).2)
      consequence).1 = 0) :
    last_ok (current_bytes (compile_expression c condition).2).length
      (if_consequence_state c condition consequence) := by
  have ih2 := compile_block_statement_grows _ consequence h2
  obtain ⟨_, hl⟩ := elide_pop_spec ih2 (if_enter_last_is _)
  unfold if_consequence_state
  rcases hl with heq | hl
  · rw [heq]
    exact last_ok_if_enter _
  · refine last_ok_mono hl ?_
    simp [if_enter]

/-- After the POP elision of the alternative of an if-expression the record
`last_instruction` designates the final instruction of the buffer. -/
theorem last_ok_if_alternative (c : compiler) (condition : expression)
    (consequence alternative : List statement)
    (h2 : (compile_block_statement (if_enter (compile_expression c condition).2)
      consequence).1 = 0)
    (h3 : (compile_block_statement
      (if_middle (current_bytes (compile_expression c condition).2).length
        (if_consequence_state c condition consequence)) alternative).1 = 0) :
    last_ok (current_bytes (if_consequence_state c condition consequence)).length
      (if_alternative_state c condition consequence alternative) := by
  have ih2 := compile_block_statement_grows _ consequence h2
  obtain ⟨tA, h4, h6, hlast6, _⟩ := if_middle_spec ih2
  have ih3 := compile_block_statement_grows _ alternative h3
  have hlast_is : compiler_last_instruction_is
      (if_middle (current_bytes (compile_expression c condition).2).length
        (if_consequence_state c condition consequence)) OPCODE_POP = false := by
    rw [Bool.eq_false_iff]
    intro hh
    rw [compiler_last_instruction_is_iff] at hh
    have := hh.2
    unfold if_consequence_state at this
    rw [hlast6] at this
    simp at this
  obtain ⟨_, hl⟩ := elide_pop_spec ih3 hlast_is
  have hlen6 : (current_bytes (if_middle (current_bytes (compile_expression c condition).2).length
      (if_consequence_state c condition consequence))).length =
      (current_bytes (if_consequence_state c condition consequence)).length + 3 := by
    unfold if_consequence_state
    have e6 := congrArg List.length h6
    have e4 := congrArg List.length h4
    simp only [List.length_append, make_instruction_two _ _ operand_widths_jump,
      make_instruction_two _ _ operand_widths_jump_not_true,
      List.length_cons, List.length_nil] at e6 e4
    omega
  unfold if_alternative_state
  rcases hl with heq | hl
  · rw [heq]
    refine ⟨?_, ?_, ?_⟩
    · unfold if_consequence_state
      rw [hlast6]
    · unfold if_consequence_state
      rw [hlast6, h6]
      have hq : (current_bytes (compile_expression c condition).2 ++
          make_instruction OPCODE_JUMP_NOT_TRUE
            [(current_bytes (elide_pop (compile_block_statement
              (if_enter (compile_expression c condition).2) consequence).2)).length + 3] ++
          tA).length =
          (current_bytes (elide_pop (compile_block_statement
            (if_enter (compile_expression c condition).2) consequence).2)).length := by
        rw [h4]
        simp [make_instruction_two _ _ operand_widths_jump_not_true]
      have key : ∀ (q r : List Nat) (n : Nat), q.length = n →
          (q ++ OPCODE_JUMP :: r)[n]? = some OPCODE_JUMP := by
        intro q r n hn
        subst hn
        exact getElem?_append_cons_length _ _ _
      exact key _ _ _ hq
    · rw [hlen6]
      unfold if_consequence_state
      rw [hlast6]
      rfl
  · exact last_ok_mono hl (by omega)

/-- C30: after every expression and every statement that compiles successfully, from any
state, the current buffer is not empty and the record `last_instruction` of the current
scope designates the final instruction of the buffer: the byte at `last_instruction.position`
is `last_instruction.opcode`, and the position plus the encoded length of that opcode is the
size of the buffer; the instruction lies in the part of the buffer that was appended.  The
same holds right after the POP removal in the consequence and in the alternative of an
if-expression, where `last_instruction` is restored from `previous_instruction`. -/
theorem C30_peephole_invariant (c : compiler) :
    (∀ e, (compile_expression c e).1 = 0 →
      current_bytes (compile_expression c e).2 ≠ [] ∧
      (current_bytes c).length ≤
        (compiler_current_scope (compile_expression c e).2).last_instruction.position ∧
      (current_bytes (compile_expression c e).2)[(compiler_current_scope
        (compile_expression c e).2).last_instruction.position]? =
        some (compiler_current_scope (compile_expression c e).2).last_instruction.opcode ∧
      (compiler_current_scope (compile_expression c e).2).last_instruction.position +
        instruction_length
          (compiler_current_scope (compile_expression c e).2).last_instruction.opcode =
        (compiler_current_instructions (compile_expression c e).2).size) ∧
    (∀ s, (compile_statement c s).1 = 0 →
      current_bytes (compile_statement c s).2 ≠ [] ∧
      (current_bytes c).length ≤
        (compiler_current_scope (compile_statement c s).2).last_instruction.position ∧
      (current_bytes (compile_statement c s).2)[(compiler_current_scope
        (compile_statement c s).2).last_instruction.position]? =
        some (compiler_current_scope (compile_statement c s).2).last_instruction.opcode ∧
      (compiler_current_scope (compile_statement c s).2).last_instruction.position +
        instruction_length
          (compiler_current_scope (compile_statement c s).2).last_instruction.opcode =
        (compiler_current_instructions (compile_statement c s).2).size) ∧
    (∀ condition consequence,
      (compile_block_statement (if_enter (compile_expression c condition).2)
        consequence).1 = 0 →
      current_bytes (if_consequence_state c condition consequence) ≠ [] ∧
      last_ok 0 (if_consequence_state c condition consequence)) ∧
    (∀ condition consequence alternative,
      (compile_block_statement (if_enter (compile_expression c condition).2)
        consequence).1 = 0 →
      (compile_block_statement
        (if_middle (current_bytes (compile_expression c condition).2).length
          (if_consequence_state c condition consequence)) alternative).1 = 0 →
      current_bytes (if_alternative_state c condition consequence alternative) ≠ [] ∧
      last_ok 0 (if_alternative_state c condition consequence alternative)) := by
  refine ⟨?_, ?_, ?_, ?_⟩
  · intro e h
    have hl := (compile_expression_grows c e h).2
    exact ⟨last_ok_ne_nil hl, hl.1, hl.2.1, hl.2.2⟩
  · intro s h
    have hl := (compile_statement_grows c s h).2.1
    exact ⟨last_ok_ne_nil hl, hl.1, hl.2.1, hl.2.2⟩
  · intro condition consequence h2
    have hl := last_ok_if_consequence c condition consequence h2
    exact ⟨last_ok_ne_nil hl, last_ok_mono hl (Nat.zero_le _)⟩
  · intro condition consequence alternative h2 h3
    have hl := last_ok_if_alternative c condition consequence alternative h2 h3
    exact ⟨last_ok_ne_nil hl, last_ok_mono hl (Nat.zero_le _)⟩

theorem C30_peephole_invariant_witness :
    (compile_expression compiler_new
      (EXPR_IF (EXPR_BOOL true) [STMT_EXPR (EXPR_INT 1)]
        (some [STMT_EXPR (EXPR_INT 2)]))).1 = 0 ∧
    (compiler_current_scope (compile_expression compiler_new
      (EXPR_IF (EXPR_BOOL true) [STMT_EXPR (EXPR_INT 1)]
        (some [STMT_EXPR (EXPR_INT 2)]))).2).last_instruction =
      { opcode := OPCODE_CONST, position := 10 } ∧
    current_bytes (compile_expression compiler_new
      (EXPR_IF (EXPR_BOOL true) [STMT_EXPR (EXPR_INT 1)]
        (some [STMT_EXPR (EXPR_INT 2)]))).2 =
      [OPCODE_TRUE, OPCODE_JUMP_NOT_TRUE, 0, 10, OPCODE_CONST, 0, 0, OPCODE_JUMP, 0, 13,
        OPCODE_CONST, 0, 1] ∧
    current_bytes (compile_expression compiler_new
      (EXPR_IF (EXPR_BOOL true) [STMT_EXPR (EXPR_INT 1)]
        (some [STMT_EXPR (EXPR_INT 2)]))).2 ≠ [] :=
  ⟨by decide!, by decide!, by decide!,
    ((C30_peephole_invariant compiler_new).1
      (EXPR_IF (EXPR_BOOL true) [STMT_EXPR (EXPR_INT 1)] (some [STMT_EXPR (EXPR_INT 2)]))
      (by decide!)).1⟩

/-! ### Compilation that fails: the scope is not left -/

theorem symbol_table_outer_at_succ_outer (k : Nat) (t1 t2 : symbol_table)
    (h : t1.outer = t2.outer) :
    symbol_table_outer_at (k + 1) t1 = symbol_table_outer_at (k + 1) t2 := by
  simp [symbol_table_outer_at, h]

theorem symbol_table_outer_at_add (a b : Nat) (t : symbol_table) :
    symbol_table_outer_at (a + b) t =
      (symbol_table_outer_at a t).bind (symbol_table_outer_at b) := by
  induction a generalizing t with
  | zero => simp [symbol_table_outer_at]
  | succ a ih =>
    rw [Nat.add_right_comm, symbol_table_outer_at, symbol_table_outer_at]
    cases t.outer with
    | none => rfl
    | some o => simpa using ih o

theorem symbol_table_outer_sizeOf (t o : symbol_table) (h : t.outer = some o) :
    sizeOf o < sizeOf t := by
  cases t with
  | mk store size outer =>
    simp only [symbol_table.outer] at h
    subst h
    simp
    omega

theorem symbol_table_outer_at_sizeOf (k : Nat) (t t2 : symbol_table)
    (h : symbol_table_outer_at k t = some t2) : sizeOf t2 + k ≤ sizeOf t := by
  induction k generalizing t with
  | zero =>
    simp only [symbol_table_outer_at, Option.some.injEq] at h
    rw [h]; omega
  | succ k ih =>
    rw [symbol_table_outer_at] at h
    cases ho : t.outer with
    | none => rw [ho] at h; simp at h
    | some o =>
      rw [ho] at h
      have h1 := ih o (by simpa using h)
      have h2 := symbol_table_outer_sizeOf t o ho
      omega

theorem within_scope_refl (c : compiler) : within_scope c c :=
  ⟨le_refl _, fun _ _ => rfl, c.symbol_table, by simp [symbol_table_outer_at], rfl⟩

theorem within_scope_of_same_frame {c1 c2 : compiler} (h : same_frame c1 c2) :
    within_scope c1 c2 :=
  ⟨le_of_eq h.scope_index.symm, fun j hj => h.scopes j (Nat.ne_of_lt hj), c2.symbol_table,
    by simp [h.scope_index, symbol_table_outer_at], by rw [h.symbol_table]⟩

theorem within_scope_of_grows {c1 c2 : compiler} (h : grows c1 c2)
    (ht : c2.symbol_table.outer = c1.symbol_table.outer) : within_scope c1 c2 :=
  ⟨le_of_eq h.scope_index.symm, h.frame, c2.symbol_table,
    by simp [h.scope_index, symbol_table_outer_at], ht⟩

theorem within_scope_trans {c1 c2 c3 : compiler} (h12 : within_scope c1 c2)
    (h23 : within_scope c2 c3) : within_scope c1 c3 := by
  obtain ⟨t2, ht2, ho2⟩ := h12.table
  obtain ⟨t3, ht3, ho3⟩ := h23.table
  refine ⟨le_trans h12.scope_index h23.scope_index,
    fun j hj => (h23.frame j (lt_of_lt_of_le hj h12.scope_index)).trans (h12.frame j hj), ?_⟩
  have hk : c3.scope_index - c1.scope_index =
      (c3.scope_index - c2.scope_index) + (c2.scope_index - c1.scope_index) := by
    have := h12.scope_index
    have := h23.scope_index
    omega
  rw [hk, symbol_table_outer_at_add, ht3]
  simp only [Option.some_bind]
  cases hd : c2.scope_index - c1.scope_index with
  | zero =>
    rw [hd] at ht2
    simp only [symbol_table_outer_at, Option.some.injEq] at ht2
    refine ⟨t3, by simp [symbol_table_outer_at], ?_⟩
    rw [ho3, ht2, ho2]
  | succ k =>
    rw [hd] at ht2
    refine ⟨t2, ?_, ho2⟩
    rw [symbol_table_outer_at_succ_outer k t3 c2.symbol_table ho3]
    exact ht2

theorem within_scope_function_enter (c : compiler) (ps : List String) :
    within_scope c (function_enter c ps) := by
  refine ⟨by simp, fun j hj => function_enter_scopes_ne c ps j (by omega), c.symbol_table,
    ?_, rfl⟩
  simp [symbol_table_outer_at]

theorem within_scope_let_enter (c : compiler) (name : String) :
    within_scope c (let_enter c name) :=
  within_scope_of_grows (grows_let_enter c name) rfl

theorem within_scope_emit {c1 c2 : compiler} (h : within_scope c1 c2) (op : Nat)
    (ops : List Nat) : within_scope c1 (compiler_emit c2 op ops).2 :=
  within_scope_trans h (within_scope_of_same_frame (same_frame_emit c2 op ops))

mutual
theorem compile_expression_within (c : compiler) : (e : expression) →
    within_scope c (compile_expression c e).2
  | EXPR_INFIX op left right => by
    rw [compile_expression_infix_eq]
    have ih1 := compile_expression_within c left
    have ih2 := compile_expression_within (compile_expression c left).2 right
    have h12 := within_scope_trans ih1 ih2
    split
    · exact ih1
    · split
      · exact h12
      · cases op <;> first
          | exact within_scope_emit h12 _ _
          | exact h12
  | EXPR_PREFIX op right => by
    rw [compile_expression_prefix_eq]
    have ih1 := compile_expression_within c right
    split
    · exact ih1
    · cases op <;> first
        | exact within_scope_emit ih1 _ _
        | exact ih1
  | EXPR_IF condition consequence alternative => by
    rw [compile_expression_if]
    have ih1 := compile_expression_within c condition
    have ih2 := compile_block_statement_within (if_enter (compile_expression c condition).2)
      consequence
    have h2 := within_scope_trans (within_scope_emit ih1 OPCODE_JUMP_NOT_TRUE [9999]) ih2
    have h3 := within_scope_trans (within_scope_trans h2
      (within_scope_of_same_frame (same_frame_elide_pop _)))
      (within_scope_of_same_frame (same_frame_if_middle
        (current_bytes (compile_expression c condition).2).length _))
    split
    · exact ih1
    · split
      · exact h2
      · cases alternative with
        | some alternative =>
          have ih3 := compile_block_statement_within
            (if_middle (current_bytes (compile_expression c condition).2).length
              (elide_pop (compile_block_statement
                (if_enter (compile_expression c condition).2) consequence).2))
            alternative
          have h4 := within_scope_trans h3 ih3
          simp only
          split
          · exact h4
          · exact within_scope_trans (within_scope_trans h4
              (within_scope_of_same_frame (same_frame_elide_pop _)))
              (within_scope_of_same_frame (same_frame_if_finish _ _))
        | none =>
          simp only
          exact within_scope_trans (within_scope_emit h3 OPCODE_NULL [])
            (within_scope_of_same_frame (same_frame_if_finish _ _))
  | EXPR_INT n => by
    rw [compile_expression_int]
    exact within_scope_emit (within_scope_of_grows (grows_add_constant c _) rfl) _ _
  | EXPR_BOOL b => by
    rw [compile_expression_bool]
    cases b
    · exact within_scope_emit (within_scope_refl c) _ _
    · exact within_scope_emit (within_scope_refl c) _ _
  | EXPR_STRING str => by
    rw [compile_expression_string]
    exact within_scope_emit (within_scope_of_grows (grows_add_constant c _) rfl) _ _
  | EXPR_IDENT value => by
    rw [compile_expression_ident]
    cases symbol_table_resolve c.symbol_table value with
    | none => exact within_scope_refl c
    | some s =>
      simp only
      cases s.scope <;> first
        | exact within_scope_emit (within_scope_refl c) _ _
        | exact within_scope_refl c
  | EXPR_FUNCTION parameters body => by
    by_cases h1 : (compile_block_statement (function_enter c parameters) body).1 = 0
    · have h : (compile_expression c (EXPR_FUNCTION parameters body)).1 = 0 := by
        rw [compile_expression_function, if_neg (not_not.mpr h1)]
      exact within_scope_of_grows (compile_expression_grows c _ h).1
        (compile_expression_table c _ h).1
    · rw [compile_expression_function, if_pos h1]
      exact within_scope_trans (within_scope_function_enter c parameters)
        (compile_block_statement_within _ body)
  | EXPR_CALL function arguments => by
    rw [compile_expression_call]
    have ih1 := compile_expression_within c function
    have ih2 := compile_arguments_within (compile_expression c function).2 0 arguments
    have h12 := within_scope_trans ih1 ih2
    split
    · exact ih1
    · split
      · exact h12
      · exact within_scope_emit h12 _ _
theorem compile_arguments_within (c : compiler) (i : Nat) : (arguments : List expression) →
    within_scope c (compile_arguments c i arguments).2.2
  | [] => within_scope_refl c
  | a :: rest => by
    rw [compile_arguments_cons]
    have ih1 := compile_expression_within c a
    split
    · exact ih1
    · exact within_scope_trans ih1 (compile_arguments_within _ (i + 1) rest)
theorem compile_statement_within (c : compiler) : (s : statement) →
    within_scope c (compile_statement c s).2
  | STMT_EXPR value => by
    rw [compile_statement_expr]
    have ih1 := compile_expression_within c value
    split
    · exact ih1
    · exact within_scope_emit ih1 _ _
  | STMT_LET name value => by
    rw [compile_statement_let]
    have ih1 := within_scope_trans (within_scope_let_enter c name)
      (compile_expression_within (let_enter c name) value)
    split
    · exact ih1
    · exact within_scope_emit ih1 _ _
  | STMT_RETURN value => by
    rw [compile_statement_return]
    have ih1 := compile_expression_within c value
    split
    · exact ih1
    · exact within_scope_emit ih1 _ _
theorem compile_block_statement_within (c : compiler) : (b : List statement) →
    within_scope c (compile_block_statement c b).2
  | [] => within_scope_refl c
  | s :: rest => by
    rw [compile_block_statement_cons]
    have ih1 := compile_statement_within c s
    split
    · exact ih1
    · exact within_scope_trans ih1 (compile_block_statement_within _ rest)
end

/-! ### C31 -/

/-- C31: when compiling the body of a function literal fails, `compile_expression` returns
the error of the body and the state in which the body failed, the scope not left: the scope
index is strictly greater than before the call, the outer chain of the current table,
followed once for each scope entered, reaches the table of before the call, which is
therefore not the current table, and `get_bytecode` returns the buffer in which the body was
being compiled, while the buffer of before the call is unchanged in its scope below. -/
theorem C31_function_body_error (c : compiler) (parameters : List String)
    (body : List statement)
    (h : (compile_block_statement (function_enter c parameters) body).1 ≠ 0) :
    (compile_expression c (EXPR_FUNCTION parameters body)).1 =
      (compile_block_statement (function_enter c parameters) body).1 ∧
    (compile_expression c (EXPR_FUNCTION parameters body)).2 =
      function_body_state c parameters body ∧
    c.scope_index < (compile_expression c (EXPR_FUNCTION parameters body)).2.scope_index ∧
    symbol_table_outer_at
      ((compile_expression c (EXPR_FUNCTION parameters body)).2.scope_index - c.scope_index)
      (compile_expression c (EXPR_FUNCTION parameters body)).2.symbol_table =
      some c.symbol_table ∧
    (compile_expression c (EXPR_FUNCTION parameters body)).2.symbol_table ≠ c.symbol_table ∧
    (get_bytecode (compile_expression c (EXPR_FUNCTION parameters body)).2).instructions =
      compiler_current_instructions (function_body_state c parameters body) ∧
    (compile_expression c (EXPR_FUNCTION parameters body)).2.scopes c.scope_index =
      c.scopes c.scope_index := by
  have hr : compile_expression c (EXPR_FUNCTION parameters body) =
      compile_block_statement (function_enter c parameters) body := by
    rw [compile_expression_function, if_pos h]
  have hw := compile_block_statement_within (function_enter c parameters) body
  have hidx : c.scope_index + 1 ≤
      (compile_block_statement (function_enter c parameters) body).2.scope_index := by
    simpa using hw.scope_index
  obtain ⟨t, ht, hto⟩ := hw.table
  rw [function_enter_outer] at hto
  rw [function_enter_scope_index] at ht
  have hreach : symbol_table_outer_at
      ((compile_block_statement (function_enter c parameters) body).2.scope_index -
        c.scope_index)
      (compile_block_statement (function_enter c parameters) body).2.symbol_table =
      some c.symbol_table := by
    have hk : (compile_block_statement (function_enter c parameters) body).2.scope_index -
        c.scope_index =
        ((compile_block_statement (function_enter c parameters) body).2.scope_index -
          (c.scope_index + 1)) + 1 := by omega
    rw [hk, symbol_table_outer_at_add, ht]
    simp [symbol_table_outer_at, hto]
  rw [hr]
  refine ⟨rfl, rfl, by omega, hreach, ?_, rfl, ?_⟩
  · intro heq
    have hs := symbol_table_outer_at_sizeOf _ _ _ hreach
    rw [heq] at hs
    omega
  · rw [hw.frame c.scope_index (by simp)]
    exact function_enter_scopes_ne c parameters c.scope_index (by omega)

/-- C31 on `fn(a) { 1; x }` after the statement `true;`, with `x` undefined: the error is
"undefined variable", the scope index is 1 instead of 0, and `get_bytecode` gives the code
of `1;`, not the code of `true;`. -/
theorem C31_function_body_error_witness :
    (compile_block_statement
      (function_enter (compile_program compiler_new [STMT_EXPR (EXPR_BOOL true)]).2 ["a"])
      [STMT_EXPR (EXPR_INT 1), STMT_EXPR (EXPR_IDENT "x")]).1 ≠ 0 ∧
    (compile_expression (compile_program compiler_new [STMT_EXPR (EXPR_BOOL true)]).2
      (EXPR_FUNCTION ["a"] [STMT_EXPR (EXPR_INT 1), STMT_EXPR (EXPR_IDENT "x")])).1 =
      COMPILE_ERR_UNKNOWN_IDENT ∧
    (compile_program compiler_new [STMT_EXPR (EXPR_BOOL true)]).2.scope_index = 0 ∧
    (compile_expression (compile_program compiler_new [STMT_EXPR (EXPR_BOOL true)]).2
      (EXPR_FUNCTION ["a"]
        [STMT_EXPR (EXPR_INT 1), STMT_EXPR (EXPR_IDENT "x")])).2.scope_index = 1 ∧
    (get_bytecode (compile_program compiler_new
      [STMT_EXPR (EXPR_BOOL true)]).2).instructions.bytes = [OPCODE_TRUE, OPCODE_POP] ∧
    (get_bytecode (compile_expression
      (compile_program compiler_new [STMT_EXPR (EXPR_BOOL true)]).2
      (EXPR_FUNCTION ["a"]
        [STMT_EXPR (EXPR_INT 1), STMT_EXPR (EXPR_IDENT "x")])).2).instructions.bytes =
      [OPCODE_CONST, 0, 0, OPCODE_POP] ∧
    (compile_expression (compile_program compiler_new [STMT_EXPR (EXPR_BOOL true)]).2
      (EXPR_FUNCTION ["a"]
        [STMT_EXPR (EXPR_INT 1), STMT_EXPR (EXPR_IDENT "x")])).2.symbol_table ≠
      (compile_program compiler_new [STMT_EXPR (EXPR_BOOL true)]).2.symbol_table :=
  ⟨by decide!, by decide!, by decide!, by decide!, by decide!, by decide!,
    (C31_function_body_error (compile_program compiler_new [STMT_EXPR (EXPR_BOOL true)]).2
      ["a"] [STMT_EXPR (EXPR_INT 1), STMT_EXPR (EXPR_IDENT "x")] (by decide!)).2.2.2.2.1⟩

/-! ### C32 -/

/-- C32: emitting an instruction and then removing the last instruction restores the size of
the current buffer, its bytes and the record `last_instruction` to what they were before the
emit, for every compiler state, opcode and operands; the record `previous_instruction` is
left equal to the `last_instruction` of before the emit, so it has its former value only
when the two records were equal before. -/
theorem C32_emit_remove_round_trip (c : compiler) (opcode : Nat) (operands : List Nat) :
    (compiler_current_scope (compiler_remove_last_instruction
      (compiler_emit c opcode operands).2)).instructions.size =
      (compiler_current_scope c).instructions.size ∧
    (compiler_current_scope (compiler_remove_last_instruction
      (compiler_emit c opcode operands).2)).last_instruction =
      (compiler_current_scope c).last_instruction ∧
    current_bytes (compiler_remove_last_instruction (compiler_emit c opcode operands).2) =
      current_bytes c ∧
    (compiler_current_scope (compiler_remove_last_instruction
      (compiler_emit c opcode operands).2)).previous_instruction =
      (compiler_current_scope c).last_instruction ∧
    ((compiler_current_scope (compiler_remove_last_instruction
      (compiler_emit c opcode operands).2)).previous_instruction =
      (compiler_current_scope c).previous_instruction ↔
      (compiler_current_scope c).last_instruction =
        (compiler_current_scope c).previous_instruction) := by
  have hb : current_bytes (compiler_remove_last_instruction
      (compiler_emit c opcode operands).2) = current_bytes c := by
    rw [compiler_remove_bytes, compiler_emit_last, compiler_emit_bytes]
    simp
  have hl : (compiler_current_scope (compiler_remove_last_instruction
      (compiler_emit c opcode operands).2)).last_instruction =
      (compiler_current_scope c).last_instruction := by
    rw [compiler_remove_last, compiler_emit_previous]
  have hp : (compiler_current_scope (compiler_remove_last_instruction
      (compiler_emit c opcode operands).2)).previous_instruction =
      (compiler_current_scope c).last_instruction := by
    simp [compiler_remove_last_instruction, compiler_emit, add_instruction,
      compiler_set_last_instruction, compiler_current_scope, set_scope]
  refine ⟨?_, hl, hb, hp, ?_⟩
  · have := congrArg List.length hb
    simpa [current_bytes, compiler_current_instructions, instruction.size] using this
  · rw [hp]

/-- C32 on the state after `true` and `false` were emitted by a new compiler: after a `POP`
is emitted and removed, the buffer and `last_instruction` are as before, and
`previous_instruction` is the record of `FALSE`, no longer that of `TRUE`. -/
theorem C32_emit_remove_round_trip_witness :
    current_bytes (compiler_remove_last_instruction (compiler_emit
      (compiler_emit (compiler_emit compiler_new OPCODE_TRUE []).2 OPCODE_FALSE []).2
      OPCODE_POP []).2) = [OPCODE_TRUE, OPCODE_FALSE] ∧
    (compiler_current_scope (compiler_emit (compiler_emit compiler_new OPCODE_TRUE []).2
      OPCODE_FALSE []).2).previous_instruction = { opcode := OPCODE_TRUE, position := 0 } ∧
    (compiler_current_scope (compiler_remove_last_instruction (compiler_emit
      (compiler_emit (compiler_emit compiler_new OPCODE_TRUE []).2 OPCODE_FALSE []).2
      OPCODE_POP []).2)).previous_instruction = { opcode := OPCODE_FALSE, position := 1 } :=
  ⟨(C32_emit_remove_round_trip
      (compiler_emit (compiler_emit compiler_new OPCODE_TRUE []).2 OPCODE_FALSE []).2
      OPCODE_POP []).2.2.1.trans (by decide!),
    by decide!,
    (C32_emit_remove_round_trip
      (compiler_emit (compiler_emit compiler_new OPCODE_TRUE []).2 OPCODE_FALSE []).2
      OPCODE_POP []).2.2.2.1.trans (by decide!)⟩

/-! ### C34 -/

theorem make_instruction_length_le (opcode : Nat) (operands : List Nat) :
    (make_instruction opcode operands).length ≤ 3 := by
  unfold make_instruction
  rcases operand_widths_cases opcode with hw | hw | hw <;> rw [hw]
  · cases operands <;> simp [make_operands, make_operand]
  · cases operands <;> simp [make_operands, make_operand]
  · simp [make_operands]

/-- C34: when the current buffer has `size < cap` and the instruction has at most `cap`
bytes, `add_instruction` returns the old size as position, the size grows by exactly the
length of the instruction, `size < cap` holds again, the capacity is the old one or twice
the old one, and every byte of the instruction is written at an index below the new
capacity, after the bytes that were there; an encoded instruction has at most 3 bytes, and
the capacity starts at 2048 in a new compiler and at 1024 in an entered scope.  Sizes and
capacities are natural numbers here; as long as twice the capacity is below `2 ^ 32`, so are
the new size and the new capacity, and 32-bit arithmetic gives the same values. -/
theorem C34_capacity_invariant (c : compiler) (ins : List Nat)
    (h1 : (compiler_current_instructions c).size < (compiler_current_instructions c).cap)
    (h2 : ins.length ≤ (compiler_current_instructions c).cap) :
    (add_instruction c ins).1 = (compiler_current_instructions c).size ∧
    (compiler_current_instructions (add_instruction c ins).2).size =
      (compiler_current_instructions c).size + ins.length ∧
    (compiler_current_instructions (add_instruction c ins).2).size <
      (compiler_current_instructions (add_instruction c ins).2).cap ∧
    ((compiler_current_instructions (add_instruction c ins).2).cap =
        (compiler_current_instructions c).cap ∨
      (compiler_current_instructions (add_instruction c ins).2).cap =
        2 * (compiler_current_instructions c).cap) ∧
    (compiler_current_instructions (add_instruction c ins).2).bytes =
      (compiler_current_instructions c).bytes ++ ins ∧
    (∀ i, i < ins.length →
      (add_instruction c ins).1 + i <
        (compiler_current_instructions (add_instruction c ins).2).cap ∧
      (compiler_current_instructions (add_instruction c ins).2).bytes[
        (add_instruction c ins).1 + i]? = ins[i]?) ∧
    (∀ opcode operands, (make_instruction opcode operands).length ≤ 3) ∧
    (compiler_current_instructions compiler_new).cap = 2048 ∧
    (∀ c0, (compiler_current_instructions (compiler_enter_scope c0)).cap = 1024) ∧
    (2 * (compiler_current_instructions c).cap < 2 ^ 32 →
      (compiler_current_instructions c).size + ins.length < 2 ^ 32 ∧
      (compiler_current_instructions (add_instruction c ins).2).cap < 2 ^ 32) := by
  have hpos : (add_instruction c ins).1 = (compiler_current_instructions c).size := rfl
  have hbytes : (compiler_current_instructions (add_instruction c ins).2).bytes =
      (compiler_current_instructions c).bytes ++ ins := by
    simp [add_instruction, compiler_current_instructions, compiler_current_scope, set_scope]
  have hcap : (compiler_current_instructions (add_instruction c ins).2).cap =
      if (compiler_current_instructions c).size + ins.length ≥
          (compiler_current_instructions c).cap then
        (compiler_current_instructions c).cap * 2
      else (compiler_current_instructions c).cap := by
    simp [add_instruction, compiler_current_instructions, compiler_current_scope, set_scope]
  have hsize : (compiler_current_instructions (add_instruction c ins).2).size =
      (compiler_current_instructions c).size + ins.length := by
    simp only [instruction.size, hbytes, List.length_append]
  have hlt : (compiler_current_instructions (add_instruction c ins).2).size <
      (compiler_current_instructions (add_instruction c ins).2).cap := by
    rw [hsize, hcap]
    split <;> omega
  have hdbl : (compiler_current_instructions (add_instruction c ins).2).cap =
        (compiler_current_instructions c).cap ∨
      (compiler_current_instructions (add_instruction c ins).2).cap =
        2 * (compiler_current_instructions c).cap := by
    rw [hcap]
    split
    · exact Or.inr (Nat.mul_comm _ _)
    · exact Or.inl rfl
  refine ⟨hpos, hsize, hlt, hdbl, hbytes, ?_, make_instruction_length_le, rfl, ?_, ?_⟩
  · intro i hi
    refine ⟨?_, ?_⟩
    · rw [hpos]
      rw [hsize] at hlt
      omega
    · rw [hpos, hbytes, instruction.size, List.getElem?_append_right (by omega)]
      simp
  · intro c0
    simp [compiler_enter_scope, compiler_current_instructions, compiler_current_scope,
      set_scope]
  · intro hw
    rcases hdbl with hd | hd <;> rw [hd] <;> omega

/-- C34 on a new compiler and the instruction `TRUE`: the hypotheses hold (size 0, capacity
2048, one byte), and the byte is at index 0. -/
theorem C34_capacity_invariant_witness :
    (compiler_current_instructions compiler_new).size <
      (compiler_current_instructions compiler_new).cap ∧
    (make_instruction OPCODE_TRUE []).length ≤ (compiler_current_instructions compiler_new).cap ∧
    (compiler_current_instructions
      (add_instruction compiler_new (make_instruction OPCODE_TRUE [])).2).size = 1 ∧
    (compiler_current_instructions
      (add_instruction compiler_new (make_instruction OPCODE_TRUE [])).2).size <
      (compiler_current_instructions
        (add_instruction compiler_new (make_instruction OPCODE_TRUE [])).2).cap :=
  ⟨by decide, by decide,
    (C34_capacity_invariant compiler_new (make_instruction OPCODE_TRUE [])
      (by decide) (by decide)).2.1,
    (C34_capacity_invariant compiler_new (make_instruction OPCODE_TRUE [])
      (by decide) (by decide)).2.2.1⟩

/-! ## The parser -/

namespace ast

/-! ### The parser on a list of tokens -/

theorem parser_new_eq (l : List token) : parser_new l = parser_at l 0 [] := by
  match l with
  | [] => rfl
  | [_] => rfl
  | _ :: _ :: _ => rfl

theorem next_token_at (t : token) (ts : List token) (e : Nat) (m : List String) :
    next_token (parser_at (t :: ts) e m) = parser_at ts e m := by
  match ts with
  | [] => rfl
  | [_] => rfl
  | _ :: _ :: _ => rfl

@[simp] theorem parser_at_current (t : token) (ts : List token) (e : Nat) (m : List String) :
    (parser_at (t :: ts) e m).current_token = t := rfl

@[simp] theorem parser_at_next (t u : token) (ts : List token) (e : Nat) (m : List String) :
    (parser_at (t :: u :: ts) e m).next_token = u := rfl

@[simp] theorem parser_at_errors (ts : List token) (e : Nat) (m : List String) :
    (parser_at ts e m).errors = e := rfl

theorem expect_next_token_at (f : token_type → String) (t u : token) (ts : List token)
    (e : Nat) (m : List String) :
    expect_next_token f (parser_at (t :: u :: ts) e m) u.type =
      (true, parser_at (u :: ts) e m) := by
  simp [expect_next_token, next_token_is, next_token_at]

/-- The skip loop runs to the first semicolon when the fuel covers the tokens before it. -/
theorem skip_to_semicolon_at (e : List token) (semi : token) (rest : List token) (n : Nat)
    (m : List String) (fuel : Nat) (he : no_semicolon e = true)
    (hs : semi.type = .SEMICOLON) (hf : e.length ≤ fuel) :
    skip_to_semicolon fuel (parser_at (e ++ semi :: rest) n m) =
      some (parser_at (semi :: rest) n m) := by
  induction e generalizing fuel with
  | nil =>
    cases fuel <;> simp [skip_to_semicolon, current_token_is, hs]
  | cons t e ih =>
    simp only [no_semicolon, List.all_cons, Bool.and_eq_true, decide_eq_true_eq] at he
    cases fuel with
    | zero => simp at hf
    | succ fuel =>
      have hne : current_token_is (parser_at (t :: (e ++ semi :: rest)) n m) .SEMICOLON =
          false := by
        simp [current_token_is, Ne.symm he.1]
      rw [List.cons_append, skip_to_semicolon, hne]
      simp only [Bool.false_eq_true, if_false]
      rw [next_token_at]
      exact ih fuel he.2 (by simpa using hf)

/-- One source statement: the loop body of `parse_program` on it. -/
theorem parse_statement_source (f : token_type → String) (src : source_statement)
    (rest : List token) (n : Nat) (m : List String) (s : statement) (fuel : Nat)
    (he : no_semicolon src.value = true) (hf : src.value.length < fuel) :
    parse_statement f fuel (parser_at (source_tokens src ++ rest) n m) s =
      some (1, parser_at ({ type := .SEMICOLON, literal := ";" } :: rest) n m,
        parsed_source s src) := by
  cases src with
  | source_let name value =>
    have hskip := skip_to_semicolon_at ({ type := .ASSIGN, literal := "=" } :: value)
      { type := .SEMICOLON, literal := ";" } rest n m fuel
      (by simpa [no_semicolon] using he) rfl (by simpa using hf)
    simp only [source_tokens, List.cons_append, List.nil_append, List.append_assoc,
      List.singleton_append] at hskip ⊢
    simp only [parse_statement, parser_at_current, parse_let_statement]
    have h1 := expect_next_token_at f { type := .LET, literal := "let" }
      { type := .IDENT, literal := name }
      ({ type := .ASSIGN, literal := "=" } :: (value ++
        { type := .SEMICOLON, literal := ";" } :: rest)) n m
    have h2 := expect_next_token_at f { type := .IDENT, literal := name }
      { type := .ASSIGN, literal := "=" }
      (value ++ { type := .SEMICOLON, literal := ";" } :: rest) n m
    simp only at h1 h2
    rw [h1]
    simp only [Bool.not_true, Bool.false_eq_true, if_false]
    rw [h2]
    simp only [Bool.not_true, Bool.false_eq_true, if_false]
    rw [hskip]
    rfl
  | source_return value =>
    have hskip := skip_to_semicolon_at value
      { type := .SEMICOLON, literal := ";" } rest n m fuel he rfl (le_of_lt hf)
    simp only [source_tokens, List.cons_append, List.nil_append, List.append_assoc,
      List.singleton_append] at hskip ⊢
    simp only [parse_statement, parser_at_current, parse_return_statement]
    rw [next_token_at, hskip]
    rfl

/-- The loop of `parse_program` on a sequence of let and return statements: one statement
is added for each, in order, no error is recorded, and the value of each is the value the
local `s` had at the start. -/
theorem parse_program_loop_sources (f : token_type → String) (srcs : List source_statement)
    (s : statement) (prog : program) (fuel : Nat)
    (he : ∀ src ∈ srcs, no_semicolon src.value = true)
    (hf : (sources_tokens srcs).length < fuel) :
    ∃ cap, parse_program_loop f fuel (parser_at (sources_tokens srcs) 0 []) s prog =
      some ({ statements := prog.statements ++ parsed_sources s srcs, cap := cap },
        parser_at [] 0 []) := by
  induction srcs generalizing s prog fuel with
  | nil =>
    refine ⟨prog.cap, ?_⟩
    cases fuel <;> simp [parse_program_loop, sources_tokens, parser_at, parsed_sources]
  | cons src rest ih =>
    cases fuel with
    | zero => simp at hf
    | succ fuel =>
      have hsrc : src.value.length + 2 ≤ (source_tokens src).length := by
        cases src <;> simp [source_tokens, source_statement.value]
      simp only [sources_tokens, List.length_append] at hf
      have hstmt := parse_statement_source f src (sources_tokens rest) 0 [] s fuel
        (he src (List.mem_cons_self _ _)) (by omega)
      have hcur : (parser_at (sources_tokens (src :: rest)) 0 []).current_token.type ≠
          .EOF := by
        cases src <;> simp [sources_tokens, source_tokens]
      rw [parse_program_loop, if_neg hcur]
      simp only [sources_tokens]
      rw [hstmt]
      simp only
      rw [if_neg (by decide), next_token_at]
      obtain ⟨cap, hcap⟩ := ih (parsed_source s src)
        { statements := prog.statements ++ [parsed_source s src]
          cap := if prog.statements.length + 1 ≥ prog.cap then prog.cap * 2 else prog.cap }
        fuel (fun x hx => he x (List.mem_cons_of_mem _ hx)) (by omega)
      refine ⟨cap, ?_⟩
      rw [hcap]
      simp [parsed_sources]

theorem parsed_sources_value (s : statement) (srcs : List source_statement) :
    ∀ st ∈ parsed_sources s srcs, st.value = s.value := by
  induction srcs generalizing s with
  | nil => simp [parsed_sources]
  | cons src rest ih =>
    intro st hst
    simp only [parsed_sources, List.mem_cons] at hst
    have hv : (parsed_source s src).value = s.value := by cases src <;> rfl
    rcases hst with rfl | hst
    · exact hv
    · rw [ih _ st hst, hv]

theorem parse_program_sources (f : token_type → String) (srcs : List source_statement)
    (s : statement) (fuel : Nat) (he : ∀ src ∈ srcs, no_semicolon src.value = true)
    (hf : (sources_tokens srcs).length < fuel) :
    ∃ cap, parse_program f fuel (parser_new (sources_tokens srcs)) s =
      some ({ statements := parsed_sources s srcs, cap := cap }, parser_at [] 0 []) := by
  obtain ⟨cap, h⟩ := parse_program_loop_sources f srcs s { statements := [], cap := 1 } fuel
    he hf
  refine ⟨cap, ?_⟩
  rw [parse_program, parser_new_eq, h]
  rfl

/-- C27: the claim fails on the code.  `parse_let_statement` and `parse_return_statement`
skip the tokens up to the semicolon and do not assign the value of the statement: for
`let x = 5;` and for `return x;` the statement that `parse_program` adds has the value that
the local `s` held before, whatever it was, and no error is recorded; after the expression
statement `5;` the statement for `let x = 7;` has the value of that statement, the integer
expression 5, and the program renders as `5let x = 5;`. -/
theorem C27_value_not_parsed (token_to_str : token_type → String) (s : statement) :
    (∃ cap, parse_program token_to_str 6
      (parser_new [{ type := .LET, literal := "let" }, { type := .IDENT, literal := "x" },
        { type := .ASSIGN, literal := "=" }, { type := .INT, literal := "5" },
        { type := .SEMICOLON, literal := ";" }]) s =
      some
        ({ statements :=
            [{ token := { type := .LET, literal := "let" }
               name := { token := { type := .IDENT, literal := "x" }, value := "x" }
               value := s.value }]
           cap := cap }, parser_at [] 0 [])) ∧
    (∃ cap, parse_program token_to_str 4
      (parser_new [{ type := .RETURN, literal := "return" },
        { type := .IDENT, literal := "x" }, { type := .SEMICOLON, literal := ";" }]) s =
      some
        ({ statements := [{ s with token := { type := .RETURN, literal := "return" } }]
           cap := cap }, parser_at [] 0 [])) ∧
    (parse_program token_to_str 8
      (parser_new [{ type := .INT, literal := "5" }, { type := .SEMICOLON, literal := ";" },
        { type := .LET, literal := "let" }, { type := .IDENT, literal := "x" },
        { type := .ASSIGN, literal := "=" }, { type := .INT, literal := "7" },
        { type := .SEMICOLON, literal := ";" }]) s).map
      (fun r => (r.1.statements.map fun st => st.value.bind expression_to_str,
        program_to_str r.1)) =
      some ([some "5", some "5"], some "5let x = 5;") := by
  refine ⟨?_, ?_, ?_⟩
  · exact parse_program_sources token_to_str
      [.source_let "x" [{ type := .INT, literal := "5" }]] s 6 (by decide) (by decide)
  · exact parse_program_sources token_to_str
      [.source_return [{ type := .IDENT, literal := "x" }]] s 4 (by decide) (by decide)
  · rfl

/-! ### C28 -/

theorem expression_to_str_infix_eq (token : token) (operator : String) (left right : expression) :
    expression_to_str (.EXPR_INFIX token operator (some left) (some right)) =
      match expression_to_str left, expression_to_str right with
      | some sl, some sr => some ("(" ++ sl ++ " " ++ operator ++ " " ++ sr ++ ")")
      | _, _ => none := rfl

theorem expression_to_str_prefix_eq (token : token) (operator : String) (right : expression) :
    expression_to_str (.EXPR_PREFIX token operator (some right)) =
      match expression_to_str right with
      | none => none
      | some sr => some ("(" ++ operator ++ sr ++ ")") := rfl

/-- C28: the claim fails on the code.  For the program of `test_program_string`, the
statements `let myVar = anotherVar` and `return 5 + foo` built as the test builds them,
`program_to_str` gives `let myVar = anotherVar;return ;`, and with the token `+` in the
infix expression `let myVar = anotherVar;return +;`: `let_statement_to_str` and
`return_statement_to_str` write the literal of the token of the value, not the rendering of
the value.  An expression statement is rendered by `expression_to_str`, an infix expression
as `(<left> <operator> <right>)`, a prefix expression as `(<operator><right>)`. -/
theorem C28_program_to_str :
    program_to_str
      { statements :=
          [{ token := { type := .LET, literal := "let" }
             name := { token := { type := .IDENT, literal := "myVar" }, value := "myVar" }
             value := some (.EXPR_IDENT { type := .IDENT, literal := "anotherVar" }
               "anotherVar") },
            { token := { type := .RETURN, literal := "return" }
              name := { token := { type := .ILLEGAL, literal := "" }, value := "" }
              value := some (.EXPR_INFIX { type := .ILLEGAL, literal := "" } "+"
                (some (.EXPR_INT { type := .INT, literal := "5" } 5))
                (some (.EXPR_IDENT { type := .ILLEGAL, literal := "" } "foo"))) }]
        cap := 2 } = some "let myVar = anotherVar;return ;" ∧
    program_to_str
      { statements :=
          [{ token := { type := .LET, literal := "let" }
             name := { token := { type := .IDENT, literal := "myVar" }, value := "myVar" }
             value := some (.EXPR_IDENT { type := .IDENT, literal := "anotherVar" }
               "anotherVar") },
            { token := { type := .RETURN, literal := "return" }
              name := { token := { type := .ILLEGAL, literal := "" }, value := "" }
              value := some (.EXPR_INFIX { type := .PLUS, literal := "+" } "+"
                (some (.EXPR_INT { type := .INT, literal := "5" } 5))
                (some (.EXPR_IDENT { type := .IDENT, literal := "foo" } "foo"))) }]
        cap := 2 } = some "let myVar = anotherVar;return +;" ∧
    expression_to_str (.EXPR_INFIX { type := .PLUS, literal := "+" } "+"
      (some (.EXPR_INT { type := .INT, literal := "5" } 5))
      (some (.EXPR_IDENT { type := .IDENT, literal := "foo" } "foo"))) = some "(5 + foo)" ∧
    (∀ (s : statement) (value : expression), s.value = some value →
      let_statement_to_str s = some (s.token.literal ++ " " ++ s.name.token.literal ++ " = " ++
        value.token.literal ++ ";") ∧
      return_statement_to_str s = some (s.token.literal ++ " " ++ value.token.literal ++
        ";")) ∧
    (∀ (s : statement) (value : expression), s.value = some value →
      s.token.type ≠ .LET → s.token.type ≠ .RETURN →
      statement_to_str s = expression_to_str value) ∧
    (∀ (token : token) (operator : String) (left right : expression) (sl sr : String),
      expression_to_str left = some sl → expression_to_str right = some sr →
      expression_to_str (.EXPR_INFIX token operator (some left) (some right)) =
        some ("(" ++ sl ++ " " ++ operator ++ " " ++ sr ++ ")")) ∧
    (∀ (token : token) (operator : String) (right : expression) (sr : String),
      expression_to_str right = some sr →
      expression_to_str (.EXPR_PREFIX token operator (some right)) =
        some ("(" ++ operator ++ sr ++ ")")) := by
  refine ⟨by decide!, by decide!, by decide!, ?_, ?_, ?_, ?_⟩
  · intro s value h
    simp [let_statement_to_str, return_statement_to_str, h]
  · intro s value h h1 h2
    unfold statement_to_str
    rw [h]
    split
    · rename_i heq
      exact absurd heq h1
    · rename_i heq
      exact absurd heq h2
    · rfl
  · intro token operator left right sl sr hl hr
    rw [expression_to_str_infix_eq, hl, hr]
  · intro token operator right sr hr
    rw [expression_to_str_prefix_eq, hr]

theorem C28_program_to_str_witness :
    expression_to_str (.EXPR_INT { type := .INT, literal := "5" } 5) = some "5" ∧
    expression_to_str (.EXPR_IDENT { type := .IDENT, literal := "foo" } "foo") = some "foo" ∧
    expression_to_str (.EXPR_INFIX { type := .PLUS, literal := "+" } "+"
      (some (.EXPR_INT { type := .INT, literal := "5" } 5))
      (some (.EXPR_IDENT { type := .IDENT, literal := "foo" } "foo"))) =
      some ("(" ++ "5" ++ " " ++ "+" ++ " " ++ "foo" ++ ")") :=
  ⟨by decide!, by decide!,
    C28_program_to_str.2.2.2.2.2.1 { type := .PLUS, literal := "+" } "+"
      (.EXPR_INT { type := .INT, literal := "5" } 5)
      (.EXPR_IDENT { type := .IDENT, literal := "foo" } "foo") "5" "foo" (by decide!)
      (by decide!)⟩

/-! ### The steps of `parse_expression` -/

theorem parse_expression_succ (f : token_type → String) (fuel : Nat) (p : parser)
    (precedence : Nat) :
    parse_expression f (fuel + 1) p precedence =
      match p.current_token.type with
      | .IDENT =>
        parse_expression_loop (parse_expression f fuel) fuel p
          (some (parse_identifier_expression p)) precedence
      | .INT =>
        parse_expression_loop (parse_expression f fuel) fuel p
          (some (parse_int_expression p)) precedence
      | .BANG =>
        match parse_prefix_expression (parse_expression f fuel) p with
        | none => none
        | some r =>
          parse_expression_loop (parse_expression f fuel) fuel r.2 r.1 precedence
      | .MINUS =>
        match parse_prefix_expression (parse_expression f fuel) p with
        | none => none
        | some r =>
          parse_expression_loop (parse_expression f fuel) fuel r.2 r.1 precedence
      | .TRUE =>
        parse_expression_loop (parse_expression f fuel) fuel p
          (some (parse_boolean_expression p)) precedence
      | .FALSE =>
        parse_expression_loop (parse_expression f fuel) fuel p
          (some (parse_boolean_expression p)) precedence
      | .LPAREN =>
        match parse_grouped_expression f (parse_expression f fuel) p with
        | none => none
        | some r =>
          parse_expression_loop (parse_expression f fuel) fuel r.2 r.1 precedence
      | _ =>
        some (none,
          record_error p
            ("no prefix parse function found for " ++ f p.current_token.type)) := rfl

/-- An operand token is parsed to its expression, and the loop goes on from there. -/
theorem parse_expression_operand (f : token_type → String) (fuel : Nat) (a : token)
    (rest : List token) (e : Nat) (m : List String) (precedence : Nat)
    (ha : is_operand_type a.type = true) :
    parse_expression f (fuel + 1) (parser_at (a :: rest) e m) precedence =
      parse_expression_loop (parse_expression f fuel) fuel (parser_at (a :: rest) e m)
        (some (operand_expression a)) precedence := by
  rw [parse_expression_succ, parser_at_current]
  obtain ⟨ty, lit⟩ := a
  cases ty <;> first
    | (simp [is_operand_type] at ha; done)
    | rfl

/-- The loop stops when the next token is a semicolon or does not bind tighter. -/
theorem parse_expression_loop_stop
    (pe : parser → Nat → Option (Option expression × parser)) (fuel : Nat) (p : parser)
    (left : Option expression) (precedence : Nat)
    (h : p.next_token.type = .SEMICOLON ∨ get_token_precedence p.next_token ≤ precedence) :
    parse_expression_loop pe fuel p left precedence = some (left, p) := by
  have hc : (!next_token_is p .SEMICOLON &&
      decide (precedence < get_token_precedence p.next_token)) = false := by
    rcases h with h | h
    · simp [next_token_is, h]
    · simp [Nat.not_lt.mpr h]
  cases fuel <;> simp [parse_expression_loop, hc]

theorem is_infix_type_precedence (op : token) (h : is_infix_type op.type = true) :
    op.type ≠ .SEMICOLON ∧ LOWEST < get_token_precedence op ∧
      get_token_precedence op < PREFIX := by
  obtain ⟨ty, lit⟩ := op
  cases ty <;> first
    | (simp [is_infix_type] at h; done)
    | exact ⟨by simp, by simp [get_token_precedence, LOWEST, EQUALS, LESSGREATER, SUM,
        PRODUCT], by simp [get_token_precedence, PREFIX, EQUALS, LESSGREATER, SUM, PRODUCT]⟩

/-- One turn of the loop: an infix operator that binds tighter than `precedence` takes
`left` as its left operand, and its right operand is parsed with its own precedence. -/
theorem parse_expression_loop_step
    (pe : parser → Nat → Option (Option expression × parser)) (fuel : Nat) (x op : token)
    (rest : List token) (e : Nat) (m : List String) (left : Option expression)
    (precedence : Nat) (hop : is_infix_type op.type = true)
    (hp : precedence < get_token_precedence op) :
    parse_expression_loop pe (fuel + 1) (parser_at (x :: op :: rest) e m) left precedence =
      match pe (parser_at rest e m) (get_token_precedence op) with
      | none => none
      | some r =>
        parse_expression_loop pe fuel r.2 (some (.EXPR_INFIX op op.literal left r.1))
          precedence := by
  have hs := (is_infix_type_precedence op hop).1
  have hc : (!next_token_is (parser_at (x :: op :: rest) e m) .SEMICOLON &&
      decide (precedence <
        get_token_precedence (parser_at (x :: op :: rest) e m).next_token)) = true := by
    simp [next_token_is, Ne.symm hs, hp]
  rw [parse_expression_loop, hc]
  simp only [if_true, parser_at_next, hop]
  rw [next_token_at]
  unfold parse_infix_expression
  rw [next_token_at, parser_at_current]
  cases pe (parser_at rest e m) (get_token_precedence op) <;> rfl

/-- A prefix operator: its operand is parsed with the precedence `PREFIX`, and the loop goes
on with the prefix expression as the left operand. -/
theorem parse_expression_prefix_step (f : token_type → String) (fuel : Nat) (pre : token)
    (rest : List token) (e : Nat) (m : List String) (precedence : Nat)
    (hpre : pre.type = .BANG ∨ pre.type = .MINUS) :
    parse_expression f (fuel + 1) (parser_at (pre :: rest) e m) precedence =
      match parse_expression f fuel (parser_at rest e m) PREFIX with
      | none => none
      | some r =>
        parse_expression_loop (parse_expression f fuel) fuel r.2
          (some (.EXPR_PREFIX pre pre.literal r.1)) precedence := by
  rw [parse_expression_succ, parser_at_current]
  have hpp : parse_prefix_expression (parse_expression f fuel) (parser_at (pre :: rest) e m) =
      (parse_expression f fuel (parser_at rest e m) PREFIX).map fun r =>
        (some (.EXPR_PREFIX pre pre.literal r.1), r.2) := by
    unfold parse_prefix_expression
    rw [next_token_at, parser_at_current]
  rcases hpre with h | h <;> rw [h] <;> simp only [hpp] <;>
    cases parse_expression f fuel (parser_at rest e m) PREFIX <;> rfl

/-- A parenthesis: the expression behind it is parsed with the precedence `LOWEST`; when
the closing parenthesis follows, it is consumed and the loop goes on with that expression
as the left operand. -/
theorem parse_expression_group_step (f : token_type → String) (fuel : Nat) (l : token)
    (rest : List token) (e : Nat) (m : List String) (precedence : Nat)
    (hl : l.type = .LPAREN) (inner : Option expression) (last r : token)
    (after : List token) (e1 : Nat) (m1 : List String) (hr : r.type = .RPAREN)
    (hin : parse_expression f fuel (parser_at rest e m) LOWEST =
      some (inner, parser_at (last :: r :: after) e1 m1)) :
    parse_expression f (fuel + 1) (parser_at (l :: rest) e m) precedence =
      parse_expression_loop (parse_expression f fuel) fuel (parser_at (r :: after) e1 m1)
        inner precedence := by
  rw [parse_expression_succ, parser_at_current, hl]
  simp only
  unfold parse_grouped_expression
  rw [next_token_at, hin]
  have hx := expect_next_token_at f last r after e1 m1
  rw [hr] at hx
  simp only [Option.map_some', hx]
  rfl

theorem expression_to_str_operand (a : token) (ha : is_operand_type a.type = true) :
    expression_to_str (operand_expression a) = some (operand_text a) := by
  obtain ⟨ty, lit⟩ := a
  cases ty <;> first
    | (simp [is_operand_type] at ha; done)
    | rfl

theorem expression_to_str_infix_expression (op : token) (left right : expression)
    (sl sr : String) (hl : expression_to_str left = some sl)
    (hr : expression_to_str right = some sr) :
    expression_to_str (infix_expression op left right) =
      some (infix_text sl op.literal sr) := by
  unfold infix_expression
  rw [expression_to_str_infix_eq, hl, hr]
  rfl

theorem expression_to_str_prefix_expression (op : token) (right : expression) (sr : String)
    (hr : expression_to_str right = some sr) :
    expression_to_str (prefix_expression op right) = some (prefix_text op.literal sr) := by
  unfold prefix_expression
  rw [expression_to_str_prefix_eq, hr]
  rfl

/-- The text of a program of one expression statement is the text of its expression. -/
theorem program_to_str_expression_program (s : statement) (first : token)
    (value : expression) (text : String) (h1 : first.type ≠ .LET)
    (h2 : first.type ≠ .RETURN) (hv : expression_to_str value = some text) :
    program_to_str (expression_program s first value) = some text := by
  have hst : statement_to_str { s with token := first, value := some value } =
      expression_to_str value := by
    unfold statement_to_str
    split
    · rename_i heq
      exact absurd heq h1
    · rename_i heq
      exact absurd heq h2
    · rfl
  simp [program_to_str, expression_program, hst, hv]

/-- The loop body of `parse_program` on the only statement of the input, an expression
statement: when `parse_expression` gives `value` and stops before the last token, or before
the semicolon that is the last token, the program is that one statement. -/
theorem parse_program_expression (f : token_type → String) (fuel : Nat) (first : token)
    (rest : List token) (s : statement) (value : expression) (last : token)
    (tail : List token) (e : Nat) (m : List String)
    (h1 : first.type ≠ .LET) (h2 : first.type ≠ .RETURN) (h3 : first.type ≠ .EOF)
    (htail : tail = [] ∨ ∃ semi : token, semi.type = .SEMICOLON ∧ tail = [semi])
    (hv : parse_expression f (fuel + 1) (parser_at (first :: rest) 0 []) LOWEST =
      some (some value, parser_at (last :: tail) e m)) :
    parse_program f (fuel + 2) (parser_new (first :: rest)) s =
      some (expression_program s first value, parser_at [] e m) := by
  rw [parse_program, parser_new_eq, parse_program_loop]
  rw [if_neg (by simpa using h3)]
  have hps : parse_statement f (fuel + 1) (parser_at (first :: rest) 0 []) s =
      parse_expression_statement f (fuel + 1) (parser_at (first :: rest) 0 []) s := by
    unfold parse_statement
    rw [parser_at_current]
    split
    · rename_i heq
      exact absurd heq h1
    · rename_i heq
      exact absurd heq h2
    · rfl
  rw [hps]
  unfold parse_expression_statement
  rw [hv]
  simp only [Option.map_some']
  rcases htail with rfl | ⟨semi, hsemi, rfl⟩
  · have hn : next_token_is (parser_at [last] e m) .SEMICOLON = false := by
      simp [next_token_is, parser_at]
    rw [hn]
    simp only [Bool.false_eq_true, if_false]
    rw [if_neg (by decide), next_token_at]
    rfl
  · have hn : next_token_is (parser_at [last, semi] e m) .SEMICOLON = true := by
      simp [next_token_is, hsemi]
    rw [hn]
    simp only [if_true]
    rw [if_neg (by decide), next_token_at, next_token_at]
    rfl

/-! ### Three operands and two operators -/

theorem is_statement_end_cases {tail : List token} (h : is_statement_end tail = true) :
    tail = [] ∨ ∃ semi : token, semi.type = .SEMICOLON ∧ tail = [semi] := by
  match tail, h with
  | [], _ => exact Or.inl rfl
  | [semi], h => exact Or.inr ⟨semi, by simpa [is_statement_end] using h, rfl⟩

/-- At the last token of a statement the loop of `parse_expression` stops. -/
theorem stop_at_end (c : token) (tail : List token) (e : Nat) (m : List String)
    (precedence : Nat) (htail : is_statement_end tail = true) (hp : 1 ≤ precedence) :
    (parser_at (c :: tail) e m).next_token.type = .SEMICOLON ∨
      get_token_precedence (parser_at (c :: tail) e m).next_token ≤ precedence := by
  rcases is_statement_end_cases htail with rfl | ⟨semi, hsemi, rfl⟩
  · exact Or.inr hp
  · exact Or.inl hsemi

theorem operand_not_keyword (a : token) (ha : is_operand_type a.type = true) :
    a.type ≠ .LET ∧ a.type ≠ .RETURN ∧ a.type ≠ .EOF := by
  obtain ⟨ty, lit⟩ := a
  cases ty <;> first
    | (simp [is_operand_type] at ha; done)
    | exact ⟨by simp, by simp, by simp⟩

/-- An operand at the end of the statement, or before a token that does not bind tighter. -/
theorem parse_expression_last (f : token_type → String) (fuel : Nat) (c : token)
    (rest : List token) (e : Nat) (m : List String) (precedence : Nat)
    (hc : is_operand_type c.type = true)
    (hstop : (parser_at (c :: rest) e m).next_token.type = .SEMICOLON ∨
      get_token_precedence (parser_at (c :: rest) e m).next_token ≤ precedence) :
    parse_expression f (fuel + 1) (parser_at (c :: rest) e m) precedence =
      some (some (operand_expression c), parser_at (c :: rest) e m) := by
  rw [parse_expression_operand f fuel c rest e m precedence hc]
  exact parse_expression_loop_stop _ _ _ _ _ hstop

/-- `a op1 b op2 c` when `op2` does not bind tighter than `op1`: `((a op1 b) op2 c)`. -/
theorem parse_expression_left (f : token_type → String) (k : Nat) (a op1 b op2 c : token)
    (tail : List token) (e : Nat) (m : List String)
    (ha : is_operand_type a.type = true) (hb : is_operand_type b.type = true)
    (hc : is_operand_type c.type = true) (h1 : is_infix_type op1.type = true)
    (h2 : is_infix_type op2.type = true)
    (hp : get_token_precedence op2 ≤ get_token_precedence op1)
    (htail : is_statement_end tail = true) :
    parse_expression f (k + 3) (parser_at (a :: op1 :: b :: op2 :: c :: tail) e m) LOWEST =
      some (some (infix_expression op2
        (infix_expression op1 (operand_expression a) (operand_expression b))
        (operand_expression c)), parser_at (c :: tail) e m) := by
  have p1 := is_infix_type_precedence op1 h1
  have p2 := is_infix_type_precedence op2 h2
  rw [parse_expression_operand f (k + 2) a _ e m LOWEST ha,
    parse_expression_loop_step _ (k + 1) a op1 _ e m _ LOWEST h1 p1.2.1,
    parse_expression_last f (k + 1) b _ e m _ hb (Or.inr hp)]
  simp only
  rw [parse_expression_loop_step _ k b op2 _ e m _ LOWEST h2 p2.2.1,
    parse_expression_last f (k + 1) c _ e m _ hc
      (stop_at_end c tail e m _ htail (le_of_lt p2.2.1))]
  simp only
  rw [parse_expression_loop_stop _ _ _ _ _ (stop_at_end c tail e m _ htail (le_refl _))]
  rfl

/-- `a op1 b op2 c` when `op2` binds tighter than `op1`: `(a op1 (b op2 c))`. -/
theorem parse_expression_right (f : token_type → String) (k : Nat) (a op1 b op2 c : token)
    (tail : List token) (e : Nat) (m : List String)
    (ha : is_operand_type a.type = true) (hb : is_operand_type b.type = true)
    (hc : is_operand_type c.type = true) (h1 : is_infix_type op1.type = true)
    (h2 : is_infix_type op2.type = true)
    (hp : get_token_precedence op1 < get_token_precedence op2)
    (htail : is_statement_end tail = true) :
    parse_expression f (k + 3) (parser_at (a :: op1 :: b :: op2 :: c :: tail) e m) LOWEST =
      some (some (infix_expression op1 (operand_expression a)
        (infix_expression op2 (operand_expression b) (operand_expression c))),
        parser_at (c :: tail) e m) := by
  have p1 := is_infix_type_precedence op1 h1
  have p2 := is_infix_type_precedence op2 h2
  rw [parse_expression_operand f (k + 2) a _ e m LOWEST ha,
    parse_expression_loop_step _ (k + 1) a op1 _ e m _ LOWEST h1 p1.2.1,
    parse_expression_operand f (k + 1) b _ e m _ hb,
    parse_expression_loop_step _ k b op2 _ e m _ _ h2 hp,
    parse_expression_last f k c _ e m _ hc
      (stop_at_end c tail e m _ htail (le_of_lt p2.2.1))]
  simp only
  rw [parse_expression_loop_stop _ _ _ _ _
    (stop_at_end c tail e m _ htail (le_of_lt p1.2.1))]
  simp only
  rw [parse_expression_loop_stop _ _ _ _ _ (stop_at_end c tail e m _ htail (le_refl _))]
  rfl

/-! ### C24 -/

theorem operand_texts (a b c : token) (ha : is_operand_type a.type = true)
    (hb : is_operand_type b.type = true) (hc : is_operand_type c.type = true) :
    expression_to_str (operand_expression a) = some (operand_text a) ∧
    expression_to_str (operand_expression b) = some (operand_text b) ∧
    expression_to_str (operand_expression c) = some (operand_text c) :=
  ⟨expression_to_str_operand a ha, expression_to_str_operand b hb,
    expression_to_str_operand c hc⟩

/-- C24: for operand tokens `a`, `b`, `c` (identifiers, integers, booleans) and infix
operator tokens `op1`, `op2` of the same precedence, the token stream `a op1 b op2 c`, alone
or followed by a semicolon, is parsed by `parse_program` (with fuel 4 or more) without error
to the program of the one expression statement `((a op1 b) op2 c)`, and `program_to_str`
renders it as `((a op1 b) op2 c)` with the texts of the operands and operators. -/
theorem C24_left_associative (token_to_str : token_type → String) (s : statement)
    (a op1 b op2 c : token) (tail : List token) (fuel : Nat)
    (ha : is_operand_type a.type = true) (hb : is_operand_type b.type = true)
    (hc : is_operand_type c.type = true) (h1 : is_infix_type op1.type = true)
    (h2 : is_infix_type op2.type = true)
    (hp : get_token_precedence op1 = get_token_precedence op2)
    (htail : is_statement_end tail = true) (hf : 4 ≤ fuel) :
    parse_program token_to_str fuel (parser_new (a :: op1 :: b :: op2 :: c :: tail)) s =
      some (expression_program s a
        (infix_expression op2
          (infix_expression op1 (operand_expression a) (operand_expression b))
          (operand_expression c)), parser_at [] 0 []) ∧
    (parser_at [] 0 []).errors = 0 ∧
    program_to_str (expression_program s a
      (infix_expression op2
        (infix_expression op1 (operand_expression a) (operand_expression b))
        (operand_expression c))) =
      some (infix_text (infix_text (operand_text a) op1.literal (operand_text b)) op2.literal
        (operand_text c)) := by
  obtain ⟨k, rfl⟩ : ∃ k, fuel = k + 2 + 2 := ⟨fuel - 4, by omega⟩
  obtain ⟨ta, tb, tc⟩ := operand_texts a b c ha hb hc
  obtain ⟨n1, n2, n3⟩ := operand_not_keyword a ha
  refine ⟨?_, rfl, ?_⟩
  · exact parse_program_expression token_to_str (k + 2) a _ s _ c tail 0 [] n1 n2 n3
      (is_statement_end_cases htail)
      (parse_expression_left token_to_str k a op1 b op2 c tail 0 [] ha hb hc h1 h2
        (le_of_eq hp.symm) htail)
  · exact program_to_str_expression_program s a _ _ n1 n2
      (expression_to_str_infix_expression op2 _ _ _ _
        (expression_to_str_infix_expression op1 _ _ _ _ ta tb) tc)

theorem C24_left_associative_witness :
    (parse_program (fun _ => "") 4
      (parser_new [{ type := .IDENT, literal := "a" }, { type := .PLUS, literal := "+" },
        { type := .IDENT, literal := "b" }, { type := .MINUS, literal := "-" },
        { type := .IDENT, literal := "c" }])
      { token := { type := .ILLEGAL, literal := "" }
        name := { token := { type := .ILLEGAL, literal := "" }, value := "" }
        value := none }).bind (fun r => program_to_str r.1) = some "((a + b) - c)" ∧
    (parse_program (fun _ => "") 4
      (parser_new [{ type := .IDENT, literal := "a" }, { type := .ASTERISK, literal := "*" },
        { type := .IDENT, literal := "b" }, { type := .SLASH, literal := "/" },
        { type := .IDENT, literal := "c" }])
      { token := { type := .ILLEGAL, literal := "" }
        name := { token := { type := .ILLEGAL, literal := "" }, value := "" }
        value := none }).bind (fun r => program_to_str r.1) = some "((a * b) / c)" ∧
    program_to_str (expression_program
      { token := { type := .ILLEGAL, literal := "" }
        name := { token := { type := .ILLEGAL, literal := "" }, value := "" }
        value := none }
      { type := .IDENT, literal := "a" }
      (infix_expression { type := .MINUS, literal := "-" }
        (infix_expression { type := .PLUS, literal := "+" }
          (operand_expression { type := .IDENT, literal := "a" })
          (operand_expression { type := .IDENT, literal := "b" }))
        (operand_expression { type := .IDENT, literal := "c" }))) =
      some (infix_text (infix_text (operand_text { type := .IDENT, literal := "a" }) "+"
        (operand_text { type := .IDENT, literal := "b" })) "-"
        (operand_text { type := .IDENT, literal := "c" })) :=
  ⟨by decide!, by decide!,
    (C24_left_associative (fun _ => "")
      { token := { type := .ILLEGAL, literal := "" }
        name := { token := { type := .ILLEGAL, literal := "" }, value := "" }
        value := none }
      { type := .IDENT, literal := "a" } { type := .PLUS, literal := "+" }
      { type := .IDENT, literal := "b" } { type := .MINUS, literal := "-" }
      { type := .IDENT, literal := "c" } [] 4 (by decide) (by decide) (by decide) (by decide)
      (by decide) (by decide) (by decide) (by decide)).2.2⟩

/-! ### C25 -/

/-- `a op b` before a token that stops the loop at the lowest precedence: `(a op b)`. -/
theorem parse_expression_pair (f : token_type → String) (k : Nat) (a op b : token)
    (rest : List token) (e : Nat) (m : List String)
    (ha : is_operand_type a.type = true) (hb : is_operand_type b.type = true)
    (hop : is_infix_type op.type = true)
    (hstop : (parser_at (b :: rest) e m).next_token.type = .SEMICOLON ∨
      get_token_precedence (parser_at (b :: rest) e m).next_token ≤ LOWEST) :
    parse_expression f (k + 2) (parser_at (a :: op :: b :: rest) e m) LOWEST =
      some (some (infix_expression op (operand_expression a) (operand_expression b)),
        parser_at (b :: rest) e m) := by
  have p1 := is_infix_type_precedence op hop
  have hstop2 : (parser_at (b :: rest) e m).next_token.type = .SEMICOLON ∨
      get_token_precedence (parser_at (b :: rest) e m).next_token ≤
        get_token_precedence op := by
    rcases hstop with h | h
    · exact Or.inl h
    · exact Or.inr (le_trans h (le_of_lt p1.2.1))
  rw [parse_expression_operand f (k + 1) a _ e m LOWEST ha,
    parse_expression_loop_step _ k a op _ e m _ LOWEST hop p1.2.1,
    parse_expression_last f k b _ e m _ hb hstop2]
  simp only
  rw [parse_expression_loop_stop _ _ _ _ _ hstop]
  rfl

/-- `pre a op b`: `((pre a) op b)`, the prefix operator binds tighter than any infix
operator. -/
theorem parse_expression_prefix_left (f : token_type → String) (k : Nat)
    (pre a op b : token) (tail : List token) (e : Nat) (m : List String)
    (hpre : pre.type = .BANG ∨ pre.type = .MINUS)
    (ha : is_operand_type a.type = true) (hb : is_operand_type b.type = true)
    (hop : is_infix_type op.type = true) (htail : is_statement_end tail = true) :
    parse_expression f (k + 3) (parser_at (pre :: a :: op :: b :: tail) e m) LOWEST =
      some (some (infix_expression op (prefix_expression pre (operand_expression a))
        (operand_expression b)), parser_at (b :: tail) e m) := by
  have p1 := is_infix_type_precedence op hop
  rw [parse_expression_prefix_step f (k + 2) pre _ e m LOWEST hpre,
    parse_expression_last f (k + 1) a (op :: b :: tail) e m PREFIX ha
      (Or.inr (le_of_lt p1.2.2))]
  simp only
  rw [parse_expression_loop_step _ (k + 1) a op _ e m _ LOWEST hop p1.2.1,
    parse_expression_last f (k + 1) b _ e m _ hb
      (stop_at_end b tail e m _ htail (le_of_lt p1.2.1))]
  simp only
  rw [parse_expression_loop_stop _ _ _ _ _ (stop_at_end b tail e m _ htail (le_refl _))]
  rfl

/-- `a op pre b`: `(a op (pre b))`. -/
theorem parse_expression_prefix_right (f : token_type → String) (k : Nat)
    (a op pre b : token) (tail : List token) (e : Nat) (m : List String)
    (hpre : pre.type = .BANG ∨ pre.type = .MINUS)
    (ha : is_operand_type a.type = true) (hb : is_operand_type b.type = true)
    (hop : is_infix_type op.type = true) (htail : is_statement_end tail = true) :
    parse_expression f (k + 3) (parser_at (a :: op :: pre :: b :: tail) e m) LOWEST =
      some (some (infix_expression op (operand_expression a)
        (prefix_expression pre (operand_expression b))), parser_at (b :: tail) e m) := by
  have p1 := is_infix_type_precedence op hop
  rw [parse_expression_operand f (k + 2) a _ e m LOWEST ha,
    parse_expression_loop_step _ (k + 1) a op _ e m _ LOWEST hop p1.2.1,
    parse_expression_prefix_step f (k + 1) pre _ e m _ hpre,
    parse_expression_last f k b _ e m PREFIX hb
      (stop_at_end b tail e m _ htail (by decide))]
  simp only
  rw [parse_expression_loop_stop _ _ _ _ _
    (stop_at_end b tail e m _ htail (le_of_lt p1.2.1))]
  simp only
  rw [parse_expression_loop_stop _ _ _ _ _ (stop_at_end b tail e m _ htail (le_refl _))]
  rfl

theorem rparen_stops (b r : token) (rest : List token) (e : Nat) (m : List String)
    (hr : r.type = .RPAREN) :
    (parser_at (b :: r :: rest) e m).next_token.type = .SEMICOLON ∨
      get_token_precedence (parser_at (b :: r :: rest) e m).next_token ≤ LOWEST := by
  right
  rw [parser_at_next]
  unfold get_token_precedence
  rw [hr]

/-- `( a op1 b ) op2 c`: `((a op1 b) op2 c)`, whatever the precedences. -/
theorem parse_expression_group_left (f : token_type → String) (k : Nat)
    (l a op1 b r op2 c : token) (tail : List token) (e : Nat) (m : List String)
    (hl : l.type = .LPAREN) (hr : r.type = .RPAREN)
    (ha : is_operand_type a.type = true) (hb : is_operand_type b.type = true)
    (hc : is_operand_type c.type = true) (h1 : is_infix_type op1.type = true)
    (h2 : is_infix_type op2.type = true) (htail : is_statement_end tail = true) :
    parse_expression f (k + 3)
      (parser_at (l :: a :: op1 :: b :: r :: op2 :: c :: tail) e m) LOWEST =
      some (some (infix_expression op2
        (infix_expression op1 (operand_expression a) (operand_expression b))
        (operand_expression c)), parser_at (c :: tail) e m) := by
  have p2 := is_infix_type_precedence op2 h2
  rw [parse_expression_group_step f (k + 2) l _ e m LOWEST hl _ b r _ e m hr
    (parse_expression_pair f k a op1 b _ e m ha hb h1 (rparen_stops b r _ e m hr)),
    parse_expression_loop_step _ (k + 1) r op2 _ e m _ LOWEST h2 p2.2.1,
    parse_expression_last f (k + 1) c _ e m _ hc
      (stop_at_end c tail e m _ htail (le_of_lt p2.2.1))]
  simp only
  rw [parse_expression_loop_stop _ _ _ _ _ (stop_at_end c tail e m _ htail (le_refl _))]
  rfl

/-- `a op1 ( b op2 c )`: `(a op1 (b op2 c))`, whatever the precedences. -/
theorem parse_expression_group_right (f : token_type → String) (k : Nat)
    (a op1 l b op2 c r : token) (tail : List token) (e : Nat) (m : List String)
    (hl : l.type = .LPAREN) (hr : r.type = .RPAREN)
    (ha : is_operand_type a.type = true) (hb : is_operand_type b.type = true)
    (hc : is_operand_type c.type = true) (h1 : is_infix_type op1.type = true)
    (h2 : is_infix_type op2.type = true) (htail : is_statement_end tail = true) :
    parse_expression f (k + 4)
      (parser_at (a :: op1 :: l :: b :: op2 :: c :: r :: tail) e m) LOWEST =
      some (some (infix_expression op1 (operand_expression a)
        (infix_expression op2 (operand_expression b) (operand_expression c))),
        parser_at (r :: tail) e m) := by
  have p1 := is_infix_type_precedence op1 h1
  rw [parse_expression_operand f (k + 3) a _ e m LOWEST ha,
    parse_expression_loop_step _ (k + 2) a op1 _ e m _ LOWEST h1 p1.2.1,
    parse_expression_group_step f (k + 2) l _ e m _ hl _ c r _ e m hr
      (parse_expression_pair f k b op2 c _ e m hb hc h2 (rparen_stops c r _ e m hr)),
    parse_expression_loop_stop _ _ _ _ _
      (stop_at_end r tail e m _ htail (le_of_lt p1.2.1))]
  simp only
  rw [parse_expression_loop_stop _ _ _ _ _ (stop_at_end r tail e m _ htail (le_refl _))]
  rfl

theorem parses_to_of (f : token_type → String) (k : Nat) (s : statement) (first : token)
    (rest : List token) (tree : expression) (text : String) (last : token)
    (tail : List token)
    (h1 : first.type ≠ .LET) (h2 : first.type ≠ .RETURN) (h3 : first.type ≠ .EOF)
    (htail : is_statement_end tail = true)
    (hv : parse_expression f (k + 1) (parser_at (first :: rest) 0 []) LOWEST =
      some (some tree, parser_at (last :: tail) 0 []))
    (ht : expression_to_str tree = some text) :
    parses_to f (k + 2) s (first :: rest) first tree text :=
  ⟨parse_program_expression f k first rest s tree last tail 0 [] h1 h2 h3
      (is_statement_end_cases htail) hv,
    program_to_str_expression_program s first tree text h1 h2 ht⟩

/-- C25: the precedences are ordered equality `== !=` below comparison `< >` below sum
`+ -` below product `* /` below prefix `- !`.  For operand tokens `a`, `b`, `c` and infix
operator tokens `op1`, `op2`, in a token stream that is alone or followed by a semicolon
(fuel 6 or more): `a op1 b op2 c` is parsed to `(a op1 (b op2 c))` when `op2` has the higher
precedence and to `((a op1 b) op2 c)` when `op1` has; a prefix operator keeps its operand,
`pre a op1 b` is `((pre a) op1 b)` and `a op1 pre b` is `(a op1 (pre b))`; a parenthesised
group is one operand, `( a op1 b ) op2 c` is `((a op1 b) op2 c)` and `a op1 ( b op2 c )`
is `(a op1 (b op2 c))`, whatever the precedences.  `program_to_str` renders each tree with
these parentheses. -/
theorem C25_precedence (token_to_str : token_type → String) (s : statement)
    (a op1 b op2 c : token) (tail : List token) (fuel : Nat)
    (ha : is_operand_type a.type = true) (hb : is_operand_type b.type = true)
    (hc : is_operand_type c.type = true) (h1 : is_infix_type op1.type = true)
    (h2 : is_infix_type op2.type = true) (htail : is_statement_end tail = true)
    (hf : 6 ≤ fuel) :
    (EQUALS < LESSGREATER ∧ LESSGREATER < SUM ∧ SUM < PRODUCT ∧ PRODUCT < PREFIX) ∧
    (∀ t : token,
      (t.type = .EQ ∨ t.type = .NOT_EQ → get_token_precedence t = EQUALS) ∧
      (t.type = .LT ∨ t.type = .GT → get_token_precedence t = LESSGREATER) ∧
      (t.type = .PLUS ∨ t.type = .MINUS → get_token_precedence t = SUM) ∧
      (t.type = .ASTERISK ∨ t.type = .SLASH → get_token_precedence t = PRODUCT)) ∧
    (get_token_precedence op1 < get_token_precedence op2 →
      parses_to token_to_str fuel s (a :: op1 :: b :: op2 :: c :: tail) a
        (infix_expression op1 (operand_expression a)
          (infix_expression op2 (operand_expression b) (operand_expression c)))
        (infix_text (operand_text a) op1.literal
          (infix_text (operand_text b) op2.literal (operand_text c)))) ∧
    (get_token_precedence op2 < get_token_precedence op1 →
      parses_to token_to_str fuel s (a :: op1 :: b :: op2 :: c :: tail) a
        (infix_expression op2
          (infix_expression op1 (operand_expression a) (operand_expression b))
          (operand_expression c))
        (infix_text (infix_text (operand_text a) op1.literal (operand_text b)) op2.literal
          (operand_text c))) ∧
    (∀ pre : token, pre.type = .BANG ∨ pre.type = .MINUS →
      parses_to token_to_str fuel s (pre :: a :: op1 :: b :: tail) pre
        (infix_expression op1 (prefix_expression pre (operand_expression a))
          (operand_expression b))
        (infix_text (prefix_text pre.literal (operand_text a)) op1.literal
          (operand_text b)) ∧
      parses_to token_to_str fuel s (a :: op1 :: pre :: b :: tail) a
        (infix_expression op1 (operand_expression a)
          (prefix_expression pre (operand_expression b)))
        (infix_text (operand_text a) op1.literal
          (prefix_text pre.literal (operand_text b)))) ∧
    (∀ l r : token, l.type = .LPAREN → r.type = .RPAREN →
      parses_to token_to_str fuel s (l :: a :: op1 :: b :: r :: op2 :: c :: tail) l
        (infix_expression op2
          (infix_expression op1 (operand_expression a) (operand_expression b))
          (operand_expression c))
        (infix_text (infix_text (operand_text a) op1.literal (operand_text b)) op2.literal
          (operand_text c)) ∧
      parses_to token_to_str fuel s (a :: op1 :: l :: b :: op2 :: c :: r :: tail) a
        (infix_expression op1 (operand_expression a)
          (infix_expression op2 (operand_expression b) (operand_expression c)))
        (infix_text (operand_text a) op1.literal
          (infix_text (operand_text b) op2.literal (operand_text c)))) := by
  obtain ⟨k, rfl⟩ : ∃ k, fuel = k + 4 + 2 := ⟨fuel - 6, by omega⟩
  obtain ⟨ta, tb, tc⟩ := operand_texts a b c ha hb hc
  obtain ⟨n1, n2, n3⟩ := operand_not_keyword a ha
  refine ⟨by decide, ?_, ?_, ?_, ?_, ?_⟩
  · intro t
    refine ⟨?_, ?_, ?_, ?_⟩ <;> intro h <;> rcases h with h | h <;>
      simp [get_token_precedence, h]
  · intro hp
    exact parses_to_of token_to_str (k + 4) s a _ _ _ c tail n1 n2 n3 htail
      (parse_expression_right token_to_str (k + 2) a op1 b op2 c tail 0 [] ha hb hc h1 h2
        hp htail)
      (expression_to_str_infix_expression op1 _ _ _ _ ta
        (expression_to_str_infix_expression op2 _ _ _ _ tb tc))
  · intro hp
    exact parses_to_of token_to_str (k + 4) s a _ _ _ c tail n1 n2 n3 htail
      (parse_expression_left token_to_str (k + 2) a op1 b op2 c tail 0 [] ha hb hc h1 h2
        (le_of_lt hp) htail)
      (expression_to_str_infix_expression op2 _ _ _ _
        (expression_to_str_infix_expression op1 _ _ _ _ ta tb) tc)
  · intro pre hpre
    have hpre3 : pre.type ≠ .LET ∧ pre.type ≠ .RETURN ∧ pre.type ≠ .EOF := by
      rcases hpre with h | h <;> rw [h] <;> exact ⟨by simp, by simp, by simp⟩
    constructor
    · exact parses_to_of token_to_str (k + 4) s pre _ _ _ b tail hpre3.1 hpre3.2.1
        hpre3.2.2 htail
        (parse_expression_prefix_left token_to_str (k + 2) pre a op1 b tail 0 [] hpre ha hb
          h1 htail)
        (expression_to_str_infix_expression op1 _ _ _ _
          (expression_to_str_prefix_expression pre _ _ ta) tb)
    · exact parses_to_of token_to_str (k + 4) s a _ _ _ b tail n1 n2 n3 htail
        (parse_expression_prefix_right token_to_str (k + 2) a op1 pre b tail 0 [] hpre ha hb
          h1 htail)
        (expression_to_str_infix_expression op1 _ _ _ _ ta
          (expression_to_str_prefix_expression pre _ _ tb))
  · intro l r hl hr
    have hl3 : l.type ≠ .LET ∧ l.type ≠ .RETURN ∧ l.type ≠ .EOF := by
      rw [hl]
      exact ⟨by simp, by simp, by simp⟩
    constructor
    · exact parses_to_of token_to_str (k + 4) s l _ _ _ c tail hl3.1 hl3.2.1 hl3.2.2 htail
        (parse_expression_group_left token_to_str (k + 2) l a op1 b r op2 c tail 0 [] hl hr
          ha hb hc h1 h2 htail)
        (expression_to_str_infix_expression op2 _ _ _ _
          (expression_to_str_infix_expression op1 _ _ _ _ ta tb) tc)
    · exact parses_to_of token_to_str (k + 4) s a _ _ _ r tail n1 n2 n3 htail
        (parse_expression_group_right token_to_str (k + 1) a op1 l b op2 c r tail 0 [] hl hr
          ha hb hc h1 h2 htail)
        (expression_to_str_infix_expression op1 _ _ _ _ ta
          (expression_to_str_infix_expression op2 _ _ _ _ tb tc))

theorem C25_precedence_witness :
    (parse_program (fun _ => "") 12
      (parser_new [{ type := .IDENT, literal := "a" }, { type := .PLUS, literal := "+" },
        { type := .IDENT, literal := "b" }, { type := .ASTERISK, literal := "*" },
        { type := .IDENT, literal := "c" }, { type := .PLUS, literal := "+" },
        { type := .IDENT, literal := "d" }, { type := .SLASH, literal := "/" },
        { type := .IDENT, literal := "e" }, { type := .MINUS, literal := "-" },
        { type := .IDENT, literal := "f" }])
      { token := { type := .ILLEGAL, literal := "" }
        name := { token := { type := .ILLEGAL, literal := "" }, value := "" }
        value := none }).bind (fun r => program_to_str r.1) =
      some "(((a + (b * c)) + (d / e)) - f)" ∧
    (parse_program (fun _ => "") 12
      (parser_new [{ type := .MINUS, literal := "-" }, { type := .IDENT, literal := "a" },
        { type := .ASTERISK, literal := "*" }, { type := .IDENT, literal := "b" }])
      { token := { type := .ILLEGAL, literal := "" }
        name := { token := { type := .ILLEGAL, literal := "" }, value := "" }
        value := none }).bind (fun r => program_to_str r.1) = some "((-a) * b)" ∧
    (parse_program (fun _ => "") 12
      (parser_new [{ type := .INT, literal := "5" }, { type := .GT, literal := ">" },
        { type := .INT, literal := "4" }, { type := .EQ, literal := "==" },
        { type := .INT, literal := "3" }, { type := .LT, literal := "<" },
        { type := .INT, literal := "4" }])
      { token := { type := .ILLEGAL, literal := "" }
        name := { token := { type := .ILLEGAL, literal := "" }, value := "" }
        value := none }).bind (fun r => program_to_str r.1) =
      some "((5 > 4) == (3 < 4))" ∧
    (parse_program (fun _ => "") 12
      (parser_new [{ type := .LPAREN, literal := "(" }, { type := .INT, literal := "5" },
        { type := .PLUS, literal := "+" }, { type := .INT, literal := "5" },
        { type := .RPAREN, literal := ")" }, { type := .ASTERISK, literal := "*" },
        { type := .INT, literal := "2" }])
      { token := { type := .ILLEGAL, literal := "" }
        name := { token := { type := .ILLEGAL, literal := "" }, value := "" }
        value := none }).bind (fun r => program_to_str r.1) = some "((5 + 5) * 2)" ∧
    infix_text (infix_text (operand_text { type := .INT, literal := "5" }) "+"
      (operand_text { type := .INT, literal := "5" })) "*"
      (operand_text { type := .INT, literal := "2" }) = "((5 + 5) * 2)" ∧
    parses_to (fun _ => "") 6
      { token := { type := .ILLEGAL, literal := "" }
        name := { token := { type := .ILLEGAL, literal := "" }, value := "" }
        value := none }
      [{ type := .LPAREN, literal := "(" }, { type := .INT, literal := "5" },
        { type := .PLUS, literal := "+" }, { type := .INT, literal := "5" },
        { type := .RPAREN, literal := ")" }, { type := .ASTERISK, literal := "*" },
        { type := .INT, literal := "2" }]
      { type := .LPAREN, literal := "(" }
      (infix_expression { type := .ASTERISK, literal := "*" }
        (infix_expression { type := .PLUS, literal := "+" }
          (operand_expression { type := .INT, literal := "5" })
          (operand_expression { type := .INT, literal := "5" }))
        (operand_expression { type := .INT, literal := "2" }))
      (infix_text (infix_text (operand_text { type := .INT, literal := "5" }) "+"
        (operand_text { type := .INT, literal := "5" })) "*"
        (operand_text { type := .INT, literal := "2" })) :=
  ⟨by decide!, by decide!, by decide!, by decide!, by decide!,
    ((C25_precedence (fun _ => "")
      { token := { type := .ILLEGAL, literal := "" }
        name := { token := { type := .ILLEGAL, literal := "" }, value := "" }
        value := none }
      { type := .INT, literal := "5" } { type := .PLUS, literal := "+" }
      { type := .INT, literal := "5" } { type := .ASTERISK, literal := "*" }
      { type := .INT, literal := "2" } [] 6 (by decide) (by decide) (by decide) (by decide)
      (by decide) (by decide) (by decide)).2.2.2.2.2
      { type := .LPAREN, literal := "(" } { type := .RPAREN, literal := ")" } rfl rfl).1⟩

/-! ### Termination of the parser -/

theorem next_token_parser_at (ts : List token) (e : Nat) (m : List String) :
    next_token (parser_at ts e m) = parser_at ts.tail e m := by
  match ts with
  | [] => rfl
  | t :: ts => exact next_token_at t ts e m

theorem let_return_closed_suffix {ts ts2 : List token} (h : ts2 <:+ ts)
    (hc : let_return_closed ts = true) : let_return_closed ts2 = true := by
  induction ts with
  | nil =>
    rw [List.suffix_nil] at h
    rw [h]; rfl
  | cons t rest ih =>
    rcases List.suffix_cons_iff.mp h with heq | hs
    · rw [heq]; exact hc
    · simp only [let_return_closed, Bool.and_eq_true] at hc
      exact ih hs hc.2

theorem tail_suffix_of_suffix {ts ts2 : List token} (h : ts2 <:+ ts) : ts2.tail <:+ ts :=
  (List.tail_suffix ts2).trans h

/-- One more error: the message is kept when one of the 8 rows is free. -/
theorem stored_succ (e : Nat) (m : List String) (message : String) :
    m.length = min e 8 →
      (if e < 8 then m ++ [message] else m).length = min (e + 1) 8 := by
  intro h
  split
  · rw [List.length_append, List.length_singleton, h]
    omega
  · rw [h]
    omega

/-- The state after `expect_next_token`: the tokens from the next one on when it has the
expected type, the same tokens and one more error otherwise. -/
theorem expect_next_token_parser_at (f : token_type → String) (ts : List token) (e : Nat)
    (m : List String) (ty : token_type) :
    ((expect_next_token f (parser_at ts e m) ty).1 = true ∧
      (parser_at ts e m).next_token.type = ty ∧
      (expect_next_token f (parser_at ts e m) ty).2 = parser_at ts.tail e m) ∨
    ((expect_next_token f (parser_at ts e m) ty).1 = false ∧
      ∃ m2, (expect_next_token f (parser_at ts e m) ty).2 = parser_at ts (e + 1) m2 ∧
        (m.length = min e 8 → m2.length = min (e + 1) 8)) := by
  unfold expect_next_token
  by_cases h : next_token_is (parser_at ts e m) ty = true
  · rw [if_pos h]
    refine Or.inl ⟨rfl, ?_, next_token_parser_at ts e m⟩
    simpa [next_token_is, eq_comm] using h
  · rw [if_neg h]
    exact Or.inr ⟨rfl, _, rfl, stored_succ e m _⟩

theorem parse_expression_loop_no_operator
    (pe : parser → Nat → Option (Option expression × parser)) (fuel : Nat) (p : parser)
    (left : Option expression) (precedence : Nat)
    (h : is_infix_type p.next_token.type = false) :
    parse_expression_loop pe fuel p left precedence = some (left, p) := by
  cases fuel <;> simp [parse_expression_loop, h]

theorem parser_at_next_operator (ts : List token) (e : Nat) (m : List String)
    (h : is_infix_type (parser_at ts e m).next_token.type = true) :
    ∃ x op rest, ts = x :: op :: rest := by
  match ts with
  | [] => simp [parser_at, is_infix_type] at h
  | [_] => simp [parser_at, is_infix_type] at h
  | x :: op :: rest => exact ⟨x, op, rest, rfl⟩

/-- The loop of `parse_expression` returns when the fuel covers the tokens and the function
of the recursive call returns on fewer tokens; the tokens left are a suffix. -/
theorem parse_expression_loop_total
    (pe : parser → Nat → Option (Option expression × parser)) (n : Nat)
    (hpe : ∀ (ts : List token) (e : Nat) (m : List String) (precedence : Nat),
      ts.length < n → m.length = min e 8 → ∃ r ts2 e2 m2,
        pe (parser_at ts e m) precedence = some (r, parser_at ts2 e2 m2) ∧ ts2 <:+ ts ∧
          m2.length = min e2 8)
    (k : Nat) : ∀ (ts : List token) (e : Nat) (m : List String) (left : Option expression)
      (precedence : Nat), ts.length ≤ k + 1 → ts.length ≤ n + 1 → m.length = min e 8 →
      ∃ r ts2 e2 m2, parse_expression_loop pe k (parser_at ts e m) left precedence =
        some (r, parser_at ts2 e2 m2) ∧ ts2 <:+ ts ∧ m2.length = min e2 8 := by
  induction k with
  | zero =>
    intro ts e m left precedence h1 _ hm
    by_cases hi : is_infix_type (parser_at ts e m).next_token.type = true
    · obtain ⟨x, op, rest, rfl⟩ := parser_at_next_operator ts e m hi
      simp at h1
    · exact ⟨left, ts, e, m, parse_expression_loop_no_operator pe 0 _ left precedence
        (by simpa using hi), List.suffix_refl _, hm⟩
  | succ k ih =>
    intro ts e m left precedence h1 h2 hm
    by_cases hi : is_infix_type (parser_at ts e m).next_token.type = true
    · obtain ⟨x, op, rest, rfl⟩ := parser_at_next_operator ts e m hi
      rw [parser_at_next] at hi
      by_cases hp : precedence < get_token_precedence op
      · rw [parse_expression_loop_step pe k x op rest e m left precedence hi hp]
        obtain ⟨r, ts2, e2, m2, hr, hs, hm2⟩ := hpe rest e m (get_token_precedence op)
          (by simp at h2; omega) hm
        rw [hr]
        simp only
        have hl := List.IsSuffix.length_le hs
        obtain ⟨r3, ts3, e3, m3, hr3, hs3, hm3⟩ := ih ts2 e2 m2
          (some (.EXPR_INFIX op op.literal left r)) precedence
          (by simp at h1; omega) (by simp at h2; omega) hm2
        exact ⟨r3, ts3, e3, m3, hr3, hs3.trans (hs.trans
          ((List.suffix_cons op rest).trans (List.suffix_cons x _))), hm3⟩
      · exact ⟨left, _, e, m, parse_expression_loop_stop pe (k + 1) _ left precedence
          (Or.inr (by simpa using Nat.le_of_not_lt hp)), List.suffix_refl _, hm⟩
    · exact ⟨left, ts, e, m, parse_expression_loop_no_operator pe (k + 1) _ left precedence
        (by simpa using hi), List.suffix_refl _, hm⟩

/-- Totality of `parse_expression`, without any assumption on the tokens: with more fuel
than tokens it returns, the tokens left are a suffix of the tokens it started with, and the
messages kept are those of the errors that fit the 8 rows. -/
theorem parse_expression_total (f : token_type → String) (fuel : Nat) :
    ∀ (ts : List token) (e : Nat) (m : List String) (precedence : Nat), ts.length < fuel →
      m.length = min e 8 →
      ∃ r ts2 e2 m2, parse_expression f fuel (parser_at ts e m) precedence =
        some (r, parser_at ts2 e2 m2) ∧ ts2 <:+ ts ∧ m2.length = min e2 8 := by
  induction fuel with
  | zero => intro ts e m precedence h; omega
  | succ fuel ih =>
    intro ts e m precedence h hm
    have hloop := parse_expression_loop_total (parse_expression f fuel) fuel ih fuel
    cases ts with
    | nil => exact ⟨none, [], _, _, rfl, List.suffix_refl _, stored_succ e m _ hm⟩
    | cons t rest =>
      simp only [List.length_cons] at h
      by_cases ha : is_operand_type t.type = true
      · rw [parse_expression_operand f fuel t rest e m precedence ha]
        exact hloop (t :: rest) e m _ precedence (by simp; omega) (by simp; omega) hm
      · by_cases hpre : t.type = .BANG ∨ t.type = .MINUS
        · rw [parse_expression_prefix_step f fuel t rest e m precedence hpre]
          obtain ⟨r, ts2, e2, m2, hr, hs, hm2⟩ := ih rest e m PREFIX (by omega) hm
          rw [hr]
          simp only
          have hl := List.IsSuffix.length_le hs
          obtain ⟨r3, ts3, e3, m3, hr3, hs3, hm3⟩ := hloop ts2 e2 m2
            (some (.EXPR_PREFIX t t.literal r)) precedence (by omega) (by omega) hm2
          exact ⟨r3, ts3, e3, m3, hr3, hs3.trans (hs.trans (List.suffix_cons t rest)), hm3⟩
        · by_cases hl : t.type = .LPAREN
          · rw [parse_expression_succ, parser_at_current, hl]
            simp only
            unfold parse_grouped_expression
            rw [next_token_at]
            obtain ⟨r, ts2, e2, m2, hr, hs, hm2⟩ := ih rest e m LOWEST (by omega) hm
            rw [hr]
            simp only [Option.map_some']
            have hlen := List.IsSuffix.length_le hs
            rcases expect_next_token_parser_at f ts2 e2 m2 .RPAREN with
              ⟨h1, _, h2⟩ | ⟨h1, m3, h2, hm3⟩
            · rw [h1, h2]
              simp only [Bool.not_true, Bool.false_eq_true, if_false]
              have ht := List.IsSuffix.length_le (List.tail_suffix ts2)
              obtain ⟨r3, ts3, e3, m3, hr3, hs3, hm4⟩ := hloop ts2.tail e2 m2 r precedence
                (by omega) (by omega) hm2
              exact ⟨r3, ts3, e3, m3, hr3, hs3.trans ((List.tail_suffix ts2).trans
                (hs.trans (List.suffix_cons t rest))), hm4⟩
            · rw [h1, h2]
              simp only [Bool.not_false, if_true]
              obtain ⟨r3, ts3, e3, m4, hr3, hs3, hm4⟩ := hloop ts2 (e2 + 1) m3 none
                precedence (by omega) (by omega) (hm3 hm2)
              exact ⟨r3, ts3, e3, m4, hr3, hs3.trans (hs.trans (List.suffix_cons t rest)),
                hm4⟩
          · rw [parse_expression_succ, parser_at_current]
            obtain ⟨ty, lit⟩ := t
            cases ty <;> first
              | (simp [is_operand_type] at ha; done)
              | (simp at hpre; done)
              | (simp at hl; done)
              | exact ⟨none, _, _, _, rfl, List.suffix_refl _, stored_succ e m _ hm⟩

theorem skip_to_semicolon_total (ts : List token) (e : Nat) (m : List String) (fuel : Nat)
    (h : has_semicolon ts = true) (hf : ts.length ≤ fuel) :
    ∃ ts2, skip_to_semicolon fuel (parser_at ts e m) = some (parser_at ts2 e m) ∧
      ts2 <:+ ts := by
  induction ts generalizing fuel with
  | nil => simp [has_semicolon] at h
  | cons t rest ih =>
    by_cases ht : t.type = .SEMICOLON
    · have hc : current_token_is (parser_at (t :: rest) e m) .SEMICOLON = true := by
        simp [current_token_is, ht]
      exact ⟨t :: rest, by cases fuel <;> simp [skip_to_semicolon, hc], List.suffix_refl _⟩
    · have hc : current_token_is (parser_at (t :: rest) e m) .SEMICOLON = false := by
        simp [current_token_is, Ne.symm ht]
      cases fuel with
      | zero => simp at hf
      | succ fuel =>
        rw [skip_to_semicolon, hc]
        simp only [Bool.false_eq_true, if_false]
        rw [next_token_at]
        obtain ⟨ts2, h2, hs⟩ := ih fuel (by simpa [has_semicolon, ht] using h)
          (by simpa using hf)
        exact ⟨ts2, h2, hs.trans (List.suffix_cons t rest)⟩

/-- Without a semicolon among the tokens still to read the skip loop does not end, whatever
the fuel: the lexer hands out `EOF` for ever. -/
theorem skip_to_semicolon_none (fuel : Nat) (ts : List token) (e : Nat) (m : List String)
    (h : no_semicolon ts = true) : skip_to_semicolon fuel (parser_at ts e m) = none := by
  induction fuel generalizing ts with
  | zero =>
    cases ts with
    | nil => simp [skip_to_semicolon, current_token_is, parser_at]
    | cons t rest =>
      simp only [no_semicolon, List.all_cons, Bool.and_eq_true, decide_eq_true_eq] at h
      simp [skip_to_semicolon, current_token_is, Ne.symm h.1]
  | succ fuel ih =>
    cases ts with
    | nil =>
      have hc : current_token_is (parser_at [] e m) .SEMICOLON = false := by
        simp [current_token_is, parser_at]
      rw [skip_to_semicolon, hc]
      simp only [Bool.false_eq_true, if_false]
      rw [next_token_parser_at]
      exact ih [] h
    | cons t rest =>
      simp only [no_semicolon, List.all_cons, Bool.and_eq_true, decide_eq_true_eq] at h
      have hc : current_token_is (parser_at (t :: rest) e m) .SEMICOLON = false := by
        simp [current_token_is, Ne.symm h.1]
      rw [skip_to_semicolon, hc]
      simp only [Bool.false_eq_true, if_false]
      rw [next_token_at]
      exact ih rest (by simpa [no_semicolon] using h.2)

theorem parse_statement_let (f : token_type → String) (fuel : Nat) (p : parser)
    (s : statement) (h : p.current_token.type = .LET) :
    parse_statement f fuel p s = parse_let_statement f fuel p s := by
  unfold parse_statement
  rw [h]

theorem parse_statement_return (f : token_type → String) (fuel : Nat) (p : parser)
    (s : statement) (h : p.current_token.type = .RETURN) :
    parse_statement f fuel p s = parse_return_statement fuel p s := by
  unfold parse_statement
  rw [h]

theorem parse_statement_other (f : token_type → String) (fuel : Nat) (p : parser)
    (s : statement) (h1 : p.current_token.type ≠ .LET) (h2 : p.current_token.type ≠ .RETURN) :
    parse_statement f fuel p s = parse_expression_statement f fuel p s := by
  unfold parse_statement
  split
  · rename_i heq
    exact absurd heq h1
  · rename_i heq
    exact absurd heq h2
  · rfl

theorem parser_at_cons_of_current (ts : List token) (e : Nat) (m : List String)
    (h : (parser_at ts e m).current_token.type ≠ .EOF) : ∃ t rest, ts = t :: rest := by
  cases ts with
  | nil => exact absurd rfl h
  | cons t rest => exact ⟨t, rest, rfl⟩

theorem has_semicolon_tail (t : token) (rest : List token) (h : has_semicolon (t :: rest) = true)
    (ht : t.type ≠ .SEMICOLON) : has_semicolon rest = true := by
  simpa [has_semicolon, ht] using h

/-- Totality of `parse_statement` on tokens in which a semicolon follows every `let` and
`return`: with more fuel than tokens it returns, the tokens left are a suffix of the tokens
it started with, and the messages kept are those of the errors that fit the 8 rows. -/
theorem parse_statement_total (f : token_type → String) (ts : List token) (e : Nat)
    (m : List String) (s : statement) (fuel : Nat) (hc : let_return_closed ts = true)
    (hf : ts.length < fuel) (hm : m.length = min e 8) :
    ∃ code ts2 e2 m2 s2, parse_statement f fuel (parser_at ts e m) s =
      some (code, parser_at ts2 e2 m2, s2) ∧ ts2 <:+ ts ∧ m2.length = min e2 8 := by
  by_cases hlet : (parser_at ts e m).current_token.type = .LET
  · obtain ⟨t, rest, rfl⟩ := parser_at_cons_of_current ts e m (by rw [hlet]; decide)
    rw [parser_at_current] at hlet
    have hsemi : has_semicolon rest = true := by
      have := hc
      simp only [let_return_closed, hlet, true_or, if_true, Bool.and_eq_true] at this
      exact this.1
    rw [parse_statement_let f fuel _ s (by rw [parser_at_current]; exact hlet)]
    unfold parse_let_statement
    rcases expect_next_token_parser_at f (t :: rest) e m .IDENT with
      ⟨h1, hty, h2⟩ | ⟨h1, m2, h2, hm2⟩
    · simp only [h1, h2, List.tail_cons, Bool.not_true, Bool.false_eq_true, if_false]
      rcases expect_next_token_parser_at f rest e m .ASSIGN with
        ⟨h3, hty2, h4⟩ | ⟨h3, m3, h4, hm3⟩
      · simp only [h3, h4, Bool.not_true, Bool.false_eq_true, if_false]
        cases rest with
        | nil => simp [parser_at] at hty
        | cons i rest2 =>
          rw [parser_at_next] at hty
          have hs2 := has_semicolon_tail i rest2 hsemi (by rw [hty]; decide)
          simp only [List.length_cons] at hf
          obtain ⟨ts2, hskip, hsuf⟩ := skip_to_semicolon_total rest2 e m fuel hs2 (by omega)
          rw [List.tail_cons, hskip]
          exact ⟨1, ts2, e, m, _, rfl, hsuf.trans ((List.suffix_cons i rest2).trans
            (List.suffix_cons t _)), hm⟩
      · simp only [h3, h4, Bool.not_false, if_true]
        exact ⟨-1, rest, e + 1, m3, _, rfl, List.suffix_cons t rest, hm3 hm⟩
    · simp only [h1, h2, Bool.not_false, if_true]
      exact ⟨-1, t :: rest, e + 1, m2, _, rfl, List.suffix_refl _, hm2 hm⟩
  · by_cases hret : (parser_at ts e m).current_token.type = .RETURN
    · obtain ⟨t, rest, rfl⟩ := parser_at_cons_of_current ts e m (by rw [hret]; decide)
      rw [parser_at_current] at hret
      have hsemi : has_semicolon rest = true := by
        have := hc
        simp only [let_return_closed, hret, or_true, if_true, Bool.and_eq_true] at this
        exact this.1
      rw [parse_statement_return f fuel _ s (by rw [parser_at_current]; exact hret)]
      unfold parse_return_statement
      rw [next_token_at]
      simp only [List.length_cons] at hf
      obtain ⟨ts2, hskip, hsuf⟩ := skip_to_semicolon_total rest e m fuel hsemi (by omega)
      rw [hskip]
      exact ⟨1, ts2, e, m, _, rfl, hsuf.trans (List.suffix_cons t rest), hm⟩
    · rw [parse_statement_other f fuel _ s hlet hret]
      unfold parse_expression_statement
      obtain ⟨r, ts2, e2, m2, hr, hs, hm2⟩ :=
        parse_expression_total f fuel ts e m LOWEST hf hm
      rw [hr]
      simp only [Option.map_some']
      by_cases hn : next_token_is (parser_at ts2 e2 m2) .SEMICOLON = true
      · rw [if_pos hn, next_token_parser_at]
        exact ⟨1, ts2.tail, e2, m2, _, rfl, tail_suffix_of_suffix hs, hm2⟩
      · rw [if_neg hn]
        exact ⟨1, ts2, e2, m2, _, rfl, hs, hm2⟩

/-- One turn of the loop of `parse_program`, the statement and the `next_token` after it:
from a state whose current token is not `EOF` it ends in a state with strictly fewer tokens
to read. -/
theorem parse_program_turn (f : token_type → String) (ts : List token) (e : Nat)
    (m : List String) (s : statement) (fuel : Nat) (hc : let_return_closed ts = true)
    (hf : ts.length < fuel) (hcur : (parser_at ts e m).current_token.type ≠ .EOF)
    (hm : m.length = min e 8) :
    ∃ code p1 s1 ts2 e2 m2,
      parse_statement f fuel (parser_at ts e m) s = some (code, p1, s1) ∧
      next_token p1 = parser_at ts2 e2 m2 ∧ ts2 <:+ ts ∧ ts2.length < ts.length ∧
      m2.length = min e2 8 := by
  obtain ⟨code, ts1, e1, m1, s1, hst, hs, hm1⟩ :=
    parse_statement_total f ts e m s fuel hc hf hm
  obtain ⟨t, rest, rfl⟩ := parser_at_cons_of_current ts e m hcur
  refine ⟨code, _, s1, ts1.tail, e1, m1, hst, next_token_parser_at ts1 e1 m1,
    tail_suffix_of_suffix hs, ?_, hm1⟩
  have hl := List.IsSuffix.length_le hs
  rw [List.length_tail]
  simp only [List.length_cons] at hl ⊢
  omega

/-- Totality of the loop of `parse_program`: with two more units of fuel than tokens it
returns at a token `EOF`, it adds at most one statement for each token, and the messages
kept are those of the errors that fit the 8 rows. -/
theorem parse_program_loop_total (f : token_type → String) (k : Nat) :
    ∀ (ts : List token) (e : Nat) (m : List String) (s : statement) (prog : program),
      let_return_closed ts = true → ts.length + 2 ≤ k → m.length = min e 8 →
      ∃ prog2 ts2 e2 m2, parse_program_loop f k (parser_at ts e m) s prog =
        some (prog2, parser_at ts2 e2 m2) ∧
        (parser_at ts2 e2 m2).current_token.type = .EOF ∧
        prog2.statements.length ≤ prog.statements.length + ts.length ∧
        m2.length = min e2 8 := by
  induction k with
  | zero => intro ts e m s prog _ h; omega
  | succ k ih =>
    intro ts e m s prog hc hk hm
    rw [parse_program_loop]
    by_cases hcur : (parser_at ts e m).current_token.type = .EOF
    · rw [if_pos hcur]
      exact ⟨prog, ts, e, m, rfl, hcur, by omega, hm⟩
    · rw [if_neg hcur]
      obtain ⟨code, p1, s1, ts2, e2, m2, hst, hnext, hs, hlt, hm2⟩ :=
        parse_program_turn f ts e m s k hc (by omega) hcur hm
      rw [hst]
      simp only
      rw [hnext]
      have hc2 := let_return_closed_suffix hs hc
      by_cases hcode : code = -1
      · rw [if_pos hcode]
        obtain ⟨prog2, ts3, e3, m3, h3, hcur3, hlen3, hm3⟩ :=
          ih ts2 e2 m2 s1 prog hc2 (by omega) hm2
        exact ⟨prog2, ts3, e3, m3, h3, hcur3, by omega, hm3⟩
      · rw [if_neg hcode]
        obtain ⟨prog2, ts3, e3, m3, h3, hcur3, hlen3, hm3⟩ := ih ts2 e2 m2 s1
          { statements := prog.statements ++ [s1]
            cap := if prog.statements.length + 1 ≥ prog.cap then prog.cap * 2 else prog.cap }
          hc2 (by omega) hm2
        refine ⟨prog2, ts3, e3, m3, h3, hcur3, ?_, hm3⟩
        simp only [List.length_append, List.length_singleton] at hlen3
        omega

/-- A `let` statement without semicolon behind it: `parse_program` does not return,
whatever the fuel. -/
theorem parse_program_let_open (f : token_type → String) (name : String)
    (value : List token) (s : statement) (fuel : Nat) (h : no_semicolon value = true) :
    parse_program f fuel (parser_new ({ type := .LET, literal := "let" } ::
      { type := .IDENT, literal := name } :: { type := .ASSIGN, literal := "=" } :: value))
      s = none := by
  rw [parse_program, parser_new_eq]
  cases fuel with
  | zero => simp [parse_program_loop]
  | succ fuel =>
    rw [parse_program_loop, if_neg (by simp)]
    rw [parse_statement_let f fuel _ s (by simp)]
    unfold parse_let_statement
    have h1 := expect_next_token_at f { type := .LET, literal := "let" }
      { type := .IDENT, literal := name } ({ type := .ASSIGN, literal := "=" } :: value) 0 []
    have h2 := expect_next_token_at f { type := .IDENT, literal := name }
      { type := .ASSIGN, literal := "=" } value 0 []
    simp only at h1 h2
    simp only [h1, h2, Bool.not_true, Bool.false_eq_true, if_false]
    rw [skip_to_semicolon_none fuel _ 0 [] (by simpa [no_semicolon] using h)]
    rfl

/-- A `return` statement without semicolon behind it: `parse_program` does not return,
whatever the fuel. -/
theorem parse_program_return_open (f : token_type → String) (value : List token)
    (s : statement) (fuel : Nat) (h : no_semicolon value = true) :
    parse_program f fuel (parser_new ({ type := .RETURN, literal := "return" } :: value))
      s = none := by
  rw [parse_program, parser_new_eq]
  cases fuel with
  | zero => simp [parse_program_loop]
  | succ fuel =>
    rw [parse_program_loop, if_neg (by simp)]
    rw [parse_statement_return f fuel _ s (by simp)]
    unfold parse_return_statement
    rw [next_token_at, skip_to_semicolon_none fuel _ 0 [] h]
    rfl

/-! ### C33 -/

/-- The loop of `parse_program` on `n` closing parentheses: each is an expression statement
with which no expression can start, so that `n` errors are recorded. -/
theorem parse_program_loop_rparens (f : token_type → String) (n : Nat) :
    ∀ (k e : Nat) (m : List String) (s : statement) (prog : program), n + 2 ≤ k →
      ∃ prog2 m2, parse_program_loop f k
        (parser_at (List.replicate n { type := .RPAREN, literal := ")" }) e m) s prog =
        some (prog2, parser_at [] (e + n) m2) := by
  induction n with
  | zero =>
    intro k e m s prog hk
    obtain ⟨k, rfl⟩ : ∃ j, k = j + 1 := ⟨k - 1, by omega⟩
    refine ⟨prog, m, ?_⟩
    rw [List.replicate_zero, parse_program_loop]
    have hcur : (parser_at [] e m).current_token.type = .EOF := rfl
    rw [if_pos hcur]
    rfl
  | succ n ih =>
    intro k e m s prog hk
    obtain ⟨k, rfl⟩ : ∃ j, k = j + 2 := ⟨k - 2, by omega⟩
    rw [List.replicate_succ, parse_program_loop, if_neg (by simp)]
    rw [parse_statement_other f (k + 1) _ s (by simp) (by simp)]
    unfold parse_expression_statement
    rw [parse_expression_succ, parser_at_current]
    simp only [Option.map_some']
    have hn : next_token_is (record_error
        (parser_at ({ type := .RPAREN, literal := ")" } ::
          List.replicate n { type := .RPAREN, literal := ")" }) e m)
        ("no prefix parse function found for " ++ f .RPAREN)) .SEMICOLON = false := by
      cases n <;> simp [next_token_is, record_error, parser_at, List.replicate_succ]
    rw [hn]
    simp only [Bool.false_eq_true, if_false]
    rw [if_neg (by decide)]
    have hnext : next_token (record_error
        (parser_at ({ type := .RPAREN, literal := ")" } ::
          List.replicate n { type := .RPAREN, literal := ")" }) e m)
        ("no prefix parse function found for " ++ f .RPAREN)) =
        parser_at (List.replicate n { type := .RPAREN, literal := ")" }) (e + 1)
          (if e < 8 then m ++ ["no prefix parse function found for " ++ f .RPAREN]
            else m) :=
      next_token_at _ _ _ _
    rw [hnext]
    obtain ⟨prog2, m2, h2⟩ := ih (k + 1) (e + 1)
      (if e < 8 then m ++ ["no prefix parse function found for " ++ f .RPAREN] else m)
      { s with
        token := { type := .RPAREN, literal := ")" }
        value := none }
      { statements := prog.statements ++
          [{ s with
             token := { type := .RPAREN, literal := ")" }
             value := none }]
        cap := if prog.statements.length + 1 ≥ prog.cap then prog.cap * 2 else prog.cap }
      (by omega)
    have he : e + 1 + n = e + (n + 1) := by omega
    rw [he] at h2
    exact ⟨prog2, m2, h2⟩

/-- C33: on a list of tokens (followed by `EOF` for ever) in which a semicolon follows every
`let` and every `return`, the run of `parse_program` comes to an end: with at least two more
units of fuel than tokens it returns a program and a state, the messages kept being those
of the errors that fit the 8 rows of `error_messages`; when no message was stored past the
array, the state is at `EOF`, the program has at most one statement for each token, and
every message is kept.  Every turn of the loop, started at a token that is not `EOF` with a
suffix of the tokens to read, ends with strictly fewer tokens to read; `parse_expression`
returns on every list of tokens; and the assumption on `let` and `return` cannot be dropped,
since on a `let` or `return` statement that no semicolon follows `parse_program` returns
with no amount of fuel.  The run is not a normal one on every such list: on nine closing
parentheses, where no `let` or `return` occurs, nine errors are recorded, and the ninth
message is stored past the 8 rows of the array. -/
theorem C33_parser_termination (token_to_str : token_type → String) (ts : List token)
    (h : let_return_closed ts = true) :
    (∀ (fuel : Nat) (s : statement), ts.length + 2 ≤ fuel →
      ∃ prog p, parse_program token_to_str fuel (parser_new ts) s = some (prog, p) ∧
        p.error_messages.length = min p.errors 8 ∧
        (error_messages_overflow p = false →
          p.current_token.type = .EOF ∧ prog.size ≤ ts.length ∧
          p.error_messages.length = p.errors)) ∧
    (∀ (ts1 : List token) (e : Nat) (m : List String) (s : statement) (fuel : Nat),
      ts1 <:+ ts → (parser_at ts1 e m).current_token.type ≠ .EOF → ts.length < fuel →
      m.length = min e 8 →
      ∃ code p1 s1 ts2 e2 m2,
        parse_statement token_to_str fuel (parser_at ts1 e m) s = some (code, p1, s1) ∧
        next_token p1 = parser_at ts2 e2 m2 ∧ ts2 <:+ ts1 ∧ ts2.length < ts1.length ∧
        m2.length = min e2 8) ∧
    (∀ (ts0 : List token) (e : Nat) (m : List String) (precedence fuel : Nat),
      ts0.length < fuel → m.length = min e 8 →
      (parse_expression token_to_str fuel (parser_at ts0 e m) precedence).isSome = true) ∧
    (∀ (name : String) (value : List token) (s : statement) (fuel : Nat),
      no_semicolon value = true →
      parse_program token_to_str fuel (parser_new ({ type := .LET, literal := "let" } ::
        { type := .IDENT, literal := name } :: { type := .ASSIGN, literal := "=" } :: value))
        s = none) ∧
    (∀ (value : List token) (s : statement) (fuel : Nat), no_semicolon value = true →
      parse_program token_to_str fuel
        (parser_new ({ type := .RETURN, literal := "return" } :: value)) s = none) ∧
    (let_return_closed (List.replicate 9 { type := .RPAREN, literal := ")" }) = true ∧
      ∀ (fuel : Nat) (s : statement), 11 ≤ fuel →
        ∃ prog p, parse_program token_to_str fuel
          (parser_new (List.replicate 9 { type := .RPAREN, literal := ")" })) s =
          some (prog, p) ∧ p.errors = 9 ∧ error_messages_overflow p = true) := by
  refine ⟨?_, ?_, ?_, ?_, ?_, by decide, ?_⟩
  · intro fuel s hf
    obtain ⟨prog, ts2, e2, m2, hp, hcur, hlen, hm⟩ :=
      parse_program_loop_total token_to_str fuel ts 0 [] s { statements := [], cap := 1 } h hf
        rfl
    refine ⟨prog, parser_at ts2 e2 m2, ?_, hm, ?_⟩
    · rw [parse_program, parser_new_eq]
      exact hp
    · intro hov
      refine ⟨hcur, by simpa [program.size] using hlen, ?_⟩
      have he : e2 ≤ 8 := by
        simpa [error_messages_overflow] using hov
      show m2.length = e2
      rw [hm]
      omega
  · intro ts1 e m s fuel hs hcur hf hm
    exact parse_program_turn token_to_str ts1 e m s fuel (let_return_closed_suffix hs h)
      (lt_of_le_of_lt (List.IsSuffix.length_le hs) hf) hcur hm
  · intro ts0 e m precedence fuel hf hm
    obtain ⟨r, ts2, e2, m2, hr, _⟩ :=
      parse_expression_total token_to_str fuel ts0 e m precedence hf hm
    rw [hr]
    rfl
  · intro name value s fuel hv
    exact parse_program_let_open token_to_str name value s fuel hv
  · intro value s fuel hv
    exact parse_program_return_open token_to_str value s fuel hv
  · intro fuel s hf
    obtain ⟨prog, m2, hp⟩ := parse_program_loop_rparens token_to_str 9 fuel 0 [] s
      { statements := [], cap := 1 } (by omega)
    refine ⟨prog, parser_at [] (0 + 9) m2, ?_, rfl, rfl⟩
    rw [parse_program, parser_new_eq]
    exact hp

/-- C33 on the eleven tokens of `let x = 5; return 1; 2 + 3`: a semicolon follows the `let`
and the `return`, and with 13 units of fuel `parse_program` returns a program and a state
whose messages are those of its errors that fit the array; the run records no error. -/
theorem C33_parser_termination_witness :
    let_return_closed
      [{ type := .LET, literal := "let" }, { type := .IDENT, literal := "x" },
        { type := .ASSIGN, literal := "=" }, { type := .INT, literal := "5" },
        { type := .SEMICOLON, literal := ";" }, { type := .RETURN, literal := "return" },
        { type := .INT, literal := "1" }, { type := .SEMICOLON, literal := ";" },
        { type := .INT, literal := "2" }, { type := .PLUS, literal := "+" },
        { type := .INT, literal := "3" }] = true ∧
    (∃ prog p, parse_program (fun _ => "") 13 (parser_new
      [{ type := .LET, literal := "let" }, { type := .IDENT, literal := "x" },
        { type := .ASSIGN, literal := "=" }, { type := .INT, literal := "5" },
        { type := .SEMICOLON, literal := ";" }, { type := .RETURN, literal := "return" },
        { type := .INT, literal := "1" }, { type := .SEMICOLON, literal := ";" },
        { type := .INT, literal := "2" }, { type := .PLUS, literal := "+" },
        { type := .INT, literal := "3" }])
      { token := { type := .ILLEGAL, literal := "" }
        name := { token := { type := .ILLEGAL, literal := "" }, value := "" }
        value := none } = some (prog, p) ∧
      p.error_messages.length = min p.errors 8 ∧
      (error_messages_overflow p = false →
        p.current_token.type = .EOF ∧ prog.size ≤ 11 ∧
        p.error_messages.length = p.errors)) ∧
    ((parse_program (fun _ => "") 13 (parser_new
      [{ type := .LET, literal := "let" }, { type := .IDENT, literal := "x" },
        { type := .ASSIGN, literal := "=" }, { type := .INT, literal := "5" },
        { type := .SEMICOLON, literal := ";" }, { type := .RETURN, literal := "return" },
        { type := .INT, literal := "1" }, { type := .SEMICOLON, literal := ";" },
        { type := .INT, literal := "2" }, { type := .PLUS, literal := "+" },
        { type := .INT, literal := "3" }])
      { token := { type := .ILLEGAL, literal := "" }
        name := { token := { type := .ILLEGAL, literal := "" }, value := "" }
        value := none }).map fun r => r.2.errors) = some 0 :=
  ⟨by decide,
    (C33_parser_termination (fun _ => "")
      [{ type := .LET, literal := "let" }, { type := .IDENT, literal := "x" },
        { type := .ASSIGN, literal := "=" }, { type := .INT, literal := "5" },
        { type := .SEMICOLON, literal := ";" }, { type := .RETURN, literal := "return" },
        { type := .INT, literal := "1" }, { type := .SEMICOLON, literal := ";" },
        { type := .INT, literal := "2" }, { type := .PLUS, literal := "+" },
        { type := .INT, literal := "3" }] (by decide)).1 13
      { token := { type := .ILLEGAL, literal := "" }
        name := { token := { type := .ILLEGAL, literal := "" }, value := "" }
        value := none } (by decide),
    by decide!⟩

end ast

end Pepper
